import Mathlib

/-!
# nanogi: path-space estimators, shallow embedding

The definitions below transcribe the sampling, evaluation and path routines of
`nanogi/basic.hpp`, `nanogi/rt.hpp`, `nanogi/bdpt.hpp` and `nanogi.cpp`, the type check and
the post-configuration of `Scene::Load`, the renderer selection of `nanogi.cpp` with the
enumeration map of `nanogi/macros.hpp`, the program entry point, the render loop, and the
manifold walk with its constraint Jacobian and block solver.

Scalars (`double`) are elements of an arbitrary linearly ordered field `K` with a floor
function, so every definition is executable over `ℚ` and every theorem also holds over `ℝ`
(exact arithmetic, no rounding).  The transcendental functions of the C++ runtime are passed
in a `MathFns` record.  Type masks (`int`) are natural numbers.  Out-of-range reads of a
`std::vector` yield a default value; well-formed scenes and the index ranges stated in the
theorems never reach them.  `assert` is compiled out (release build).
-/

set_option autoImplicit false

namespace Nanogi

/-! ## glm vectors and matrices -/

/-- Two-component vector, `glm::dvec2`. -/
@[ext]
structure Vec2 (K : Type) where
  x : K
  y : K
deriving DecidableEq

/-- Three-component vector, `glm::dvec3`. -/
@[ext]
structure Vec3 (K : Type) where
  x : K
  y : K
  z : K
deriving DecidableEq

/-- Column-major 3×3 matrix, `glm::dmat3`: `c0`, `c1`, `c2` are its columns. -/
@[ext]
structure Mat3 (K : Type) where
  c0 : Vec3 K
  c1 : Vec3 K
  c2 : Vec3 K
deriving DecidableEq

section Algebra

variable {K : Type} [LinearOrderedField K] [FloorRing K]

instance : Zero (Vec2 K) := ⟨⟨0, 0⟩⟩
instance : Add (Vec2 K) := ⟨fun a b => ⟨a.x + b.x, a.y + b.y⟩⟩
instance : Sub (Vec2 K) := ⟨fun a b => ⟨a.x - b.x, a.y - b.y⟩⟩

/-- The vector times a scalar, `v * c`. -/
def Vec2.scale (v : Vec2 K) (c : K) : Vec2 K := ⟨v.x * c, v.y * c⟩

/-- The vector plus a scalar on every component, `v + c`. -/
def Vec2.addScalar (v : Vec2 K) (c : K) : Vec2 K := ⟨v.x + c, v.y + c⟩

instance : Zero (Vec3 K) := ⟨⟨0, 0, 0⟩⟩
instance : Add (Vec3 K) := ⟨fun a b => ⟨a.x + b.x, a.y + b.y, a.z + b.z⟩⟩
instance : Sub (Vec3 K) := ⟨fun a b => ⟨a.x - b.x, a.y - b.y, a.z - b.z⟩⟩
instance : Neg (Vec3 K) := ⟨fun a => ⟨-a.x, -a.y, -a.z⟩⟩
instance : Mul (Vec3 K) := ⟨fun a b => ⟨a.x * b.x, a.y * b.y, a.z * b.z⟩⟩
instance : Div (Vec3 K) := ⟨fun a b => ⟨a.x / b.x, a.y / b.y, a.z / b.z⟩⟩

/-- The constructor `glm::dvec3(c)`: every component is `c`. -/
def Vec3.splat (c : K) : Vec3 K := ⟨c, c, c⟩

/-- The vector times a scalar, `v * c`. -/
def Vec3.scale (v : Vec3 K) (c : K) : Vec3 K := ⟨v.x * c, v.y * c, v.z * c⟩

/-- The vector divided by a scalar, `v / c`. -/
def Vec3.divScalar (v : Vec3 K) (c : K) : Vec3 K := ⟨v.x / c, v.y / c, v.z / c⟩

/-- The vector plus a scalar on every component, `v + c`. -/
def Vec3.addScalar (v : Vec3 K) (c : K) : Vec3 K := ⟨v.x + c, v.y + c, v.z + c⟩

/-- Inner product, `glm::dot`. -/
def Vec3.dot (a b : Vec3 K) : K := a.x * b.x + a.y * b.y + a.z * b.z

/-- Cross product, `glm::cross`. -/
def Vec3.cross (a b : Vec3 K) : Vec3 K :=
  ⟨a.y * b.z - b.y * a.z, a.z * b.x - b.z * a.x, a.x * b.y - b.x * a.y⟩

/-- The default-constructed `glm::dmat3`, the identity. -/
def Mat3.identity : Mat3 K := ⟨⟨1, 0, 0⟩, ⟨0, 1, 0⟩, ⟨0, 0, 1⟩⟩

/-- Transposed matrix, `glm::transpose`. -/
def Mat3.transpose (m : Mat3 K) : Mat3 K :=
  ⟨⟨m.c0.x, m.c1.x, m.c2.x⟩, ⟨m.c0.y, m.c1.y, m.c2.y⟩, ⟨m.c0.z, m.c1.z, m.c2.z⟩⟩

/-- Matrix times column vector, `m * v`. -/
def Mat3.mulVec (m : Mat3 K) (v : Vec3 K) : Vec3 K :=
  ⟨m.c0.x * v.x + m.c1.x * v.y + m.c2.x * v.z,
   m.c0.y * v.x + m.c1.y * v.y + m.c2.y * v.z,
   m.c0.z * v.x + m.c1.z * v.y + m.c2.z * v.z⟩

/-- Integer clamp, `glm::clamp(x, lo, hi) = min(max(x, lo), hi)`. -/
def clampInt (x lo hi : Int) : Int := min (max x lo) hi

/-- The conversion `(int)(x)` of a `double`: truncation toward zero. -/
def truncInt (x : K) : Int := if 0 ≤ x then Int.floor x else Int.ceil x

/-- Fractional part, `glm::fract(x) = x - floor(x)`. -/
def fract (x : K) : K := x - (Int.floor x : K)

end Algebra

/-! ## Runtime functions and constants (`basic.hpp`) -/

/-- The constant `Pi` and the functions of `glm` and `std` the renderer calls, as parameters. -/
structure MathFns (K : Type) where
  Pi : K
  sqrt : K → K
  tan : K → K
  exp : K → K
  log : K → K
  cos : K → K
  sin : K → K

section Runtime

variable {K : Type} [LinearOrderedField K] [FloorRing K]

/-- The constant `InvPi = 1.0 / Pi`. -/
def MathFns.InvPi (m : MathFns K) : K := 1 / m.Pi

/-- The constant `EpsF = 1e-4f`. -/
def EpsF : K := 1 / 10000

/-- The constant `InfF`, the largest finite `float`. -/
def InfF : K := 340282346638528859811704183484516925440

/-- Euclidean length, `glm::length`. -/
def MathFns.length (m : MathFns K) (v : Vec3 K) : K := m.sqrt (Vec3.dot v v)

/-- Unit vector, `glm::normalize(v) = v * inversesqrt(dot(v, v))`. -/
def MathFns.normalize (m : MathFns K) (v : Vec3 K) : Vec3 K :=
  v.scale (1 / m.sqrt (Vec3.dot v v))

/-- The standard library's `std::upper_bound` loop: binary search over `cdf[first, first + len)`
for the first position whose element is greater than `u`.  The first argument bounds the
number of iterations; `len` is at least halved by every iteration. -/
def upperBoundLoop (cdf : List K) (u : K) : Nat → Nat → Nat → Nat
  | 0, first, _ => first
  | fuel + 1, first, len =>
    if len = 0 then first
    else
      let half := len / 2
      let middle := first + half
      if u < cdf.getD middle 0 then upperBoundLoop cdf u fuel first half
      else upperBoundLoop cdf u fuel (middle + 1) (len - half - 1)

/-- The call `std::upper_bound(cdf.begin(), cdf.end(), u) - cdf.begin()`. -/
def upper_bound (cdf : List K) (u : K) : Nat := upperBoundLoop cdf u cdf.length 0 cdf.length

/-- The class `Distribution1D`: a discrete distribution kept as its cumulative array. -/
structure Distribution1D (K : Type) where
  cdf : List K
deriving DecidableEq

/-- The method `Clear`, also the state after construction: `cdf = {0}`. -/
def Distribution1D.Clear : Distribution1D K := ⟨[0]⟩

/-- The method `Add`: `cdf.push_back(cdf.back() + v)`. -/
def Distribution1D.Add (d : Distribution1D K) (v : K) : Distribution1D K :=
  ⟨d.cdf ++ [d.cdf.getLastD 0 + v]⟩

/-- The method `Normalize`: every entry is multiplied by `1.0 / cdf.back()`. -/
def Distribution1D.Normalize (d : Distribution1D K) : Distribution1D K :=
  let sum := d.cdf.getLastD 0
  let invSum := 1 / sum
  ⟨d.cdf.map fun v => v * invSum⟩

/-- The method `Sample`. -/
def Distribution1D.Sample (d : Distribution1D K) (u : K) : Int :=
  let v : Int := (upper_bound d.cdf u : Int) - 1
  clampInt v 0 ((d.cdf.length : Int) - 2)

/-- The method `SampleReuse`: the index and the residual written to `u2`. -/
def Distribution1D.SampleReuse (d : Distribution1D K) (u : K) : Int × K :=
  let v : Int := (upper_bound d.cdf u : Int) - 1
  let i := clampInt v 0 ((d.cdf.length : Int) - 2)
  let u2 := (u - d.cdf.getD i.toNat 0) / (d.cdf.getD (i + 1).toNat 0 - d.cdf.getD i.toNat 0)
  (i, u2)

/-- The method `Distribution1D::EvaluatePDF`. -/
def Distribution1D.EvaluatePDF (d : Distribution1D K) (i : Int) : K :=
  if i < 0 ∨ i + 1 ≥ (d.cdf.length : Int) then 0
  else d.cdf.getD (i + 1).toNat 0 - d.cdf.getD i.toNat 0

end Runtime

/-! ## Utility functions, meshes, textures and surface geometry (`rt.hpp`) -/

/-- Triangle mesh, `struct Mesh`. -/
structure Mesh (K : Type) where
  Positions : List K
  Normals : List K
  Texcoords : List K
  Faces : List Nat
deriving DecidableEq

/-- Texture image, `struct Texture`. -/
structure Texture (K : Type) where
  Data : List K
  Width : Int
  Height : Int
deriving DecidableEq

/-- Ray, `struct Ray`. -/
structure Ray (K : Type) where
  o : Vec3 K
  d : Vec3 K
deriving DecidableEq

/-- Local surface description, `struct SurfaceGeometry`. -/
structure SurfaceGeometry (K : Type) where
  degenerated : Bool
  p : Vec3 K
  sn : Vec3 K
  gn : Vec3 K
  dpdu : Vec3 K
  dpdv : Vec3 K
  dndu : Vec3 K
  dndv : Vec3 K
  uv : Vec2 K
  ToLocal : Mat3 K
  ToWorld : Mat3 K
deriving DecidableEq

section Utility

variable {K : Type} [LinearOrderedField K] [FloorRing K]

/-- The function `OrthonormalBasis(a, b, c)`; the result is the pair `(b, c)`. -/
def OrthonormalBasis (m : MathFns K) (a : Vec3 K) : Vec3 K × Vec3 K :=
  let c := if |a.x| > |a.y| then m.normalize ⟨a.z, 0, -a.x⟩ else m.normalize ⟨0, a.z, -a.y⟩
  let b := m.normalize (Vec3.cross c a)
  (b, c)

/-- The function `LocalCos`. -/
def LocalCos (v : Vec3 K) : K := v.z

/-- The function `LocalTan`. -/
def LocalTan (m : MathFns K) (v : Vec3 K) : K :=
  let t := 1 - v.z * v.z
  if t ≤ 0 then 0 else m.sqrt t / v.z

/-- The function `LocalReflect`. -/
def LocalReflect (wi : Vec3 K) : Vec3 K := ⟨-wi.x, -wi.y, wi.z⟩

/-- The function `LocalRefract`. -/
def LocalRefract (wi : Vec3 K) (eta cosThetaT : K) : Vec3 K := ⟨-eta * wi.x, -eta * wi.y, cosThetaT⟩

/-- The function `UniformConcentricDiskSample`. -/
def UniformConcentricDiskSample (m : MathFns K) (u : Vec2 K) : Vec2 K :=
  let v : Vec2 K := ⟨2 * u.x - 1, 2 * u.y - 1⟩
  if v.x = 0 ∧ v.y = 0 then 0
  else
    let rt : K × K :=
      if v.x > -v.y then
        if v.x > v.y then (v.x, (m.Pi * (1 / 4)) * v.y / v.x)
        else (v.y, (m.Pi * (1 / 4)) * (2 - v.x / v.y))
      else
        if v.x < v.y then (-v.x, (m.Pi * (1 / 4)) * (4 + v.y / v.x))
        else (-v.y, (m.Pi * (1 / 4)) * (6 - v.x / v.y))
    ⟨rt.1 * m.cos rt.2, rt.1 * m.sin rt.2⟩

/-- The function `CosineSampleHemisphere`. -/
def CosineSampleHemisphere (m : MathFns K) (u : Vec2 K) : Vec3 K :=
  let s := UniformConcentricDiskSample m u
  ⟨s.x, s.y, m.sqrt (max 0 (1 - s.x * s.x - s.y * s.y))⟩

/-- The function `CosineSampleHemispherePDFProjSA`. -/
def CosineSampleHemispherePDFProjSA (m : MathFns K) (_d : Vec3 K) : K := m.InvPi

/-- The function `UniformSampleSphere`. -/
def UniformSampleSphere (m : MathFns K) (u : Vec2 K) : Vec3 K :=
  let z := 1 - 2 * u.x
  let r := m.sqrt (max 0 (1 - z * z))
  let phi := 2 * m.Pi * u.y
  ⟨r * m.cos phi, r * m.sin phi, z⟩

/-- The function `UniformSampleSpherePDFSA`. -/
def UniformSampleSpherePDFSA (m : MathFns K) (_d : Vec3 K) : K := m.InvPi * (1 / 4)

/-- The function `UniformSampleTriangle`. -/
def UniformSampleTriangle (m : MathFns K) (u : Vec2 K) : Vec2 K :=
  let s := m.sqrt (max 0 u.x)
  ⟨1 - s, u.y * s⟩

/-- The function `PixelIndex`. -/
def PixelIndex (rasterPos : Vec2 K) (w h : Int) : Int :=
  let pX := clampInt (truncInt (rasterPos.x * (w : K))) 0 (w - 1)
  let pY := clampInt (truncInt (rasterPos.y * (h : K))) 0 (h - 1)
  pY * w + pX

/-- The method `Texture::Evaluate`: nearest texel with wrap-repeat addressing. -/
def Texture.Evaluate (t : Texture K) (uv : Vec2 K) : Vec3 K :=
  let x := clampInt (truncInt (fract uv.x * (t.Width : K))) 0 (t.Width - 1)
  let y := clampInt (truncInt (fract uv.y * (t.Height : K))) 0 (t.Height - 1)
  let i := t.Width * y + x
  ⟨t.Data.getD (3 * i).toNat 0, t.Data.getD (3 * i + 1).toNat 0, t.Data.getD (3 * i + 2).toNat 0⟩

/-- A default-constructed `SurfaceGeometry`: zero vectors and identity matrices. -/
def SurfaceGeometry.init : SurfaceGeometry K :=
  { degenerated := false, p := 0, sn := 0, gn := 0, dpdu := 0, dpdv := 0, dndu := 0, dndv := 0,
    uv := 0, ToLocal := Mat3.identity, ToWorld := Mat3.identity }

/-- The method `SurfaceGeometry::ComputeTangentSpace`. -/
def SurfaceGeometry.ComputeTangentSpace (m : MathFns K) (g : SurfaceGeometry K) :
    SurfaceGeometry K :=
  let bc := OrthonormalBasis m g.sn
  let ToWorld : Mat3 K := ⟨bc.1, bc.2, g.sn⟩
  { g with dpdu := bc.1, dpdv := bc.2, ToWorld := ToWorld, ToLocal := ToWorld.transpose }

end Utility

/-! ## Primitives (`rt.hpp`) -/

/-- The diffuse mask bit `D = 1 << 0` of `namespace PrimitiveType`. -/
def PrimitiveType.D : Nat := 1

/-- The glossy mask bit `G = 1 << 1`. -/
def PrimitiveType.G : Nat := 2

/-- The specular mask bit `S = 1 << 2`. -/
def PrimitiveType.S : Nat := 4

/-- The light mask bit `L = 1 << 3`. -/
def PrimitiveType.L : Nat := 8

/-- The sensor mask bit `E = 1 << 4`. -/
def PrimitiveType.E : Nat := 16

/-- The mask `BSDF = D | G | S`. -/
def PrimitiveType.BSDF : Nat := PrimitiveType.D ||| PrimitiveType.G ||| PrimitiveType.S

/-- The mask `Emitter = L | E`. -/
def PrimitiveType.Emitter : Nat := PrimitiveType.L ||| PrimitiveType.E

/-- The mask `None = 0`. -/
def PrimitiveType.None : Nat := 0

/-- The operand `~PrimitiveType::Emitter` of a 32-bit `int` mask: every bit but `L` and `E`. -/
def PrimitiveType.NotEmitter : Nat := 2 ^ 32 - 1 - PrimitiveType.Emitter

/-- The enumeration `LType`. -/
inductive LType where
  | Area
  | Point
  | Directional
deriving DecidableEq

/-- The enumeration `EType`. -/
inductive EType where
  | Area
  | Pinhole
deriving DecidableEq

/-- The enumeration `SType`. -/
inductive SType where
  | Reflection
  | Refraction
  | Fresnel
deriving DecidableEq

/-- The enumeration `TransportDirection`. -/
inductive TransportDirection where
  | LE
  | EL
deriving DecidableEq

/-- The member `Params.L.Area`. -/
structure LAreaParams (K : Type) where
  Le : Vec3 K
  Dist : Distribution1D K
  InvArea : K
deriving DecidableEq

/-- The member `Params.L.Point`. -/
structure LPointParams (K : Type) where
  Le : Vec3 K
  Position : Vec3 K
deriving DecidableEq

/-- The member `Params.L.Directional`. -/
structure LDirectionalParams (K : Type) where
  Le : Vec3 K
  Direction : Vec3 K
  InvArea : K
  Center : Vec3 K
  Radius : K
deriving DecidableEq

/-- The member `Params.L`. -/
structure LParams (K : Type) where
  Type_ : LType
  Area : LAreaParams K
  Point : LPointParams K
  Directional : LDirectionalParams K
deriving DecidableEq

/-- The member `Params.E.Pinhole`. -/
structure EPinholeParams (K : Type) where
  Position : Vec3 K
  Vx : Vec3 K
  Vy : Vec3 K
  Vz : Vec3 K
  Fov : K
  Aspect : K
  We : Vec3 K
deriving DecidableEq

/-- The member `Params.E.Area`. -/
structure EAreaParams (K : Type) where
  We : Vec3 K
  Dist : Distribution1D K
  InvArea : K
deriving DecidableEq

/-- The member `Params.E`. -/
structure EParams (K : Type) where
  Type_ : EType
  Pinhole : EPinholeParams K
  Area : EAreaParams K
deriving DecidableEq

/-- The member `Params.D`; a null `TexR` is `none`. -/
structure DParams (K : Type) where
  R : Vec3 K
  TexR : Option (Texture K)
deriving DecidableEq

/-- The member `Params.G`; a null `TexR` is `none`. -/
structure GParams (F : Type) where
  R : Vec3 F
  TexR : Option (Texture F)
  Eta : Vec3 F
  K : Vec3 F
  Roughness : F
deriving DecidableEq

/-- The member `Params.S.Reflection`. -/
structure SReflectionParams (K : Type) where
  R : Vec3 K
deriving DecidableEq

/-- The members `Params.S.Refraction` and `Params.S.Fresnel`, of the same shape. -/
structure SDielectricParams (K : Type) where
  R : Vec3 K
  Eta1 : K
  Eta2 : K
deriving DecidableEq

/-- The member `Params.S`. -/
structure SParams (K : Type) where
  Type_ : SType
  Reflection : SReflectionParams K
  Refraction : SDielectricParams K
  Fresnel : SDielectricParams K
deriving DecidableEq

/-- The member `Primitive::Params`. -/
structure PrimitiveParams (K : Type) where
  L : LParams K
  E : EParams K
  D : DParams K
  G : GParams K
  S : SParams K
deriving DecidableEq

/-- The record `struct Primitive`; a null `MeshRef` is `none`, the mask `Type` is `Type_`. -/
structure Primitive (K : Type) where
  MeshRef : Option (Mesh K)
  Type_ : Nat
  Params : PrimitiveParams K
deriving DecidableEq

/-- The record `struct Intersection`. -/
structure Intersection (K : Type) where
  geom : SurfaceGeometry K
  Prim : Primitive K
deriving DecidableEq

section PrimitiveOps

variable {K : Type} [LinearOrderedField K] [FloorRing K]

/-- The vertex `(a[3 * i], a[3 * i + 1], a[3 * i + 2])` of a flat coordinate array. -/
def fetchVec3 (a : List K) (i : Nat) : Vec3 K :=
  ⟨a.getD (3 * i) 0, a.getD (3 * i + 1) 0, a.getD (3 * i + 2) 0⟩

/-- The texture coordinate `(a[2 * i], a[2 * i + 1])` of a flat coordinate array. -/
def fetchVec2 (a : List K) (i : Nat) : Vec2 K := ⟨a.getD (2 * i) 0, a.getD (2 * i + 1) 0⟩

/-- The mesh a `MeshRef` points to (no data behind a null pointer). -/
def derefMesh (r : Option (Mesh K)) : Mesh K := r.getD ⟨[], [], [], []⟩

/-- The local function `SampleTriangleMesh` of `Primitive::SamplePosition`. -/
def SampleTriangleMesh (m : MathFns K) (u : Vec2 K) (mesh : Mesh K) (dist : Distribution1D K)
    (geom : SurfaceGeometry K) : SurfaceGeometry K :=
  let r := dist.SampleReuse u.x
  let i := r.1.toNat
  let u2 : Vec2 K := ⟨r.2, u.y⟩
  let b := UniformSampleTriangle m u2
  let i1 := mesh.Faces.getD (3 * i) 0
  let i2 := mesh.Faces.getD (3 * i + 1) 0
  let i3 := mesh.Faces.getD (3 * i + 2) 0
  let p1 := fetchVec3 mesh.Positions i1
  let p2 := fetchVec3 mesh.Positions i2
  let p3 := fetchVec3 mesh.Positions i3
  let p := p1.scale (1 - b.x - b.y) + p2.scale b.x + p3.scale b.y
  let uv :=
    if mesh.Texcoords.isEmpty then geom.uv
    else
      let uv1 := fetchVec2 mesh.Texcoords i1
      let uv2 := fetchVec2 mesh.Texcoords i2
      let uv3 := fetchVec2 mesh.Texcoords i3
      uv1.scale (1 - b.x - b.y) + uv2.scale b.x + uv3.scale b.y
  let gn := m.normalize (Vec3.cross (p2 - p1) (p3 - p1))
  SurfaceGeometry.ComputeTangentSpace m
    { geom with p := p, uv := uv, degenerated := false, gn := gn, sn := gn }

/-- The method `Primitive::SamplePosition`; the result is the updated `geom`. -/
def Primitive.SamplePosition (m : MathFns K) (prim : Primitive K) (u : Vec2 K)
    (geom : SurfaceGeometry K) : SurfaceGeometry K :=
  if (prim.Type_ &&& PrimitiveType.L) > 0 then
    match prim.Params.L.Type_ with
    | LType.Area => SampleTriangleMesh m u (derefMesh prim.MeshRef) prim.Params.L.Area.Dist geom
    | LType.Point => { geom with degenerated := true, p := prim.Params.L.Point.Position }
    | LType.Directional =>
      let p := (UniformConcentricDiskSample m u).scale prim.Params.L.Directional.Radius
      let g := SurfaceGeometry.ComputeTangentSpace m
        { geom with degenerated := false, gn := prim.Params.L.Directional.Direction,
                    sn := prim.Params.L.Directional.Direction }
      { g with p := prim.Params.L.Directional.Center
                 - prim.Params.L.Directional.Direction.scale prim.Params.L.Directional.Radius
                 + (g.dpdu.scale p.x + g.dpdv.scale p.y) }
  else if (prim.Type_ &&& PrimitiveType.E) > 0 then
    match prim.Params.E.Type_ with
    | EType.Area => SampleTriangleMesh m u (derefMesh prim.MeshRef) prim.Params.E.Area.Dist geom
    | EType.Pinhole => { geom with degenerated := true, p := prim.Params.E.Pinhole.Position }
  else geom

/-- The method `Primitive::EvaluatePosition`. -/
def Primitive.EvaluatePosition (prim : Primitive K) (_geom : SurfaceGeometry K)
    (forceDegenerated : Bool) : Vec3 K :=
  if (prim.Type_ &&& PrimitiveType.L) > 0 then
    match prim.Params.L.Type_ with
    | LType.Area => Vec3.splat 1
    | LType.Point => if forceDegenerated then Vec3.splat 1 else 0
    | LType.Directional => Vec3.splat 1
  else if (prim.Type_ &&& PrimitiveType.E) > 0 then
    match prim.Params.E.Type_ with
    | EType.Area => Vec3.splat 1
    | EType.Pinhole => if forceDegenerated then Vec3.splat 1 else 0
  else 0

/-- The method `Primitive::EvaluatePositionPDF`. -/
def Primitive.EvaluatePositionPDF (prim : Primitive K) (_geom : SurfaceGeometry K)
    (forceDegenerated : Bool) : K :=
  if (prim.Type_ &&& PrimitiveType.L) > 0 then
    match prim.Params.L.Type_ with
    | LType.Area => prim.Params.L.Area.InvArea
    | LType.Point => if forceDegenerated then 1 else 0
    | LType.Directional => prim.Params.L.Directional.InvArea
  else if (prim.Type_ &&& PrimitiveType.E) > 0 then
    match prim.Params.E.Type_ with
    | EType.Area => prim.Params.E.Area.InvArea
    | EType.Pinhole => if forceDegenerated then 1 else 0
  else 0

/-- The method `Primitive::RasterPosition`: the returned flag and the value of `rasterPos`
after the call (`rasterPos0` before it). -/
def Primitive.RasterPosition (m : MathFns K) (prim : Primitive K) (wo : Vec3 K)
    (geom : SurfaceGeometry K) (rasterPos0 : Vec2 K) : Bool × Vec2 K :=
  match prim.Params.E.Type_ with
  | EType.Pinhole =>
    let V := Mat3.transpose ⟨prim.Params.E.Pinhole.Vx, prim.Params.E.Pinhole.Vy,
      prim.Params.E.Pinhole.Vz⟩
    let woEye := V.mulVec wo
    if LocalCos woEye ≥ 0 then (false, rasterPos0)
    else
      let tanFov := m.tan (prim.Params.E.Pinhole.Fov * (1 / 2))
      let rasterPos : Vec2 K :=
        (Vec2.addScalar ⟨-woEye.x / woEye.z / tanFov / prim.Params.E.Pinhole.Aspect,
          -woEye.y / woEye.z / tanFov⟩ 1).scale (1 / 2)
      if rasterPos.x < 0 ∨ rasterPos.x > 1 ∨ rasterPos.y < 0 ∨ rasterPos.y > 1 then
        (false, rasterPos)
      else (true, rasterPos)
  | EType.Area => (true, geom.uv)

/-- The method `Primitive::EvaluateBechmannDist`. -/
def Primitive.EvaluateBechmannDist (m : MathFns K) (prim : Primitive K) (H : Vec3 K) : K :=
  if LocalCos H ≤ 0 then 0
  else
    let ex := LocalTan m H / prim.Params.G.Roughness
    let t1 := m.exp (-(ex * ex))
    let t2 := m.Pi * prim.Params.G.Roughness * prim.Params.G.Roughness * (LocalCos H) ^ 4
    t1 / t2

/-- The method `Primitive::EvalauteShadowMaskingFunc`. -/
def Primitive.EvalauteShadowMaskingFunc (wi wo H : Vec3 K) : K :=
  let n_dot_H := LocalCos H
  let n_dot_wo := LocalCos wo
  let n_dot_wi := LocalCos wi
  let wo_dot_H := |Vec3.dot wo H|
  let wi_dot_H := |Vec3.dot wo H|
  min 1 (min (2 * n_dot_H * n_dot_wo / wo_dot_H) (2 * n_dot_H * n_dot_wi / wi_dot_H))

/-- The method `Primitive::EvaluateFrConductor`. -/
def Primitive.EvaluateFrConductor (prim : Primitive K) (cosThetaI : K) : Vec3 K :=
  let eta := prim.Params.G.Eta
  let k := prim.Params.G.K
  let tmp := (eta * eta + k * k).scale (cosThetaI * cosThetaI)
  let rParl2 := ((tmp - eta.scale (2 * cosThetaI)).addScalar 1)
    / ((tmp + eta.scale (2 * cosThetaI)).addScalar 1)
  let tmpF := eta * eta + k * k
  let rPerp2 := ((tmpF - eta.scale (2 * cosThetaI)).addScalar (cosThetaI * cosThetaI))
    / ((tmpF + eta.scale (2 * cosThetaI)).addScalar (cosThetaI * cosThetaI))
  (rParl2 + rPerp2).scale (1 / 2)

/-- The method `Primitive::EvaluateFresnelTerm`. -/
def Primitive.EvaluateFresnelTerm (m : MathFns K) (localWi : Vec3 K) (etaI etaT : K) : K :=
  let wiDotN := LocalCos localWi
  let eta := etaI / etaT
  let cosThetaTSq := 1 - eta * eta * (1 - wiDotN * wiDotN)
  if cosThetaTSq ≤ 0 then 1
  else
    let absCosThetaI := |wiDotN|
    let absCosThetaT := m.sqrt cosThetaTSq
    let rhoS := (etaI * absCosThetaI - etaT * absCosThetaT)
      / (etaI * absCosThetaI + etaT * absCosThetaT)
    let rhoT := (etaI * absCosThetaT - etaT * absCosThetaI)
      / (etaI * absCosThetaT + etaT * absCosThetaI)
    (rhoS * rhoS + rhoT * rhoT) * (1 / 2)

/-- The local function `SampleBechmannDist` of `Primitive::SampleDirection`. -/
def Primitive.SampleBechmannDist (m : MathFns K) (prim : Primitive K) (u : Vec2 K) : Vec3 K :=
  let tanThetaHSqr := -prim.Params.G.Roughness * prim.Params.G.Roughness * m.log (1 - u.x)
  let cosThetaH := 1 / m.sqrt (1 + tanThetaHSqr)
  let cosThetaH2 := cosThetaH * cosThetaH
  let sinThetaH := m.sqrt (max 0 (1 - cosThetaH2))
  let phiH := 2 * m.Pi * u.y
  ⟨sinThetaH * m.cos phiH, sinThetaH * m.sin phiH, cosThetaH⟩

/-- The refracted local direction computed in the S branches of `Primitive::SampleDirection`. -/
def refractLocal (m : MathFns K) (localWi : Vec3 K) (etaI etaT : K) : Vec3 K :=
  let wiDotN := LocalCos localWi
  let eta := etaI / etaT
  let cosThetaTSq := 1 - eta * eta * (1 - wiDotN * wiDotN)
  let cosThetaT := m.sqrt cosThetaTSq * (if wiDotN > 0 then -1 else 1)
  LocalRefract localWi eta cosThetaT

/-- The type S part of `Primitive::SampleDirection`. -/
def Primitive.SampleDirectionS (m : MathFns K) (prim : Primitive K) (uComp : K)
    (geom : SurfaceGeometry K) (wi wo0 : Vec3 K) : Vec3 K :=
  match prim.Params.S.Type_ with
  | SType.Reflection =>
    let localWi := geom.ToLocal.mulVec wi
    if LocalCos localWi ≤ 0 then wo0
    else geom.ToWorld.mulVec (LocalReflect localWi)
  | SType.Refraction =>
    let localWi := geom.ToLocal.mulVec wi
    let etaI := if LocalCos localWi < 0 then prim.Params.S.Refraction.Eta2
      else prim.Params.S.Refraction.Eta1
    let etaT := if LocalCos localWi < 0 then prim.Params.S.Refraction.Eta1
      else prim.Params.S.Refraction.Eta2
    let wiDotN := LocalCos localWi
    let eta := etaI / etaT
    let cosThetaTSq := 1 - eta * eta * (1 - wiDotN * wiDotN)
    if cosThetaTSq ≤ 0 then geom.ToWorld.mulVec (LocalReflect localWi)
    else geom.ToWorld.mulVec (refractLocal m localWi etaI etaT)
  | SType.Fresnel =>
    let localWi := geom.ToLocal.mulVec wi
    let etaI := if LocalCos localWi < 0 then prim.Params.S.Fresnel.Eta2
      else prim.Params.S.Fresnel.Eta1
    let etaT := if LocalCos localWi < 0 then prim.Params.S.Fresnel.Eta1
      else prim.Params.S.Fresnel.Eta2
    let Fr := Primitive.EvaluateFresnelTerm m localWi etaI etaT
    if uComp ≤ Fr then geom.ToWorld.mulVec (LocalReflect localWi)
    else geom.ToWorld.mulVec (refractLocal m localWi etaI etaT)

/-- The method `Primitive::SampleDirection`; the result is the value of `wo` after the call
(`wo0` before it: several branches return without writing it). -/
def Primitive.SampleDirection (m : MathFns K) (prim : Primitive K) (u : Vec2 K) (uComp : K)
    (queryType : Nat) (geom : SurfaceGeometry K) (wi wo0 : Vec3 K) : Vec3 K :=
  if (queryType &&& PrimitiveType.L) > 0 then
    match prim.Params.L.Type_ with
    | LType.Area => geom.ToWorld.mulVec (CosineSampleHemisphere m u)
    | LType.Point => UniformSampleSphere m u
    | LType.Directional => prim.Params.L.Directional.Direction
  else if (queryType &&& PrimitiveType.E) > 0 then
    match prim.Params.E.Type_ with
    | EType.Area => geom.ToWorld.mulVec (CosineSampleHemisphere m u)
    | EType.Pinhole =>
      let rasterPos : Vec2 K := ⟨2 * u.x - 1, 2 * u.y - 1⟩
      let tanFov := m.tan (prim.Params.E.Pinhole.Fov * (1 / 2))
      let woEye := m.normalize
        ⟨prim.Params.E.Pinhole.Aspect * tanFov * rasterPos.x, tanFov * rasterPos.y, -1⟩
      prim.Params.E.Pinhole.Vx.scale woEye.x + prim.Params.E.Pinhole.Vy.scale woEye.y
        + prim.Params.E.Pinhole.Vz.scale woEye.z
  else if (queryType &&& PrimitiveType.D) > 0 then
    let localWi := geom.ToLocal.mulVec wi
    if LocalCos localWi ≤ 0 then wo0
    else geom.ToWorld.mulVec (CosineSampleHemisphere m u)
  else if (queryType &&& PrimitiveType.G) > 0 then
    let localWi := geom.ToLocal.mulVec wi
    if LocalCos localWi ≤ 0 then wo0
    else
      let H := prim.SampleBechmannDist m u
      let localWo := -localWi - H.scale (2 * Vec3.dot (-localWi) H)
      if LocalCos localWo ≤ 0 then wo0
      else geom.ToWorld.mulVec localWo
  else if (queryType &&& PrimitiveType.S) > 0 then
    prim.SampleDirectionS m uComp geom wi wo0
  else wo0

/-- The local function `shadingNormalCorrection` of `Primitive::EvaluateDirection`. -/
def shadingNormalCorrection (geom : SurfaceGeometry K) (wi wo : Vec3 K)
    (transDir : TransportDirection) : K :=
  let localWi := geom.ToLocal.mulVec wi
  let localWo := geom.ToLocal.mulVec wo
  let wiDotNg := Vec3.dot wi geom.gn
  let woDotNg := Vec3.dot wo geom.gn
  let wiDotNs := LocalCos localWi
  let woDotNs := LocalCos localWo
  if wiDotNg * wiDotNs ≤ 0 ∨ woDotNg * woDotNs ≤ 0 then 0
  else if transDir = TransportDirection.LE then wiDotNs * woDotNg / (woDotNs * wiDotNg)
  else 1

/-- The pinhole importance `1 / (cos³θ · A)` computed by `Primitive::EvaluateDirection` and
`Primitive::EvaluateDirectionPDF` once the raster position is inside the window. -/
def Primitive.pinholeImportance (m : MathFns K) (prim : Primitive K) (wo : Vec3 K) : K :=
  let V := Mat3.transpose ⟨prim.Params.E.Pinhole.Vx, prim.Params.E.Pinhole.Vy,
    prim.Params.E.Pinhole.Vz⟩
  let woEye := V.mulVec wo
  let tanFov := m.tan (prim.Params.E.Pinhole.Fov * (1 / 2))
  let cosTheta := -LocalCos woEye
  let invCosTheta := 1 / cosTheta
  let A := tanFov * tanFov * prim.Params.E.Pinhole.Aspect * 4
  invCosTheta * invCosTheta * invCosTheta / A

/-- The type L part of `Primitive::EvaluateDirection`. -/
def Primitive.EvaluateDirectionL (prim : Primitive K) (geom : SurfaceGeometry K) (wo : Vec3 K)
    (forceDegenerated : Bool) : Vec3 K :=
  match prim.Params.L.Type_ with
  | LType.Area =>
    let localWo := geom.ToLocal.mulVec wo
    if LocalCos localWo ≤ 0 then 0 else prim.Params.L.Area.Le
  | LType.Point => prim.Params.L.Point.Le
  | LType.Directional => if forceDegenerated then prim.Params.L.Directional.Le else 0

/-- The type E part of `Primitive::EvaluateDirection`. -/
def Primitive.EvaluateDirectionE (m : MathFns K) (prim : Primitive K) (geom : SurfaceGeometry K)
    (wo : Vec3 K) : Vec3 K :=
  match prim.Params.E.Type_ with
  | EType.Area =>
    let localWo := geom.ToLocal.mulVec wo
    if LocalCos localWo ≤ 0 then 0 else prim.Params.E.Area.We
  | EType.Pinhole =>
    if !(prim.RasterPosition m wo geom 0).1 then 0
    else Vec3.splat (prim.pinholeImportance m wo)

/-- The type D part of `Primitive::EvaluateDirection`. -/
def Primitive.EvaluateDirectionD (m : MathFns K) (prim : Primitive K) (geom : SurfaceGeometry K)
    (wi wo : Vec3 K) (transDir : TransportDirection) : Vec3 K :=
  let localWi := geom.ToLocal.mulVec wi
  let localWo := geom.ToLocal.mulVec wo
  if LocalCos localWi ≤ 0 ∨ LocalCos localWo ≤ 0 then 0
  else
    let R := match prim.Params.D.TexR with
      | some tex => tex.Evaluate geom.uv
      | none => prim.Params.D.R
    (R.scale m.InvPi).scale (shadingNormalCorrection geom wi wo transDir)

/-- The type G part of `Primitive::EvaluateDirection`. -/
def Primitive.EvaluateDirectionG (m : MathFns K) (prim : Primitive K) (geom : SurfaceGeometry K)
    (wi wo : Vec3 K) (transDir : TransportDirection) : Vec3 K :=
  let localWi := geom.ToLocal.mulVec wi
  let localWo := geom.ToLocal.mulVec wo
  if LocalCos localWi ≤ 0 ∨ LocalCos localWo ≤ 0 then 0
  else
    let H := m.normalize (localWi + localWo)
    let D := prim.EvaluateBechmannDist m H
    let G := Primitive.EvalauteShadowMaskingFunc localWi localWo H
    let F := prim.EvaluateFrConductor (Vec3.dot localWi H)
    let R := match prim.Params.G.TexR with
      | some tex => tex.Evaluate geom.uv
      | none => prim.Params.G.R
    (((((R.scale D).scale G) * F).divScalar (4 * LocalCos localWi)).divScalar
      (LocalCos localWo)).scale (shadingNormalCorrection geom wi wo transDir)

/-- The type S part of `Primitive::EvaluateDirection`. -/
def Primitive.EvaluateDirectionS (m : MathFns K) (prim : Primitive K) (geom : SurfaceGeometry K)
    (wi wo : Vec3 K) (transDir : TransportDirection) (forceDegenerated : Bool) : Vec3 K :=
  if !forceDegenerated then 0
  else
    match prim.Params.S.Type_ with
    | SType.Reflection =>
      let localWi := geom.ToLocal.mulVec wi
      let localWo := geom.ToLocal.mulVec wo
      if LocalCos localWi ≤ 0 ∨ LocalCos localWo ≤ 0 then 0
      else prim.Params.S.Reflection.R.scale (shadingNormalCorrection geom wi wo transDir)
    | SType.Refraction =>
      let localWi := geom.ToLocal.mulVec wi
      let etaI := if LocalCos localWi < 0 then prim.Params.S.Refraction.Eta2
        else prim.Params.S.Refraction.Eta1
      let etaT := if LocalCos localWi < 0 then prim.Params.S.Refraction.Eta1
        else prim.Params.S.Refraction.Eta2
      let eta := etaI / etaT
      let refrCorrection := if transDir = TransportDirection.EL then eta else 1
      ((prim.Params.S.Refraction.R.scale (shadingNormalCorrection geom wi wo transDir)).scale
        refrCorrection).scale refrCorrection
    | SType.Fresnel =>
      let localWi := geom.ToLocal.mulVec wi
      let localWo := geom.ToLocal.mulVec wo
      let etaI := if LocalCos localWi < 0 then prim.Params.S.Fresnel.Eta2
        else prim.Params.S.Fresnel.Eta1
      let etaT := if LocalCos localWi < 0 then prim.Params.S.Fresnel.Eta1
        else prim.Params.S.Fresnel.Eta2
      let Fr := Primitive.EvaluateFresnelTerm m localWi etaI etaT
      if LocalCos localWi * LocalCos localWo ≥ 0 then
        (prim.Params.S.Fresnel.R.scale Fr).scale (shadingNormalCorrection geom wi wo transDir)
      else
        let eta := etaI / etaT
        let refrCorrection := if transDir = TransportDirection.EL then eta else 1
        (((prim.Params.S.Fresnel.R.scale (1 - Fr)).scale
          (shadingNormalCorrection geom wi wo transDir)).scale refrCorrection).scale
          refrCorrection

/-- The method `Primitive::EvaluateDirection`. -/
def Primitive.EvaluateDirection (m : MathFns K) (prim : Primitive K) (geom : SurfaceGeometry K)
    (queryType : Nat) (wi wo : Vec3 K) (transDir : TransportDirection)
    (forceDegenerated : Bool) : Vec3 K :=
  if (queryType &&& PrimitiveType.Emitter) > 0 ∧ (queryType &&& PrimitiveType.L) > 0 then
    prim.EvaluateDirectionL geom wo forceDegenerated
  else if (queryType &&& PrimitiveType.Emitter) > 0 ∧ (queryType &&& PrimitiveType.E) > 0 then
    prim.EvaluateDirectionE m geom wo
  else if (queryType &&& PrimitiveType.BSDF) > 0 then
    if (queryType &&& PrimitiveType.D) > 0 then prim.EvaluateDirectionD m geom wi wo transDir
    else if (queryType &&& PrimitiveType.G) > 0 then
      prim.EvaluateDirectionG m geom wi wo transDir
    else if (queryType &&& PrimitiveType.S) > 0 then
      prim.EvaluateDirectionS m geom wi wo transDir forceDegenerated
    else 0
  else 0

/-- The method `Primitive::EvaluateDirectionPDF`. -/
def Primitive.EvaluateDirectionPDF (m : MathFns K) (prim : Primitive K)
    (geom : SurfaceGeometry K) (queryType : Nat) (wi wo : Vec3 K) (forceDegenerated : Bool) : K :=
  if (queryType &&& PrimitiveType.L) > 0 then
    match prim.Params.L.Type_ with
    | LType.Area =>
      let localWo := geom.ToLocal.mulVec wo
      if LocalCos localWo ≤ 0 then 0 else CosineSampleHemispherePDFProjSA m localWo
    | LType.Point => UniformSampleSpherePDFSA m wo
    | LType.Directional => if forceDegenerated then 1 else 0
  else if (queryType &&& PrimitiveType.E) > 0 then
    match prim.Params.E.Type_ with
    | EType.Area =>
      let localWo := geom.ToLocal.mulVec wo
      if LocalCos localWo ≤ 0 then 0 else CosineSampleHemispherePDFProjSA m localWo
    | EType.Pinhole =>
      if !(prim.RasterPosition m wo geom 0).1 then 0
      else prim.pinholeImportance m wo
  else if (queryType &&& PrimitiveType.D) > 0 then
    let localWi := geom.ToLocal.mulVec wi
    let localWo := geom.ToLocal.mulVec wo
    if LocalCos localWi ≤ 0 ∨ LocalCos localWo ≤ 0 then 0
    else CosineSampleHemispherePDFProjSA m localWo
  else if (queryType &&& PrimitiveType.G) > 0 then
    let localWi := geom.ToLocal.mulVec wi
    let localWo := geom.ToLocal.mulVec wo
    if LocalCos localWi ≤ 0 ∨ LocalCos localWo ≤ 0 then 0
    else
      let H := m.normalize (localWi + localWo)
      let D := prim.EvaluateBechmannDist m H
      D * LocalCos H / (4 * Vec3.dot localWo H) / LocalCos localWo
  else if (queryType &&& PrimitiveType.S) > 0 then
    if !forceDegenerated then 0
    else
      match prim.Params.S.Type_ with
      | SType.Reflection =>
        let localWi := geom.ToLocal.mulVec wi
        let localWo := geom.ToLocal.mulVec wo
        if LocalCos localWi ≤ 0 ∨ LocalCos localWo ≤ 0 then 0 else 1
      | SType.Refraction => 1
      | SType.Fresnel =>
        let localWi := geom.ToLocal.mulVec wi
        let localWo := geom.ToLocal.mulVec wo
        let etaI := if LocalCos localWi < 0 then prim.Params.S.Fresnel.Eta2
          else prim.Params.S.Fresnel.Eta1
        let etaT := if LocalCos localWi < 0 then prim.Params.S.Fresnel.Eta1
          else prim.Params.S.Fresnel.Eta2
        let Fr := Primitive.EvaluateFresnelTerm m localWi etaI etaT
        if LocalCos localWi * LocalCos localWo ≥ 0 then Fr else 1 - Fr
  else 0

end PrimitiveOps

/-! ## Scene (`rt.hpp`) and random numbers (`basic.hpp`) -/

/-- The record `struct Scene`.  `Intersect4` is the ray query
`Scene::Intersect(ray, isect, minT, maxT)` answered by the external ray caster: `none` when it
returns `false`, the intersection written to `isect` otherwise. -/
structure Scene (K : Type) where
  Primitives : List (Primitive K)
  SensorPrimitiveIndex : Nat
  LightPrimitiveIndices : List Nat
  Intersect4 : Ray K → K → K → Option (Intersection K)

/-- The class `Random`: the values the engine is going to return, and how many were drawn. -/
structure Random (K : Type) where
  stream : Nat → K
  pos : Nat

section SceneOps

variable {K : Type} [LinearOrderedField K] [FloorRing K]

/-- The method `Random::Next`: the value drawn and the advanced generator. -/
def Random.Next (rng : Random K) : K × Random K :=
  (rng.stream rng.pos, { rng with pos := rng.pos + 1 })

/-- The method `Random::Next2D`, its two draws taken left to right. -/
def Random.Next2D (rng : Random K) : Vec2 K × Random K :=
  let a := rng.Next
  let b := a.2.Next
  (⟨a.1, b.1⟩, b.2)

/-- A default-constructed `Primitive`: no mesh, type `None`. -/
def Primitive.init : Primitive K :=
  { MeshRef := none
    Type_ := PrimitiveType.None
    Params :=
      { L := { Type_ := LType.Area, Area := ⟨0, Distribution1D.Clear, 0⟩, Point := ⟨0, 0⟩,
               Directional := ⟨0, 0, 0, 0, 0⟩ }
        E := { Type_ := EType.Area, Pinhole := ⟨0, 0, 0, 0, 0, 0, 0⟩,
               Area := ⟨0, Distribution1D.Clear, 0⟩ }
        D := ⟨0, none⟩
        G := ⟨0, none, 0, 0, 0⟩
        S := { Type_ := SType.Reflection, Reflection := ⟨0⟩, Refraction := ⟨0, 0, 0⟩,
               Fresnel := ⟨0, 0, 0⟩ } } }

/-- The two-argument `Scene::Intersect(ray, isect)`. -/
def Scene.Intersect (scene : Scene K) (ray : Ray K) : Option (Intersection K) :=
  scene.Intersect4 ray EpsF InfF

/-- The method `Scene::Visible`. -/
def Scene.Visible (m : MathFns K) (scene : Scene K) (p1 p2 : Vec3 K) : Bool :=
  let p1p2 := p2 - p1
  let p1p2L := m.length p1p2
  let shadowRay : Ray K := ⟨p1, p1p2.divScalar p1p2L⟩
  !(scene.Intersect4 shadowRay EpsF (p1p2L * (1 - EpsF))).isSome

/-- The method `Scene::SampleEmitter`; a null result is the default primitive. -/
def Scene.SampleEmitter (scene : Scene K) (type : Nat) (u : K) : Primitive K :=
  if (type &&& PrimitiveType.L) > 0 then
    let n : Int := scene.LightPrimitiveIndices.length
    let i := clampInt (truncInt (u * (n : K))) 0 (n - 1)
    scene.Primitives.getD (scene.LightPrimitiveIndices.getD i.toNat 0) Primitive.init
  else if (type &&& PrimitiveType.E) > 0 then
    scene.Primitives.getD scene.SensorPrimitiveIndex Primitive.init
  else Primitive.init

/-- The method `Scene::EvaluateEmitterPDF`. -/
def Scene.EvaluateEmitterPDF (scene : Scene K) (primitive : Primitive K) : K :=
  if (primitive.Type_ &&& PrimitiveType.L) > 0 then
    let n : Int := scene.LightPrimitiveIndices.length
    1 / (n : K)
  else if (primitive.Type_ &&& PrimitiveType.E) > 0 then 1
  else 0

/-- The function `GeometryTerm`. -/
def GeometryTerm (m : MathFns K) (geom1 geom2 : SurfaceGeometry K) : K :=
  let p1p2 := geom2.p - geom1.p
  let p1p2L2 := Vec3.dot p1p2 p1p2
  let p1p2L := m.sqrt p1p2L2
  let p1p2 := p1p2.divScalar p1p2L
  let t : K := 1
  let t := if !geom1.degenerated then t * |Vec3.dot geom1.sn p1p2| else t
  let t := if !geom2.degenerated then t * |Vec3.dot geom2.sn (-p1p2)| else t
  t / p1p2L2

end SceneOps

/-! ## Paths (`bdpt.hpp`) -/

/-- The record `struct PathVertex`; `primitive` is the primitive the pointer refers to. -/
structure PathVertex (K : Type) where
  type : Nat
  geom : SurfaceGeometry K
  primitive : Primitive K
deriving DecidableEq

/-- The record `struct Path`. -/
structure Path (K : Type) where
  vertices : List (PathVertex K)
deriving DecidableEq

/-- The loop `for (int i = lo; i < hi; i++) acc = body(i, acc)`. -/
def forUp {σ : Type} (lo hi : Int) (body : Int → σ → σ) (acc : σ) : σ :=
  (List.range (hi - lo).toNat).foldl (fun a (k : Nat) => body (lo + (k : Int)) a) acc

/-- The loop `for (int i = hi; i >= lo; i--) acc = body(i, acc)`. -/
def forDown {σ : Type} (hi lo : Int) (body : Int → σ → σ) (acc : σ) : σ :=
  (List.range (hi - lo + 1).toNat).foldl (fun a (k : Nat) => body (hi - (k : Int)) a) acc

section PathOps

variable {K : Type} [LinearOrderedField K] [FloorRing K]

/-- A default-constructed `PathVertex`. -/
def PathVertex.init : PathVertex K :=
  { type := PrimitiveType.None, geom := SurfaceGeometry.init, primitive := Primitive.init }

/-- The element `vertices[i]`. -/
def Path.vertexAt (path : Path K) (i : Int) : PathVertex K :=
  path.vertices.getD i.toNat PathVertex.init

/-- The region "Sample initial vertex" of `Path::SampleSubpath`: the vertex pushed and the
advanced generator. -/
def SampleInitialVertex (m : MathFns K) (scene : Scene K) (transDir : TransportDirection)
    (rng : Random K) : PathVertex K × Random K :=
  let type := if transDir = TransportDirection.LE then PrimitiveType.L else PrimitiveType.E
  let r1 := rng.Next
  let emitter := scene.SampleEmitter type r1.1
  let r2 := r1.2.Next2D
  ({ type := type, geom := emitter.SamplePosition m r2.1 SurfaceGeometry.init,
     primitive := emitter }, r2.2)

/-- The region "Sample intermediate vertex" of `Path::SampleSubpath`, given the vertices pushed
so far: `none` when the iteration breaks without a new vertex, and otherwise the vertex pushed
together with the flag `true` when the Russian roulette then breaks the loop; and the advanced
generator.  The arguments `rng.Next2D()`, `rng.Next()` of `SampleDirection` are drawn left to
right. -/
def SampleIntermediateVertex (m : MathFns K) (scene : Scene K) (transDir : TransportDirection)
    (rng : Random K) (vertices : List (PathVertex K)) :
    Option (PathVertex K × Bool) × Random K :=
  let pv := vertices.getLastD PathVertex.init
  let wi : Vec3 K :=
    if vertices.length > 1 then
      m.normalize ((vertices.getD (vertices.length - 2) PathVertex.init).geom.p - pv.geom.p)
    else 0
  let r1 := rng.Next2D
  let r2 := r1.2.Next
  let wo := pv.primitive.SampleDirection m r1.1 r2.1 pv.type pv.geom wi 0
  let f := pv.primitive.EvaluateDirection m pv.geom pv.type wi wo transDir true
  if f = 0 then (none, r2.2)
  else
    match scene.Intersect ⟨pv.geom.p, wo⟩ with
    | none => (none, r2.2)
    | some isect =>
      let v : PathVertex K :=
        { geom := isect.geom, primitive := isect.Prim,
          type := isect.Prim.Type_ &&& PrimitiveType.NotEmitter }
      let rrProb : K := 1 / 2
      let r3 := r2.2.Next
      if r3.1 > rrProb then (some (v, true), r3.2)
      else (some (v, false), r3.2)

/-- The loop of `Path::SampleSubpath` from iteration `step` on, with the vertices pushed so
far.  The first argument bounds the number of iterations, which the source leaves unbounded
when `maxPathVertices` is `-1`: the result is `none` when that many do not suffice. -/
def SampleSubpathLoop (m : MathFns K) (scene : Scene K) (transDir : TransportDirection)
    (maxPathVertices : Int) :
    Nat → Nat → Random K → List (PathVertex K) → Option (List (PathVertex K) × Random K)
  | 0, _, _, _ => none
  | fuel + 1, step, rng, vertices =>
    if maxPathVertices = -1 ∨ (step : Int) < maxPathVertices then
      if step = 0 then
        let r := SampleInitialVertex m scene transDir rng
        SampleSubpathLoop m scene transDir maxPathVertices fuel (step + 1) r.2 (vertices ++ [r.1])
      else
        match SampleIntermediateVertex m scene transDir rng vertices with
        | (none, rng1) => some (vertices, rng1)
        | (some (v, true), rng1) => some (vertices ++ [v], rng1)
        | (some (v, false), rng1) =>
          SampleSubpathLoop m scene transDir maxPathVertices fuel (step + 1) rng1
            (vertices ++ [v])
    else some (vertices, rng)

/-- The method `Path::SampleSubpath`: the sampled subpath and the advanced generator, or
`none` when the walk takes more than `fuel` loop iterations. -/
def Path.SampleSubpath (m : MathFns K) (scene : Scene K) (rng : Random K)
    (transDir : TransportDirection) (maxPathVertices : Int) (fuel : Nat) :
    Option (Path K × Random K) :=
  (SampleSubpathLoop m scene transDir maxPathVertices fuel 0 rng []).map fun r => (⟨r.1⟩, r.2)

/-- The assignment `vertices.front().type = type`. -/
def setFrontType (vertices : List (PathVertex K)) (type : Nat) : List (PathVertex K) :=
  match vertices with
  | [] => []
  | v :: vs => { v with type := type } :: vs

/-- The assignment `vertices.back().type = type`. -/
def setBackType (vertices : List (PathVertex K)) (type : Nat) : List (PathVertex K) :=
  match vertices.getLast? with
  | none => vertices
  | some v => vertices.dropLast ++ [{ v with type := type }]

/-- The method `Path::Connect`: the returned flag and the fullpath left in `vertices`. -/
def Path.Connect (m : MathFns K) (scene : Scene K) (s t : Int) (subpathL subpathE : Path K) :
    Bool × Path K :=
  if s = 0 ∧ t > 0 then
    if ((subpathE.vertexAt (t - 1)).primitive.Type_ &&& PrimitiveType.L) = 0 then (false, ⟨[]⟩)
    else
      let vertices := forDown (t - 1) 0 (fun i vs => vs ++ [subpathE.vertexAt i]) []
      (true, ⟨setFrontType vertices PrimitiveType.L⟩)
  else if s > 0 ∧ t = 0 then
    if ((subpathL.vertexAt (s - 1)).primitive.Type_ &&& PrimitiveType.E) = 0 then (false, ⟨[]⟩)
    else
      let vertices := forUp 0 s (fun i vs => vs ++ [subpathL.vertexAt i]) []
      (true, ⟨setBackType vertices PrimitiveType.E⟩)
  else
    if !scene.Visible m (subpathL.vertexAt (s - 1)).geom.p (subpathE.vertexAt (t - 1)).geom.p then
      (false, ⟨[]⟩)
    else
      let vertices := forUp 0 s (fun i vs => vs ++ [subpathL.vertexAt i]) []
      let vertices := forDown (t - 1) 0 (fun i vs => vs ++ [subpathE.vertexAt i]) vertices
      (true, ⟨vertices⟩)

/-- The method `Path::SelectionProb`. -/
def Path.SelectionProb (path : Path K) (s : Int) : K :=
  let rrProb : K := 1 / 2
  let n : Int := path.vertices.length
  let t := n - s
  let selectionProb : K := 1
  let selectionProb := forUp 1 (s - 1) (fun _ a => a * rrProb) selectionProb
  let selectionProb := forDown (t - 2) 1 (fun _ a => a * rrProb) selectionProb
  selectionProb

/-- The method `Path::RasterPosition`. -/
def Path.RasterPosition (m : MathFns K) (path : Path K) : Vec2 K :=
  let v := path.vertexAt ((path.vertices.length : Int) - 1)
  let vPrev := path.vertexAt ((path.vertices.length : Int) - 2)
  (v.primitive.RasterPosition m (m.normalize (vPrev.geom.p - v.geom.p)) v.geom 0).2

/-- The method `Path::EvaluateCst`. -/
def Path.EvaluateCst (m : MathFns K) (path : Path K) (s : Int) : Vec3 K :=
  let n : Int := path.vertices.length
  let t := n - s
  if s = 0 ∧ t > 0 then
    let v := path.vertexAt 0
    let vNext := path.vertexAt 1
    v.primitive.EvaluatePosition v.geom false
      * v.primitive.EvaluateDirection m v.geom v.type 0 (m.normalize (vNext.geom.p - v.geom.p))
          TransportDirection.EL false
  else if s > 0 ∧ t = 0 then
    let v := path.vertexAt (n - 1)
    let vPrev := path.vertexAt (n - 2)
    v.primitive.EvaluatePosition v.geom false
      * v.primitive.EvaluateDirection m v.geom v.type 0 (m.normalize (vPrev.geom.p - v.geom.p))
          TransportDirection.LE false
  else if s > 0 ∧ t > 0 then
    let vL := path.vertexAt (s - 1)
    let vE := path.vertexAt s
    let fsL := vL.primitive.EvaluateDirection m vL.geom vL.type
      (if s - 2 ≥ 0 then m.normalize ((path.vertexAt (s - 2)).geom.p - vL.geom.p) else 0)
      (m.normalize (vE.geom.p - vL.geom.p)) TransportDirection.LE false
    let fsE := vE.primitive.EvaluateDirection m vE.geom vE.type
      (if s + 1 < n then m.normalize ((path.vertexAt (s + 1)).geom.p - vE.geom.p) else 0)
      (m.normalize (vL.geom.p - vE.geom.p)) TransportDirection.EL false
    let G := GeometryTerm m vL.geom vE.geom
    (fsL.scale G) * fsE
  else 0

/-- The method `Path::EvaluatePDF`. -/
def Path.EvaluatePDF (m : MathFns K) (path : Path K) (scene : Scene K) (s : Int) : K :=
  if path.EvaluateCst m s = 0 then 0
  else
    let pdf : K := 1
    let n : Int := path.vertices.length
    let t := n - s
    let pdf :=
      if s > 0 then
        let pdf := pdf * ((path.vertexAt 0).primitive.EvaluatePositionPDF (path.vertexAt 0).geom true
          * scene.EvaluateEmitterPDF (path.vertexAt 0).primitive)
        forUp 0 (s - 1) (fun i pdf =>
          let vi := path.vertexAt i
          let vin := path.vertexAt (i + 1)
          let pdf := pdf * vi.primitive.EvaluateDirectionPDF m vi.geom vi.type
            (if i - 1 ≥ 0 then m.normalize ((path.vertexAt (i - 1)).geom.p - vi.geom.p) else 0)
            (m.normalize (vin.geom.p - vi.geom.p)) true
          pdf * GeometryTerm m vi.geom vin.geom) pdf
      else pdf
    let pdf :=
      if t > 0 then
        let pdf := pdf * ((path.vertexAt (n - 1)).primitive.EvaluatePositionPDF
            (path.vertexAt (n - 1)).geom true
          * scene.EvaluateEmitterPDF (path.vertexAt (n - 1)).primitive)
        forDown (n - 1) (s + 1) (fun i pdf =>
          let vi := path.vertexAt i
          let vip := path.vertexAt (i - 1)
          let pdf := pdf * vi.primitive.EvaluateDirectionPDF m vi.geom vi.type
            (if i + 1 < n then m.normalize ((path.vertexAt (i + 1)).geom.p - vi.geom.p) else 0)
            (m.normalize (vip.geom.p - vi.geom.p)) true
          pdf * GeometryTerm m vi.geom vip.geom) pdf
      else pdf
    pdf

/-- The method `Path::EvaluatePowerHeuristicsMISWeightOpt`. -/
def Path.EvaluatePowerHeuristicsMISWeightOpt (m : MathFns K) (path : Path K) (scene : Scene K)
    (s : Int) : K :=
  let invWeight : K := 0
  let n : Int := path.vertices.length
  let ps := path.EvaluatePDF m scene s
  let invWeight := forUp 0 (n + 1) (fun i invWeight =>
    let pi := path.EvaluatePDF m scene i
    if pi > 0 then
      let r := pi / ps
      invWeight + r * r
    else invWeight) invWeight
  1 / invWeight

/-- The local function `LocalContrb` of `Path::EvaluateUnweightContribution`. -/
def LocalContrb (f : Vec3 K) (p : K) : Vec3 K :=
  if f = 0 then 0 else f.divScalar p

/-- The method `Path::EvaluateUnweightContribution`. -/
def Path.EvaluateUnweightContribution (m : MathFns K) (path : Path K) (scene : Scene K)
    (s : Int) : Vec3 K :=
  let n : Int := path.vertices.length
  let t := n - s
  let alphaL : Vec3 K :=
    if s = 0 then Vec3.splat 1
    else
      let v := path.vertexAt 0
      let alphaL := LocalContrb (v.primitive.EvaluatePosition v.geom true)
        (v.primitive.EvaluatePositionPDF v.geom true * scene.EvaluateEmitterPDF v.primitive)
      forUp 0 (s - 1) (fun i alphaL =>
        let v := path.vertexAt i
        let vNext := path.vertexAt (i + 1)
        let wi := if i ≥ 1 then m.normalize ((path.vertexAt (i - 1)).geom.p - v.geom.p) else 0
        let wo := m.normalize (vNext.geom.p - v.geom.p)
        alphaL * LocalContrb
          (v.primitive.EvaluateDirection m v.geom v.type wi wo TransportDirection.LE true)
          (v.primitive.EvaluateDirectionPDF m v.geom v.type wi wo true)) alphaL
  if alphaL = 0 then 0
  else
    let alphaE : Vec3 K :=
      if t = 0 then Vec3.splat 1
      else
        let v := path.vertexAt (n - 1)
        let alphaE := LocalContrb (v.primitive.EvaluatePosition v.geom true)
          (v.primitive.EvaluatePositionPDF v.geom true * scene.EvaluateEmitterPDF v.primitive)
        forDown (n - 1) (s + 1) (fun i alphaE =>
          let v := path.vertexAt i
          let vPrev := path.vertexAt (i - 1)
          let wi := if i < n - 1 then m.normalize ((path.vertexAt (i + 1)).geom.p - v.geom.p)
            else 0
          let wo := m.normalize (vPrev.geom.p - v.geom.p)
          alphaE * LocalContrb
            (v.primitive.EvaluateDirection m v.geom v.type wi wo TransportDirection.EL true)
            (v.primitive.EvaluateDirectionPDF m v.geom v.type wi wo true)) alphaE
    if alphaE = 0 then 0
    else
      let cst := path.EvaluateCst m s
      if cst = 0 then 0
      else alphaL * cst * alphaE

/-- The method `Path::EvaluateContribution`. -/
def Path.EvaluateContribution (m : MathFns K) (path : Path K) (scene : Scene K) (s : Int) :
    Vec3 K :=
  let Cstar := path.EvaluateUnweightContribution m scene s
  if Cstar = 0 then 0 else Cstar.scale (path.EvaluatePowerHeuristicsMISWeightOpt m scene s)

end PathOps

/-! ## The bidirectional integrator (`nanogi.cpp`) -/

/-- The members of `Renderer::Params` read by `Renderer::ProcessSample_BPT`. -/
structure RendererParams where
  MaxNumVertices : Int
  Width : Int
  Height : Int
deriving DecidableEq

/-- The members of `Renderer::Context` used by `Renderer::ProcessSample_BPT`: the generator
and the film of the thread. -/
structure Context (K : Type) where
  rng : Random K
  film : List (Vec3 K)

/-- The loop nest of `Renderer::ProcessSample_BPT` over the fullpath lengths `n` and the
connections `(s, t)`: `body s t` stands where the source calls `Path::Connect(scene, s, t, ..)`
and runs the rest of that iteration. -/
def bptConnectionLoop {σ : Type} (MaxNumVertices nL nE : Int) (body : Int → Int → σ → σ)
    (acc : σ) : σ :=
  forUp 2 (nE + nL + 1) (fun n acc =>
    if MaxNumVertices ≠ -1 ∧ n > MaxNumVertices then acc
    else
      let minS := max 0 (n - nE)
      let maxS := min nL n
      forUp minS (maxS + 1) (fun s acc => body s (n - s) acc) acc) acc

/-- The connections `(s, t)` for which `Renderer::ProcessSample_BPT` calls `Path::Connect`, in
the order of the calls. -/
def connectAttempts (MaxNumVertices nL nE : Int) : List (Int × Int) :=
  bptConnectionLoop MaxNumVertices nL nE (fun s t acc => acc ++ [(s, t)]) []

section Integrator

variable {K : Type} [LinearOrderedField K] [FloorRing K]

/-- The method `Renderer::ProcessSample_BPT`; `none` when a subpath walk takes more than `fuel`
loop iterations. -/
def ProcessSample_BPT (m : MathFns K) (params : RendererParams) (scene : Scene K)
    (ctx : Context K) (fuel : Nat) : Option (Context K) :=
  match Path.SampleSubpath m scene ctx.rng TransportDirection.LE params.MaxNumVertices fuel with
  | none => none
  | some (subpathL, rng1) =>
    match Path.SampleSubpath m scene rng1 TransportDirection.EL params.MaxNumVertices fuel with
    | none => none
    | some (subpathE, rng2) =>
      let nL : Int := subpathL.vertices.length
      let nE : Int := subpathE.vertices.length
      let film := bptConnectionLoop params.MaxNumVertices nL nE (fun s t film =>
        let c := Path.Connect m scene s t subpathL subpathE
        if !c.1 then film
        else
          let path := c.2
          let C := (path.EvaluateContribution m scene s).divScalar (path.SelectionProb s)
          if C = 0 then film
          else
            let idx := (PixelIndex (path.RasterPosition m) params.Width params.Height).toNat
            film.set idx (film.getD idx 0 + C)) ctx.film
      some { rng := rng2, film := film }

end Integrator

/-! ## Path tracing with manifold next event estimation (`nanogi.cpp`) -/

/-- What `Renderer::ProcessSample_PTMNEE` does in an iteration once `SampleSeedPath` has
returned a seed path: `Skip` is the `continue` of the vertex-count check, `NEE` the region
"Case with NEE", `MNEE` the region "Case with MNEE", which starts with `WalkManifold`. -/
inductive SeedPathAction where
  | Skip
  | NEE
  | MNEE
deriving DecidableEq

/-- The statements of `Renderer::ProcessSample_PTMNEE` between the call of `SampleSeedPath` and
the two cases: the vertex-count check, then the choice of the case by the size of the seed
path. -/
def seedPathAction {K : Type} (params : RendererParams) (path seedPath : Path K) :
    SeedPathAction :=
  if seedPath.vertices.length > 1
      ∧ ((path.vertices.length : Int) + (seedPath.vertices.length : Int) - 1)
          > params.MaxNumVertices then
    SeedPathAction.Skip
  else if seedPath.vertices.length = 1 then SeedPathAction.NEE
  else SeedPathAction.MNEE

/-! ## Scene loading (`rt.hpp`) -/

/-- The record `struct AABB`. -/
structure AABB (K : Type) where
  min : Vec3 K
  max : Vec3 K
deriving DecidableEq

/-- The body of the loop over `typeNode` in the region "Load primitive type" of `Scene::Load`:
the bit of a recognised name is set, any other string is passed over. -/
def loadTypeStep (ty : Nat) (s : String) : Nat :=
  if s = "D" then ty ||| PrimitiveType.D
  else if s = "G" then ty ||| PrimitiveType.G
  else if s = "S" then ty ||| PrimitiveType.S
  else if s = "L" then ty ||| PrimitiveType.L
  else if s = "E" then ty ||| PrimitiveType.E
  else ty

/-- The loop over `typeNode` in the region "Load primitive type" of `Scene::Load`, started
with `primitive->Type = PrimitiveType::None`. -/
def loadTypeMask (typeNode : List String) : Nat :=
  typeNode.foldl loadTypeStep PrimitiveType.None

/-- The region "Load primitive type" of `Scene::Load`: `none` where the source logs
"Invalid primitive type" and returns `false`, the mask of the primitive otherwise. -/
def loadPrimitiveType (typeNode : List String) : Option Nat :=
  let ty := loadTypeMask typeNode
  if ty = PrimitiveType.None
      ∨ ((ty &&& PrimitiveType.L) > 0 ∧ (ty &&& PrimitiveType.E) > 0) then none
  else some ty

section SceneLoading

variable {K : Type} [LinearOrderedField K] [FloorRing K]

/-- The body of the loop of the region "Post configure primitives" of `Scene::Load`, for one
primitive: a directional light gets the centre and the radius of the scene bound and its
`InvArea`. -/
def Primitive.postConfigure (m : MathFns K) (SceneBound : AABB K) (primitive : Primitive K) :
    Primitive K :=
  if (primitive.Type_ &&& PrimitiveType.L) > 0 then
    match primitive.Params.L.Type_ with
    | LType.Directional =>
      let Center := (SceneBound.max + SceneBound.min).scale (1 / 2)
      let Radius := m.length (Center - SceneBound.max) * (101 / 100)
      let InvArea := 1 / (2 * m.Pi * Radius * Radius)
      { primitive with
        Params := { primitive.Params with
          L := { primitive.Params.L with
            Directional := { primitive.Params.L.Directional with
              Center := Center, Radius := Radius, InvArea := InvArea } } } }
    | LType.Area => primitive
    | LType.Point => primitive
  else primitive

end SceneLoading

/-! ## Renderer selection (`nanogi.cpp`, `macros.hpp`) -/

/-- The enumeration `RendererType`. -/
inductive RendererType where
  | PT
  | PTDirect
  | LT
  | LTDirect
  | BPT
  | PTMNEE
deriving DecidableEq

/-- The array `RendererType_String`. -/
def RendererType_String : List String := ["pt", "ptdirect", "lt", "ltdirect", "bpt", "ptmnee"]

/-- The cast `(RendererType)(i)` of an index `i < 6` of `RendererType_String`. -/
def RendererType.ofIndex : Nat → RendererType
  | 0 => RendererType.PT
  | 1 => RendererType.PTDirect
  | 2 => RendererType.LT
  | 3 => RendererType.LTDirect
  | 4 => RendererType.BPT
  | _ => RendererType.PTMNEE

/-- The member `TypeMap` of `EnumTypeMap<RendererType>` as its constructor fills it: the loop
runs `TypeMap[RendererType_String[i]] = (RendererType)(i)`.  The map is a list of entries in
which the entry nearest to the head is the one in force for a key. -/
def EnumTypeMap.TypeMap : List (String × RendererType) :=
  (List.range RendererType_String.length).foldl
    (fun mp i => (RendererType_String.getD i "", RendererType.ofIndex i) :: mp) []

/-- The function `EnumTypeMap<RendererType>::ToEnum`, that is `NGI_STRING_TO_ENUM`: it returns
`TypeMap[s]`, and `operator[]` of `std::unordered_map` answers a key that is not in the map
with a value-initialised entry, the enumerator of value `0`. -/
def EnumTypeMap.ToEnum (s : String) : RendererType :=
  match EnumTypeMap.TypeMap.lookup s with
  | some v => v
  | none => RendererType.ofIndex 0

/-- The options of the command line that `Renderer::Load` reads into `Type` and `Params`, as
`Run` has parsed them: `renderer` is required and the others have default values. -/
structure VariablesMap where
  renderer : String
  max_num_vertices : Int
  width : Int
  height : Int
deriving DecidableEq

/-- The members `Type` and `Params` of `struct Renderer`. -/
structure Renderer where
  Type_ : RendererType
  Params : RendererParams
deriving DecidableEq

/-- The method `Renderer::Load`: the returned flag and the renderer.  The source returns
`false` only from the handler of `boost::program_options::error`, which the reads of parsed
options do not raise; the thread and progress settings are left out. -/
def Renderer.Load (vm : VariablesMap) : Bool × Renderer :=
  (true,
    { Type_ := EnumTypeMap.ToEnum vm.renderer
      Params := { MaxNumVertices := vm.max_num_vertices, Width := vm.width,
                  Height := vm.height } })

/-- The sample functions of `struct Renderer`. -/
inductive ProcessSampleFunc where
  | ProcessSample_PT
  | ProcessSample_PTDirect
  | ProcessSample_LT
  | ProcessSample_LTDirect
  | ProcessSample_BPT
  | ProcessSample_PTMNEE
deriving DecidableEq

/-- The `switch (Type)` of `Renderer::Render`: the sample function handed to `RenderProcess`. -/
def Renderer.processSampleFunc (r : Renderer) : ProcessSampleFunc :=
  match r.Type_ with
  | RendererType.PT => ProcessSampleFunc.ProcessSample_PT
  | RendererType.PTDirect => ProcessSampleFunc.ProcessSample_PTDirect
  | RendererType.LT => ProcessSampleFunc.ProcessSample_LT
  | RendererType.LTDirect => ProcessSampleFunc.ProcessSample_LTDirect
  | RendererType.BPT => ProcessSampleFunc.ProcessSample_BPT
  | RendererType.PTMNEE => ProcessSampleFunc.ProcessSample_PTMNEE

/-! ## The program (`nanogi.cpp`) and image output (`basic.hpp`) -/

/-- The function `SaveImage` of `basic.hpp`, its returned flag.  The file system and the image
encoders are outside: `dirOk` is false when the output directory is missing and cannot be
created, `encoderOk` is false when the bitmap cannot be allocated or written. -/
def SaveImage (dirOk : Bool) (extension : String) (encoderOk : Bool) : Bool :=
  if !dirOk then false
  else if extension = ".hdr" then encoderOk
  else if extension = ".exr" then encoderOk
  else if extension = ".png" then encoderOk
  else false

/-- How the region "Parse arguments" of `Run` ends: with the help message (`--help`, or no
argument), with an error of `boost::program_options`, or with the parsed options. -/
inductive ParseOutcome where
  | Help
  | Error
  | Parsed
deriving DecidableEq

/-- What `Run` meets on its way: the outcome of the parsing, the flag `Scene::Load` returns,
the parsed options `Renderer::Load` reads, and what `SaveImage` depends on (the extension of
the `result` path, the file system, the encoder). -/
structure RunInputs where
  parse : ParseOutcome
  sceneLoad : Bool
  vm : VariablesMap
  dirOk : Bool
  resultExtension : String
  encoderOk : Bool
deriving DecidableEq

/-- The function `Run`.  The help branch ends with `return 1`, that is `true`; the flag of
`SaveImage` is not looked at. -/
def Run (i : RunInputs) : Bool :=
  match i.parse with
  | ParseOutcome.Help => true
  | ParseOutcome.Error => false
  | ParseOutcome.Parsed =>
    if !i.sceneLoad then false
    else if !(Renderer.Load i.vm).1 then false
    else
      let _saved := SaveImage i.dirOk i.resultExtension i.encoderOk
      true

/-- The function `main`, its exit code when no exception is raised: `EXIT_FAILURE = 1` when
`Run` returns `false`, `EXIT_SUCCESS = 0` otherwise. -/
def main (i : RunInputs) : Int := if !Run i then 1 else 0

/-! ## Intersection records (`rt.hpp`) -/

/-- What the external ray caster reports for a hit, as `Scene::Intersect` reads it from the
`RTCRay`: the primitive the geometry id maps to, the face `primID`, the distance `tfar` and the
barycentric coordinates `u`, `v`. -/
structure RayHit (K : Type) where
  primIndex : Nat
  faceIndex : Nat
  tfar : K
  u : K
  v : K
deriving DecidableEq

section IntersectionRecord

variable {K : Type} [LinearOrderedField K] [FloorRing K]

/-- The statements of the four-argument `Scene::Intersect` after a hit, from "Store
information into isect" on.  The test `std::isnan` on the shading normal is the test for the
interpolated normal of length zero, the one case in which `glm::normalize` divides by zero. -/
def Scene.storeIntersection (m : MathFns K) (scene : Scene K) (ray : Ray K) (hit : RayHit K)
    (isect : Intersection K) : Intersection K :=
  let prim := scene.Primitives.getD hit.primIndex Primitive.init
  let mesh := derefMesh prim.MeshRef
  let p := ray.o + ray.d.scale hit.tfar
  let v1 := mesh.Faces.getD (3 * hit.faceIndex) 0
  let v2 := mesh.Faces.getD (3 * hit.faceIndex + 1) 0
  let v3 := mesh.Faces.getD (3 * hit.faceIndex + 2) 0
  let p1 := fetchVec3 mesh.Positions v1
  let p2 := fetchVec3 mesh.Positions v2
  let p3 := fetchVec3 mesh.Positions v3
  let gn := m.normalize (Vec3.cross (p2 - p1) (p3 - p1))
  let n1 := fetchVec3 mesh.Normals v1
  let n2 := fetchVec3 mesh.Normals v2
  let n3 := fetchVec3 mesh.Normals v3
  let N := n1.scale (1 - hit.u - hit.v) + n2.scale hit.u + n3.scale hit.v
  let sn := if Vec3.dot N N = 0 then gn else m.normalize N
  let uv :=
    if mesh.Texcoords.isEmpty then isect.geom.uv
    else
      (fetchVec2 mesh.Texcoords v1).scale (1 - hit.u - hit.v)
        + (fetchVec2 mesh.Texcoords v2).scale hit.u + (fetchVec2 mesh.Texcoords v3).scale hit.v
  let geom := SurfaceGeometry.ComputeTangentSpace m
    { isect.geom with p := p, gn := gn, sn := sn, uv := uv, degenerated := false }
  let NLen := m.length N
  let dNdu := (n2 - n1).divScalar NLen
  let dNdv := (n3 - n2).divScalar NLen
  { geom := { geom with
      dndu := dNdu - geom.sn.scale (Vec3.dot dNdu geom.sn)
      dndv := dNdv - geom.sn.scale (Vec3.dot dNdv geom.sn) }
    Prim := prim }

end IntersectionRecord

/-! ## The ratio-chain MIS weight (`bdpt.hpp`) -/

section MISWeightChain

variable {K : Type} [LinearOrderedField K] [FloorRing K]

/-- The method `Path::EvaluatePDFRatio`. -/
def Path.EvaluatePDFRatio (m : MathFns K) (path : Path K) (scene : Scene K) (i : Int) : K :=
  let n : Int := path.vertices.length
  if i = 0 then
    let x0 := path.vertexAt 0
    let x1 := path.vertexAt 1
    let G := GeometryTerm m x0.geom x1.geom
    let pAx0 := x0.primitive.EvaluatePositionPDF x0.geom true
      * scene.EvaluateEmitterPDF x0.primitive
    let pDx1x0 := x1.primitive.EvaluateDirectionPDF m x1.geom x1.type
      (if n > 2 then m.normalize ((path.vertexAt 2).geom.p - x1.geom.p) else 0)
      (m.normalize (x0.geom.p - x1.geom.p)) true
    pAx0 / pDx1x0 / G
  else if i = n - 1 then
    let xnp := path.vertexAt (n - 1)
    let xnp2 := path.vertexAt (n - 2)
    let G := GeometryTerm m xnp.geom xnp2.geom
    let pAxnp := xnp.primitive.EvaluatePositionPDF xnp.geom true
      * scene.EvaluateEmitterPDF xnp.primitive
    let pDxnp2xnp := xnp2.primitive.EvaluateDirectionPDF m xnp2.geom xnp2.type
      (if n > 2 then m.normalize ((path.vertexAt (n - 3)).geom.p - xnp2.geom.p) else 0)
      (m.normalize (xnp.geom.p - xnp2.geom.p)) true
    pDxnp2xnp * G / pAxnp
  else
    let xi := path.vertexAt i
    let xin := path.vertexAt (i + 1)
    let xip := path.vertexAt (i - 1)
    let Gxipxi := GeometryTerm m xip.geom xi.geom
    let Gxinxi := GeometryTerm m xin.geom xi.geom
    let pDxipxi := xip.primitive.EvaluateDirectionPDF m xip.geom xip.type
      (if i - 2 ≥ 0 then m.normalize ((path.vertexAt (i - 2)).geom.p - xip.geom.p) else 0)
      (m.normalize (xi.geom.p - xip.geom.p)) true
    let pDxinxi := xin.primitive.EvaluateDirectionPDF m xin.geom xin.type
      (if i + 2 < n then m.normalize ((path.vertexAt (i + 2)).geom.p - xin.geom.p) else 0)
      (m.normalize (xi.geom.p - xin.geom.p)) true
    pDxipxi * Gxipxi / pDxinxi / Gxinxi

/-- The variables of the two loops of `Path::EvaluateMISWeight`; `stopped` records that the
loop has left by `break`. -/
structure MISChainState (K : Type) where
  piDivps : K
  prevPDFIsZero : Bool
  invWeight : K
  stopped : Bool

/-- The method `Path::EvaluateMISWeight`. -/
def Path.EvaluateMISWeight (m : MathFns K) (path : Path K) (scene : Scene K) (s : Int) : K :=
  let invWeight : K := 1
  let n : Int := path.vertices.length
  let ps := path.EvaluatePDF m scene s
  let st : MISChainState K := ⟨1, false, invWeight, false⟩
  let st := forDown (s - 1) 0 (fun i (st : MISChainState K) =>
    if st.stopped then st
    else if path.EvaluateCst m i = 0 then { st with prevPDFIsZero := true }
    else if st.prevPDFIsZero then
      let piDivps := path.EvaluatePDF m scene i / ps
      ⟨piDivps, false, st.invWeight + piDivps * piDivps, false⟩
    else
      let ratio := path.EvaluatePDFRatio m scene i
      if ratio = 0 then { st with stopped := true }
      else
        let piDivps := st.piDivps * (1 / ratio)
        ⟨piDivps, false, st.invWeight + piDivps * piDivps, false⟩) st
  let st : MISChainState K := ⟨1, false, st.invWeight, false⟩
  let st := forUp s n (fun i (st : MISChainState K) =>
    if st.stopped then st
    else if path.EvaluateCst m (i + 1) = 0 then { st with prevPDFIsZero := true }
    else if st.prevPDFIsZero then
      let piDivps := path.EvaluatePDF m scene i / ps
      ⟨piDivps, false, st.invWeight + piDivps * piDivps, false⟩
    else
      let ratio := path.EvaluatePDFRatio m scene i
      if ratio = 0 then { st with stopped := true }
      else
        let piDivps := st.piDivps * ratio
        ⟨piDivps, false, st.invWeight + piDivps * piDivps, false⟩) st
  1 / st.invWeight

end MISWeightChain

/-! ## Manifold walks (`nanogi.cpp`): small matrices, the constraint Jacobian, the solver -/

/-- Column-major 2×2 matrix, `glm::dmat2`: `c0`, `c1` are its columns. -/
@[ext]
structure Mat2 (K : Type) where
  c0 : Vec2 K
  c1 : Vec2 K
deriving DecidableEq

/-- Matrix of two columns and three rows, `glm::dmat2x3`. -/
structure Mat2x3 (K : Type) where
  c0 : Vec3 K
  c1 : Vec3 K
deriving DecidableEq

/-- Matrix of three columns and two rows, `glm::dmat3x2`. -/
structure Mat3x2 (K : Type) where
  c0 : Vec2 K
  c1 : Vec2 K
  c2 : Vec2 K
deriving DecidableEq

/-- The record `VertexConstraintJacobian`. -/
structure VertexConstraintJacobian (K : Type) where
  A : Mat2 K
  B : Mat2 K
  C : Mat2 K
deriving DecidableEq

/-- The matrix functions of the linear algebra library the renderer calls: `inverse n a` is
`a.inverse()` for a dynamic matrix `a` of `n` rows and `n` columns, given by its entries. -/
structure EigenFns (K : Type) where
  inverse : Nat → (Nat → Nat → K) → Nat → Nat → K

section SmallMatrices

variable {K : Type} [LinearOrderedField K] [FloorRing K]

instance : Mul (Vec2 K) := ⟨fun a b => ⟨a.x * b.x, a.y * b.y⟩⟩

/-- The constructor `glm::dmat2(a, b, c, d)`: the columns `(a, b)` and `(c, d)`. -/
def Mat2.ofEntries (a b c d : K) : Mat2 K := ⟨⟨a, b⟩, ⟨c, d⟩⟩

/-- The identity matrix, the value of the entries of a vector of `glm::dmat2` that are
assigned before they are read. -/
def Mat2.identity : Mat2 K := ⟨⟨1, 0⟩, ⟨0, 1⟩⟩

/-- Matrix times column vector, `m * v`. -/
def Mat2.mulVec (m : Mat2 K) (v : Vec2 K) : Vec2 K :=
  ⟨m.c0.x * v.x + m.c1.x * v.y, m.c0.y * v.x + m.c1.y * v.y⟩

/-- Matrix product, `a * b`. -/
def Mat2.mul (a b : Mat2 K) : Mat2 K := ⟨a.mulVec b.c0, a.mulVec b.c1⟩

instance : Sub (Mat2 K) := ⟨fun a b => ⟨a.c0 - b.c0, a.c1 - b.c1⟩⟩

/-- The function `glm::determinant` on `dmat2`. -/
def Mat2.determinant (m : Mat2 K) : K := m.c0.x * m.c1.y - m.c1.x * m.c0.y

/-- The function `glm::inverse` on `dmat2`. -/
def Mat2.inverse (m : Mat2 K) : Mat2 K :=
  let OneOverDeterminant := 1 / (m.c0.x * m.c1.y - m.c1.x * m.c0.y)
  Mat2.ofEntries (m.c1.y * OneOverDeterminant) (-m.c0.y * OneOverDeterminant)
    (-m.c1.x * OneOverDeterminant) (m.c0.x * OneOverDeterminant)

/-- The function `glm::transpose` on `dmat2x3`. -/
def Mat2x3.transpose (m : Mat2x3 K) : Mat3x2 K :=
  ⟨⟨m.c0.x, m.c1.x⟩, ⟨m.c0.y, m.c1.y⟩, ⟨m.c0.z, m.c1.z⟩⟩

/-- The product `m * v` of a `dmat2x3` and a `dvec2`. -/
def Mat2x3.mulVec (m : Mat2x3 K) (v : Vec2 K) : Vec3 K := m.c0.scale v.x + m.c1.scale v.y

/-- The product `a * b` of a `dmat2` and a `dmat3x2`. -/
def Mat2.mul3x2 (a : Mat2 K) (b : Mat3x2 K) : Mat3x2 K :=
  ⟨a.mulVec b.c0, a.mulVec b.c1, a.mulVec b.c2⟩

/-- The product `m * v` of a `dmat3x2` and a `dvec3`. -/
def Mat3x2.mulVec (m : Mat3x2 K) (v : Vec3 K) : Vec2 K :=
  m.c0.scale v.x + m.c1.scale v.y + m.c2.scale v.z

/-- The value of an entry of a `ConstraintJacobian` before it is assigned. -/
def VertexConstraintJacobian.init : VertexConstraintJacobian K :=
  ⟨Mat2.identity, Mat2.identity, Mat2.identity⟩

/-- The body of the loop of `Renderer::ComputeConstraintJacobian` for the vertex `i`: the
blocks written to `nablaC[i - 1]`. -/
def constraintJacobianAt (m : MathFns K) (path : Path K) (i : Int) :
    VertexConstraintJacobian K :=
  let x := (path.vertexAt i).geom
  let xp := (path.vertexAt (i - 1)).geom
  let xn := (path.vertexAt (i + 1)).geom
  let wi := m.normalize (xp.p - x.p)
  let wo := m.normalize (xn.p - x.p)
  let H := m.normalize (wi + wo)
  let inv_wiL := 1 / m.length (xp.p - x.p)
  let inv_woL := 1 / m.length (xn.p - x.p)
  let inv_HL := 1 / m.length (wi + wo)
  let dot_H_n := Vec3.dot x.sn H
  let dot_H_dndu := Vec3.dot x.dndu H
  let dot_H_dndv := Vec3.dot x.dndv H
  let dot_u_n := Vec3.dot x.dpdu x.sn
  let dot_v_n := Vec3.dot x.dpdv x.sn
  let s := x.dpdu - x.sn.scale dot_u_n
  let t := x.dpdv - x.sn.scale dot_v_n
  let div_inv_wiL_HL := inv_wiL * inv_HL
  let div_inv_woL_HL := inv_woL * inv_HL
  let A :=
    let tu := (xp.dpdu - wi.scale (Vec3.dot wi xp.dpdu)).scale div_inv_wiL_HL
    let tv := (xp.dpdv - wi.scale (Vec3.dot wi xp.dpdv)).scale div_inv_wiL_HL
    let dHdu := tu - H.scale (Vec3.dot tu H)
    let dHdv := tv - H.scale (Vec3.dot tv H)
    Mat2.ofEntries (Vec3.dot dHdu s) (Vec3.dot dHdu t) (Vec3.dot dHdv s) (Vec3.dot dHdv t)
  let B :=
    let tu := (-x.dpdu).scale (div_inv_wiL_HL + div_inv_woL_HL)
      + wi.scale (Vec3.dot wi x.dpdu * div_inv_wiL_HL)
      + wo.scale (Vec3.dot wo x.dpdu * div_inv_woL_HL)
    let tv := (-x.dpdv).scale (div_inv_wiL_HL + div_inv_woL_HL)
      + wi.scale (Vec3.dot wi x.dpdv * div_inv_wiL_HL)
      + wo.scale (Vec3.dot wo x.dpdv * div_inv_woL_HL)
    let dHdu := tu - H.scale (Vec3.dot tu H)
    let dHdv := tv - H.scale (Vec3.dot tv H)
    Mat2.ofEntries
      (Vec3.dot dHdu s - Vec3.dot x.dpdu x.dndu * dot_H_n - dot_u_n * dot_H_dndu)
      (Vec3.dot dHdu t - Vec3.dot x.dpdv x.dndu * dot_H_n - dot_v_n * dot_H_dndu)
      (Vec3.dot dHdv s - Vec3.dot x.dpdu x.dndv * dot_H_n - dot_u_n * dot_H_dndv)
      (Vec3.dot dHdv t - Vec3.dot x.dpdv x.dndv * dot_H_n - dot_v_n * dot_H_dndv)
  let C :=
    let tu := (xn.dpdu - wo.scale (Vec3.dot wo xn.dpdu)).scale div_inv_woL_HL
    let tv := (xn.dpdv - wo.scale (Vec3.dot wo xn.dpdv)).scale div_inv_woL_HL
    let dHdu := tu - H.scale (Vec3.dot tu H)
    let dHdv := tv - H.scale (Vec3.dot tv H)
    Mat2.ofEntries (Vec3.dot dHdu s) (Vec3.dot dHdu t) (Vec3.dot dHdv s) (Vec3.dot dHdv t)
  ⟨A, B, C⟩

/-- The method `Renderer::ComputeConstraintJacobian` on a `nablaC` of `n - 2` entries: entry
`i - 1` is written by the loop iteration `i`, for `i = 1, …, n - 2`. -/
def ComputeConstraintJacobian (m : MathFns K) (path : Path K) :
    List (VertexConstraintJacobian K) :=
  let n : Int := path.vertices.length
  forUp 1 (n - 1) (fun i nablaC => nablaC.set (i - 1).toNat (constraintJacobianAt m path i))
    (List.replicate (n - 2).toNat VertexConstraintJacobian.init)

/-- The assignment `A(r, c) = v` to an entry of a dynamic matrix. -/
def setEntry (A : Nat → Nat → K) (r c : Int) (v : K) : Nat → Nat → K :=
  fun r2 c2 => if (r2 : Int) = r ∧ (c2 : Int) = c then v else A r2 c2

/-- The access `m[c][r]` to column `c`, row `r` of a `glm::dmat2`. -/
def Mat2.at (m : Mat2 K) (c r : Nat) : K :=
  if c = 0 then (if r = 0 then m.c0.x else m.c0.y) else (if r = 0 then m.c1.x else m.c1.y)

/-- The matrix `A` that `Renderer::ComputeConstraintJacobianDeterminant` assembles. -/
def assembleConstraintMatrix (nablaC : List (VertexConstraintJacobian K)) : Nat → Nat → K :=
  let n : Int := nablaC.length
  forUp 0 n (fun i A =>
    let cur := nablaC.getD i.toNat VertexConstraintJacobian.init
    let A :=
      if i > 0 then
        let A := setEntry A (2 * i + 0) (2 * (i - 1) + 0) (cur.A.at 0 0)
        let A := setEntry A (2 * i + 0) (2 * (i - 1) + 1) (cur.A.at 1 0)
        let A := setEntry A (2 * i + 1) (2 * (i - 1) + 0) (cur.A.at 0 1)
        setEntry A (2 * i + 1) (2 * (i - 1) + 1) (cur.A.at 1 1)
      else A
    let A := setEntry A (2 * i + 0) (2 * i + 0) (cur.B.at 0 0)
    let A := setEntry A (2 * i + 0) (2 * i + 1) (cur.B.at 1 0)
    let A := setEntry A (2 * i + 1) (2 * i + 0) (cur.B.at 0 1)
    let A := setEntry A (2 * i + 1) (2 * i + 1) (cur.B.at 1 1)
    if i < n - 1 then
      let nxt := nablaC.getD (i + 1).toNat VertexConstraintJacobian.init
      let A := setEntry A (2 * i + 0) (2 * (i + 1) + 0) (nxt.C.at 0 0)
      let A := setEntry A (2 * i + 0) (2 * (i + 1) + 1) (nxt.C.at 1 0)
      let A := setEntry A (2 * i + 1) (2 * (i + 1) + 0) (nxt.C.at 0 1)
      setEntry A (2 * i + 1) (2 * (i + 1) + 1) (nxt.C.at 1 1)
    else A) (fun _ _ => 0)

/-- The method `Renderer::ComputeConstraintJacobianDeterminant`. -/
def ComputeConstraintJacobianDeterminant (eig : EigenFns K)
    (nablaC : List (VertexConstraintJacobian K)) : K :=
  let n := nablaC.length
  let A := assembleConstraintMatrix nablaC
  let invA := eig.inverse (2 * n) A
  let Bn_n1p := (nablaC.getD (n - 1) VertexConstraintJacobian.init).C
  let invA_0_n1p : Mat2 K :=
    ⟨⟨invA 0 (2 * n - 2), invA 1 (2 * n - 2)⟩, ⟨invA 0 (2 * n - 1), invA 1 (2 * n - 1)⟩⟩
  (invA_0_n1p.mul Bn_n1p).determinant

/-- The region "Compute Jacobian" of `Renderer::ProcessSample_PTMNEE`: the factor `J`. -/
def mneeJacobian (m : MathFns K) (eig : EigenFns K) (optPath : Path K) : K :=
  let J : K := 1
  let nablaC := ComputeConstraintJacobian m optPath
  let Det := ComputeConstraintJacobianDeterminant eig nablaC
  let J := J * Det
  let G := GeometryTerm m (optPath.vertexAt 0).geom (optPath.vertexAt 1).geom
  J * G

end SmallMatrices

section BlockSolver

variable {K : Type} [LinearOrderedField K]

/-- The region "LU decomposition" of `Renderer::SolveBlockLinearEq`: the vectors `L` and `U`. -/
def SolveBlockLinearEq.LU (nablaC : List (VertexConstraintJacobian K)) :
    List (Mat2 K) × List (Mat2 K) :=
  let n : Int := nablaC.length
  let at_ := fun (i : Int) => nablaC.getD i.toNat VertexConstraintJacobian.init
  let L : List (Mat2 K) := List.replicate n.toNat Mat2.identity
  let U : List (Mat2 K) := List.replicate n.toNat Mat2.identity
  let U := U.set 0 (at_ 0).B
  forUp 1 n (fun i (LU : List (Mat2 K) × List (Mat2 K)) =>
    let L := LU.1.set i.toNat ((at_ i).A.mul (LU.2.getD (i - 1).toNat Mat2.identity).inverse)
    let U := LU.2.set i.toNat
      ((at_ i).B - (L.getD i.toNat Mat2.identity).mul (at_ (i - 1)).C)
    (L, U)) (L, U)

/-- The region "Forward substitution" of `Renderer::SolveBlockLinearEq`: the vector `Vp`. -/
def SolveBlockLinearEq.forward (L : List (Mat2 K)) (V : List (Vec2 K)) (n : Int) :
    List (Vec2 K) :=
  let Vp : List (Vec2 K) := List.replicate n.toNat 0
  let Vp := Vp.set 0 (V.getD 0 0)
  forUp 1 n (fun i Vp =>
    Vp.set i.toNat
      (V.getD i.toNat 0 - (L.getD i.toNat Mat2.identity).mulVec (Vp.getD (i - 1).toNat 0))) Vp

/-- The method `Renderer::SolveBlockLinearEq`: the vector `W` it leaves in its output
argument. -/
def SolveBlockLinearEq (nablaC : List (VertexConstraintJacobian K)) (V : List (Vec2 K)) :
    List (Vec2 K) :=
  let n : Int := nablaC.length
  let LU := SolveBlockLinearEq.LU nablaC
  let L := LU.1
  let U := LU.2
  let Vp := SolveBlockLinearEq.forward L V n
  let W : List (Vec2 K) := List.replicate n.toNat 0
  let W := W.set (n - 1).toNat
    ((U.getD (n - 1).toNat Mat2.identity).inverse.mulVec (Vp.getD (n - 1).toNat 0))
  forDown (n - 2) 0 (fun i W =>
    W.set i.toNat
      ((U.getD i.toNat Mat2.identity).inverse.mulVec
        (Vp.getD i.toNat 0 - V.getD i.toNat 0 * W.getD (i + 1).toNat 0))) W

end BlockSolver

section ManifoldWalk

variable {K : Type} [LinearOrderedField K]

/-- The product `c * m` of a scalar and a `dmat2x3`. -/
def Mat2x3.scale (c : K) (m : Mat2x3 K) : Mat2x3 K := ⟨m.c0.scale c, m.c1.scale c⟩

/-- The variables of the optimisation loop of `Renderer::WalkManifold` that change from one
iteration to the next. -/
structure WalkState (K : Type) where
  beta : K
  currPath : Path K

/-- The constant `MaxBeta` of `Renderer::WalkManifold`. -/
def WalkManifold.MaxBeta : K := 100

/-- The constant `Eps` of `Renderer::WalkManifold`, written `10e-5` in the source. -/
def WalkManifold.Eps : K := 10 / 100000

/-- The constant `MaxIter` of `Renderer::WalkManifold`. -/
def WalkManifold.MaxIter : Int := 30

/-- The length `L` computed in the region "Preprocess" of `Renderer::WalkManifold`. -/
def WalkManifold.maxNorm (m : MathFns K) (currPath : Path K) : K :=
  currPath.vertices.foldl (fun L x => max L (m.length x.geom.p)) 0

/-- The region "Compute movement in tangement plane" of `Renderer::WalkManifold`: the new
position `p` of the first specular vertex. -/
def WalkManifold.movement (nablaC : List (VertexConstraintJacobian K))
    (currPath : Path K) (target : Vec3 K) (beta : K) (n : Int) : Vec3 K :=
  let xn := (currPath.vertexAt (n - 1)).geom.p
  let xnp := target
  let TxnT := (Mat2x3.mk (currPath.vertexAt (n - 1)).geom.dpdu
    (currPath.vertexAt (n - 1)).geom.dpdv).transpose
  let Bn_n2p := (nablaC.getD (n - 3).toNat VertexConstraintJacobian.init).C
  let V_n2p := (Bn_n2p.mul3x2 TxnT).mulVec (xnp - xn)
  let V : List (Vec2 K) := List.replicate (n - 2).toNat 0
  let V := forUp 0 (n - 2) (fun i V => V.set i.toNat (if i = n - 3 then V_n2p else 0)) V
  let W := SolveBlockLinearEq nablaC V
  let x2 := (currPath.vertexAt 1).geom.p
  let Tx2 := Mat2x3.mk (currPath.vertexAt 1).geom.dpdu (currPath.vertexAt 1).geom.dpdv
  let Wn2p := W.getD (n - 3).toNat 0
  x2 - (Mat2x3.scale beta Tx2).mulVec Wn2p

/-- The loop of the region "Propagate light path" of `Renderer::WalkManifold`, as the pair of
`fail` and `nextPath`; the loop leaves by `break` exactly when it has set `fail`, so an
iteration that finds `fail` set does nothing. -/
def WalkManifold.propagate (m : MathFns K) (scene : Scene K) (currPath : Path K) (p : Vec3 K)
    (n : Int) : Bool × Path K :=
  let nextPath : Path K := ⟨[currPath.vertexAt 0]⟩
  forUp 0 (n - 1) (fun i (st : Bool × Path K) =>
    if st.1 then st
    else
      let nextPath := st.2
      let v := nextPath.vertexAt i
      let vp := nextPath.vertexAt (i - 1)
      let wo :=
        if i = 0 then m.normalize (p - (currPath.vertexAt 0).geom.p)
        else v.primitive.SampleDirection m 0 0 v.type v.geom (m.normalize (vp.geom.p - v.geom.p)) 0
      let ray : Ray K := ⟨v.geom.p, wo⟩
      match scene.Intersect ray with
      | none => (true, nextPath)
      | some isect =>
        if i < n - 2 ∧ (isect.Prim.Type_ &&& PrimitiveType.S) = 0 then (true, nextPath)
        else (false, ⟨nextPath.vertices ++ [⟨isect.Prim.Type_, isect.geom, isect.Prim⟩]⟩))
    (false, nextPath)

/-- The body of the optimisation loop of `Renderer::WalkManifold` after the stop condition:
the movement, the propagation, the acceptance test and the update of `beta` and `currPath`. -/
def WalkManifold.step (m : MathFns K) (scene : Scene K)
    (nablaC : List (VertexConstraintJacobian K)) (target : Vec3 K) (n : Int)
    (st : WalkState K) : WalkState K :=
  let beta := st.beta
  let currPath := st.currPath
  let p := WalkManifold.movement nablaC currPath target beta n
  let pr := WalkManifold.propagate m scene currPath p n
  let fail := pr.1
  let nextPath := pr.2
  let fail :=
    if !fail then
      if nextPath.vertices.length ≠ currPath.vertices.length then true
      else if ((nextPath.vertexAt ((nextPath.vertices.length : Int) - 1)).type
          &&& PrimitiveType.D) = 0 then true
      else
        let dv := (currPath.vertexAt ((currPath.vertices.length : Int) - 1)).geom.p - target
        let dnv := (nextPath.vertexAt ((nextPath.vertices.length : Int) - 1)).geom.p - target
        let d := Vec3.dot dv dv
        let dn := Vec3.dot dnv dnv
        if dn ≥ d then true else fail
    else fail
  if fail then ⟨beta * (1 / 2), currPath⟩
  else ⟨min WalkManifold.MaxBeta (beta * (17 / 10)), nextPath⟩

/-- The optimisation loop of `Renderer::WalkManifold`, `while (true)`, run for at most `fuel`
entries; the result is the pair of `converged` and `currPath` at the `break`, and `none` when
the fuel runs out first. -/
def WalkManifold.loop (m : MathFns K) (scene : Scene K)
    (nablaC : List (VertexConstraintJacobian K)) (target : Vec3 K) (n : Int) (L : K) :
    Nat → Int → WalkState K → Option (Bool × Path K)
  | 0, _, _ => none
  | fuel + 1, iter, st =>
    if iter ≥ WalkManifold.MaxIter then some (false, st.currPath)
    else if m.length ((st.currPath.vertexAt (n - 1)).geom.p - target) < WalkManifold.Eps * L then
      some (true, st.currPath)
    else
      WalkManifold.loop m scene nablaC target n L fuel (iter + 1)
        (WalkManifold.step m scene nablaC target n st)

/-- The method `Renderer::WalkManifold`: the returned flag and the path left in `outPath`. -/
def WalkManifold (m : MathFns K) (scene : Scene K) (seedPath : Path K) (target : Vec3 K)
    (fuel : Nat) : Option (Bool × Path K) :=
  let n : Int := seedPath.vertices.length
  let currPath := seedPath
  let nablaC := ComputeConstraintJacobian m currPath
  let L := WalkManifold.maxNorm m currPath
  WalkManifold.loop m scene nablaC target n L fuel 0 ⟨WalkManifold.MaxBeta, currPath⟩

end ManifoldWalk

/-! ## The render loop (`nanogi.cpp`) -/

/-- The fields of `Renderer` and `Renderer::Params` that `Renderer::RenderProcess` reads,
besides the film size. -/
structure RenderSettings (K : Type) where
  NumSamples : Int
  RenderTime : K
  GrainSize : Int
  ProgressUpdateInterval : Int

/-- The fields `id` and `processedSamples` of the record `Renderer::Context`, next to the
generator and the film that the integrators use. -/
structure ThreadContext (K : Type) where
  id : Int
  processedSamples : Int
  ctx : Context K

/-- One call of the body of `tbb::parallel_for`: the worker thread that runs it and the
bounds `range.begin()` and `range.end()` of its subrange. -/
structure Grain where
  thread : Nat
  begin_ : Int
  end_ : Int
deriving DecidableEq

/-- What `Renderer::RenderProcess` takes from outside: `NextUInt k` is the value of the call
number `k` of `initRng.NextUInt()`, `SetSeed s` is a generator after `SetSeed(s)`, and
`elapsed k` is the time in seconds since the start at the clock reading number `k` of the
region "Check termination". -/
structure RenderEnv (K : Type) where
  NextUInt : Nat → Nat
  SetSeed : Nat → Random K
  elapsed : Nat → K

/-- The variables shared by the calls of the parallel loop body: the thread-specific
contexts (`contexts`, with the threads that own one in creation order), `currentThreadID`,
the number of values drawn from `initRng`, the atomic counter `processedSamples`, the flag
`done`, and the number of clock readings. -/
structure RenderState (K : Type) where
  contexts : Nat → ThreadContext K
  created : List Nat
  currentThreadID : Int
  drawn : Nat
  processedSamples : Int
  done : Bool
  clockReads : Nat

section RenderLoop

variable {K : Type} [LinearOrderedField K]

/-- A default-constructed `Renderer::Context`: `id = -1`, `processedSamples = 0`, an empty
film. -/
def ThreadContext.init : ThreadContext K := ⟨-1, 0, ⟨⟨fun _ => 0, 0⟩, []⟩⟩

/-- The helper `ProcessProgress` of `Renderer::RenderProcess` applied to the context of the
thread `t`, without its log output. -/
def ProcessProgress (st : RenderState K) (t : Nat) : RenderState K :=
  let ctx := st.contexts t
  { st with
    processedSamples := st.processedSamples + ctx.processedSamples
    contexts := Function.update st.contexts t { ctx with processedSamples := 0 } }

/-- One iteration of the region "Sample loop" of `Renderer::RenderProcess` on the thread
`t`. -/
def RenderProcess.sample (rs : RenderSettings K) (processSampleFunc : Context K → Context K)
    (t : Nat) (st : RenderState K) : RenderState K :=
  let ctx := st.contexts t
  let ctx := { ctx with ctx := processSampleFunc ctx.ctx }
  let ctx := { ctx with processedSamples := ctx.processedSamples + 1 }
  let st := { st with contexts := Function.update st.contexts t ctx }
  if ctx.processedSamples > rs.ProgressUpdateInterval then ProcessProgress st t else st

/-- The body of the parallel loop of `Renderer::RenderProcess` on one grain. The sample loop
`for (sample = range.begin(); sample != range.end(); sample++)` runs `end - begin` times for
the ranges with `begin ≤ end` that `tbb::blocked_range` hands out. -/
def RenderProcess.grain (env : RenderEnv K) (rs : RenderSettings K) (params : RendererParams)
    (processSampleFunc : Context K → Context K) (g : Grain) (st : RenderState K) :
    RenderState K :=
  if st.done then st
  else
    let ctx := st.contexts g.thread
    let st := { st with
      created := if g.thread ∈ st.created then st.created else st.created ++ [g.thread] }
    let st :=
      if ctx.id < 0 then
        { st with
          contexts := Function.update st.contexts g.thread
            { ctx with
              id := st.currentThreadID
              ctx := ⟨env.SetSeed (env.NextUInt st.drawn),
                List.replicate (params.Width * params.Height).toNat 0⟩ }
          currentThreadID := st.currentThreadID + 1
          drawn := st.drawn + 1 }
      else st
    let st := forUp g.begin_ g.end_
      (fun _ st => RenderProcess.sample rs processSampleFunc g.thread st) st
    if rs.RenderTime > 0 then
      let elapsed := env.elapsed st.clockReads
      let st := { st with clockReads := st.clockReads + 1 }
      if elapsed > rs.RenderTime then { st with done := true } else st
    else st

/-- One pass of the `while (true)` loop of `Renderer::RenderProcess` up to its exit
condition, for the grains of the parallel loop in the order `schedule` in which they run:
the parallel loop and the region "Add remaining processed samples". The region "Progress
update of intermediate image" is left out: it writes a file and `film`, which the final
gather assigns anew. -/
def RenderProcess.pass (env : RenderEnv K) (rs : RenderSettings K) (params : RendererParams)
    (processSampleFunc : Context K → Context K) (schedule : List Grain) (st : RenderState K) :
    RenderState K :=
  let st := { st with done := false }
  let st := schedule.foldl (fun st g => RenderProcess.grain env rs params processSampleFunc g st) st
  st.created.foldl (fun st t => ProcessProgress st t) st

/-- The `while (true)` loop of `Renderer::RenderProcess`: each pass takes the next schedule of
`schedules`; the result is `none` when the schedules run out before the exit condition
holds. -/
def RenderProcess.loop (env : RenderEnv K) (rs : RenderSettings K) (params : RendererParams)
    (processSampleFunc : Context K → Context K) :
    List (List Grain) → RenderState K → Option (RenderState K)
  | [], _ => none
  | schedule :: rest, st =>
    let st := RenderProcess.pass env rs params processSampleFunc schedule st
    if rs.RenderTime < 0 ∨ st.done then some st
    else RenderProcess.loop env rs params processSampleFunc rest st

/-- The local constant `NumSamples` of `Renderer::RenderProcess`, the end of the range that
the parallel loop splits into grains. -/
def RenderProcess.NumSamples (rs : RenderSettings K) : Int :=
  if rs.RenderTime < 0 then rs.NumSamples else rs.GrainSize * 1000

/-- The call of `std::transform` in the gather: `film[i] = film[i] + ctxFilm[i]` for every
index of `film`. -/
def addFilm (film ctxFilm : List (Vec3 K)) : List (Vec3 K) :=
  (List.range film.length).map (fun i => film.getD i 0 + ctxFilm.getD i 0)

/-- The region "Gather film data" of `Renderer::RenderProcess`. -/
def RenderProcess.gather (params : RendererParams) (st : RenderState K) : List (Vec3 K) :=
  let film : List (Vec3 K) := List.replicate (params.Width * params.Height).toNat 0
  let film := st.created.foldl (fun film t => addFilm film (st.contexts t).ctx.film) film
  film.map (fun v =>
    v.scale ((((params.Width * params.Height : Int) : K)) / ((st.processedSamples : Int) : K)))

/-- The method `Renderer::RenderProcess`: the film it leaves in its output argument, and the
final values of its shared variables. -/
def RenderProcess (env : RenderEnv K) (rs : RenderSettings K) (params : RendererParams)
    (processSampleFunc : Context K → Context K) (schedules : List (List Grain)) :
    Option (List (Vec3 K) × RenderState K) :=
  let st : RenderState K :=
    { contexts := fun _ => ThreadContext.init, created := [], currentThreadID := 0, drawn := 0,
      processedSamples := 0, done := false, clockReads := 0 }
  match RenderProcess.loop env rs params processSampleFunc schedules st with
  | none => none
  | some st => some (RenderProcess.gather params st, st)

end RenderLoop

/-! ## Predicates and example inputs used by the theorems -/

section Predicates

variable {K : Type} [LinearOrderedField K] [FloorRing K]

/-- The frame of the geometry is the one `ComputeTangentSpace` stores: `ToWorld` has the
columns `dpdu`, `dpdv`, `sn` and `ToLocal` is its transpose. -/
def SurfaceGeometry.FrameConsistent (g : SurfaceGeometry K) : Prop :=
  g.ToWorld = ⟨g.dpdu, g.dpdv, g.sn⟩ ∧ g.ToLocal = g.ToWorld.transpose

/-- The data-model invariant of a surface geometry: `{dpdu, dpdv, sn}` is orthonormal. -/
def SurfaceGeometry.Orthonormal (g : SurfaceGeometry K) : Prop :=
  Vec3.dot g.dpdu g.dpdu = 1 ∧ Vec3.dot g.dpdv g.dpdv = 1 ∧ Vec3.dot g.sn g.sn = 1 ∧
  Vec3.dot g.dpdu g.dpdv = 0 ∧ Vec3.dot g.dpdu g.sn = 0 ∧ Vec3.dot g.dpdv g.sn = 0

/-- The invariant of the cumulative array while weights are added: it is not empty, starts
with `0`, ends with the sum `S` of the weights, and does not decrease. -/
def CdfInv (cdf : List K) (S : K) : Prop :=
  cdf ≠ [] ∧ cdf.getD 0 0 = 0 ∧ cdf.getLastD 0 = S
  ∧ ∀ i j, i ≤ j → j < cdf.length → cdf.getD i 0 ≤ cdf.getD j 0

/-- The typing of a subpath: its first vertex has type `ty0` and no later vertex has an
emitter bit (`L` or `E`) in its type. -/
def SubpathTyped (ty0 : Nat) : List (PathVertex K) → Prop
  | [] => True
  | v :: rest => v.type = ty0 ∧ ∀ w ∈ rest, w.type &&& PrimitiveType.Emitter = 0

/-- The ratio `eta = etaI / etaT` formed in the S branches of `Primitive::EvaluateDirection` for
the incident direction `w`: the two indices are swapped when `w` is below the surface. -/
def relativeEta (p : SDielectricParams K) (geom : SurfaceGeometry K) (w : Vec3 K) : K :=
  (if LocalCos (geom.ToLocal.mulVec w) < 0 then p.Eta2 else p.Eta1)
    / (if LocalCos (geom.ToLocal.mulVec w) < 0 then p.Eta1 else p.Eta2)

/-- The Fresnel term `Fr` the S-Fresnel branch of `Primitive::EvaluateDirection` computes for
the incident direction `w`. -/
def fresnelTermAt (m : MathFns K) (p : SDielectricParams K) (geom : SurfaceGeometry K)
    (w : Vec3 K) : K :=
  Primitive.EvaluateFresnelTerm m (geom.ToLocal.mulVec w)
    (if LocalCos (geom.ToLocal.mulVec w) < 0 then p.Eta2 else p.Eta1)
    (if LocalCos (geom.ToLocal.mulVec w) < 0 then p.Eta1 else p.Eta2)

/-- The left side `fs(wi→wo | EL) · |wo·sn| / |wo·gn|` of the adjoint relation. -/
def adjointSideEL (m : MathFns K) (prim : Primitive K) (geom : SurfaceGeometry K) (q : Nat)
    (wi wo : Vec3 K) (fd : Bool) : Vec3 K :=
  (prim.EvaluateDirection m geom q wi wo TransportDirection.EL fd).scale
    (|Vec3.dot wo geom.sn| / |Vec3.dot wo geom.gn|)

/-- The right side `fs(wo→wi | LE) · |wi·sn| / |wi·gn|` of the adjoint relation. -/
def adjointSideLE (m : MathFns K) (prim : Primitive K) (geom : SurfaceGeometry K) (q : Nat)
    (wi wo : Vec3 K) (fd : Bool) : Vec3 K :=
  (prim.EvaluateDirection m geom q wo wi TransportDirection.LE fd).scale
    (|Vec3.dot wi geom.sn| / |Vec3.dot wi geom.gn|)

/-- The value `m.sqrt x` is the non-negative square root of `x`. -/
def MathFns.SqrtAt (m : MathFns K) (x : K) : Prop := 0 ≤ m.sqrt x ∧ m.sqrt x * m.sqrt x = x

/-- The vector `OrthonormalBasis` normalises to get `c`. -/
def tangentSeed (a : Vec3 K) : Vec3 K :=
  if |a.x| > |a.y| then ⟨a.z, 0, -a.x⟩ else ⟨0, a.z, -a.y⟩

/-- The position of vertex `k` (`0`, `1` or `2`) of the triangle `i` of a mesh. -/
def Mesh.corner (mesh : Mesh K) (i k : Nat) : Vec3 K :=
  fetchVec3 mesh.Positions (mesh.Faces.getD (3 * i + k) 0)

/-- The primitive is an area emitter whose position sampling runs `SampleTriangleMesh` with
the distribution `dist`: an area light, or an area sensor without the `L` bit. -/
def Primitive.AreaEmitterWith (prim : Primitive K) (dist : Distribution1D K) : Prop :=
  ((prim.Type_ &&& PrimitiveType.L) > 0 ∧ prim.Params.L.Type_ = LType.Area
      ∧ prim.Params.L.Area.Dist = dist)
  ∨ (¬ (prim.Type_ &&& PrimitiveType.L) > 0 ∧ (prim.Type_ &&& PrimitiveType.E) > 0
      ∧ prim.Params.E.Type_ = EType.Area ∧ prim.Params.E.Area.Dist = dist)

/-- The direction `woEye` of `Primitive::RasterPosition`: `wo` in the eye frame of the
pinhole. -/
def Primitive.eyeDirection (prim : Primitive K) (wo : Vec3 K) : Vec3 K :=
  (Mat3.transpose ⟨prim.Params.E.Pinhole.Vx, prim.Params.E.Pinhole.Vy,
    prim.Params.E.Pinhole.Vz⟩).mulVec wo

/-- The raster position as the specification writes it:
`(½(1 − x_e/(z_e·tanFov·aspect)), ½(1 − y_e/(z_e·tanFov)))`, with `tanFov = tan(Fov/2)`. -/
def Primitive.specRasterPos (m : MathFns K) (prim : Primitive K) (wo : Vec3 K) : Vec2 K :=
  ⟨1 / 2 * (1 - (prim.eyeDirection wo).x
      / ((prim.eyeDirection wo).z * m.tan (prim.Params.E.Pinhole.Fov * (1 / 2))
          * prim.Params.E.Pinhole.Aspect)),
   1 / 2 * (1 - (prim.eyeDirection wo).y
      / ((prim.eyeDirection wo).z * m.tan (prim.Params.E.Pinhole.Fov * (1 / 2))))⟩

/-- The index of refraction `etaI` on the side of the incident direction `w`, as the S
branches of `Primitive::SampleDirection` choose it: `Eta2` when `w` is below the surface. -/
def incidentEta (p : SDielectricParams K) (geom : SurfaceGeometry K) (w : Vec3 K) : K :=
  if LocalCos (geom.ToLocal.mulVec w) < 0 then p.Eta2 else p.Eta1

/-- The index of refraction `etaT` on the far side: `Eta1` when `w` is below the surface. -/
def transmittedEta (p : SDielectricParams K) (geom : SurfaceGeometry K) (w : Vec3 K) : K :=
  if LocalCos (geom.ToLocal.mulVec w) < 0 then p.Eta1 else p.Eta2

/-- The value `cosThetaTSq = 1 - eta² (1 - wiDotN²)` of the S-refraction branch of
`Primitive::SampleDirection`, `eta = etaI / etaT`. -/
def refractionCosSq (p : SDielectricParams K) (geom : SurfaceGeometry K) (w : Vec3 K) : K :=
  1 - (incidentEta p geom w / transmittedEta p geom w)
      * (incidentEta p geom w / transmittedEta p geom w)
      * (1 - LocalCos (geom.ToLocal.mulVec w) * LocalCos (geom.ToLocal.mulVec w))

/-- At most one of the bits `bits` is set in the mask `ty`. -/
def atMostOneOf (ty : Nat) (bits : List Nat) : Prop :=
  (bits.filter fun b => (ty &&& b) > 0).length ≤ 1

/-- The normal of vertex `k` (`0`, `1` or `2`) of the triangle `i` of a mesh. -/
def Mesh.normalAt (mesh : Mesh K) (i k : Nat) : Vec3 K :=
  fetchVec3 mesh.Normals (mesh.Faces.getD (3 * i + k) 0)

/-- The interpolated normal `N(u, v) = (1 − u − v)·n1 + u·n2 + v·n3` of the specification. -/
def interpolatedNormal (n1 n2 n3 : Vec3 K) (u v : K) : Vec3 K :=
  n1.scale (1 - u - v) + n2.scale u + n3.scale v

/-- A normal derivative as the specification writes it: the partial derivative `d` of
`N(u, v)`, divided by `|N(u, v)|`, then projected perpendicular to the shading normal `sn`. -/
def specNormalDerivative (m : MathFns K) (d N sn : Vec3 K) : Vec3 K :=
  d.divScalar (m.length N) - sn.scale (Vec3.dot (d.divScalar (m.length N)) sn)

/-- The eye-space vector `Primitive::SampleDirection` normalises for a pinhole sensor and the
sample `u`: `(Aspect · tanFov · (2 u.x − 1), tanFov · (2 u.y − 1), −1)`. -/
def Primitive.eyeRay (m : MathFns K) (prim : Primitive K) (u : Vec2 K) : Vec3 K :=
  ⟨prim.Params.E.Pinhole.Aspect * m.tan (prim.Params.E.Pinhole.Fov * (1 / 2)) * (2 * u.x - 1),
    m.tan (prim.Params.E.Pinhole.Fov * (1 / 2)) * (2 * u.y - 1), -1⟩

/-- The basis `(Vx, Vy, Vz)` of a pinhole sensor is orthonormal. -/
def EPinholeParams.Orthonormal (P : EPinholeParams K) : Prop :=
  Vec3.dot P.Vx P.Vx = 1 ∧ Vec3.dot P.Vy P.Vy = 1 ∧ Vec3.dot P.Vz P.Vz = 1
  ∧ Vec3.dot P.Vx P.Vy = 0 ∧ Vec3.dot P.Vx P.Vz = 0 ∧ Vec3.dot P.Vy P.Vz = 0

/-- The left-hand side of block row `i` of the block-tridiagonal system of `nablaC` at `W`:
`A_i W_{i-1} + B_i W_i + C_i W_{i+1}`, without the terms that fall outside the system. -/
def blockRow {K : Type} [LinearOrderedField K] (nablaC : List (VertexConstraintJacobian K))
    (W : List (Vec2 K)) (i : Nat) : Vec2 K :=
  let row := nablaC.getD i VertexConstraintJacobian.init
  (if 0 < i then row.A.mulVec (W.getD (i - 1) 0) else 0) + row.B.mulVec (W.getD i 0)
    + (if i + 1 < nablaC.length then row.C.mulVec (W.getD (i + 1) 0) else 0)

/-- The variables of the optimisation loop of `WalkManifold` after `k` executions of its body
that were not cut short by a stop condition. -/
def WalkManifold.stateAt {K : Type} [LinearOrderedField K] (m : MathFns K)
    (scene : Scene K) (seedPath : Path K) (target : Vec3 K) (k : Nat) : WalkState K :=
  (WalkManifold.step m scene (ComputeConstraintJacobian m seedPath) target
    seedPath.vertices.length)^[k] ⟨WalkManifold.MaxBeta, seedPath⟩

/-- The distance between the last vertex of the current path after `k` iterations and the
target is below `eps` times the largest position norm among the vertices of the seed path. -/
def WalkManifold.closeAt {K : Type} [LinearOrderedField K] (m : MathFns K)
    (scene : Scene K) (seedPath : Path K) (target : Vec3 K) (eps : K) (k : Nat) : Prop :=
  m.length (((WalkManifold.stateAt m scene seedPath target k).currPath.vertexAt
      ((seedPath.vertices.length : Int) - 1)).geom.p - target)
    < eps * WalkManifold.maxNorm m seedPath

/-- The grains, taken in the order of the list, tile the range from `lo` to `hi`. -/
def Grain.Chain : List Grain → Int → Int → Prop
  | [], lo, hi => lo = hi
  | g :: gs, lo, hi => g.begin_ = lo ∧ g.begin_ ≤ g.end_ ∧ Grain.Chain gs g.end_ hi

/-- The grains of a schedule are a partition of the range from `lo` to `hi`: put in order,
they tile it. -/
def Grain.IsPartition (schedule : List Grain) (lo hi : Int) : Prop :=
  ∃ sorted : List Grain, sorted.Perm schedule ∧ Grain.Chain sorted lo hi

/-- The number of samples in the grains of a schedule that run on the thread `t`. -/
def Grain.samplesOf (t : Nat) (schedule : List Grain) : Nat :=
  ((schedule.filter (fun g => g.thread = t)).map (fun g => (g.end_ - g.begin_).toNat)).sum

/-- The sum of the pixel `i` over the films of the thread-specific contexts. -/
def RenderState.filmSum {K : Type} [LinearOrderedField K] (st : RenderState K) (i : Nat) :
    Vec3 K :=
  st.created.foldl (fun acc t => acc + (st.contexts t).ctx.film.getD i 0) 0

/-- The state `st2` comes from `st` by `k` calls of the integrator on the context of the
thread `t`, each sample counted either in that context or in the shared counter. -/
structure Advances {K : Type} (f : Context K → Context K) (t : Nat) (k : Nat)
    (st st2 : RenderState K) : Prop where
  created : st2.created = st.created
  currentThreadID : st2.currentThreadID = st.currentThreadID
  drawn : st2.drawn = st.drawn
  done : st2.done = st.done
  others : ∀ u, u ≠ t → st2.contexts u = st.contexts u
  id : (st2.contexts t).id = (st.contexts t).id
  ctx : (st2.contexts t).ctx = f^[k] (st.contexts t).ctx
  count : st2.processedSamples + (st2.contexts t).processedSamples
    = st.processedSamples + (st.contexts t).processedSamples + k

/-- The invariant of the parallel loop of `RenderProcess` when the thread `t` has processed
`cnt t` samples: the threads that own a context are listed once, the other contexts are
untouched, the context of a thread is its initial context (its own seed, an empty film of
`Width * Height` pixels) after `cnt t` calls of the integrator, and the shared counter plus
the samples still counted in the contexts is the number of samples processed. -/
structure RenderInv {K : Type} [LinearOrderedField K] (env : RenderEnv K)
    (params : RendererParams) (f : Context K → Context K) (cnt : Nat → Nat)
    (st : RenderState K) : Prop where
  nodup : st.created.Nodup
  fresh : ∀ t, t ∉ st.created → st.contexts t = ThreadContext.init ∧ cnt t = 0
  idNonneg : ∀ t ∈ st.created, 0 ≤ (st.contexts t).id
  ctxEq : ∀ t ∈ st.created, (st.contexts t).ctx
    = f^[cnt t] ⟨env.SetSeed (env.NextUInt (st.contexts t).id.toNat),
        List.replicate (params.Width * params.Height).toNat 0⟩
  idEq : st.currentThreadID = (st.drawn : Int)
  total : st.processedSamples + (st.created.map (fun t => (st.contexts t).processedSamples)).sum
    = (st.created.map (fun t => (cnt t : Int))).sum

end Predicates

/-- Rational stand-ins for the runtime functions, to run the definitions on examples: `Pi` is
`22/7`, `sqrt` is exact at `0`, `1`, `4` and `16/25` and the identity elsewhere, and the other
functions are the identity. -/
def exMath : MathFns ℚ :=
  ⟨22 / 7, fun x => if x = 16 / 25 then 4 / 5 else if x = 4 then 2 else x, fun x => x,
    fun x => x, fun x => x, fun x => x, fun x => x⟩

/-- A flat surface point at the origin with normal `(0, 0, 1)` and the canonical frame. -/
def exGeom : SurfaceGeometry ℚ :=
  { degenerated := false, p := 0, sn := ⟨0, 0, 1⟩, gn := ⟨0, 0, 1⟩, dpdu := ⟨1, 0, 0⟩,
    dpdv := ⟨0, 1, 0⟩, dndu := 0, dndv := 0, uv := 0, ToLocal := Mat3.identity,
    ToWorld := Mat3.identity }

/-- A white diffuse surface. -/
def exDiffuse : Primitive ℚ :=
  { (Primitive.init : Primitive ℚ) with
    Type_ := PrimitiveType.D
    Params := { (Primitive.init : Primitive ℚ).Params with D := ⟨⟨1, 1, 1⟩, none⟩ } }

/-- A clear glass interface with indices of refraction `1` and `3/2`. -/
def exGlass : Primitive ℚ :=
  { (Primitive.init : Primitive ℚ) with
    Type_ := PrimitiveType.S
    Params := { (Primitive.init : Primitive ℚ).Params with
      S := { Type_ := SType.Refraction, Reflection := ⟨0⟩, Refraction := ⟨⟨1, 1, 1⟩, 1, 3 / 2⟩,
             Fresnel := ⟨0, 0, 0⟩ } } }

/-- A clear Fresnel interface with indices of refraction `1` and `4/3`. -/
def exFresnel : Primitive ℚ :=
  { (Primitive.init : Primitive ℚ) with
    Type_ := PrimitiveType.S
    Params := { (Primitive.init : Primitive ℚ).Params with
      S := { Type_ := SType.Fresnel, Reflection := ⟨0⟩, Refraction := ⟨0, 0, 0⟩,
             Fresnel := ⟨⟨1, 1, 1⟩, 1, 4 / 3⟩ } } }

/-- The surface point `(0, 0, 1)` facing down, normal `(0, 0, -1)`, with a consistent frame. -/
def exGeomDown : SurfaceGeometry ℚ :=
  { degenerated := false, p := ⟨0, 0, 1⟩, sn := ⟨0, 0, -1⟩, gn := ⟨0, 0, -1⟩,
    dpdu := ⟨1, 0, 0⟩, dpdv := ⟨0, -1, 0⟩, dndu := 0, dndv := 0, uv := 0,
    ToLocal := ⟨⟨1, 0, 0⟩, ⟨0, -1, 0⟩, ⟨0, 0, -1⟩⟩, ToWorld := ⟨⟨1, 0, 0⟩, ⟨0, -1, 0⟩, ⟨0, 0, -1⟩⟩ }

/-- The distribution over the triangles of a mesh of one triangle of area `1/2`. -/
def exDist : Distribution1D ℚ := ((Distribution1D.Clear : Distribution1D ℚ).Add (1 / 2)).Normalize

/-- An area light of unit radiance: the triangle `(0,0,0), (1,0,0), (0,1,0)`, facing up. -/
def exLight : Primitive ℚ :=
  { (Primitive.init : Primitive ℚ) with
    MeshRef := some ⟨[0, 0, 0, 1, 0, 0, 0, 1, 0], [0, 0, 1, 0, 0, 1, 0, 0, 1], [], [0, 1, 2]⟩
    Type_ := PrimitiveType.L
    Params := { (Primitive.init : Primitive ℚ).Params with
      L := { Type_ := LType.Area, Area := ⟨⟨1, 1, 1⟩, exDist, 2⟩, Point := ⟨0, 0⟩,
             Directional := ⟨0, 0, 0, 0, 0⟩ } } }

/-- An area sensor of unit importance: the triangle `(0,0,1), (0,1,1), (1,0,1)`, facing down. -/
def exSensor : Primitive ℚ :=
  { (Primitive.init : Primitive ℚ) with
    MeshRef := some ⟨[0, 0, 1, 0, 1, 1, 1, 0, 1], [0, 0, -1, 0, 0, -1, 0, 0, -1], [], [0, 1, 2]⟩
    Type_ := PrimitiveType.E
    Params := { (Primitive.init : Primitive ℚ).Params with
      E := { Type_ := EType.Area, Pinhole := ⟨0, 0, 0, 0, 0, 0, 0⟩,
             Area := ⟨⟨1, 1, 1⟩, exDist, 2⟩ } } }

/-- A scene of the light and the sensor, with nothing for a ray to hit. -/
def exScene : Scene ℚ :=
  { Primitives := [exLight, exSensor], SensorPrimitiveIndex := 1, LightPrimitiveIndices := [0],
    Intersect4 := fun _ _ _ => none }

/-- The fullpath of two vertices: the corner of the light at the origin, and the corner of the
sensor at `(0, 0, 1)` facing it. -/
def exPath : Path ℚ :=
  ⟨[⟨PrimitiveType.L, exGeom, exLight⟩, ⟨PrimitiveType.E, exGeomDown, exSensor⟩]⟩

/-- A point light of unit intensity at `(0, 0, 1)`. -/
def exPointLight : Primitive ℚ :=
  { (Primitive.init : Primitive ℚ) with
    Type_ := PrimitiveType.L
    Params := { (Primitive.init : Primitive ℚ).Params with
      L := { Type_ := LType.Point, Area := ⟨0, Distribution1D.Clear, 0⟩,
             Point := ⟨⟨1, 1, 1⟩, ⟨0, 0, 1⟩⟩, Directional := ⟨0, 0, 0, 0, 0⟩ } } }

/-- A room lit by the point light: every ray cast by a walk hits the white diffuse floor at the
origin, and no shadow ray (a query with a finite far bound) hits anything. -/
def exRoom : Scene ℚ :=
  { Primitives := [exPointLight, exSensor, exDiffuse], SensorPrimitiveIndex := 1,
    LightPrimitiveIndices := [0],
    Intersect4 := fun _ _ maxT => if maxT = InfF then some ⟨exGeom, exDiffuse⟩ else none }

/-- A generator whose every draw is `1/2`. -/
def exRng : Random ℚ := ⟨fun _ => 1 / 2, 0⟩

/-- The walk from the light through the room, at most three vertices long. -/
def exWalkL : Option (Path ℚ × Random ℚ) :=
  Path.SampleSubpath exMath exRoom exRng TransportDirection.LE 3 4

/-- The walk from the sensor through the room, at most three vertices long. -/
def exWalkE : Option (Path ℚ × Random ℚ) :=
  Path.SampleSubpath exMath exRoom exRng TransportDirection.EL 3 4

/-- The subpath sampled by the walk from the light. -/
def exSubpathL : Path ℚ := (exWalkL.map Prod.fst).getD ⟨[]⟩

/-- The subpath sampled by the walk from the sensor. -/
def exSubpathE : Path ℚ := (exWalkE.map Prod.fst).getD ⟨[]⟩

/-- A pinhole sensor at the origin looking along `-z`, with `tan(Fov/2) = 1` under `exMath`
and aspect ratio `1`. -/
def exPinhole : Primitive ℚ :=
  { (Primitive.init : Primitive ℚ) with
    Type_ := PrimitiveType.E
    Params := { (Primitive.init : Primitive ℚ).Params with
      E := { Type_ := EType.Pinhole,
             Pinhole := ⟨0, ⟨1, 0, 0⟩, ⟨0, 1, 0⟩, ⟨0, 0, 1⟩, 2, 1, ⟨1, 1, 1⟩⟩,
             Area := ⟨0, Distribution1D.Clear, 0⟩ } } }

/-- A refracting interface with indices of refraction `3` and `4`. -/
def exWater : Primitive ℚ :=
  { (Primitive.init : Primitive ℚ) with
    Type_ := PrimitiveType.S
    Params := { (Primitive.init : Primitive ℚ).Params with
      S := { Type_ := SType.Refraction, Reflection := ⟨0⟩, Refraction := ⟨⟨1, 1, 1⟩, 3, 4⟩,
             Fresnel := ⟨0, 0, 0⟩ } } }

/-- A directional light shining along `-z`, as the parameter region of `Scene::Load` leaves
it: centre, radius and `InvArea` not yet set. -/
def exDirectional : Primitive ℚ :=
  { (Primitive.init : Primitive ℚ) with
    Type_ := PrimitiveType.L
    Params := { (Primitive.init : Primitive ℚ).Params with
      L := { Type_ := LType.Directional, Area := ⟨0, Distribution1D.Clear, 0⟩, Point := ⟨0, 0⟩,
             Directional := ⟨⟨1, 1, 1⟩, ⟨0, 0, -1⟩, 0, 0, 0⟩ } } }

/-- A scene bound: the segment from the origin to `(2, 0, 0)`. -/
def exBound : AABB ℚ := ⟨⟨0, 0, 0⟩, ⟨2, 0, 0⟩⟩

/-- A diffuse triangle `(0,0,0), (1,0,0), (0,1,0)` whose vertex normals are `(0, 0, 1)`,
`(3/5, 0, 4/5)` and `(0, 0, 1)`. -/
def exTilted : Primitive ℚ :=
  { exDiffuse with
    MeshRef := some ⟨[0, 0, 0, 1, 0, 0, 0, 1, 0], [0, 0, 1, 3 / 5, 0, 4 / 5, 0, 0, 1], [],
      [0, 1, 2]⟩ }

/-- A scene of that triangle alone. -/
def exTiltedScene : Scene ℚ :=
  { Primitives := [exTilted], SensorPrimitiveIndex := 0, LightPrimitiveIndices := [],
    Intersect4 := fun _ _ _ => none }

/-- The stand-ins of `exMath` with an exponential that is positive everywhere: the constant
`1`. -/
def exMathPos : MathFns ℚ := { exMath with exp := fun _ => 1 }

/-- A chain of two specular vertices on the `z` axis, seen at normal incidence: a light at
`(0, 0, 2)` facing down, glass at the origin facing up, glass at `(0, 0, 1)` facing down, and
a diffuse end point at `(0, 0, 1/5)` facing up. -/
def exChain : Path ℚ :=
  ⟨[⟨PrimitiveType.L, { exGeomDown with p := ⟨0, 0, 2⟩ }, exLight⟩,
    ⟨PrimitiveType.S, exGeom, exGlass⟩,
    ⟨PrimitiveType.S, exGeomDown, exGlass⟩,
    ⟨PrimitiveType.D, { exGeom with p := ⟨0, 0, 1 / 5⟩ }, exDiffuse⟩]⟩

/-- An exact matrix inverse for matrices of two rows and columns (the adjugate over the
determinant), leaving matrices of other sizes unchanged. -/
def exEigen : EigenFns ℚ :=
  ⟨fun n A => if n = 2 then
      fun r c =>
        let d := A 0 0 * A 1 1 - A 0 1 * A 1 0
        if r = 0 ∧ c = 0 then A 1 1 / d
        else if r = 0 ∧ c = 1 then -A 0 1 / d
        else if r = 1 ∧ c = 0 then -A 1 0 / d
        else if r = 1 ∧ c = 1 then A 0 0 / d
        else 0
    else A⟩

/-- A chain of one specular vertex seen at normal incidence: a light at `(0, 0, 2)` facing
down, glass at the origin facing up, and a diffuse end point at `(0, 0, 1)` facing down. -/
def exFold : Path ℚ :=
  ⟨[⟨PrimitiveType.L, { exGeomDown with p := ⟨0, 0, 2⟩ }, exLight⟩,
    ⟨PrimitiveType.S, exGeom, exGlass⟩,
    ⟨PrimitiveType.D, exGeomDown, exDiffuse⟩]⟩

/-- The stand-ins of `exMath` with a square root that is also exact at `400000000`. -/
def exMathFar : MathFns ℚ :=
  { exMath with sqrt := fun x => if x = 400000000 then 20000 else exMath.sqrt x }

/-- A seed path whose light is far away: a light at `(0, 0, 20000)` facing down, glass at the
origin facing up, and a diffuse end point at `(0, 0, 1)` facing down. -/
def exFar : Path ℚ :=
  ⟨[⟨PrimitiveType.L, { exGeomDown with p := ⟨0, 0, 20000⟩ }, exLight⟩,
    ⟨PrimitiveType.S, exGeom, exGlass⟩,
    ⟨PrimitiveType.D, exGeomDown, exDiffuse⟩]⟩

/-- An area light of unit radiance: the triangle `(0,0,-1), (2,0,-1), (0,1,-1)` of area `1`,
facing up. -/
def exLightLow : Primitive ℚ :=
  { (Primitive.init : Primitive ℚ) with
    MeshRef := some ⟨[0, 0, -1, 2, 0, -1, 0, 1, -1], [0, 0, 1, 0, 0, 1, 0, 0, 1], [], [0, 1, 2]⟩
    Type_ := PrimitiveType.L
    Params := { (Primitive.init : Primitive ℚ).Params with
      L := { Type_ := LType.Area,
             Area := ⟨⟨1, 1, 1⟩, ((Distribution1D.Clear : Distribution1D ℚ).Add 1).Normalize, 1⟩,
             Point := ⟨0, 0⟩, Directional := ⟨0, 0, 0, 0, 0⟩ } } }

/-- A scene of that light, the sensor and a glass interface. -/
def exCausticScene : Scene ℚ :=
  { Primitives := [exLightLow, exSensor, exGlass], SensorPrimitiveIndex := 1,
    LightPrimitiveIndices := [0], Intersect4 := fun _ _ _ => none }

/-- The fullpath of three vertices through the glass: the corner `(0, 0, -1)` of the light,
the glass at the origin, and the corner `(0, 0, 1)` of the sensor. -/
def exCaustic : Path ℚ :=
  ⟨[⟨PrimitiveType.L, { exGeom with p := ⟨0, 0, -1⟩ }, exLightLow⟩,
    ⟨PrimitiveType.S, exGeom, exGlass⟩,
    ⟨PrimitiveType.E, exGeomDown, exSensor⟩]⟩

/-- Render settings in sample-count mode: four samples, grains of two, progress reported after
every second sample of a context. -/
def exSettings : RenderSettings ℚ := ⟨4, -1, 2, 1⟩

/-- An environment whose seed number `k` is `k + 1`, whose generators draw `1/2` forever, and
whose clock stands still. -/
def exRenderEnv : RenderEnv ℚ := ⟨fun k => k + 1, fun s => ⟨fun _ => 1 / 2, s⟩, fun _ => 0⟩

/-- A film of two pixels. -/
def exFilmParams : RendererParams := ⟨-1, 2, 1⟩

/-- A stand-in for an integrator: it adds one unit of radiance to every pixel. -/
def exIntegrator (ctx : Context ℚ) : Context ℚ :=
  { ctx with film := ctx.film.map (fun v => v + ⟨1, 1, 1⟩) }

/-- A schedule of the range `[0, 4)` in two grains: thread `1` runs `[2, 4)` first, then
thread `0` runs `[0, 2)`. -/
def exSchedule : List Grain := [⟨1, 2, 4⟩, ⟨0, 0, 2⟩]

/-! ## Theorems -/

section DirectionTheorems

variable {K : Type} [LinearOrderedField K] [FloorRing K]

theorem land_pos_of_land_pos (q a b : Nat) (hab : b &&& a = a) (h : q &&& a > 0) :
    q &&& b > 0 := by
  by_contra hc
  have h0 : q &&& b = 0 := by omega
  have e : q &&& a = (q &&& b) &&& a := by rw [Nat.and_assoc, hab]
  rw [e, h0] at h
  simp at h

theorem land_eq_zero_of_land_eq_zero (q a b : Nat) (hab : b &&& a = a) (h : q &&& b = 0) :
    q &&& a = 0 := by
  have e : q &&& a = (q &&& b) &&& a := by rw [Nat.and_assoc, hab]
  rw [e, h]; simp

/-- Without an emitter bit in the query, `EvaluateDirection` is decided by the first of the
bits D, G, S that is set. -/
theorem EvaluateDirection_bsdf (m : MathFns K) (prim : Primitive K) (geom : SurfaceGeometry K)
    (q : Nat) (wi wo : Vec3 K) (td : TransportDirection) (fd : Bool)
    (hq : q &&& PrimitiveType.Emitter = 0) :
    prim.EvaluateDirection m geom q wi wo td fd =
      if (q &&& PrimitiveType.D) > 0 then prim.EvaluateDirectionD m geom wi wo td
      else if (q &&& PrimitiveType.G) > 0 then prim.EvaluateDirectionG m geom wi wo td
      else if (q &&& PrimitiveType.S) > 0 then prim.EvaluateDirectionS m geom wi wo td fd
      else 0 := by
  unfold Primitive.EvaluateDirection
  simp only [hq, gt_iff_lt, lt_self_iff_false, false_and, if_false]
  by_cases hD : 0 < q &&& PrimitiveType.D
  · have hB : 0 < q &&& PrimitiveType.BSDF :=
      land_pos_of_land_pos q PrimitiveType.D PrimitiveType.BSDF (by decide) hD
    simp [hD, hB]
  · by_cases hG : 0 < q &&& PrimitiveType.G
    · have hB : 0 < q &&& PrimitiveType.BSDF :=
        land_pos_of_land_pos q PrimitiveType.G PrimitiveType.BSDF (by decide) hG
      simp [hD, hG, hB]
    · by_cases hS : 0 < q &&& PrimitiveType.S
      · have hB : 0 < q &&& PrimitiveType.BSDF :=
          land_pos_of_land_pos q PrimitiveType.S PrimitiveType.BSDF (by decide) hS
        simp [hD, hG, hS, hB]
      · simp [hD, hG, hS]

omit [FloorRing K] in
/-- In a consistent frame the local cosine of a direction is its product with `sn`. -/
theorem LocalCos_ToLocal (geom : SurfaceGeometry K) (h : geom.FrameConsistent) (v : Vec3 K) :
    LocalCos (geom.ToLocal.mulVec v) = Vec3.dot v geom.sn := by
  obtain ⟨h1, h2⟩ := h
  rw [h2, h1]
  simp only [LocalCos, Mat3.mulVec, Mat3.transpose, Vec3.dot]
  ring

omit [FloorRing K] in
theorem Vec3.scale_zero_right (v : Vec3 K) : v.scale 0 = 0 := by
  simp only [Vec3.scale, mul_zero]; rfl

omit [FloorRing K] in
theorem Vec3.zero_scale (c : K) : (0 : Vec3 K).scale c = 0 := by
  show Vec3.scale ⟨0, 0, 0⟩ c = ⟨0, 0, 0⟩
  simp only [Vec3.scale, zero_mul]

omit [FloorRing K] in
theorem Vec3.scale_one (v : Vec3 K) : v.scale 1 = v := by
  simp only [Vec3.scale, mul_one]

omit [FloorRing K] in
theorem Vec3.scale_scale (v : Vec3 K) (a b : K) : (v.scale a).scale b = v.scale (a * b) := by
  simp only [Vec3.scale, mul_assoc]

omit [FloorRing K] in
theorem Vec3.scale_inv_eq_divScalar (v : Vec3 K) (c : K) : v.scale (1 / c) = v.divScalar c := by
  simp only [Vec3.scale, Vec3.divScalar, mul_one_div]

/-- C3 (amended).  A query with the D bit and no emitter bit, on a geometry with a consistent
frame, evaluates to `0` when `(wi·gn)(wi·sn) ≤ 0` or `(wo·gn)(wo·sn) ≤ 0` and also when
`wi·sn ≤ 0` or `wo·sn ≤ 0` (a direction below the shading hemisphere); otherwise to `R/π`
under EL transport and to `R/π · (wi·sn · wo·gn)/(wo·sn · wi·gn)` under LE transport, where
`R` is the texture value at `uv` when the primitive has a texture and `Params.D.R` when not. -/
theorem EvaluateDirection_diffuse (m : MathFns K) (prim : Primitive K)
    (geom : SurfaceGeometry K) (q : Nat) (wi wo : Vec3 K) (td : TransportDirection) (fd : Bool)
    (hq : q &&& PrimitiveType.Emitter = 0) (hD : (q &&& PrimitiveType.D) > 0)
    (hframe : geom.FrameConsistent) :
    prim.EvaluateDirection m geom q wi wo td fd =
      if Vec3.dot wi geom.gn * Vec3.dot wi geom.sn ≤ 0
          ∨ Vec3.dot wo geom.gn * Vec3.dot wo geom.sn ≤ 0
          ∨ Vec3.dot wi geom.sn ≤ 0 ∨ Vec3.dot wo geom.sn ≤ 0 then 0
      else
        match td with
        | TransportDirection.EL =>
          (match prim.Params.D.TexR with
            | some tex => tex.Evaluate geom.uv
            | none => prim.Params.D.R).divScalar m.Pi
        | TransportDirection.LE =>
          ((match prim.Params.D.TexR with
            | some tex => tex.Evaluate geom.uv
            | none => prim.Params.D.R).divScalar m.Pi).scale
            (Vec3.dot wi geom.sn * Vec3.dot wo geom.gn
              / (Vec3.dot wo geom.sn * Vec3.dot wi geom.gn)) := by
  rw [EvaluateDirection_bsdf m prim geom q wi wo td fd hq, if_pos hD]
  unfold Primitive.EvaluateDirectionD shadingNormalCorrection
  simp only [LocalCos_ToLocal geom hframe, MathFns.InvPi, Vec3.scale_inv_eq_divScalar]
  by_cases h1 : Vec3.dot wi geom.sn ≤ 0
  · simp [h1]
  by_cases h2 : Vec3.dot wo geom.sn ≤ 0
  · simp [h2]
  by_cases h3 : Vec3.dot wi geom.gn * Vec3.dot wi geom.sn ≤ 0
  · simp [h1, h2, h3, Vec3.scale_zero_right]
  by_cases h4 : Vec3.dot wo geom.gn * Vec3.dot wo geom.sn ≤ 0
  · simp [h1, h2, h3, h4, Vec3.scale_zero_right]
  cases td
  · simp [h1, h2, h3, h4]
  · simp [h1, h2, h3, h4, Vec3.scale_one]

/-- C3, witness: the white diffuse surface seen along the normal. -/
theorem EvaluateDirection_diffuse_witness :
    (PrimitiveType.D &&& PrimitiveType.Emitter = 0 ∧ (PrimitiveType.D &&& PrimitiveType.D) > 0
      ∧ exGeom.FrameConsistent)
    ∧ exDiffuse.EvaluateDirection exMath exGeom PrimitiveType.D ⟨0, 0, 1⟩ ⟨0, 0, 1⟩
        TransportDirection.EL true = ⟨7 / 22, 7 / 22, 7 / 22⟩ := by
  have hq : PrimitiveType.D &&& PrimitiveType.Emitter = 0 := by decide
  have hD : (PrimitiveType.D &&& PrimitiveType.D) > 0 := by decide
  have hf : exGeom.FrameConsistent := by
    constructor <;> rfl
  refine ⟨⟨hq, hD, hf⟩, ?_⟩
  rw [EvaluateDirection_diffuse exMath exDiffuse exGeom PrimitiveType.D ⟨0, 0, 1⟩ ⟨0, 0, 1⟩
    TransportDirection.EL true hq hD hf]
  norm_num [exGeom, exDiffuse, exMath, Vec3.dot, Vec3.divScalar, Primitive.init]

/-- C3, counterexample: with both directions below the surface, `(wi·gn)(wi·sn) = 1` and
`(wo·gn)(wo·sn) = 1` are positive and `R/π` is not zero, yet the D query evaluates to `0`
under EL transport. -/
theorem EvaluateDirection_diffuse_counterexample :
    ¬ (Vec3.dot (⟨0, 0, -1⟩ : Vec3 ℚ) exGeom.gn * Vec3.dot ⟨0, 0, -1⟩ exGeom.sn ≤ 0)
    ∧ exDiffuse.Params.D.TexR = none
    ∧ exDiffuse.Params.D.R.divScalar exMath.Pi = ⟨7 / 22, 7 / 22, 7 / 22⟩
    ∧ exDiffuse.EvaluateDirection exMath exGeom PrimitiveType.D ⟨0, 0, -1⟩ ⟨0, 0, -1⟩
        TransportDirection.EL true = ⟨0, 0, 0⟩
    ∧ (⟨7 / 22, 7 / 22, 7 / 22⟩ : Vec3 ℚ) ≠ ⟨0, 0, 0⟩ := by
  refine ⟨?_, rfl, ?_, ?_, ?_⟩
  · norm_num [exGeom, Vec3.dot]
  · norm_num [exDiffuse, exMath, Vec3.divScalar]
  · have hq : PrimitiveType.D &&& PrimitiveType.Emitter = 0 := by decide
    rw [EvaluateDirection_bsdf exMath exDiffuse exGeom PrimitiveType.D _ _ _ _ hq]
    have hD : (PrimitiveType.D &&& PrimitiveType.D) > 0 := by decide
    rw [if_pos hD]
    simp [Primitive.EvaluateDirectionD, exGeom, Mat3.identity, Mat3.mulVec, LocalCos]
    rfl
  · intro h
    have := congrArg Vec3.x h
    norm_num at this

omit [FloorRing K] in
theorem snc_identity (a b c d : K) (h1 : 0 < c * a) (h2 : 0 < d * b) :
    |b| / |d| = b * c / (a * d) * (|a| / |c|) := by
  have ha : a ≠ 0 := by rintro rfl; simp at h1
  have hc : c ≠ 0 := by rintro rfl; simp at h1
  have hb : b ≠ 0 := by rintro rfl; simp at h2
  have hd : d ≠ 0 := by rintro rfl; simp at h2
  have e1 : |b| / |d| = b / d := by
    rw [← abs_div]
    apply abs_of_pos
    have : b / d = (d * b) / (d * d) := by field_simp; ring
    rw [this]
    exact div_pos h2 (mul_self_pos.mpr hd)
  have e2 : |a| / |c| = a / c := by
    rw [← abs_div]
    apply abs_of_pos
    have : a / c = (c * a) / (c * c) := by field_simp; ring
    rw [this]
    exact div_pos h1 (mul_self_pos.mpr hc)
  rw [e1, e2]
  field_simp
  ring

omit [FloorRing K] in
/-- The shading-normal correction under EL transport, weighted by `|wo·sn|/|wo·gn|`, equals
the correction for the reversed directions under LE transport weighted by `|wi·sn|/|wi·gn|`. -/
theorem shadingNormalCorrection_adjoint (geom : SurfaceGeometry K) (hframe : geom.FrameConsistent)
    (wi wo : Vec3 K) :
    shadingNormalCorrection geom wi wo TransportDirection.EL
        * (|Vec3.dot wo geom.sn| / |Vec3.dot wo geom.gn|)
      = shadingNormalCorrection geom wo wi TransportDirection.LE
        * (|Vec3.dot wi geom.sn| / |Vec3.dot wi geom.gn|) := by
  unfold shadingNormalCorrection
  simp only [LocalCos_ToLocal geom hframe]
  by_cases h1 : Vec3.dot wi geom.gn * Vec3.dot wi geom.sn ≤ 0
  · simp [h1]
  by_cases h2 : Vec3.dot wo geom.gn * Vec3.dot wo geom.sn ≤ 0
  · simp [h2]
  have e := snc_identity (Vec3.dot wi geom.sn) (Vec3.dot wo geom.sn) (Vec3.dot wi geom.gn)
    (Vec3.dot wo geom.gn) (not_le.mp h1) (not_le.mp h2)
  simp [h1, h2, e]

omit [FloorRing K] in
theorem column_orthonormal (a1 a2 a3 b1 b2 b3 c1 c2 c3 : K)
    (haa : a1 * a1 + a2 * a2 + a3 * a3 = 1) (hbb : b1 * b1 + b2 * b2 + b3 * b3 = 1)
    (hcc : c1 * c1 + c2 * c2 + c3 * c3 = 1) (hab : a1 * b1 + a2 * b2 + a3 * b3 = 0)
    (hac : a1 * c1 + a2 * c2 + a3 * c3 = 0) (hbc : b1 * c1 + b2 * c2 + b3 * c3 = 0) :
    (a1 * a1 + b1 * b1 + c1 * c1 = 1 ∧ a2 * a2 + b2 * b2 + c2 * c2 = 1
      ∧ a3 * a3 + b3 * b3 + c3 * c3 = 1)
    ∧ (a1 * a2 + b1 * b2 + c1 * c2 = 0 ∧ a1 * a3 + b1 * b3 + c1 * c3 = 0
      ∧ a2 * a3 + b2 * b3 + c2 * c3 = 0) := by
  let M : Matrix (Fin 3) (Fin 3) K := fun i j =>
    if i = 0 then (if j = 0 then a1 else if j = 1 then a2 else a3)
    else if i = 1 then (if j = 0 then b1 else if j = 1 then b2 else b3)
    else (if j = 0 then c1 else if j = 1 then c2 else c3)
  have h1 : M * M.transpose = 1 := by
    ext i j
    fin_cases i <;> fin_cases j <;>
      simp [M, Matrix.mul_apply, Fin.sum_univ_three, Matrix.one_apply] <;> linarith
  have h2 := Matrix.mul_eq_one_comm.mp h1
  have e := fun i j => congrFun (congrFun h2 i) j
  have e00 := e 0 0
  have e11 := e 1 1
  have e22 := e 2 2
  have e01 := e 0 1
  have e02 := e 0 2
  have e12 := e 1 2
  simp [M, Matrix.mul_apply, Fin.sum_univ_three, Matrix.one_apply] at e00 e11 e22 e01 e02 e12
  exact ⟨⟨e00, e11, e22⟩, e01, e02, e12⟩

omit [FloorRing K] in
/-- An orthonormal, consistent frame preserves the squared length of a direction. -/
theorem dot_ToLocal_self (geom : SurfaceGeometry K) (hframe : geom.FrameConsistent)
    (horth : geom.Orthonormal) (v : Vec3 K) :
    Vec3.dot (geom.ToLocal.mulVec v) (geom.ToLocal.mulVec v) = Vec3.dot v v := by
  obtain ⟨h1, h2⟩ := hframe
  obtain ⟨haa, hbb, hcc, hab, hac, hbc⟩ := horth
  simp only [Vec3.dot] at haa hbb hcc hab hac hbc
  obtain ⟨⟨e1, e2, e3⟩, e4, e5, e6⟩ := column_orthonormal _ _ _ _ _ _ _ _ _ haa hbb hcc hab hac hbc
  rw [h2, h1]
  simp only [Mat3.mulVec, Mat3.transpose, Vec3.dot]
  linear_combination (v.x * v.x) * e1 + (v.y * v.y) * e2 + (v.z * v.z) * e3
    + (2 * v.x * v.y) * e4 + (2 * v.x * v.z) * e5 + (2 * v.y * v.z) * e6

omit [FloorRing K] in
theorem Vec3.add_comm_vec (a b : Vec3 K) : a + b = b + a := by
  show (⟨a.x + b.x, a.y + b.y, a.z + b.z⟩ : Vec3 K) = ⟨b.x + a.x, b.y + a.y, b.z + a.z⟩
  simp only [add_comm]

omit [FloorRing K] in
/-- Two directions of equal length make the same angle with their normalised half vector. -/
theorem dot_half_vector (m : MathFns K) (a b : Vec3 K) (h : Vec3.dot a a = Vec3.dot b b) :
    Vec3.dot a (m.normalize (a + b)) = Vec3.dot b (m.normalize (a + b)) := by
  have e : (a + b) = ⟨a.x + b.x, a.y + b.y, a.z + b.z⟩ := rfl
  simp only [MathFns.normalize, Vec3.scale, Vec3.dot, e] at h ⊢
  linear_combination (1 / m.sqrt ((a.x + b.x) * (a.x + b.x) + (a.y + b.y) * (a.y + b.y)
    + (a.z + b.z) * (a.z + b.z))) * h

theorem EvaluateDirectionD_adjoint (m : MathFns K) (prim : Primitive K)
    (geom : SurfaceGeometry K) (hframe : geom.FrameConsistent) (wi wo : Vec3 K) :
    (prim.EvaluateDirectionD m geom wi wo TransportDirection.EL).scale
        (|Vec3.dot wo geom.sn| / |Vec3.dot wo geom.gn|)
      = (prim.EvaluateDirectionD m geom wo wi TransportDirection.LE).scale
        (|Vec3.dot wi geom.sn| / |Vec3.dot wi geom.gn|) := by
  unfold Primitive.EvaluateDirectionD
  by_cases g : LocalCos (geom.ToLocal.mulVec wi) ≤ 0 ∨ LocalCos (geom.ToLocal.mulVec wo) ≤ 0
  · rw [if_pos g, if_pos (Or.symm g), Vec3.zero_scale, Vec3.zero_scale]
  · rw [if_neg g, if_neg (fun h => g (Or.symm h))]
    simp only [Vec3.scale_scale, mul_assoc]
    rw [shadingNormalCorrection_adjoint geom hframe wi wo]

omit [FloorRing K] in
theorem EvalauteShadowMaskingFunc_symm (wi wo H : Vec3 K)
    (h : Vec3.dot wi H = Vec3.dot wo H) :
    Primitive.EvalauteShadowMaskingFunc wi wo H = Primitive.EvalauteShadowMaskingFunc wo wi H := by
  unfold Primitive.EvalauteShadowMaskingFunc
  simp only [h]
  rw [min_comm (2 * LocalCos H * LocalCos wo / |Vec3.dot wo H|)]

theorem EvaluateDirectionG_adjoint (m : MathFns K) (prim : Primitive K)
    (geom : SurfaceGeometry K) (hframe : geom.FrameConsistent) (horth : geom.Orthonormal)
    (wi wo : Vec3 K) (hwi : Vec3.dot wi wi = 1) (hwo : Vec3.dot wo wo = 1) :
    (prim.EvaluateDirectionG m geom wi wo TransportDirection.EL).scale
        (|Vec3.dot wo geom.sn| / |Vec3.dot wo geom.gn|)
      = (prim.EvaluateDirectionG m geom wo wi TransportDirection.LE).scale
        (|Vec3.dot wi geom.sn| / |Vec3.dot wi geom.gn|) := by
  unfold Primitive.EvaluateDirectionG
  by_cases g : LocalCos (geom.ToLocal.mulVec wi) ≤ 0 ∨ LocalCos (geom.ToLocal.mulVec wo) ≤ 0
  · rw [if_pos g, if_pos (Or.symm g), Vec3.zero_scale, Vec3.zero_scale]
  · rw [if_neg g, if_neg (fun h => g (Or.symm h))]
    have hlen : Vec3.dot (geom.ToLocal.mulVec wi) (geom.ToLocal.mulVec wi)
        = Vec3.dot (geom.ToLocal.mulVec wo) (geom.ToLocal.mulVec wo) := by
      rw [dot_ToLocal_self geom hframe horth, dot_ToLocal_self geom hframe horth, hwi, hwo]
    have hH := dot_half_vector m _ _ hlen
    simp only [Vec3.add_comm_vec (geom.ToLocal.mulVec wo) (geom.ToLocal.mulVec wi)]
    rw [← EvalauteShadowMaskingFunc_symm _ _ _ hH, ← hH]
    simp only [Vec3.scale_scale]
    have e := shadingNormalCorrection_adjoint geom hframe wi wo
    generalize shadingNormalCorrection geom wi wo TransportDirection.EL = a at e ⊢
    generalize shadingNormalCorrection geom wo wi TransportDirection.LE = b at e ⊢
    rw [e]
    simp only [Vec3.divScalar]
    congr 2 <;> ring

omit [FloorRing K] in
theorem EvaluateDirectionS_adjoint (m : MathFns K) (prim : Primitive K)
    (geom : SurfaceGeometry K) (hframe : geom.FrameConsistent) (wi wo : Vec3 K) (fd : Bool) :
    (prim.Params.S.Type_ = SType.Reflection →
      (prim.EvaluateDirectionS m geom wi wo TransportDirection.EL fd).scale
          (|Vec3.dot wo geom.sn| / |Vec3.dot wo geom.gn|)
        = (prim.EvaluateDirectionS m geom wo wi TransportDirection.LE fd).scale
          (|Vec3.dot wi geom.sn| / |Vec3.dot wi geom.gn|))
    ∧ (prim.Params.S.Type_ = SType.Refraction →
      (prim.EvaluateDirectionS m geom wi wo TransportDirection.EL fd).scale
          (|Vec3.dot wo geom.sn| / |Vec3.dot wo geom.gn|)
        = ((prim.EvaluateDirectionS m geom wo wi TransportDirection.LE fd).scale
          (|Vec3.dot wi geom.sn| / |Vec3.dot wi geom.gn|)).scale
          (relativeEta prim.Params.S.Refraction geom wi ^ 2)) := by
  have e := shadingNormalCorrection_adjoint geom hframe wi wo
  constructor
  · intro hS
    unfold Primitive.EvaluateDirectionS
    cases fd
    · simp [Vec3.zero_scale]
    · simp only [hS, Bool.not_true, Bool.false_eq_true, if_false]
      by_cases g : LocalCos (geom.ToLocal.mulVec wi) ≤ 0 ∨ LocalCos (geom.ToLocal.mulVec wo) ≤ 0
      · rw [if_pos g, if_pos (Or.symm g), Vec3.zero_scale, Vec3.zero_scale]
      · rw [if_neg g, if_neg (fun h => g (Or.symm h))]
        simp only [Vec3.scale_scale]
        rw [e]
  · intro hS
    unfold Primitive.EvaluateDirectionS
    cases fd
    · simp [Vec3.zero_scale]
    · simp only [hS, Bool.not_true, Bool.false_eq_true, if_false, if_true, reduceCtorEq,
        Vec3.scale_scale, relativeEta]
      congr 1
      linear_combination
        ((if LocalCos (geom.ToLocal.mulVec wi) < 0 then prim.Params.S.Refraction.Eta2
            else prim.Params.S.Refraction.Eta1)
          / (if LocalCos (geom.ToLocal.mulVec wi) < 0 then prim.Params.S.Refraction.Eta1
            else prim.Params.S.Refraction.Eta2)) ^ 2 * e

omit [FloorRing K] in
theorem EvaluateDirectionS_adjoint_fresnel (m : MathFns K) (prim : Primitive K)
    (geom : SurfaceGeometry K) (hframe : geom.FrameConsistent) (wi wo : Vec3 K) (fd : Bool)
    (hS : prim.Params.S.Type_ = SType.Fresnel)
    (hFr : fresnelTermAt m prim.Params.S.Fresnel geom wi
      = fresnelTermAt m prim.Params.S.Fresnel geom wo) :
    (0 ≤ Vec3.dot wi geom.sn * Vec3.dot wo geom.sn →
      (prim.EvaluateDirectionS m geom wi wo TransportDirection.EL fd).scale
          (|Vec3.dot wo geom.sn| / |Vec3.dot wo geom.gn|)
        = (prim.EvaluateDirectionS m geom wo wi TransportDirection.LE fd).scale
          (|Vec3.dot wi geom.sn| / |Vec3.dot wi geom.gn|))
    ∧ (Vec3.dot wi geom.sn * Vec3.dot wo geom.sn < 0 →
      (prim.EvaluateDirectionS m geom wi wo TransportDirection.EL fd).scale
          (|Vec3.dot wo geom.sn| / |Vec3.dot wo geom.gn|)
        = ((prim.EvaluateDirectionS m geom wo wi TransportDirection.LE fd).scale
          (|Vec3.dot wi geom.sn| / |Vec3.dot wi geom.gn|)).scale
          (relativeEta prim.Params.S.Fresnel geom wi ^ 2)) := by
  have e := shadingNormalCorrection_adjoint geom hframe wi wo
  have ci := LocalCos_ToLocal geom hframe wi
  have co := LocalCos_ToLocal geom hframe wo
  unfold fresnelTermAt at hFr
  constructor
  · intro hb
    have hb1 : LocalCos (geom.ToLocal.mulVec wi) * LocalCos (geom.ToLocal.mulVec wo) ≥ 0 := by
      rw [ci, co]; exact hb
    have hb2 : LocalCos (geom.ToLocal.mulVec wo) * LocalCos (geom.ToLocal.mulVec wi) ≥ 0 := by
      rw [mul_comm]; exact hb1
    unfold Primitive.EvaluateDirectionS
    cases fd
    · simp [Vec3.zero_scale]
    · simp only [hS, Bool.not_true, Bool.false_eq_true, if_false, if_pos hb1, if_pos hb2,
        Vec3.scale_scale, hFr, mul_assoc]
      rw [e]
  · intro hb
    have hb1 : ¬ LocalCos (geom.ToLocal.mulVec wi) * LocalCos (geom.ToLocal.mulVec wo) ≥ 0 := by
      rw [ci, co]; exact not_le.mpr hb
    have hb2 : ¬ LocalCos (geom.ToLocal.mulVec wo) * LocalCos (geom.ToLocal.mulVec wi) ≥ 0 := by
      rw [mul_comm]; exact hb1
    unfold Primitive.EvaluateDirectionS
    cases fd
    · simp [Vec3.zero_scale]
    · simp only [hS, Bool.not_true, Bool.false_eq_true, if_false, if_true, if_neg hb1,
        if_neg hb2, reduceCtorEq, Vec3.scale_scale, relativeEta, hFr]
      congr 1
      linear_combination
        (1 - Primitive.EvaluateFresnelTerm m (geom.ToLocal.mulVec wo)
          (if LocalCos (geom.ToLocal.mulVec wo) < 0 then prim.Params.S.Fresnel.Eta2
            else prim.Params.S.Fresnel.Eta1)
          (if LocalCos (geom.ToLocal.mulVec wo) < 0 then prim.Params.S.Fresnel.Eta1
            else prim.Params.S.Fresnel.Eta2))
        * ((if LocalCos (geom.ToLocal.mulVec wi) < 0 then prim.Params.S.Fresnel.Eta2
            else prim.Params.S.Fresnel.Eta1)
          / (if LocalCos (geom.ToLocal.mulVec wi) < 0 then prim.Params.S.Fresnel.Eta1
            else prim.Params.S.Fresnel.Eta2)) ^ 2 * e

/-- C2 (amended).  For a query without emitter bit, unit directions and a geometry whose
frame is consistent and orthonormal, `fs(wi→wo | EL)·|wo·sn|/|wo·gn|` equals
`fs(wo→wi | LE)·|wi·sn|/|wi·gn|` for the D, G and S-reflection kinds.  For S-refraction the
EL side is `η²` times the LE side, `η = η_i/η_t` being the ratio formed for `wi`.  For
S-Fresnel, when the Fresnel terms computed for `wi` and for `wo` coincide, the two sides are
equal on the reflection branch and differ by the factor `η²` on the refraction branch. -/
theorem EvaluateDirection_adjoint (m : MathFns K) (prim : Primitive K)
    (geom : SurfaceGeometry K) (q : Nat) (wi wo : Vec3 K) (fd : Bool)
    (hq : q &&& PrimitiveType.Emitter = 0) (hframe : geom.FrameConsistent)
    (horth : geom.Orthonormal) (hwi : Vec3.dot wi wi = 1) (hwo : Vec3.dot wo wo = 1) :
    (((q &&& PrimitiveType.D) > 0 ∨ (q &&& PrimitiveType.G) > 0
        ∨ prim.Params.S.Type_ = SType.Reflection) →
      adjointSideEL m prim geom q wi wo fd = adjointSideLE m prim geom q wi wo fd)
    ∧ (q &&& PrimitiveType.D = 0 → q &&& PrimitiveType.G = 0 →
        prim.Params.S.Type_ = SType.Refraction →
      adjointSideEL m prim geom q wi wo fd
        = (adjointSideLE m prim geom q wi wo fd).scale
            (relativeEta prim.Params.S.Refraction geom wi ^ 2))
    ∧ (q &&& PrimitiveType.D = 0 → q &&& PrimitiveType.G = 0 →
        prim.Params.S.Type_ = SType.Fresnel →
        fresnelTermAt m prim.Params.S.Fresnel geom wi
          = fresnelTermAt m prim.Params.S.Fresnel geom wo →
      (0 ≤ Vec3.dot wi geom.sn * Vec3.dot wo geom.sn →
        adjointSideEL m prim geom q wi wo fd = adjointSideLE m prim geom q wi wo fd)
      ∧ (Vec3.dot wi geom.sn * Vec3.dot wo geom.sn < 0 →
        adjointSideEL m prim geom q wi wo fd
          = (adjointSideLE m prim geom q wi wo fd).scale
              (relativeEta prim.Params.S.Fresnel geom wi ^ 2))) := by
  unfold adjointSideEL adjointSideLE
  rw [EvaluateDirection_bsdf m prim geom q wi wo _ fd hq,
    EvaluateDirection_bsdf m prim geom q wo wi _ fd hq]
  refine ⟨?_, ?_, ?_⟩
  · intro h
    by_cases hD : (q &&& PrimitiveType.D) > 0
    · rw [if_pos hD, if_pos hD]
      exact EvaluateDirectionD_adjoint m prim geom hframe wi wo
    rw [if_neg hD, if_neg hD]
    by_cases hG : (q &&& PrimitiveType.G) > 0
    · rw [if_pos hG, if_pos hG]
      exact EvaluateDirectionG_adjoint m prim geom hframe horth wi wo hwi hwo
    rw [if_neg hG, if_neg hG]
    by_cases hS : (q &&& PrimitiveType.S) > 0
    · rw [if_pos hS, if_pos hS]
      rcases h with h | h | h
      · exact absurd h hD
      · exact absurd h hG
      · exact (EvaluateDirectionS_adjoint m prim geom hframe wi wo fd).1 h
    · rw [if_neg hS, if_neg hS, Vec3.zero_scale, Vec3.zero_scale]
  · intro hD hG hT
    have hD' : ¬ (q &&& PrimitiveType.D) > 0 := by omega
    have hG' : ¬ (q &&& PrimitiveType.G) > 0 := by omega
    rw [if_neg hD', if_neg hD', if_neg hG', if_neg hG']
    by_cases hS : (q &&& PrimitiveType.S) > 0
    · rw [if_pos hS, if_pos hS]
      exact (EvaluateDirectionS_adjoint m prim geom hframe wi wo fd).2 hT
    · rw [if_neg hS, if_neg hS, Vec3.zero_scale, Vec3.zero_scale, Vec3.zero_scale]
  · intro hD hG hT hFr
    have hD' : ¬ (q &&& PrimitiveType.D) > 0 := by omega
    have hG' : ¬ (q &&& PrimitiveType.G) > 0 := by omega
    rw [if_neg hD', if_neg hD', if_neg hG', if_neg hG']
    by_cases hS : (q &&& PrimitiveType.S) > 0
    · rw [if_pos hS, if_pos hS]
      exact EvaluateDirectionS_adjoint_fresnel m prim geom hframe wi wo fd hT hFr
    · rw [if_neg hS, if_neg hS, Vec3.zero_scale, Vec3.zero_scale, Vec3.zero_scale]
      exact ⟨fun _ => rfl, fun _ => rfl⟩

theorem exGeom_FrameConsistent : exGeom.FrameConsistent := by
  constructor <;> rfl

theorem exGeom_Orthonormal : exGeom.Orthonormal := by
  simp [SurfaceGeometry.Orthonormal, exGeom, Vec3.dot]

/-- C2, witness: the white diffuse surface with `wi = (0, 0, 1)`, `wo = (3/5, 0, 4/5)`, and
the glass interface crossed along the normal. -/
theorem EvaluateDirection_adjoint_witness :
    (PrimitiveType.D &&& PrimitiveType.Emitter = 0 ∧ exGeom.FrameConsistent ∧ exGeom.Orthonormal
      ∧ Vec3.dot (⟨0, 0, 1⟩ : Vec3 ℚ) ⟨0, 0, 1⟩ = 1
      ∧ Vec3.dot (⟨3 / 5, 0, 4 / 5⟩ : Vec3 ℚ) ⟨3 / 5, 0, 4 / 5⟩ = 1
      ∧ Vec3.dot (⟨0, 0, -1⟩ : Vec3 ℚ) ⟨0, 0, -1⟩ = 1)
    ∧ adjointSideEL exMath exDiffuse exGeom PrimitiveType.D ⟨0, 0, 1⟩ ⟨3 / 5, 0, 4 / 5⟩ true
        = adjointSideLE exMath exDiffuse exGeom PrimitiveType.D ⟨0, 0, 1⟩ ⟨3 / 5, 0, 4 / 5⟩ true
    ∧ adjointSideEL exMath exGlass exGeom PrimitiveType.S ⟨0, 0, 1⟩ ⟨0, 0, -1⟩ true
        = (adjointSideLE exMath exGlass exGeom PrimitiveType.S ⟨0, 0, 1⟩ ⟨0, 0, -1⟩ true).scale
            (relativeEta exGlass.Params.S.Refraction exGeom ⟨0, 0, 1⟩ ^ 2) := by
  have hqD : PrimitiveType.D &&& PrimitiveType.Emitter = 0 := by decide
  have hqS : PrimitiveType.S &&& PrimitiveType.Emitter = 0 := by decide
  have h1 : Vec3.dot (⟨0, 0, 1⟩ : Vec3 ℚ) ⟨0, 0, 1⟩ = 1 := by norm_num [Vec3.dot]
  have h2 : Vec3.dot (⟨3 / 5, 0, 4 / 5⟩ : Vec3 ℚ) ⟨3 / 5, 0, 4 / 5⟩ = 1 := by
    norm_num [Vec3.dot]
  have h3 : Vec3.dot (⟨0, 0, -1⟩ : Vec3 ℚ) ⟨0, 0, -1⟩ = 1 := by norm_num [Vec3.dot]
  refine ⟨⟨hqD, exGeom_FrameConsistent, exGeom_Orthonormal, h1, h2, h3⟩, ?_, ?_⟩
  · exact (EvaluateDirection_adjoint exMath exDiffuse exGeom PrimitiveType.D _ _ true hqD
      exGeom_FrameConsistent exGeom_Orthonormal h1 h2).1 (Or.inl (by decide))
  · exact (EvaluateDirection_adjoint exMath exGlass exGeom PrimitiveType.S _ _ true hqS
      exGeom_FrameConsistent exGeom_Orthonormal h1 h3).2.1 (by decide) (by decide) rfl

/-- C2, counterexample: for the glass interface (indices `1` and `3/2`) crossed along the
normal, `wi = (0, 0, 1)` and `wo = (0, 0, -1)`, the EL side is `4/9` and the LE side is `1`;
for the Fresnel interface (indices `1` and `4/3`) with `wi = (0, 0, 1)` and
`wo = (4/5, 0, 3/5)` on the same side, the EL side is `1/49` and the LE side is `49/1250`. -/
theorem EvaluateDirection_adjoint_counterexample :
    (adjointSideEL exMath exGlass exGeom PrimitiveType.S ⟨0, 0, 1⟩ ⟨0, 0, -1⟩ true
        = ⟨4 / 9, 4 / 9, 4 / 9⟩
      ∧ adjointSideLE exMath exGlass exGeom PrimitiveType.S ⟨0, 0, 1⟩ ⟨0, 0, -1⟩ true
        = ⟨1, 1, 1⟩
      ∧ adjointSideEL exMath exGlass exGeom PrimitiveType.S ⟨0, 0, 1⟩ ⟨0, 0, -1⟩ true
        ≠ adjointSideLE exMath exGlass exGeom PrimitiveType.S ⟨0, 0, 1⟩ ⟨0, 0, -1⟩ true)
    ∧ (adjointSideEL exMath exFresnel exGeom PrimitiveType.S ⟨0, 0, 1⟩ ⟨4 / 5, 0, 3 / 5⟩ true
        = ⟨1 / 49, 1 / 49, 1 / 49⟩
      ∧ adjointSideLE exMath exFresnel exGeom PrimitiveType.S ⟨0, 0, 1⟩ ⟨4 / 5, 0, 3 / 5⟩ true
        = ⟨49 / 1250, 49 / 1250, 49 / 1250⟩
      ∧ adjointSideEL exMath exFresnel exGeom PrimitiveType.S ⟨0, 0, 1⟩ ⟨4 / 5, 0, 3 / 5⟩ true
        ≠ adjointSideLE exMath exFresnel exGeom PrimitiveType.S ⟨0, 0, 1⟩ ⟨4 / 5, 0, 3 / 5⟩
            true) := by
  decide!

end DirectionTheorems

section Loops
variable {σ : Type}

theorem forUp_eq_foldl (lo : Int) (N : Nat) (body : Int → σ → σ) (acc : σ) :
    forUp lo (lo + N) body acc
      = (List.range N).foldl (fun a (k : Nat) => body (lo + (k : Int)) a) acc := by
  unfold forUp
  have h : (lo + (N : Int) - lo).toNat = N := by omega
  rw [h]

theorem forUp_zero_eq_foldl (N : Nat) (body : Int → σ → σ) (acc : σ) :
    forUp 0 (N : Int) body acc = (List.range N).foldl (fun a (k : Nat) => body (k : Int) a) acc := by
  have h := forUp_eq_foldl 0 N body acc
  simp only [zero_add] at h
  exact h

theorem forUp_succ (lo : Int) (N : Nat) (body : Int → σ → σ) (acc : σ) :
    forUp lo (lo + (N + 1 : Nat)) body acc = body (lo + N) (forUp lo (lo + N) body acc) := by
  rw [forUp_eq_foldl, forUp_eq_foldl, List.range_succ, List.foldl_append]
  rfl

theorem forUp_empty (lo hi : Int) (h : hi ≤ lo) (body : Int → σ → σ) (acc : σ) :
    forUp lo hi body acc = acc := by
  unfold forUp
  have h : (hi - lo).toNat = 0 := by omega
  rw [h]; rfl

theorem forDown_eq_foldl (hi : Int) (N : Nat) (body : Int → σ → σ) (acc : σ) :
    forDown hi (hi + 1 - N) body acc
      = (List.range N).foldl (fun a (k : Nat) => body (hi - (k : Int)) a) acc := by
  unfold forDown
  have h : (hi - (hi + 1 - (N : Int)) + 1).toNat = N := by omega
  rw [h]

theorem forDown_empty (hi lo : Int) (h : hi < lo) (body : Int → σ → σ) (acc : σ) :
    forDown hi lo body acc = acc := by
  unfold forDown
  have h : (hi - lo + 1).toNat = 0 := by omega
  rw [h]; rfl

end Loops


section WeightTheorems

variable {K : Type} [LinearOrderedField K] [FloorRing K]

omit [FloorRing K] in
theorem foldl_range_add (f : Nat → K) (N : Nat) (acc : K) :
    (List.range N).foldl (fun a k => a + f k) acc = acc + ∑ k ∈ Finset.range N, f k := by
  induction N with
  | zero => simp
  | succ N ih =>
    rw [List.range_succ, List.foldl_append, ih, Finset.sum_range_succ]
    simp [add_assoc]

omit [FloorRing K] in
/-- The power-heuristic weights of the strategies of positive density sum to one. -/
theorem power_heuristic_sum (p : Nat → K) (N : Nat) (h : ∃ i, i < N ∧ 0 < p i) :
    ∑ i ∈ (Finset.range N).filter (fun i => 0 < p i),
      1 / (∑ j ∈ Finset.range N, if 0 < p j then (p j / p i) * (p j / p i) else 0) = 1 := by
  have key : ∀ i, 0 < p i →
      (∑ j ∈ Finset.range N, if 0 < p j then (p j / p i) * (p j / p i) else 0)
        = (∑ j ∈ (Finset.range N).filter (fun j => 0 < p j), p j * p j) / (p i * p i) := by
    intro i hi
    rw [Finset.sum_filter, Finset.sum_div]
    apply Finset.sum_congr rfl
    intro j _
    split_ifs
    · field_simp
    · simp
  have hS : 0 < ∑ j ∈ (Finset.range N).filter (fun j => 0 < p j), p j * p j := by
    obtain ⟨i, hiN, hi⟩ := h
    apply Finset.sum_pos
    · intro j hj
      have := (Finset.mem_filter.mp hj).2
      positivity
    · exact ⟨i, Finset.mem_filter.mpr ⟨Finset.mem_range.mpr hiN, hi⟩⟩
  have e : ∀ i ∈ (Finset.range N).filter (fun i => 0 < p i),
      1 / (∑ j ∈ Finset.range N, if 0 < p j then (p j / p i) * (p j / p i) else 0)
        = (p i * p i) / (∑ j ∈ (Finset.range N).filter (fun j => 0 < p j), p j * p j) := by
    intro i hi
    have hi' := (Finset.mem_filter.mp hi).2
    rw [key i hi', one_div, inv_div]
  rw [Finset.sum_congr rfl e, ← Finset.sum_div]
  exact div_self (ne_of_gt hS)

/-- The loop of `EvaluatePowerHeuristicsMISWeightOpt` as a sum over the strategies. -/
theorem EvaluatePowerHeuristicsMISWeightOpt_eq (m : MathFns K) (path : Path K) (scene : Scene K)
    (s : Int) :
    path.EvaluatePowerHeuristicsMISWeightOpt m scene s
      = 1 / ∑ j ∈ Finset.range (path.vertices.length + 1),
          if 0 < path.EvaluatePDF m scene (j : Int)
          then (path.EvaluatePDF m scene (j : Int) / path.EvaluatePDF m scene s)
            * (path.EvaluatePDF m scene (j : Int) / path.EvaluatePDF m scene s)
          else 0 := by
  unfold Path.EvaluatePowerHeuristicsMISWeightOpt
  have hN : ((path.vertices.length : Int) + 1) = ((path.vertices.length + 1 : Nat) : Int) := by
    push_cast; ring
  simp only [hN, forUp_zero_eq_foldl, gt_iff_lt]
  have hb : (fun (a : K) (k : Nat) =>
      if 0 < path.EvaluatePDF m scene (k : Int) then
        a + path.EvaluatePDF m scene (k : Int) / path.EvaluatePDF m scene s
          * (path.EvaluatePDF m scene (k : Int) / path.EvaluatePDF m scene s)
      else a)
      = fun (a : K) (k : Nat) => a + (if 0 < path.EvaluatePDF m scene (k : Int) then
          path.EvaluatePDF m scene (k : Int) / path.EvaluatePDF m scene s
            * (path.EvaluatePDF m scene (k : Int) / path.EvaluatePDF m scene s)
        else 0) := by
    funext a k
    split_ifs <;> simp
  rw [hb, foldl_range_add, zero_add]

/-- C1.  On a fullpath for which at least one strategy `i ∈ 0..n` has positive density, the
power-heuristic weights `EvaluatePowerHeuristicsMISWeightOpt(i)` of the strategies with
`EvaluatePDF(i) > 0` sum to `1`. -/
theorem MISWeight_sum_eq_one (m : MathFns K) (path : Path K) (scene : Scene K)
    (h : ∃ i : Nat, i ≤ path.vertices.length ∧ 0 < path.EvaluatePDF m scene (i : Int)) :
    ∑ i ∈ (Finset.range (path.vertices.length + 1)).filter
        (fun i : Nat => 0 < path.EvaluatePDF m scene (i : Int)),
      path.EvaluatePowerHeuristicsMISWeightOpt m scene (i : Int) = 1 := by
  simp only [EvaluatePowerHeuristicsMISWeightOpt_eq]
  apply power_heuristic_sum (fun i : Nat => path.EvaluatePDF m scene (i : Int))
  obtain ⟨i, hi, hp⟩ := h
  exact ⟨i, by omega, hp⟩

end WeightTheorems

/-- C1, witness: on the two-vertex path from the area light to the area sensor the strategy
`s = 1` has positive density. -/
theorem MISWeight_sum_eq_one_witness :
    (∃ i : Nat, i ≤ exPath.vertices.length ∧ 0 < exPath.EvaluatePDF exMath exScene (i : Int))
    ∧ ∑ i ∈ (Finset.range (exPath.vertices.length + 1)).filter
        (fun i : Nat => 0 < exPath.EvaluatePDF exMath exScene (i : Int)),
      exPath.EvaluatePowerHeuristicsMISWeightOpt exMath exScene (i : Int) = 1 :=
  ⟨⟨1, by decide, by decide!⟩,
    MISWeight_sum_eq_one exMath exPath exScene ⟨1, by decide, by decide!⟩⟩

section ConnectTheorems

variable {K : Type} [LinearOrderedField K] [FloorRing K]

theorem foldl_range_push {α : Type} (g : Nat → α) (N : Nat) (acc : List α) :
    (List.range N).foldl (fun a (k : Nat) => a ++ [g k]) acc = acc ++ (List.range N).map g := by
  induction N with
  | zero => simp
  | succ N ih =>
    rw [List.range_succ, List.foldl_append, ih]
    simp

theorem forUp_push {α : Type} (f : Int → α) (s : Nat) (acc : List α) :
    forUp 0 (s : Int) (fun i vs => vs ++ [f i]) acc
      = acc ++ (List.range s).map (fun k : Nat => f (k : Int)) := by
  rw [forUp_zero_eq_foldl]
  exact foldl_range_push (fun k : Nat => f (k : Int)) s acc

theorem forDown_push {α : Type} (f : Int → α) (t : Nat) (acc : List α) :
    forDown ((t : Int) - 1) 0 (fun i vs => vs ++ [f i]) acc
      = acc ++ (List.range t).map (fun k : Nat => f ((t : Int) - 1 - (k : Int))) := by
  have h := forDown_eq_foldl ((t : Int) - 1) t (fun i vs => vs ++ [f i]) acc
  have e : (t : Int) - 1 + 1 - (t : Int) = 0 := by ring
  rw [e] at h
  rw [h]
  exact foldl_range_push (fun k : Nat => f ((t : Int) - 1 - (k : Int))) t acc

omit [FloorRing K] in
/-- The result of `Connect` with its loops written as lists: `subpathL[0..s-1]` followed by
`subpathE[t-1..0]`. -/
theorem Connect_eq (m : MathFns K) (scene : Scene K) (s t : Nat) (subpathL subpathE : Path K) :
    Path.Connect m scene s t subpathL subpathE =
      if s = 0 ∧ t > 0 then
        if ((subpathE.vertexAt ((t : Int) - 1)).primitive.Type_ &&& PrimitiveType.L) = 0
        then (false, ⟨[]⟩)
        else (true, ⟨setFrontType ((List.range t).map
          (fun k : Nat => subpathE.vertexAt ((t : Int) - 1 - (k : Int)))) PrimitiveType.L⟩)
      else if s > 0 ∧ t = 0 then
        if ((subpathL.vertexAt ((s : Int) - 1)).primitive.Type_ &&& PrimitiveType.E) = 0
        then (false, ⟨[]⟩)
        else (true, ⟨setBackType ((List.range s).map
          (fun k : Nat => subpathL.vertexAt (k : Int))) PrimitiveType.E⟩)
      else
        if !scene.Visible m (subpathL.vertexAt ((s : Int) - 1)).geom.p
            (subpathE.vertexAt ((t : Int) - 1)).geom.p
        then (false, ⟨[]⟩)
        else (true, ⟨(List.range s).map (fun k : Nat => subpathL.vertexAt (k : Int))
          ++ (List.range t).map
            (fun k : Nat => subpathE.vertexAt ((t : Int) - 1 - (k : Int)))⟩) := by
  unfold Path.Connect
  simp only [forUp_push, forDown_push, List.nil_append]
  have e1 : ((s : Int) = 0 ∧ (t : Int) > 0) ↔ (s = 0 ∧ t > 0) := by omega
  have e2 : ((s : Int) > 0 ∧ (t : Int) = 0) ↔ (s > 0 ∧ t = 0) := by omega
  simp only [e1, e2]

theorem getD_map_range {α : Type} (g : Nat → α) (n i : Nat) (d : α) (h : i < n) :
    ((List.range n).map g).getD i d = g i := by
  rw [List.getD_eq_getElem?_getD, List.getElem?_map, List.getElem?_range h]
  rfl

omit [LinearOrderedField K] [FloorRing K] in
theorem setFrontType_length (l : List (PathVertex K)) (ty : Nat) :
    (setFrontType l ty).length = l.length := by
  cases l <;> rfl

omit [LinearOrderedField K] [FloorRing K] in
theorem setFrontType_getD (l : List (PathVertex K)) (ty : Nat) (i : Nat) (d : PathVertex K) :
    ((setFrontType l ty).getD i d).geom = (l.getD i d).geom
    ∧ ((setFrontType l ty).getD i d).primitive = (l.getD i d).primitive := by
  cases l with
  | nil => exact ⟨rfl, rfl⟩
  | cons v vs =>
    cases i with
    | zero => exact ⟨rfl, rfl⟩
    | succ i => exact ⟨rfl, rfl⟩

omit [LinearOrderedField K] [FloorRing K] in
theorem setBackType_eq (l : List (PathVertex K)) (v : PathVertex K) (ty : Nat) :
    setBackType (l ++ [v]) ty = l ++ [{ v with type := ty }] := by
  unfold setBackType
  simp

omit [LinearOrderedField K] [FloorRing K] in
theorem setBackType_length (l : List (PathVertex K)) (ty : Nat) :
    (setBackType l ty).length = l.length := by
  rcases List.eq_nil_or_concat l with h | ⟨l', v, h⟩
  · subst h; rfl
  · subst h
    simp [List.concat_eq_append, setBackType_eq]

omit [LinearOrderedField K] [FloorRing K] in
theorem setBackType_getD (l : List (PathVertex K)) (ty : Nat) (i : Nat) (d : PathVertex K) :
    ((setBackType l ty).getD i d).geom = (l.getD i d).geom
    ∧ ((setBackType l ty).getD i d).primitive = (l.getD i d).primitive := by
  rcases List.eq_nil_or_concat l with h | ⟨l', v, h⟩
  · subst h; exact ⟨rfl, rfl⟩
  · subst h
    simp only [List.concat_eq_append, setBackType_eq]
    rcases Nat.lt_trichotomy i l'.length with hi | hi | hi
    · simp [List.getD_eq_getElem?_getD, List.getElem?_append_left hi]
    · subst hi
      simp [List.getD_eq_getElem?_getD]
    · have h1 : (l' ++ [v]).length ≤ i := by simp; omega
      have h2 : (l' ++ [{ v with type := ty }]).length ≤ i := by simp; omega
      simp [List.getD_eq_getElem?_getD, List.getElem?_eq_none h1, List.getElem?_eq_none h2]

omit [FloorRing K] in
/-- C4.  When `Connect(s, t)` returns true, with `s ≤ |subpathL|`, `t ≤ |subpathE|` and
`s + t > 0`, the fullpath has `s + t` vertices, vertex `i < s` has the geometry and primitive
of `subpathL[i]`, and vertex `s + j`, `j < t`, those of `subpathE[t - 1 - j]`. -/
theorem Connect_vertices (m : MathFns K) (scene : Scene K) (s t : Nat)
    (subpathL subpathE : Path K) (_hs : s ≤ subpathL.vertices.length)
    (_ht : t ≤ subpathE.vertices.length) (_hst : 0 < s + t)
    (hc : (Path.Connect m scene s t subpathL subpathE).1 = true) :
    (Path.Connect m scene s t subpathL subpathE).2.vertices.length = s + t
    ∧ (∀ i : Nat, i < s →
        ((Path.Connect m scene s t subpathL subpathE).2.vertexAt i).geom
          = (subpathL.vertexAt i).geom
        ∧ ((Path.Connect m scene s t subpathL subpathE).2.vertexAt i).primitive
          = (subpathL.vertexAt i).primitive)
    ∧ (∀ j : Nat, j < t →
        ((Path.Connect m scene s t subpathL subpathE).2.vertexAt ((s + j : Nat) : Int)).geom
          = (subpathE.vertexAt ((t : Int) - 1 - (j : Int))).geom
        ∧ ((Path.Connect m scene s t subpathL subpathE).2.vertexAt
            ((s + j : Nat) : Int)).primitive
          = (subpathE.vertexAt ((t : Int) - 1 - (j : Int))).primitive) := by
  rw [Connect_eq] at hc ⊢
  by_cases h1 : s = 0 ∧ t > 0
  · rw [if_pos h1] at hc ⊢
    obtain ⟨hs0, ht0⟩ := h1
    subst hs0
    by_cases hb : ((subpathE.vertexAt ((t : Int) - 1)).primitive.Type_ &&& PrimitiveType.L) = 0
    · rw [if_pos hb] at hc
      exact absurd hc (by simp)
    · rw [if_neg hb]
      refine ⟨by simp [setFrontType_length], fun i hi => absurd hi (Nat.not_lt_zero i), ?_⟩
      intro j hj
      simp only [Path.vertexAt, Int.toNat_ofNat, zero_add]
      have h := setFrontType_getD ((List.range t).map
          (fun k : Nat => subpathE.vertexAt ((t : Int) - 1 - (k : Int)))) PrimitiveType.L j
          PathVertex.init
      rw [getD_map_range _ _ _ _ hj] at h
      exact h
  · rw [if_neg h1] at hc ⊢
    by_cases h2 : s > 0 ∧ t = 0
    · rw [if_pos h2] at hc ⊢
      obtain ⟨hs0, ht0⟩ := h2
      subst ht0
      by_cases hb : ((subpathL.vertexAt ((s : Int) - 1)).primitive.Type_ &&& PrimitiveType.E) = 0
      · rw [if_pos hb] at hc
        exact absurd hc (by simp)
      · rw [if_neg hb]
        refine ⟨by simp [setBackType_length], ?_, fun j hj => absurd hj (Nat.not_lt_zero j)⟩
        intro i hi
        simp only [Path.vertexAt, Int.toNat_ofNat]
        have h := setBackType_getD ((List.range s).map
            (fun k : Nat => subpathL.vertexAt (k : Int))) PrimitiveType.E i PathVertex.init
        rw [getD_map_range _ _ _ _ hi] at h
        simp only [Path.vertexAt, Int.toNat_ofNat] at h
        exact h
    · rw [if_neg h2] at hc ⊢
      by_cases hb : (!scene.Visible m (subpathL.vertexAt ((s : Int) - 1)).geom.p
          (subpathE.vertexAt ((t : Int) - 1)).geom.p) = true
      · rw [if_pos hb] at hc
        exact absurd hc (by simp)
      · rw [if_neg hb]
        refine ⟨by simp, ?_, ?_⟩
        · intro i hi
          simp only [Path.vertexAt, Int.toNat_ofNat]
          rw [List.getD_append _ _ _ _ (by simpa using hi), getD_map_range _ _ _ _ hi]
          simp [Path.vertexAt]
        · intro j hj
          simp only [Path.vertexAt, Int.toNat_ofNat]
          rw [List.getD_append_right _ _ _ _ (by simp), List.length_map, List.length_range,
            Nat.add_sub_cancel_left, getD_map_range _ _ _ _ hj]
          simp [Path.vertexAt]

omit [FloorRing K] in
/-- C5.  For `s + t > 0`, `Connect(s, t)` returns true exactly when: for `s = 0` the primitive
of `subpathE[t-1]` has the L bit; for `t = 0` the primitive of `subpathL[s-1]` has the E bit;
for `s > 0` and `t > 0` the scene reports `Visible(subpathL[s-1].p, subpathE[t-1].p)`. -/
theorem Connect_true_iff (m : MathFns K) (scene : Scene K) (s t : Nat)
    (subpathL subpathE : Path K) (hst : 0 < s + t) :
    (Path.Connect m scene s t subpathL subpathE).1 = true ↔
      (s = 0 → ((subpathE.vertexAt ((t : Int) - 1)).primitive.Type_ &&& PrimitiveType.L) ≠ 0)
      ∧ (t = 0 → ((subpathL.vertexAt ((s : Int) - 1)).primitive.Type_ &&& PrimitiveType.E) ≠ 0)
      ∧ (s > 0 → t > 0 → scene.Visible m (subpathL.vertexAt ((s : Int) - 1)).geom.p
          (subpathE.vertexAt ((t : Int) - 1)).geom.p = true) := by
  rw [Connect_eq]
  by_cases h1 : s = 0 ∧ t > 0
  · rw [if_pos h1]
    obtain ⟨hs0, ht0⟩ := h1
    subst hs0
    by_cases hb : ((subpathE.vertexAt ((t : Int) - 1)).primitive.Type_ &&& PrimitiveType.L) = 0
    · rw [if_pos hb]
      simp [hb]
    · rw [if_neg hb]
      simp only [true_iff]
      exact ⟨fun _ => hb, fun h => absurd h (by omega), fun h => absurd h (by omega)⟩
  · rw [if_neg h1]
    by_cases h2 : s > 0 ∧ t = 0
    · rw [if_pos h2]
      obtain ⟨hs0, ht0⟩ := h2
      subst ht0
      by_cases hb : ((subpathL.vertexAt ((s : Int) - 1)).primitive.Type_ &&& PrimitiveType.E) = 0
      · rw [if_pos hb]
        simp [hb]
      · rw [if_neg hb]
        simp only [true_iff]
        exact ⟨fun h => absurd h (by omega), fun _ => hb, fun _ h => absurd h (by omega)⟩
    · rw [if_neg h2]
      have hs0 : s > 0 := by omega
      have ht0 : t > 0 := by omega
      by_cases hb : (!scene.Visible m (subpathL.vertexAt ((s : Int) - 1)).geom.p
          (subpathE.vertexAt ((t : Int) - 1)).geom.p) = true
      · rw [if_pos hb]
        simp only [Bool.not_eq_true', ] at hb
        simp [hb, hs0, ht0]
      · rw [if_neg hb]
        simp only [Bool.not_eq_true', Bool.not_eq_false] at hb
        simp only [true_iff]
        exact ⟨fun h => absurd h (by omega), fun h => absurd h (by omega), fun _ _ => hb⟩

end ConnectTheorems

section SubpathTheorems

variable {K : Type} [LinearOrderedField K] [FloorRing K]

omit [LinearOrderedField K] [FloorRing K] in
theorem SubpathTyped_append (ty0 : Nat) (vs : List (PathVertex K)) (v : PathVertex K)
    (hne : vs ≠ []) (h : SubpathTyped ty0 vs) (hv : v.type &&& PrimitiveType.Emitter = 0) :
    SubpathTyped ty0 (vs ++ [v]) := by
  cases vs with
  | nil => exact absurd rfl hne
  | cons a rest =>
    obtain ⟨h1, h2⟩ := h
    refine ⟨h1, ?_⟩
    intro w hw
    rcases List.mem_append.mp hw with hw | hw
    · exact h2 w hw
    · rw [List.mem_singleton.mp hw]; exact hv

theorem land_NotEmitter (t : Nat) :
    (t &&& PrimitiveType.NotEmitter) &&& PrimitiveType.Emitter = 0 := by
  rw [Nat.and_assoc]
  have : PrimitiveType.NotEmitter &&& PrimitiveType.Emitter = 0 := by decide
  rw [this]; simp

theorem SampleInitialVertex_spec (m : MathFns K) (scene : Scene K) (td : TransportDirection)
    (rng : Random K) :
    (SampleInitialVertex m scene td rng).1.type
        = (if td = TransportDirection.LE then PrimitiveType.L else PrimitiveType.E)
    ∧ (SampleInitialVertex m scene td rng).2.stream = rng.stream
    ∧ (SampleInitialVertex m scene td rng).2.pos = rng.pos + 3 :=
  ⟨rfl, rfl, rfl⟩

theorem SampleIntermediateVertex_spec (m : MathFns K) (scene : Scene K)
    (td : TransportDirection) (rng : Random K) (vs : List (PathVertex K)) :
    (SampleIntermediateVertex m scene td rng vs).2.stream = rng.stream
    ∧ ∀ v b, (SampleIntermediateVertex m scene td rng vs).1 = some (v, b) →
        v.type &&& PrimitiveType.Emitter = 0
        ∧ (SampleIntermediateVertex m scene td rng vs).2.pos = rng.pos + 4
        ∧ (b = true ↔ rng.stream (rng.pos + 3) > 1 / 2) := by
  unfold SampleIntermediateVertex
  simp only
  by_cases hrr : rng.stream (rng.pos + 3) > 1 / 2
  · have hrr2 : rng.Next2D.2.Next.2.Next.1 > 1 / 2 := hrr
    simp only [if_pos hrr2]
    split_ifs <;> (try split) <;> refine ⟨rfl, fun v b h => ?_⟩ <;>
      first
      | (simp at h; done)
      | (simp only [Option.some.injEq, Prod.mk.injEq] at h
         obtain ⟨hv, hb⟩ := h
         subst hv hb
         exact ⟨land_NotEmitter _, rfl, by simpa using hrr⟩)
  · have hrr2 : ¬ rng.Next2D.2.Next.2.Next.1 > 1 / 2 := hrr
    simp only [if_neg hrr2]
    split_ifs <;> (try split) <;> refine ⟨rfl, fun v b h => ?_⟩ <;>
      first
      | (simp at h; done)
      | (simp only [Option.some.injEq, Prod.mk.injEq] at h
         obtain ⟨hv, hb⟩ := h
         subst hv hb
         exact ⟨land_NotEmitter _, rfl, by simpa using hrr⟩)

theorem SampleSubpathLoop_typed (m : MathFns K) (scene : Scene K) (td : TransportDirection)
    (maxPathVertices : Int) :
    ∀ (fuel step : Nat) (rng : Random K) (vs : List (PathVertex K))
      (res : List (PathVertex K) × Random K),
      SampleSubpathLoop m scene td maxPathVertices fuel step rng vs = some res →
      (step = 0 → vs = []) → (step ≠ 0 → vs ≠ []) →
      SubpathTyped (if td = TransportDirection.LE then PrimitiveType.L else PrimitiveType.E) vs →
      SubpathTyped (if td = TransportDirection.LE then PrimitiveType.L else PrimitiveType.E)
        res.1 := by
  intro fuel
  induction fuel with
  | zero =>
    intro step rng vs res h
    simp [SampleSubpathLoop] at h
  | succ fuel ih =>
    intro step rng vs res h h0 h1 hT
    rw [SampleSubpathLoop] at h
    by_cases hcond : maxPathVertices = -1 ∨ (step : Int) < maxPathVertices
    · rw [if_pos hcond] at h
      by_cases hstep : step = 0
      · rw [if_pos hstep] at h
        have hvs := h0 hstep
        subst hvs
        refine ih _ _ _ _ h (by omega) (by simp) ?_
        exact ⟨(SampleInitialVertex_spec m scene td rng).1, by simp⟩
      · rw [if_neg hstep] at h
        have hspec := (SampleIntermediateVertex_spec m scene td rng vs).2
        generalize SampleIntermediateVertex m scene td rng vs = r at h hspec
        obtain ⟨o, rng1⟩ := r
        cases o with
        | none =>
          simp only [Option.some.injEq] at h
          rw [← h]; exact hT
        | some vb =>
          obtain ⟨v, b⟩ := vb
          have hv := (hspec v b rfl).1
          cases b with
          | true =>
            simp only [Option.some.injEq] at h
            rw [← h]
            exact SubpathTyped_append _ _ _ (h1 hstep) hT hv
          | false =>
            simp only at h
            refine ih _ _ _ _ h (by omega) (by simp) ?_
            exact SubpathTyped_append _ _ _ (h1 hstep) hT hv
    · rw [if_neg hcond] at h
      simp only [Option.some.injEq] at h
      rw [← h]; exact hT

theorem SampleSubpathLoop_bound (m : MathFns K) (scene : Scene K) (td : TransportDirection)
    (maxPathVertices : Int) :
    ∀ (fuel step : Nat) (rng : Random K) (vs : List (PathVertex K)),
      vs.length = step → (step : Int) ≤ maxPathVertices →
      (maxPathVertices - (step : Int)).toNat + 1 ≤ fuel →
      ∃ res, SampleSubpathLoop m scene td maxPathVertices fuel step rng vs = some res
        ∧ (res.1.length : Int) ≤ maxPathVertices := by
  intro fuel
  induction fuel with
  | zero =>
    intro step rng vs _ _ hf
    omega
  | succ fuel ih =>
    intro step rng vs hlen hle hf
    rw [SampleSubpathLoop]
    by_cases hcond : maxPathVertices = -1 ∨ (step : Int) < maxPathVertices
    · rw [if_pos hcond]
      have hlt : (step : Int) < maxPathVertices := by omega
      by_cases hstep : step = 0
      · rw [if_pos hstep]
        exact ih _ _ _ (by simp [hlen]) (by push_cast; omega) (by push_cast; omega)
      · rw [if_neg hstep]
        generalize SampleIntermediateVertex m scene td rng vs = r
        obtain ⟨o, rng1⟩ := r
        cases o with
        | none => exact ⟨_, rfl, by simp only; omega⟩
        | some vb =>
          obtain ⟨v, b⟩ := vb
          cases b with
          | true =>
            refine ⟨_, rfl, ?_⟩
            simp only [List.length_append, List.length_singleton]
            push_cast; omega
          | false =>
            exact ih _ _ _ (by simp [hlen]) (by push_cast; omega) (by push_cast; omega)
    · rw [if_neg hcond]
      exact ⟨_, rfl, by simp only; omega⟩

theorem SampleSubpathLoop_roulette (m : MathFns K) (scene : Scene K) (td : TransportDirection)
    (maxPathVertices : Int) :
    ∀ (fuel step : Nat) (rng : Random K) (vs : List (PathVertex K))
      (res : List (PathVertex K) × Random K),
      SampleSubpathLoop m scene td maxPathVertices fuel step rng vs = some res →
      vs.length = step →
      ∀ j : Nat, j + 2 ≤ res.1.length →
        (step = 0 → 1 ≤ j → rng.stream (rng.pos + 4 * j + 2) ≤ 1 / 2)
        ∧ (1 ≤ step → step ≤ j → rng.stream (rng.pos + 4 * (j - step) + 3) ≤ 1 / 2) := by
  intro fuel
  induction fuel with
  | zero =>
    intro step rng vs res h
    simp [SampleSubpathLoop] at h
  | succ fuel ih =>
    intro step rng vs res h hlen j hj
    rw [SampleSubpathLoop] at h
    by_cases hcond : maxPathVertices = -1 ∨ (step : Int) < maxPathVertices
    · rw [if_pos hcond] at h
      by_cases hstep : step = 0
      · rw [if_pos hstep] at h
        have hs := SampleInitialVertex_spec m scene td rng
        have := (ih _ _ _ _ h (by simp [hlen]) j hj).2
        refine ⟨fun _ hj1 => ?_, fun h1 => absurd hstep (by omega)⟩
        have e := this (by omega) (by omega)
        rw [hs.2.1, hs.2.2] at e
        have e2 : rng.pos + 3 + 4 * (j - (step + 1)) + 3 = rng.pos + 4 * j + 2 := by omega
        rw [e2] at e
        exact e
      · rw [if_neg hstep] at h
        have hspec := SampleIntermediateVertex_spec m scene td rng vs
        generalize SampleIntermediateVertex m scene td rng vs = r at h hspec
        obtain ⟨o, rng1⟩ := r
        refine ⟨fun h0 => absurd h0 hstep, fun _ hsj => ?_⟩
        cases o with
        | none =>
          simp only [Option.some.injEq] at h
          rw [← h] at hj
          simp only at hj
          omega
        | some vb =>
          obtain ⟨v, b⟩ := vb
          obtain ⟨hstream, hvb⟩ := hspec
          obtain ⟨_, hpos, hb⟩ := hvb v b rfl
          simp only at hstream hpos
          cases b with
          | true =>
            simp only [Option.some.injEq] at h
            rw [← h] at hj
            simp only [List.length_append, List.length_singleton] at hj
            omega
          | false =>
            simp only at h
            have hnot : ¬ rng.stream (rng.pos + 3) > 1 / 2 := by
              intro hc
              have := hb.mpr hc
              simp at this
            rcases Nat.eq_or_lt_of_le hsj with hEq | hLt
            · rw [← hEq]
              simp only [Nat.sub_self, Nat.mul_zero, Nat.add_zero]
              exact not_lt.mp hnot
            · have := (ih _ _ _ _ h (by simp [hlen]) j hj).2 (by omega) (by omega)
              rw [hstream, hpos] at this
              have e2 : rng.pos + 4 + 4 * (j - (step + 1)) + 3 = rng.pos + 4 * (j - step) + 3 := by
                omega
              rw [e2] at this
              exact this
    · rw [if_neg hcond] at h
      simp only [Option.some.injEq] at h
      rw [← h] at hj
      simp only at hj
      refine ⟨fun h0 _ => ?_, fun _ hsj => ?_⟩ <;> omega

omit [LinearOrderedField K] [FloorRing K] in
theorem SubpathTyped_getD (ty0 : Nat) (vs : List (PathVertex K)) (h : SubpathTyped ty0 vs)
    (i : Nat) (hi : i < vs.length) (d : PathVertex K) :
    (i = 0 → (vs.getD i d).type = ty0)
    ∧ (0 < i → (vs.getD i d).type &&& PrimitiveType.Emitter = 0) := by
  cases vs with
  | nil => simp at hi
  | cons a rest =>
    obtain ⟨h1, h2⟩ := h
    cases i with
    | zero => exact ⟨fun _ => h1, fun h => absurd h (by omega)⟩
    | succ i =>
      refine ⟨fun h => absurd h (by omega), fun _ => ?_⟩
      simp only [List.length_cons] at hi
      have hi' : i < rest.length := by omega
      rw [List.getD_cons_succ, List.getD_eq_getElem _ _ hi']
      exact h2 _ (List.getElem_mem hi')

omit [LinearOrderedField K] [FloorRing K] in
theorem setFrontType_type (l : List (PathVertex K)) (ty : Nat) (i : Nat) (d : PathVertex K)
    (hl : 0 < l.length) :
    (i = 0 → ((setFrontType l ty).getD i d).type = ty)
    ∧ (0 < i → (setFrontType l ty).getD i d = l.getD i d) := by
  cases l with
  | nil => simp at hl
  | cons v vs =>
    cases i with
    | zero => exact ⟨fun _ => rfl, fun h => absurd h (by omega)⟩
    | succ i => exact ⟨fun h => absurd h (by omega), fun _ => rfl⟩

omit [LinearOrderedField K] [FloorRing K] in
theorem setBackType_type (l : List (PathVertex K)) (ty : Nat) (i : Nat) (d : PathVertex K)
    (hl : 0 < l.length) :
    (i + 1 = l.length → ((setBackType l ty).getD i d).type = ty)
    ∧ (i + 1 < l.length → (setBackType l ty).getD i d = l.getD i d) := by
  rcases List.eq_nil_or_concat l with h | ⟨l', v, h⟩
  · subst h; simp at hl
  · subst h
    simp only [List.concat_eq_append, setBackType_eq, List.length_append, List.length_singleton]
    constructor
    · intro hi
      have hi' : i = l'.length := by omega
      subst hi'
      simp [List.getD_eq_getElem?_getD]
    · intro hi
      have hi' : i < l'.length := by omega
      simp [List.getD_eq_getElem?_getD, List.getElem?_append_left hi']

omit [LinearOrderedField K] [FloorRing K] in
theorem land_L_of_Emitter (q : Nat) (h : q &&& PrimitiveType.Emitter = 0) :
    q &&& PrimitiveType.L = 0 ∧ q &&& PrimitiveType.E = 0 :=
  ⟨land_eq_zero_of_land_eq_zero q PrimitiveType.L PrimitiveType.Emitter (by decide) h,
   land_eq_zero_of_land_eq_zero q PrimitiveType.E PrimitiveType.Emitter (by decide) h⟩

theorem SampleSubpath_typed (m : MathFns K) (scene : Scene K) (rng : Random K)
    (td : TransportDirection) (maxPathVertices : Int) (fuel : Nat) (sub : Path K)
    (r : Random K) (h : Path.SampleSubpath m scene rng td maxPathVertices fuel = some (sub, r)) :
    SubpathTyped (if td = TransportDirection.LE then PrimitiveType.L else PrimitiveType.E)
      sub.vertices := by
  unfold Path.SampleSubpath at h
  rw [Option.map_eq_some'] at h
  obtain ⟨res, hres, he⟩ := h
  simp only [Prod.mk.injEq] at he
  rw [← he.1]
  exact SampleSubpathLoop_typed m scene td maxPathVertices fuel 0 rng [] res hres
    (fun _ => rfl) (fun h => absurd rfl h) trivial

/-- C6.  For an L-subpath and an E-subpath produced by `SampleSubpath` and a connection
`(s, t)` within their lengths with `s + t ≥ 2` for which `Connect` succeeds, vertex `0` of the
fullpath has type exactly `L`, the last vertex has type exactly `E`, and every vertex in
between has neither the `L` nor the `E` bit. -/
theorem Connect_vertex_types (m : MathFns K) (scene : Scene K) (rngL rngE : Random K)
    (maxL maxE : Int) (fuelL fuelE : Nat) (subpathL subpathE : Path K) (rL rE : Random K)
    (s t : Nat)
    (hL : Path.SampleSubpath m scene rngL TransportDirection.LE maxL fuelL = some (subpathL, rL))
    (hE : Path.SampleSubpath m scene rngE TransportDirection.EL maxE fuelE = some (subpathE, rE))
    (hs : s ≤ subpathL.vertices.length) (ht : t ≤ subpathE.vertices.length) (hst : 2 ≤ s + t)
    (hc : (Path.Connect m scene s t subpathL subpathE).1 = true) :
    ((Path.Connect m scene s t subpathL subpathE).2.vertexAt 0).type = PrimitiveType.L
    ∧ ((Path.Connect m scene s t subpathL subpathE).2.vertexAt ((s + t - 1 : Nat) : Int)).type
        = PrimitiveType.E
    ∧ ∀ i : Nat, 0 < i → i + 1 < s + t →
        ((Path.Connect m scene s t subpathL subpathE).2.vertexAt (i : Int)).type
            &&& PrimitiveType.L = 0
        ∧ ((Path.Connect m scene s t subpathL subpathE).2.vertexAt (i : Int)).type
            &&& PrimitiveType.E = 0 := by
  have hTL := SampleSubpath_typed m scene rngL _ maxL fuelL subpathL rL hL
  have hTE := SampleSubpath_typed m scene rngE _ maxE fuelE subpathE rE hE
  simp only [if_true, reduceCtorEq, if_false] at hTL hTE
  have gL := fun i hi => SubpathTyped_getD _ _ hTL i hi PathVertex.init
  have gE := fun i hi => SubpathTyped_getD _ _ hTE i hi PathVertex.init
  have eE : ∀ k : Nat, k < t → ((t : Int) - 1 - (k : Int)).toNat = t - 1 - k := by
    intro k hk; omega
  rw [Connect_eq] at hc ⊢
  by_cases h1 : s = 0 ∧ t > 0
  · rw [if_pos h1] at hc ⊢
    obtain ⟨hs0, ht0⟩ := h1
    subst hs0
    by_cases hb : ((subpathE.vertexAt ((t : Int) - 1)).primitive.Type_ &&& PrimitiveType.L) = 0
    · rw [if_pos hb] at hc
      exact absurd hc (by simp)
    · rw [if_neg hb]
      simp only [Path.vertexAt, Int.toNat_ofNat, Int.toNat_zero, zero_add]
      have hlen : 0 < ((List.range t).map (fun k : Nat =>
          subpathE.vertices.getD ((t : Int) - 1 - (k : Int)).toNat PathVertex.init)).length := by
        simp; omega
      have hF := fun i => setFrontType_type _ PrimitiveType.L i PathVertex.init hlen
      refine ⟨(hF 0).1 rfl, ?_, ?_⟩
      · rw [(hF (t - 1)).2 (by omega), getD_map_range _ _ _ _ (by omega)]
        rw [eE (t - 1) (by omega)]
        have : t - 1 - (t - 1) = 0 := by omega
        rw [this]
        exact (gE 0 (by omega)).1 rfl
      · intro i hi0 hi1
        rw [(hF i).2 hi0, getD_map_range _ _ _ _ (by omega)]
        rw [eE i (by omega)]
        exact land_L_of_Emitter _ ((gE (t - 1 - i) (by omega)).2 (by omega))
  · rw [if_neg h1] at hc ⊢
    by_cases h2 : s > 0 ∧ t = 0
    · rw [if_pos h2] at hc ⊢
      obtain ⟨hs0, ht0⟩ := h2
      subst ht0
      by_cases hb : ((subpathL.vertexAt ((s : Int) - 1)).primitive.Type_ &&& PrimitiveType.E) = 0
      · rw [if_pos hb] at hc
        exact absurd hc (by simp)
      · rw [if_neg hb]
        simp only [Path.vertexAt, Int.toNat_ofNat, Int.toNat_zero, add_zero]
        have hlen : ((List.range s).map
            (fun k : Nat => subpathL.vertices.getD k PathVertex.init)).length = s := by simp
        have hB := fun i => setBackType_type ((List.range s).map
            (fun k : Nat => subpathL.vertices.getD k PathVertex.init)) PrimitiveType.E i
            PathVertex.init (by omega)
        simp only [hlen] at hB
        refine ⟨?_, (hB (s - 1)).1 (by omega), ?_⟩
        · rw [(hB 0).2 (by omega), getD_map_range _ _ _ _ (by omega)]
          exact (gL 0 (by omega)).1 rfl
        · intro i hi0 hi1
          rw [(hB i).2 (by omega), getD_map_range _ _ _ _ (by omega)]
          exact land_L_of_Emitter _ ((gL i (by omega)).2 hi0)
    · rw [if_neg h2] at hc ⊢
      have hs0 : 0 < s := by omega
      have ht0 : 0 < t := by omega
      by_cases hb : (!scene.Visible m (subpathL.vertexAt ((s : Int) - 1)).geom.p
          (subpathE.vertexAt ((t : Int) - 1)).geom.p) = true
      · rw [if_pos hb] at hc
        exact absurd hc (by simp)
      · rw [if_neg hb]
        simp only [Path.vertexAt, Int.toNat_ofNat, Int.toNat_zero]
        have hlenL : ((List.range s).map
            (fun k : Nat => subpathL.vertices.getD k PathVertex.init)).length = s := by simp
        refine ⟨?_, ?_, ?_⟩
        · rw [List.getD_append _ _ _ _ (by rw [hlenL]; exact hs0),
            getD_map_range _ _ _ _ hs0]
          exact (gL 0 (by omega)).1 rfl
        · rw [List.getD_append_right _ _ _ _ (by rw [hlenL]; omega), hlenL,
            getD_map_range _ _ _ _ (by omega)]
          rw [eE _ (by omega)]
          have : t - 1 - (s + t - 1 - s) = 0 := by omega
          rw [this]
          exact (gE 0 (by omega)).1 rfl
        · intro i hi0 hi1
          by_cases his : i < s
          · rw [List.getD_append _ _ _ _ (by rw [hlenL]; exact his),
              getD_map_range _ _ _ _ his]
            exact land_L_of_Emitter _ ((gL i (by omega)).2 hi0)
          · rw [List.getD_append_right _ _ _ _ (by rw [hlenL]; omega), hlenL,
              getD_map_range _ _ _ _ (by omega)]
            rw [eE _ (by omega)]
            exact land_L_of_Emitter _ ((gE (t - 1 - (i - s)) (by omega)).2 (by omega))

end SubpathTheorems

section SelectionTheorems

variable {K : Type} [LinearOrderedField K] [FloorRing K]

omit [FloorRing K] in
theorem foldl_range_mul (c : K) (N : Nat) (acc : K) :
    (List.range N).foldl (fun a (_ : Nat) => a * c) acc = acc * c ^ N := by
  induction N with
  | zero => simp
  | succ N ih =>
    rw [List.range_succ, List.foldl_append, ih]
    simp [pow_succ, mul_assoc]

omit [FloorRing K] in
theorem SelectionProb_formula (path : Path K) (s : Nat) (hs : s ≤ path.vertices.length) :
    path.SelectionProb s
      = (1 / 2 : K) ^ ((s - 2) + (path.vertices.length - s - 2)) := by
  unfold Path.SelectionProb forUp forDown
  simp only [foldl_range_mul, one_mul]
  have e1 : ((s : Int) - 1 - 1).toNat = s - 2 := by omega
  have e2 : ((path.vertices.length : Int) - (s : Int) - 2 - 1 + 1).toNat
      = path.vertices.length - s - 2 := by omega
  rw [e1, e2, pow_add]

theorem roulette_volume (n : Nat) :
    MeasureTheory.volume {ω : Fin n → ℝ | ∀ i, ω i ∈ Set.Ico (0 : ℝ) 1 ∧ ¬ ω i > 1 / 2}
      = ENNReal.ofReal ((1 / 2) ^ n) := by
  have hset : {ω : Fin n → ℝ | ∀ i, ω i ∈ Set.Ico (0 : ℝ) 1 ∧ ¬ ω i > 1 / 2}
      = Set.Icc (fun _ => (0 : ℝ)) (fun _ => (1 / 2 : ℝ)) := by
    ext ω
    simp only [Set.mem_setOf_eq, Set.mem_Ico, Set.mem_Icc, Pi.le_def, not_lt, gt_iff_lt]
    constructor
    · intro h
      exact ⟨fun i => (h i).1.1, fun i => (h i).2⟩
    · intro h i
      exact ⟨⟨h.1 i, lt_of_le_of_lt (h.2 i) (by norm_num)⟩, h.2 i⟩
  rw [hset, Real.volume_Icc_pi]
  simp only [sub_zero, Finset.prod_const, Finset.card_univ, Fintype.card_fin]
  rw [ENNReal.ofReal_pow (by norm_num)]

end SelectionTheorems


section IntegratorTheorems

theorem foldl_range_append {α : Type} (g : Nat → List α) (N : Nat) (acc : List α) :
    (List.range N).foldl (fun a (k : Nat) => a ++ g k) acc = acc ++ (List.range N).flatMap g := by
  induction N with
  | zero => simp
  | succ N ih =>
    rw [List.range_succ, List.foldl_append, ih, List.flatMap_append]
    simp

theorem forUp_append {α : Type} (lo hi : Int) (g : Int → List α) (acc : List α) :
    forUp lo hi (fun i a => a ++ g i) acc
      = acc ++ (List.range (hi - lo).toNat).flatMap (fun k : Nat => g (lo + (k : Int))) := by
  unfold forUp
  exact foldl_range_append (fun k : Nat => g (lo + (k : Int))) _ acc

theorem foldl_flatMap_eq {α β σ : Type} (l : List α) (f : α → List β) (g : σ → β → σ)
    (acc : σ) :
    (l.flatMap f).foldl g acc = l.foldl (fun a x => (f x).foldl g a) acc := by
  induction l generalizing acc with
  | nil => rfl
  | cons x l ih => simp [List.flatMap_cons, List.foldl_append, ih]

theorem foldl_push_eq {α : Type} (l : List α) (acc : List α) :
    l.foldl (fun a p => a ++ [p]) acc = acc ++ l := by
  induction l generalizing acc with
  | nil => simp
  | cons x l ih => simp [ih]

/-- The connections of the loop nest of `ProcessSample_BPT`, length by length. -/
theorem bptConnectionLoop_eq_foldl {σ : Type} (M nL nE : Int) (body : Int → Int → σ → σ)
    (acc : σ) :
    bptConnectionLoop M nL nE body acc
      = ((List.range (nE + nL + 1 - 2).toNat).flatMap (fun k : Nat =>
          if M ≠ -1 ∧ (2 + (k : Int)) > M then []
          else (List.range (min nL (2 + (k : Int)) + 1 - max 0 (2 + (k : Int) - nE)).toNat).map
            (fun j : Nat => (max 0 (2 + (k : Int) - nE) + (j : Int),
              2 + (k : Int) - (max 0 (2 + (k : Int) - nE) + (j : Int)))))).foldl
          (fun a p => body p.1 p.2 a) acc := by
  unfold bptConnectionLoop
  rw [foldl_flatMap_eq]
  unfold forUp
  congr 1
  funext a k
  by_cases h : M ≠ -1 ∧ (2 + (k : Int)) > M
  · simp only [if_pos h, List.foldl_nil]
  · simp only [if_neg h, List.foldl_map]

/-- The connections attempted by `ProcessSample_BPT`, length by length. -/
theorem connectAttempts_eq (M nL nE : Int) :
    connectAttempts M nL nE
      = (List.range (nE + nL + 1 - 2).toNat).flatMap (fun k : Nat =>
          if M ≠ -1 ∧ (2 + (k : Int)) > M then []
          else (List.range (min nL (2 + (k : Int)) + 1 - max 0 (2 + (k : Int) - nE)).toNat).map
            (fun j : Nat => (max 0 (2 + (k : Int) - nE) + (j : Int),
              2 + (k : Int) - (max 0 (2 + (k : Int) - nE) + (j : Int))))) := by
  unfold connectAttempts
  rw [bptConnectionLoop_eq_foldl, foldl_push_eq, List.nil_append]

/-- C8.  With subpath lengths `nL` and `nE`, the loop nest of `ProcessSample_BPT` runs its
body, which starts with the call of `Connect(s, t)`, once for each element of
`connectAttempts` in turn; that list has no repetition and holds exactly the pairs `(s, t)`
with `0 ≤ s ≤ nL`, `0 ≤ t ≤ nE`, `s + t ≥ 2` and (`MaxNumVertices = -1` or
`s + t ≤ MaxNumVertices`). -/
theorem connectAttempts_spec (MaxNumVertices : Int) (nL nE : Nat) :
    (∀ (σ : Type) (body : Int → Int → σ → σ) (acc : σ),
      bptConnectionLoop MaxNumVertices nL nE body acc
        = (connectAttempts MaxNumVertices nL nE).foldl (fun a p => body p.1 p.2 a) acc)
    ∧ (connectAttempts MaxNumVertices nL nE).Nodup
    ∧ ∀ s t : Int, (s, t) ∈ connectAttempts MaxNumVertices nL nE ↔
        (0 ≤ s ∧ s ≤ nL ∧ 0 ≤ t ∧ t ≤ nE ∧ 2 ≤ s + t
          ∧ (MaxNumVertices = -1 ∨ s + t ≤ MaxNumVertices)) := by
  refine ⟨fun σ body acc => by rw [connectAttempts_eq, bptConnectionLoop_eq_foldl], ?_⟩
  rw [connectAttempts_eq]
  have hsum : ∀ (k : Nat) (p : Int × Int),
      p ∈ (if MaxNumVertices ≠ -1 ∧ (2 + (k : Int)) > MaxNumVertices then []
          else (List.range (min (nL : Int) (2 + (k : Int)) + 1
              - max 0 (2 + (k : Int) - (nE : Int))).toNat).map
            (fun j : Nat => (max 0 (2 + (k : Int) - (nE : Int)) + (j : Int),
              2 + (k : Int) - (max 0 (2 + (k : Int) - (nE : Int)) + (j : Int))))) ↔
        (¬ (MaxNumVertices ≠ -1 ∧ (2 + (k : Int)) > MaxNumVertices)
          ∧ p.1 + p.2 = 2 + (k : Int) ∧ max 0 (2 + (k : Int) - (nE : Int)) ≤ p.1
          ∧ p.1 ≤ min (nL : Int) (2 + (k : Int))) := by
    intro k p
    split_ifs with hskip
    · simp [hskip]
    · simp only [List.mem_map, List.mem_range, hskip, not_false_eq_true, true_and]
      constructor
      · rintro ⟨j, hj, rfl⟩
        simp only
        omega
      · rintro ⟨h1, h2, h3⟩
        refine ⟨(p.1 - max 0 (2 + (k : Int) - (nE : Int))).toNat, by omega, ?_⟩
        ext
        · simp only; omega
        · simp only; omega
  constructor
  · rw [List.nodup_flatMap]
    constructor
    · intro k _
      split_ifs
      · exact List.nodup_nil
      · apply List.Nodup.map _ (List.nodup_range _)
        intro a b hab
        simp only [Prod.mk.injEq] at hab
        omega
    · apply List.Nodup.pairwise_of_forall_ne (List.nodup_range _)
      intro a _ b _ hab
      simp only [Function.onFun]
      rw [List.disjoint_left]
      intro p hpa hpb
      have ha := (hsum a p).mp hpa
      have hb := (hsum b p).mp hpb
      omega
  · intro s t
    rw [List.mem_flatMap]
    constructor
    · rintro ⟨k, hk, hp⟩
      have h := (hsum k (s, t)).mp hp
      simp only [List.mem_range] at hk
      simp only at h
      omega
    · intro h
      refine ⟨(s + t - 2).toNat, ?_, ?_⟩
      · simp only [List.mem_range]; omega
      · apply (hsum _ (s, t)).mpr
        simp only
        omega

end IntegratorTheorems

section WalkTheorems

variable {K : Type} [LinearOrderedField K] [FloorRing K]

/-- C7.  For `maxPathVertices ≥ 0`, whatever the scene and the random stream,
`SampleSubpath` terminates within `maxPathVertices + 1` evaluations of its loop condition and
returns at most `maxPathVertices` vertices, none when `maxPathVertices` is `0`. -/
theorem SampleSubpath_terminates (m : MathFns K) (scene : Scene K) (rng : Random K)
    (td : TransportDirection) (maxPathVertices : Int) (fuel : Nat)
    (hmax : 0 ≤ maxPathVertices) (hfuel : maxPathVertices.toNat + 1 ≤ fuel) :
    ∃ sub r, Path.SampleSubpath m scene rng td maxPathVertices fuel = some (sub, r)
      ∧ (sub.vertices.length : Int) ≤ maxPathVertices
      ∧ (maxPathVertices = 0 → sub.vertices = []) := by
  obtain ⟨res, hres, hlen⟩ := SampleSubpathLoop_bound m scene td maxPathVertices fuel 0 rng []
    rfl (by simpa using hmax) (by simpa using hfuel)
  refine ⟨⟨res.1⟩, res.2, ?_, hlen, ?_⟩
  · unfold Path.SampleSubpath
    rw [hres]
    rfl
  · intro h0
    rw [h0] at hlen
    have : res.1.length = 0 := by omega
    exact List.length_eq_zero.mp this

/-- C9.  For a fullpath of `n` vertices and `0 ≤ s ≤ n`, `t = n - s`:
`SelectionProb(s) = (1/2)^(max(0, s-2) + max(0, t-2))`, a value in `(0, 1]`.  The exponent
counts the Russian-roulette draws that let the walks get that far: a walk of `SampleSubpath`
that holds `k` vertices has passed the roulette of its iterations `1, …, k-2`, each with a draw
`≤ 1/2`; and for independent uniform draws in `[0, 1)` the probability that
`max(0, s-2) + max(0, t-2)` of them all pass is that power of `1/2`. -/
theorem SelectionProb_eq (path : Path K) (s : Nat) (hs : s ≤ path.vertices.length) :
    path.SelectionProb s = (1 / 2 : K) ^ ((s - 2) + (path.vertices.length - s - 2))
    ∧ 0 < path.SelectionProb s ∧ path.SelectionProb s ≤ 1
    ∧ (∀ (m : MathFns K) (scene : Scene K) (rng : Random K) (td : TransportDirection)
        (maxPathVertices : Int) (fuel : Nat) (sub : Path K) (r : Random K),
        Path.SampleSubpath m scene rng td maxPathVertices fuel = some (sub, r) →
        ∀ j : Nat, 1 ≤ j → j + 2 ≤ sub.vertices.length →
          rng.stream (rng.pos + 4 * j + 2) ≤ 1 / 2)
    ∧ MeasureTheory.volume {ω : Fin ((s - 2) + (path.vertices.length - s - 2)) → ℝ |
          ∀ i, ω i ∈ Set.Ico (0 : ℝ) 1 ∧ ¬ ω i > 1 / 2}
        = ENNReal.ofReal ((1 / 2) ^ ((s - 2) + (path.vertices.length - s - 2))) := by
  have hf := SelectionProb_formula path s hs
  refine ⟨hf, ?_, ?_, ?_, roulette_volume _⟩
  · rw [hf]; positivity
  · rw [hf]
    exact pow_le_one₀ (by norm_num) (by norm_num)
  · intro m scene rng td maxPathVertices fuel sub r h j hj1 hj2
    unfold Path.SampleSubpath at h
    rw [Option.map_eq_some'] at h
    obtain ⟨res, hres, he⟩ := h
    simp only [Prod.mk.injEq] at he
    have hlen : res.1.length = sub.vertices.length := by rw [← he.1]
    exact (SampleSubpathLoop_roulette m scene td maxPathVertices fuel 0 rng [] res hres rfl j
      (by omega)).1 rfl hj1

end WalkTheorems

theorem exWalkL_eq : ∃ r, exWalkL = some (exSubpathL, r) := by
  have hsome : exWalkL.isSome = true := by decide!
  unfold exSubpathL
  cases h : exWalkL with
  | none => rw [h] at hsome; simp at hsome
  | some r => exact ⟨r.2, rfl⟩

theorem exWalkE_eq : ∃ r, exWalkE = some (exSubpathE, r) := by
  have hsome : exWalkE.isSome = true := by decide!
  unfold exSubpathE
  cases h : exWalkE with
  | none => rw [h] at hsome; simp at hsome
  | some r => exact ⟨r.2, rfl⟩

/-- C4, witness: the connection `(3, 1)` of the walks through the room. -/
theorem Connect_vertices_witness :
    (3 ≤ exSubpathL.vertices.length ∧ 1 ≤ exSubpathE.vertices.length ∧ 0 < 3 + 1
      ∧ (Path.Connect exMath exRoom (3 : Nat) (1 : Nat) exSubpathL exSubpathE).1 = true)
    ∧ (Path.Connect exMath exRoom (3 : Nat) (1 : Nat) exSubpathL exSubpathE).2.vertices.length
        = 3 + 1 :=
  ⟨⟨by decide!, by decide!, by decide, by decide!⟩,
    (Connect_vertices exMath exRoom 3 1 exSubpathL exSubpathE (by decide!) (by decide!)
      (by decide) (by decide!)).1⟩

/-- C5, witness: the connection `(3, 1)` of the walks through the room succeeds, the end points
being mutually visible; the connection `(0, 1)` fails, the sensor not being a light. -/
theorem Connect_true_iff_witness :
    (0 < 3 + 1 ∧ 0 < 0 + 1)
    ∧ (Path.Connect exMath exRoom (3 : Nat) (1 : Nat) exSubpathL exSubpathE).1 = true
    ∧ ¬ (Path.Connect exMath exRoom (0 : Nat) (1 : Nat) exSubpathL exSubpathE).1 = true := by
  refine ⟨⟨by decide, by decide⟩, ?_, ?_⟩
  · exact (Connect_true_iff exMath exRoom 3 1 exSubpathL exSubpathE (by decide)).mpr
      ⟨fun h => absurd h (by decide), fun h => absurd h (by decide), fun _ _ => by decide!⟩
  · intro h
    have := ((Connect_true_iff exMath exRoom 0 1 exSubpathL exSubpathE (by decide)).mp h).1 rfl
    exact this (by decide!)

/-- C6, witness: the connection `(3, 1)` of the walks through the room gives the vertex types
`L, D, D, E`. -/
theorem Connect_vertex_types_witness :
    ∃ rL rE,
      (Path.SampleSubpath exMath exRoom exRng TransportDirection.LE 3 4 = some (exSubpathL, rL)
        ∧ Path.SampleSubpath exMath exRoom exRng TransportDirection.EL 3 4
            = some (exSubpathE, rE)
        ∧ 3 ≤ exSubpathL.vertices.length ∧ 1 ≤ exSubpathE.vertices.length ∧ 2 ≤ 3 + 1
        ∧ (Path.Connect exMath exRoom (3 : Nat) (1 : Nat) exSubpathL exSubpathE).1 = true)
      ∧ ((Path.Connect exMath exRoom (3 : Nat) (1 : Nat) exSubpathL exSubpathE).2.vertexAt 0).type
          = PrimitiveType.L
      ∧ (Path.Connect exMath exRoom (3 : Nat) (1 : Nat) exSubpathL exSubpathE).2.vertices.map
          (fun v => v.type) = [PrimitiveType.L, PrimitiveType.D, PrimitiveType.D, PrimitiveType.E] := by
  obtain ⟨rL, hL⟩ := exWalkL_eq
  obtain ⟨rE, hE⟩ := exWalkE_eq
  have h1 : 3 ≤ exSubpathL.vertices.length := by decide!
  have h2 : 1 ≤ exSubpathE.vertices.length := by decide!
  have hc : (Path.Connect exMath exRoom (3 : Nat) (1 : Nat) exSubpathL exSubpathE).1 = true := by
    decide!
  exact ⟨rL, rE, ⟨hL, hE, h1, h2, by decide, hc⟩,
    (Connect_vertex_types exMath exRoom exRng exRng 3 3 4 4 exSubpathL exSubpathE rL rE 3 1
      hL hE h1 h2 (by decide) hc).1, by decide!⟩

/-- C7, witness: the walk from the light through the room with `maxPathVertices = 3`. -/
theorem SampleSubpath_terminates_witness :
    ((0 : Int) ≤ 3 ∧ (3 : Int).toNat + 1 ≤ 4)
    ∧ ∃ sub r, Path.SampleSubpath exMath exRoom exRng TransportDirection.LE 3 4 = some (sub, r)
      ∧ (sub.vertices.length : Int) ≤ 3 ∧ ((3 : Int) = 0 → sub.vertices = []) :=
  ⟨⟨by decide, by decide⟩,
    SampleSubpath_terminates exMath exRoom exRng TransportDirection.LE 3 4 (by decide)
      (by decide)⟩

/-- C9, witness: on the fullpath `(3, 1)` of the walks through the room, of four vertices,
`SelectionProb(3) = 1/2`. -/
theorem SelectionProb_eq_witness :
    3 ≤ (Path.Connect exMath exRoom (3 : Nat) (1 : Nat) exSubpathL exSubpathE).2.vertices.length
    ∧ (Path.Connect exMath exRoom (3 : Nat) (1 : Nat) exSubpathL exSubpathE).2.SelectionProb
        (3 : Nat) = 1 / 2 := by
  have h : 3 ≤ (Path.Connect exMath exRoom (3 : Nat) (1 : Nat) exSubpathL
      exSubpathE).2.vertices.length := by decide!
  refine ⟨h, ?_⟩
  rw [(SelectionProb_eq _ 3 h).1]
  have e : (Path.Connect exMath exRoom (3 : Nat) (1 : Nat) exSubpathL
      exSubpathE).2.vertices.length = 4 := by decide!
  rw [e]
  norm_num

section DistributionTheorems

variable {K : Type} [LinearOrderedField K]

theorem upperBoundLoop_spec (cdf : List K) (u : K)
    (hmono : ∀ i j, i ≤ j → j < cdf.length → cdf.getD i 0 ≤ cdf.getD j 0) :
    ∀ (fuel first len : Nat), len ≤ fuel → first + len ≤ cdf.length →
      (∀ j, j < first → cdf.getD j 0 ≤ u) →
      (∀ j, first + len ≤ j → j < cdf.length → u < cdf.getD j 0) →
      upperBoundLoop cdf u fuel first len ≤ cdf.length
      ∧ (∀ j, j < upperBoundLoop cdf u fuel first len → cdf.getD j 0 ≤ u)
      ∧ (∀ j, upperBoundLoop cdf u fuel first len ≤ j → j < cdf.length → u < cdf.getD j 0) := by
  intro fuel
  induction fuel with
  | zero =>
    intro first len hlen hbound hlo hhi
    have h0 : len = 0 := by omega
    subst h0
    simp only [upperBoundLoop]
    exact ⟨by omega, hlo, fun j hj hjl => hhi j (by omega) hjl⟩
  | succ fuel ih =>
    intro first len hlen hbound hlo hhi
    rw [upperBoundLoop]
    by_cases h0 : len = 0
    · rw [if_pos h0]
      subst h0
      exact ⟨by omega, hlo, fun j hj hjl => hhi j (by omega) hjl⟩
    · rw [if_neg h0]
      simp only
      have hhalf : len / 2 < len := Nat.div_lt_self (by omega) (by decide)
      by_cases hu : u < cdf.getD (first + len / 2) 0
      · rw [if_pos hu]
        apply ih first (len / 2) (by omega) (by omega) hlo
        intro j hj hjl
        exact lt_of_lt_of_le hu (hmono _ _ hj hjl)
      · rw [if_neg hu]
        apply ih (first + len / 2 + 1) (len - len / 2 - 1) (by omega) (by omega)
        · intro j hj
          exact le_trans (hmono j (first + len / 2) (by omega) (by omega)) (not_lt.mp hu)
        · intro j hj hjl
          exact hhi j (by omega) hjl

theorem upper_bound_spec (cdf : List K) (u : K)
    (hmono : ∀ i j, i ≤ j → j < cdf.length → cdf.getD i 0 ≤ cdf.getD j 0) :
    upper_bound cdf u ≤ cdf.length
    ∧ (∀ j, j < upper_bound cdf u → cdf.getD j 0 ≤ u)
    ∧ (∀ j, upper_bound cdf u ≤ j → j < cdf.length → u < cdf.getD j 0) := by
  unfold upper_bound
  exact upperBoundLoop_spec cdf u hmono _ 0 _ (le_refl _) (by omega)
    (fun j hj => absurd hj (Nat.not_lt_zero j)) (fun j hj hjl => absurd hjl (by omega))

theorem getLastD_eq_getD (l : List K) (_h : l ≠ []) : l.getLastD 0 = l.getD (l.length - 1) 0 := by
  rw [List.getLastD_eq_getLast?, List.getLast?_eq_getElem?, List.getD_eq_getElem?_getD]

theorem CdfInv_Add (d : Distribution1D K) (S v : K) (h : CdfInv d.cdf S) (hv : 0 ≤ v) :
    CdfInv (d.Add v).cdf (S + v) := by
  obtain ⟨hne, h0, hl, hm⟩ := h
  have hlen : 0 < d.cdf.length := List.length_pos.mpr hne
  unfold Distribution1D.Add
  simp only [hl]
  refine ⟨by simp, ?_, List.getLastD_concat _ _ _, ?_⟩
  · rw [List.getD_append _ _ _ _ hlen]; exact h0
  · intro i j hij hj
    simp only [List.length_append, List.length_singleton] at hj
    by_cases hj' : j < d.cdf.length
    · rw [List.getD_append _ _ _ _ hj', List.getD_append _ _ _ _ (by omega)]
      exact hm i j hij hj'
    · have hje : j = d.cdf.length := by omega
      subst hje
      rw [List.getD_append_right _ _ _ _ (le_refl _)]
      simp only [Nat.sub_self, List.getD_cons_zero]
      by_cases hi' : i < d.cdf.length
      · rw [List.getD_append _ _ _ _ hi']
        have h1 := hm i (d.cdf.length - 1) (by omega) (by omega)
        rw [← getLastD_eq_getD _ hne, hl] at h1
        linarith
      · have hie : i = d.cdf.length := by omega
        subst hie
        rw [List.getD_append_right _ _ _ _ (le_refl _)]
        simp

theorem CdfInv_foldl (ws : List K) (hws : ∀ w ∈ ws, 0 ≤ w) :
    ∀ (d : Distribution1D K) (S : K), CdfInv d.cdf S →
      CdfInv (ws.foldl Distribution1D.Add d).cdf (S + ws.sum)
      ∧ (ws.foldl Distribution1D.Add d).cdf.length = d.cdf.length + ws.length := by
  induction ws with
  | nil =>
    intro d S h
    simpa using h
  | cons w ws ih =>
    intro d S h
    have hw : 0 ≤ w := hws w (List.mem_cons_self _ _)
    have h' := CdfInv_Add d S w h hw
    obtain ⟨h1, h2⟩ := ih (fun x hx => hws x (List.mem_cons_of_mem _ hx)) (d.Add w) (S + w) h'
    simp only [List.foldl_cons, List.sum_cons, List.length_cons]
    refine ⟨by rw [← add_assoc]; exact h1, ?_⟩
    rw [h2]
    simp [Distribution1D.Add]
    omega

theorem CdfInv_Normalize (d : Distribution1D K) (S : K) (h : CdfInv d.cdf S) (hS : 0 < S) :
    CdfInv d.Normalize.cdf 1 ∧ d.Normalize.cdf.length = d.cdf.length := by
  obtain ⟨hne, h0, hl, hm⟩ := h
  unfold Distribution1D.Normalize
  simp only [hl, List.length_map]
  have hget : ∀ i, (d.cdf.map fun v => v * (1 / S)).getD i 0 = d.cdf.getD i 0 * (1 / S) := by
    intro i
    have := List.getD_map (fun v => v * (1 / S)) (l := d.cdf) (d := (0 : K)) (n := i)
    simpa using this
  refine ⟨⟨by simpa using hne, ?_, ?_, ?_⟩, trivial⟩
  · rw [hget, h0, zero_mul]
  · have := List.getLastD_map (fun v => v * (1 / S)) d.cdf 0
    simp only [zero_mul] at this
    rw [this, hl]
    field_simp
  · intro i j hij hj
    rw [hget, hget]
    simp only [List.length_map] at hj
    exact mul_le_mul_of_nonneg_right (hm i j hij hj) (by positivity)

/-- C10.  For a distribution built by `n ≥ 1` calls of `Add` with non-negative weights of
positive total and then `Normalize`, and `u` in `[0, 1)`, `Sample(u)` returns an index `i`
in `[0, n - 1]` with `cdf[i] ≤ u < cdf[i + 1]`. -/
theorem Distribution1D_Sample_spec (ws : List K) (u : K) (hn : 1 ≤ ws.length)
    (hws : ∀ w ∈ ws, 0 ≤ w) (hsum : 0 < ws.sum) (hu0 : 0 ≤ u) (hu1 : u < 1) :
    0 ≤ (ws.foldl Distribution1D.Add Distribution1D.Clear).Normalize.Sample u
    ∧ (ws.foldl Distribution1D.Add Distribution1D.Clear).Normalize.Sample u
        ≤ (ws.length : Int) - 1
    ∧ (ws.foldl Distribution1D.Add Distribution1D.Clear).Normalize.cdf.getD
        ((ws.foldl Distribution1D.Add Distribution1D.Clear).Normalize.Sample u).toNat 0 ≤ u
    ∧ u < (ws.foldl Distribution1D.Add Distribution1D.Clear).Normalize.cdf.getD
        (((ws.foldl Distribution1D.Add Distribution1D.Clear).Normalize.Sample u).toNat + 1) 0 := by
  have hClear : CdfInv (Distribution1D.Clear : Distribution1D K).cdf 0 := by
    refine ⟨by simp [Distribution1D.Clear], rfl, rfl, ?_⟩
    intro i j hij hj
    simp only [Distribution1D.Clear, List.length_singleton] at hj
    have hj0 : j = 0 := by omega
    have hi0 : i = 0 := by omega
    subst hj0 hi0
    exact le_refl _
  obtain ⟨hInv, hLen⟩ := CdfInv_foldl ws hws Distribution1D.Clear 0 hClear
  rw [zero_add] at hInv
  obtain ⟨⟨hne, h0, hl, hm⟩, hLen2⟩ := CdfInv_Normalize _ _ hInv hsum
  generalize (ws.foldl Distribution1D.Add Distribution1D.Clear).Normalize = d at *
  have hlen : d.cdf.length = ws.length + 1 := by
    rw [hLen2, hLen]
    simp [Distribution1D.Clear]
    omega
  obtain ⟨hr1, hr2, hr3⟩ := upper_bound_spec d.cdf u hm
  have hlast : d.cdf.getD ws.length 0 = 1 := by
    rw [← hl, getLastD_eq_getD _ hne, hlen]
    simp
  have hrpos : 1 ≤ upper_bound d.cdf u := by
    by_contra hc
    have := hr3 0 (by omega) (by omega)
    rw [h0] at this
    exact absurd this (not_lt.mpr hu0)
  have hrle : upper_bound d.cdf u ≤ ws.length := by
    by_contra hc
    have := hr2 ws.length (by omega)
    rw [hlast] at this
    exact absurd hu1 (not_lt.mpr this)
  have hS : d.Sample u = ((upper_bound d.cdf u - 1 : Nat) : Int) := by
    unfold Distribution1D.Sample clampInt
    simp only [hlen]
    omega
  rw [hS]
  refine ⟨by omega, by omega, ?_, ?_⟩
  · simp only [Int.toNat_ofNat]
    exact hr2 _ (by omega)
  · simp only [Int.toNat_ofNat]
    exact hr3 _ (by omega) (by omega)

end DistributionTheorems

/-- C10, witness: the weights `1, 3` and `u = 1/2` give the index `1`, as
`cdf = [0, 1/4, 1]`. -/
theorem Distribution1D_Sample_spec_witness :
    (1 ≤ ([1, 3] : List ℚ).length ∧ (∀ w ∈ ([1, 3] : List ℚ), 0 ≤ w)
      ∧ 0 < ([1, 3] : List ℚ).sum ∧ (0 : ℚ) ≤ 1 / 2 ∧ (1 / 2 : ℚ) < 1)
    ∧ (([1, 3] : List ℚ).foldl Distribution1D.Add Distribution1D.Clear).Normalize.Sample (1 / 2)
        = 1
    ∧ 0 ≤ (([1, 3] : List ℚ).foldl Distribution1D.Add Distribution1D.Clear).Normalize.Sample
        (1 / 2) := by
  have h1 : 1 ≤ ([1, 3] : List ℚ).length := by decide
  have h2 : ∀ w ∈ ([1, 3] : List ℚ), 0 ≤ w := by decide!
  have h3 : 0 < ([1, 3] : List ℚ).sum := by decide!
  have h4 : (0 : ℚ) ≤ 1 / 2 := by decide!
  have h5 : (1 / 2 : ℚ) < 1 := by decide!
  exact ⟨⟨h1, h2, h3, h4, h5⟩, by decide!,
    (Distribution1D_Sample_spec [1, 3] (1 / 2) h1 h2 h3 h4 h5).1⟩

section ResidualTheorems

variable {K : Type} [LinearOrderedField K]

theorem CdfInv_built (ws : List K) (hws : ∀ w ∈ ws, 0 ≤ w) (hsum : 0 < ws.sum) :
    CdfInv (ws.foldl Distribution1D.Add Distribution1D.Clear).Normalize.cdf 1
    ∧ (ws.foldl Distribution1D.Add Distribution1D.Clear).Normalize.cdf.length
        = ws.length + 1 := by
  have hClear : CdfInv (Distribution1D.Clear : Distribution1D K).cdf 0 := by
    refine ⟨by simp [Distribution1D.Clear], rfl, rfl, ?_⟩
    intro i j hij hj
    simp only [Distribution1D.Clear, List.length_singleton] at hj
    have hj0 : j = 0 := by omega
    have hi0 : i = 0 := by omega
    subst hj0 hi0
    exact le_refl _
  obtain ⟨hInv, hLen⟩ := CdfInv_foldl ws hws Distribution1D.Clear 0 hClear
  rw [zero_add] at hInv
  obtain ⟨h1, h2⟩ := CdfInv_Normalize _ _ hInv hsum
  refine ⟨h1, ?_⟩
  rw [h2, hLen]
  simp [Distribution1D.Clear]
  omega

theorem SampleReuse_bracket (d : Distribution1D K) (n : Nat) (u : K) (hn : 1 ≤ n)
    (hInv : CdfInv d.cdf 1) (hlen : d.cdf.length = n + 1) (hu0 : 0 ≤ u) (hu1 : u < 1) :
    ∃ k : Nat, k < n
      ∧ d.SampleReuse u
          = ((k : Int), (u - d.cdf.getD k 0) / (d.cdf.getD (k + 1) 0 - d.cdf.getD k 0))
      ∧ d.cdf.getD k 0 ≤ u ∧ u < d.cdf.getD (k + 1) 0 := by
  obtain ⟨hne, h0, hl, hm⟩ := hInv
  obtain ⟨_, hr2, hr3⟩ := upper_bound_spec d.cdf u hm
  have hlast : d.cdf.getD n 0 = 1 := by
    rw [← hl, getLastD_eq_getD _ hne, hlen]
    simp
  have hrpos : 1 ≤ upper_bound d.cdf u := by
    by_contra hc
    have := hr3 0 (by omega) (by omega)
    rw [h0] at this
    exact absurd this (not_lt.mpr hu0)
  have hrle : upper_bound d.cdf u ≤ n := by
    by_contra hc
    have := hr2 n (by omega)
    rw [hlast] at this
    exact absurd hu1 (not_lt.mpr this)
  have hi : clampInt ((upper_bound d.cdf u : Int) - 1) 0 ((d.cdf.length : Int) - 2)
      = ((upper_bound d.cdf u - 1 : Nat) : Int) := by
    unfold clampInt
    rw [hlen]
    omega
  refine ⟨upper_bound d.cdf u - 1, by omega, ?_, hr2 _ (by omega), ?_⟩
  · unfold Distribution1D.SampleReuse
    simp only [hi, Int.toNat_ofNat]
    have e : (((upper_bound d.cdf u - 1 : Nat) : Int) + 1).toNat = upper_bound d.cdf u - 1 + 1 := by
      omega
    rw [e]
  · exact hr3 _ (by omega) (by omega)

/-- C11.  For a distribution built by `n ≥ 1` calls of `Add` with non-negative weights of
positive total and then `Normalize`, and every `u` in `[0, 1)`, the residual that
`SampleReuse(u)` writes to `u2` lies in `[0, 1)`. -/
theorem SampleReuse_residual (ws : List K) (u : K) (hn : 1 ≤ ws.length)
    (hws : ∀ w ∈ ws, 0 ≤ w) (hsum : 0 < ws.sum) (hu0 : 0 ≤ u) (hu1 : u < 1) :
    0 ≤ ((ws.foldl Distribution1D.Add Distribution1D.Clear).Normalize.SampleReuse u).2
    ∧ ((ws.foldl Distribution1D.Add Distribution1D.Clear).Normalize.SampleReuse u).2 < 1 := by
  obtain ⟨hInv, hlen⟩ := CdfInv_built ws hws hsum
  obtain ⟨k, _, hS, hlo, hhi⟩ := SampleReuse_bracket _ ws.length u hn hInv hlen hu0 hu1
  rw [hS]
  simp only
  have hden : 0 < (ws.foldl Distribution1D.Add Distribution1D.Clear).Normalize.cdf.getD (k + 1) 0
      - (ws.foldl Distribution1D.Add Distribution1D.Clear).Normalize.cdf.getD k 0 := by
    linarith
  refine ⟨div_nonneg (by linarith) hden.le, ?_⟩
  rw [div_lt_one hden]
  linarith

end ResidualTheorems

/-- C11, witness: the weights `1, 3` and `u = 1/2` select the second entry, `cdf = [0, 1/4, 1]`,
and leave the residual `(1/2 - 1/4) / (1 - 1/4) = 1/3`. -/
theorem SampleReuse_residual_witness :
    (1 ≤ ([1, 3] : List ℚ).length ∧ (∀ w ∈ ([1, 3] : List ℚ), 0 ≤ w)
      ∧ 0 < ([1, 3] : List ℚ).sum ∧ (0 : ℚ) ≤ 1 / 2 ∧ (1 / 2 : ℚ) < 1)
    ∧ (([1, 3] : List ℚ).foldl Distribution1D.Add Distribution1D.Clear).Normalize.SampleReuse
        (1 / 2) = (1, 1 / 3)
    ∧ ((([1, 3] : List ℚ).foldl Distribution1D.Add Distribution1D.Clear).Normalize.SampleReuse
        (1 / 2)).2 < 1 := by
  have h1 : 1 ≤ ([1, 3] : List ℚ).length := by decide
  have h2 : ∀ w ∈ ([1, 3] : List ℚ), 0 ≤ w := by decide!
  have h3 : 0 < ([1, 3] : List ℚ).sum := by decide!
  have h4 : (0 : ℚ) ≤ 1 / 2 := by decide!
  have h5 : (1 / 2 : ℚ) < 1 := by decide!
  exact ⟨⟨h1, h2, h3, h4, h5⟩, by decide!,
    (SampleReuse_residual [1, 3] (1 / 2) h1 h2 h3 h4 h5).2⟩

section TriangleTheorems

variable {K : Type} [LinearOrderedField K]

theorem SqrtAt_le_one (m : MathFns K) (x : K) (h : m.SqrtAt x) (hx : x ≤ 1) : m.sqrt x ≤ 1 := by
  obtain ⟨h0, h1⟩ := h
  by_contra hc
  push_neg at hc
  nlinarith

theorem UniformSampleTriangle_weights (m : MathFns K) (u : Vec2 K) (hx0 : 0 ≤ u.x)
    (hx1 : u.x ≤ 1) (hy0 : 0 ≤ u.y) (hy1 : u.y ≤ 1) (hs : m.SqrtAt u.x) :
    UniformSampleTriangle m u = ⟨1 - m.sqrt u.x, u.y * m.sqrt u.x⟩
    ∧ 0 ≤ 1 - (UniformSampleTriangle m u).x - (UniformSampleTriangle m u).y
    ∧ 0 ≤ (UniformSampleTriangle m u).x ∧ 0 ≤ (UniformSampleTriangle m u).y
    ∧ (1 - (UniformSampleTriangle m u).x - (UniformSampleTriangle m u).y)
        + (UniformSampleTriangle m u).x + (UniformSampleTriangle m u).y = 1 := by
  have hle := SqrtAt_le_one m u.x hs hx1
  have h0 := hs.1
  have e : UniformSampleTriangle m u = ⟨1 - m.sqrt u.x, u.y * m.sqrt u.x⟩ := by
    unfold UniformSampleTriangle
    simp only [max_eq_right hx0]
  rw [e]
  have h3 : 0 ≤ m.sqrt u.x * (1 - u.y) := mul_nonneg h0 (by linarith)
  refine ⟨rfl, ?_, ?_, mul_nonneg hy0 h0, by ring⟩
  · show 0 ≤ 1 - (1 - m.sqrt u.x) - u.y * m.sqrt u.x
    linarith
  · show 0 ≤ 1 - m.sqrt u.x
    linarith

theorem SampleTriangleMesh_p (m : MathFns K) (u : Vec2 K) (mesh : Mesh K)
    (dist : Distribution1D K) (geom : SurfaceGeometry K) :
    (SampleTriangleMesh m u mesh dist geom).p
      = (mesh.corner (dist.SampleReuse u.x).1.toNat 0).scale
          (1 - (UniformSampleTriangle m ⟨(dist.SampleReuse u.x).2, u.y⟩).x
            - (UniformSampleTriangle m ⟨(dist.SampleReuse u.x).2, u.y⟩).y)
        + (mesh.corner (dist.SampleReuse u.x).1.toNat 1).scale
            (UniformSampleTriangle m ⟨(dist.SampleReuse u.x).2, u.y⟩).x
        + (mesh.corner (dist.SampleReuse u.x).1.toNat 2).scale
            (UniformSampleTriangle m ⟨(dist.SampleReuse u.x).2, u.y⟩).y := by
  simp [SampleTriangleMesh, SurfaceGeometry.ComputeTangentSpace, Mesh.corner]

theorem SamplePosition_area (m : MathFns K) (prim : Primitive K) (dist : Distribution1D K)
    (u : Vec2 K) (geom : SurfaceGeometry K) (h : prim.AreaEmitterWith dist) :
    prim.SamplePosition m u geom = SampleTriangleMesh m u (derefMesh prim.MeshRef) dist geom := by
  unfold Primitive.SamplePosition
  rcases h with ⟨hL, hT, hD⟩ | ⟨hL, hE, hT, hD⟩
  · rw [if_pos hL, hT, hD]
  · rw [if_neg hL, if_pos hE, hT, hD]

/-- C12.  For `u.x`, `u.y` in `[0, 1]`, `UniformSampleTriangle` returns
`b = (1 - √u.x, u.y · √u.x)`, and the weights `(1 - b.x - b.y, b.x, b.y)` are non-negative and
sum to `1`.  `SamplePosition` on an area emitter, whose distribution was built by `Add` and
`Normalize` from non-negative weights of positive total, places `p` at the combination of the
three corners of the triangle `SampleReuse` has chosen, with such weights: those of the point
`(u2, u.y)`, `u2` being the residual of `SampleReuse`. -/
theorem UniformSampleTriangle_barycentric (m : MathFns K) (u : Vec2 K) (hx0 : 0 ≤ u.x)
    (hx1 : u.x ≤ 1) (hy0 : 0 ≤ u.y) (hy1 : u.y ≤ 1) (hs : m.SqrtAt u.x) :
    (UniformSampleTriangle m u = ⟨1 - m.sqrt u.x, u.y * m.sqrt u.x⟩
      ∧ 0 ≤ 1 - (UniformSampleTriangle m u).x - (UniformSampleTriangle m u).y
      ∧ 0 ≤ (UniformSampleTriangle m u).x ∧ 0 ≤ (UniformSampleTriangle m u).y
      ∧ (1 - (UniformSampleTriangle m u).x - (UniformSampleTriangle m u).y)
          + (UniformSampleTriangle m u).x + (UniformSampleTriangle m u).y = 1)
    ∧ ∀ (prim : Primitive K) (ws : List K) (geom : SurfaceGeometry K),
        1 ≤ ws.length → (∀ w ∈ ws, 0 ≤ w) → 0 < ws.sum →
        prim.AreaEmitterWith (ws.foldl Distribution1D.Add Distribution1D.Clear).Normalize →
        u.x < 1 →
        m.SqrtAt ((ws.foldl Distribution1D.Add Distribution1D.Clear).Normalize.SampleReuse u.x).2 →
        ∃ (i : Nat) (w0 w1 w2 : K),
          (((ws.foldl Distribution1D.Add Distribution1D.Clear).Normalize.SampleReuse u.x).1
              = (i : Int) ∧ i < ws.length)
          ∧ (0 ≤ w0 ∧ 0 ≤ w1 ∧ 0 ≤ w2 ∧ w0 + w1 + w2 = 1)
          ∧ (w1 = (UniformSampleTriangle m
                ⟨((ws.foldl Distribution1D.Add Distribution1D.Clear).Normalize.SampleReuse
                  u.x).2, u.y⟩).x
              ∧ w2 = (UniformSampleTriangle m
                ⟨((ws.foldl Distribution1D.Add Distribution1D.Clear).Normalize.SampleReuse
                  u.x).2, u.y⟩).y)
          ∧ (prim.SamplePosition m u geom).p
              = ((derefMesh prim.MeshRef).corner i 0).scale w0
                + ((derefMesh prim.MeshRef).corner i 1).scale w1
                + ((derefMesh prim.MeshRef).corner i 2).scale w2 := by
  refine ⟨UniformSampleTriangle_weights m u hx0 hx1 hy0 hy1 hs, ?_⟩
  intro prim ws geom hn hws hsum harea hlt hsr
  obtain ⟨hInv, hlen⟩ := CdfInv_built ws hws hsum
  obtain ⟨k, hk, hS, hlo, hhi⟩ := SampleReuse_bracket _ ws.length u.x hn hInv hlen hx0 hlt
  generalize (ws.foldl Distribution1D.Add Distribution1D.Clear).Normalize = d at *
  have hres0 : 0 ≤ (d.SampleReuse u.x).2 := by
    rw [hS]
    exact div_nonneg (by linarith) (by linarith)
  have hres1 : (d.SampleReuse u.x).2 ≤ 1 := by
    rw [hS]
    have hden : 0 < d.cdf.getD (k + 1) 0 - d.cdf.getD k 0 := by linarith
    simp only
    rw [div_le_one hden]
    linarith
  obtain ⟨_, hw0, hw1, hw2, hsum1⟩ :=
    UniformSampleTriangle_weights m ⟨(d.SampleReuse u.x).2, u.y⟩ hres0 hres1 hy0 hy1 hsr
  have hi : (d.SampleReuse u.x).1 = (k : Int) := by rw [hS]
  refine ⟨k, _, _, _, ⟨hi, hk⟩, ⟨hw0, hw1, hw2, hsum1⟩, ⟨rfl, rfl⟩, ?_⟩
  rw [SamplePosition_area m prim d u geom harea, SampleTriangleMesh_p, hi]
  simp

end TriangleTheorems

/-- C12, witness: `u = (16/25, 1/2)` gives `b = (1/5, 2/5)`, and on the one-triangle area
light the point `2/5 · (0,0,0) + 1/5 · (1,0,0) + 2/5 · (0,1,0)`. -/
theorem UniformSampleTriangle_barycentric_witness :
    ((0 : ℚ) ≤ 16 / 25 ∧ (16 / 25 : ℚ) ≤ 1 ∧ (0 : ℚ) ≤ 1 / 2 ∧ (1 / 2 : ℚ) ≤ 1
      ∧ exMath.SqrtAt (16 / 25))
    ∧ (1 ≤ ([1 / 2] : List ℚ).length ∧ (∀ w ∈ ([1 / 2] : List ℚ), 0 ≤ w)
      ∧ 0 < ([1 / 2] : List ℚ).sum
      ∧ exLight.AreaEmitterWith
          (([1 / 2] : List ℚ).foldl Distribution1D.Add Distribution1D.Clear).Normalize
      ∧ (16 / 25 : ℚ) < 1
      ∧ exMath.SqrtAt ((([1 / 2] : List ℚ).foldl Distribution1D.Add
          Distribution1D.Clear).Normalize.SampleReuse (16 / 25)).2)
    ∧ UniformSampleTriangle exMath ⟨16 / 25, 1 / 2⟩ = ⟨1 / 5, 2 / 5⟩
    ∧ (exLight.SamplePosition exMath ⟨16 / 25, 1 / 2⟩ exGeom).p = ⟨1 / 5, 2 / 5, 0⟩
    ∧ 0 ≤ (UniformSampleTriangle exMath ⟨16 / 25, 1 / 2⟩).x
    ∧ ∃ (i : Nat) (w0 w1 w2 : ℚ), (0 ≤ w0 ∧ 0 ≤ w1 ∧ 0 ≤ w2 ∧ w0 + w1 + w2 = 1)
        ∧ (exLight.SamplePosition exMath ⟨16 / 25, 1 / 2⟩ exGeom).p
            = ((derefMesh exLight.MeshRef).corner i 0).scale w0
              + ((derefMesh exLight.MeshRef).corner i 1).scale w1
              + ((derefMesh exLight.MeshRef).corner i 2).scale w2 := by
  have h1 : (0 : ℚ) ≤ 16 / 25 := by decide!
  have h2 : (16 / 25 : ℚ) ≤ 1 := by decide!
  have h3 : (0 : ℚ) ≤ 1 / 2 := by decide!
  have h4 : (1 / 2 : ℚ) ≤ 1 := by decide!
  have h5 : exMath.SqrtAt (16 / 25) := by
    constructor <;> decide!
  have g1 : 1 ≤ ([1 / 2] : List ℚ).length := by decide
  have g2 : ∀ w ∈ ([1 / 2] : List ℚ), 0 ≤ w := by decide!
  have g3 : 0 < ([1 / 2] : List ℚ).sum := by decide!
  have g4 : exLight.AreaEmitterWith
      (([1 / 2] : List ℚ).foldl Distribution1D.Add Distribution1D.Clear).Normalize :=
    Or.inl ⟨by decide, rfl, rfl⟩
  have g5 : (16 / 25 : ℚ) < 1 := by decide!
  have g6 : exMath.SqrtAt ((([1 / 2] : List ℚ).foldl Distribution1D.Add
      Distribution1D.Clear).Normalize.SampleReuse (16 / 25)).2 := by
    constructor <;> decide!
  have key := UniformSampleTriangle_barycentric exMath ⟨16 / 25, 1 / 2⟩ h1 h2 h3 h4 h5
  obtain ⟨i, w0, w1, w2, _, hw, _, hp⟩ := key.2 exLight [1 / 2] exGeom g1 g2 g3 g4 g5 g6
  exact ⟨⟨h1, h2, h3, h4, h5⟩, ⟨g1, g2, g3, g4, g5, g6⟩, by decide!, by decide!, key.1.2.2.1,
    i, w0, w1, w2, hw, hp⟩

section RasterTheorems

variable {K : Type} [LinearOrderedField K] [FloorRing K]

theorem clampInt_range (c w : Int) (hw : 1 ≤ w) :
    0 ≤ clampInt c 0 (w - 1) ∧ clampInt c 0 (w - 1) < w := by
  unfold clampInt
  omega

/-- C13.  For a film of `w ≥ 1` columns and `h ≥ 1` rows and every raster position, inside
`[0, 1]²` or not, `PixelIndex` clamps the column cell to `[0, w)` and the row cell to `[0, h)`
and returns `pY * w + pX`, an index in `[0, w * h)`.  The clamp gives a cell in range whatever
integer the conversion `(int)` has produced, and the product `pY * w` and the index do not
exceed `w * h - 1`. -/
theorem PixelIndex_range (rasterPos : Vec2 K) (w h : Int) (hw : 1 ≤ w) (hh : 1 ≤ h) :
    (0 ≤ clampInt (truncInt (rasterPos.x * (w : K))) 0 (w - 1)
      ∧ clampInt (truncInt (rasterPos.x * (w : K))) 0 (w - 1) < w)
    ∧ (0 ≤ clampInt (truncInt (rasterPos.y * (h : K))) 0 (h - 1)
      ∧ clampInt (truncInt (rasterPos.y * (h : K))) 0 (h - 1) < h)
    ∧ PixelIndex rasterPos w h
        = clampInt (truncInt (rasterPos.y * (h : K))) 0 (h - 1) * w
          + clampInt (truncInt (rasterPos.x * (w : K))) 0 (w - 1)
    ∧ (0 ≤ PixelIndex rasterPos w h ∧ PixelIndex rasterPos w h < w * h)
    ∧ (∀ cx cy : Int, 0 ≤ clampInt cy 0 (h - 1) * w + clampInt cx 0 (w - 1)
        ∧ clampInt cy 0 (h - 1) * w + clampInt cx 0 (w - 1) < w * h)
    ∧ (0 ≤ clampInt (truncInt (rasterPos.y * (h : K))) 0 (h - 1) * w
      ∧ clampInt (truncInt (rasterPos.y * (h : K))) 0 (h - 1) * w ≤ w * h - 1) := by
  have hgen : ∀ cx cy : Int, 0 ≤ clampInt cy 0 (h - 1) * w
      ∧ 0 ≤ clampInt cy 0 (h - 1) * w + clampInt cx 0 (w - 1)
      ∧ clampInt cy 0 (h - 1) * w + clampInt cx 0 (w - 1) < w * h := by
    intro cx cy
    obtain ⟨hx0, hx1⟩ := clampInt_range cx w hw
    obtain ⟨hy0, hy1⟩ := clampInt_range cy h hh
    have h1 : 0 ≤ clampInt cy 0 (h - 1) * w := mul_nonneg hy0 (by omega)
    have h2 : (clampInt cy 0 (h - 1) + 1) * w ≤ h * w :=
      mul_le_mul_of_nonneg_right (by omega) (by omega)
    refine ⟨h1, by omega, ?_⟩
    nlinarith
  obtain ⟨g1, g2, g3⟩ := hgen (truncInt (rasterPos.x * (w : K))) (truncInt (rasterPos.y * (h : K)))
  refine ⟨clampInt_range _ w hw, clampInt_range _ h hh, rfl, ⟨g2, g3⟩,
    fun cx cy => (hgen cx cy).2, g1, ?_⟩
  have := (clampInt_range (truncInt (rasterPos.x * (w : K))) w hw).1
  omega

end RasterTheorems

/-- C13, witness: on a film of `4 × 3` cells the raster position `(7/2, -1)`, outside the
unit square, falls into the last column of the first row, index `3`. -/
theorem PixelIndex_range_witness :
    ((1 : Int) ≤ 4 ∧ (1 : Int) ≤ 3)
    ∧ PixelIndex (⟨7 / 2, -1⟩ : Vec2 ℚ) 4 3 = 3
    ∧ PixelIndex (⟨7 / 2, -1⟩ : Vec2 ℚ) 4 3 < 4 * 3 :=
  ⟨⟨by decide, by decide⟩, by decide!,
    (PixelIndex_range (⟨7 / 2, -1⟩ : Vec2 ℚ) 4 3 (by decide) (by decide)).2.2.2.1.2⟩

section PinholeTheorems

variable {K : Type} [LinearOrderedField K]

theorem eyeDirection_eq (prim : Primitive K) (wo : Vec3 K) :
    prim.eyeDirection wo
      = ⟨Vec3.dot prim.Params.E.Pinhole.Vx wo, Vec3.dot prim.Params.E.Pinhole.Vy wo,
          Vec3.dot prim.Params.E.Pinhole.Vz wo⟩ := by
  simp [Primitive.eyeDirection, Mat3.transpose, Mat3.mulVec, Vec3.dot]

theorem RasterPosition_pinhole_eq (m : MathFns K) (prim : Primitive K) (wo : Vec3 K)
    (geom : SurfaceGeometry K) (rasterPos0 : Vec2 K)
    (hT : prim.Params.E.Type_ = EType.Pinhole) :
    prim.RasterPosition m wo geom rasterPos0
      = if (prim.eyeDirection wo).z ≥ 0 then (false, rasterPos0)
        else if (prim.specRasterPos m wo).x < 0 ∨ (prim.specRasterPos m wo).x > 1
            ∨ (prim.specRasterPos m wo).y < 0 ∨ (prim.specRasterPos m wo).y > 1 then
          (false, prim.specRasterPos m wo)
        else (true, prim.specRasterPos m wo) := by
  have e : (Vec2.addScalar
      ⟨-(prim.eyeDirection wo).x / (prim.eyeDirection wo).z
          / m.tan (prim.Params.E.Pinhole.Fov * (1 / 2)) / prim.Params.E.Pinhole.Aspect,
        -(prim.eyeDirection wo).y / (prim.eyeDirection wo).z
          / m.tan (prim.Params.E.Pinhole.Fov * (1 / 2))⟩ 1).scale (1 / 2)
      = prim.specRasterPos m wo := by
    unfold Primitive.specRasterPos Vec2.addScalar Vec2.scale
    ext
    · show (-(prim.eyeDirection wo).x / (prim.eyeDirection wo).z
          / m.tan (prim.Params.E.Pinhole.Fov * (1 / 2)) / prim.Params.E.Pinhole.Aspect + 1)
          * (1 / 2) = _
      rw [div_div, div_div, neg_div, ← mul_assoc]
      ring
    · show (-(prim.eyeDirection wo).y / (prim.eyeDirection wo).z
          / m.tan (prim.Params.E.Pinhole.Fov * (1 / 2)) + 1) * (1 / 2) = _
      rw [div_div, neg_div]
      ring
  unfold Primitive.RasterPosition
  rw [hT]
  simp only [LocalCos]
  rw [show (Mat3.transpose ⟨prim.Params.E.Pinhole.Vx, prim.Params.E.Pinhole.Vy,
    prim.Params.E.Pinhole.Vz⟩).mulVec wo = prim.eyeDirection wo from rfl, e]

/-- C14.  For a pinhole sensor, `RasterPosition` returns `false` exactly when the eye-space
direction has `z ≥ 0` or the position
`(½(1 − x_e/(z_e·tanFov·aspect)), ½(1 − y_e/(z_e·tanFov)))` lies outside `[0, 1]²`; when it
returns `true`, `rasterPos` is that position and lies in `[0, 1]²`.  The eye-space direction is
`(Vx·wo, Vy·wo, Vz·wo)`; the basis need not be orthonormal for this. -/
theorem RasterPosition_pinhole (m : MathFns K) (prim : Primitive K) (wo : Vec3 K)
    (geom : SurfaceGeometry K) (rasterPos0 : Vec2 K)
    (hT : prim.Params.E.Type_ = EType.Pinhole) :
    ((prim.RasterPosition m wo geom rasterPos0).1 = false ↔
      ((prim.eyeDirection wo).z ≥ 0
        ∨ (prim.specRasterPos m wo).x < 0 ∨ (prim.specRasterPos m wo).x > 1
        ∨ (prim.specRasterPos m wo).y < 0 ∨ (prim.specRasterPos m wo).y > 1))
    ∧ ((prim.RasterPosition m wo geom rasterPos0).1 = true →
        (prim.RasterPosition m wo geom rasterPos0).2 = prim.specRasterPos m wo
        ∧ (0 ≤ (prim.RasterPosition m wo geom rasterPos0).2.x
          ∧ (prim.RasterPosition m wo geom rasterPos0).2.x ≤ 1)
        ∧ (0 ≤ (prim.RasterPosition m wo geom rasterPos0).2.y
          ∧ (prim.RasterPosition m wo geom rasterPos0).2.y ≤ 1))
    ∧ prim.eyeDirection wo
        = ⟨Vec3.dot prim.Params.E.Pinhole.Vx wo, Vec3.dot prim.Params.E.Pinhole.Vy wo,
            Vec3.dot prim.Params.E.Pinhole.Vz wo⟩ := by
  rw [RasterPosition_pinhole_eq m prim wo geom rasterPos0 hT]
  refine ⟨?_, ?_, eyeDirection_eq prim wo⟩
  · by_cases hz : (prim.eyeDirection wo).z ≥ 0
    · simp [hz]
    · by_cases ho : (prim.specRasterPos m wo).x < 0 ∨ (prim.specRasterPos m wo).x > 1
          ∨ (prim.specRasterPos m wo).y < 0 ∨ (prim.specRasterPos m wo).y > 1
      · rw [if_neg hz, if_pos ho]
        exact ⟨fun _ => Or.inr ho, fun _ => rfl⟩
      · rw [if_neg hz, if_neg ho]
        constructor
        · intro h
          exact absurd h (by simp)
        · rintro (h | h)
          · exact absurd h hz
          · exact absurd h ho
  · by_cases hz : (prim.eyeDirection wo).z ≥ 0
    · rw [if_pos hz]
      intro h
      exact absurd h (by simp)
    · by_cases ho : (prim.specRasterPos m wo).x < 0 ∨ (prim.specRasterPos m wo).x > 1
          ∨ (prim.specRasterPos m wo).y < 0 ∨ (prim.specRasterPos m wo).y > 1
      · rw [if_neg hz, if_pos ho]
        intro h
        exact absurd h (by simp)
      · rw [if_neg hz, if_neg ho]
        intro _
        push_neg at ho
        exact ⟨rfl, ⟨ho.1, ho.2.1⟩, ⟨ho.2.2.1, ho.2.2.2⟩⟩

end PinholeTheorems

/-- C14, witness: the pinhole at the origin sees the direction `(0, 0, -1)` at the centre
`(1/2, 1/2)` of the window, and rejects `(0, 0, 1)`, which comes from behind. -/
theorem RasterPosition_pinhole_witness :
    exPinhole.Params.E.Type_ = EType.Pinhole
    ∧ exPinhole.RasterPosition exMath ⟨0, 0, -1⟩ exGeom 0 = (true, ⟨1 / 2, 1 / 2⟩)
    ∧ (exPinhole.RasterPosition exMath ⟨0, 0, 1⟩ exGeom 0).1 = false
    ∧ ((exPinhole.RasterPosition exMath ⟨0, 0, -1⟩ exGeom 0).1 = true →
        (exPinhole.RasterPosition exMath ⟨0, 0, -1⟩ exGeom 0).2
          = exPinhole.specRasterPos exMath ⟨0, 0, -1⟩) :=
  ⟨rfl, by decide!, by decide!,
    fun h => ((RasterPosition_pinhole exMath exPinhole ⟨0, 0, -1⟩ exGeom 0 rfl).2.1 h).1⟩

section TangentSpaceTheorems

variable {K : Type} [LinearOrderedField K]

theorem tangentSeed_dot (a : Vec3 K) : Vec3.dot (tangentSeed a) a = 0 := by
  unfold tangentSeed
  split_ifs <;> simp only [Vec3.dot] <;> ring

theorem tangentSeed_pos (a : Vec3 K) (hunit : Vec3.dot a a = 1) :
    0 < Vec3.dot (tangentSeed a) (tangentSeed a) := by
  unfold tangentSeed
  simp only [Vec3.dot] at hunit
  split_ifs with h
  · simp only [Vec3.dot]
    have hx : a.x ≠ 0 := by
      intro h0
      rw [h0, abs_zero] at h
      exact absurd h (not_lt.mpr (abs_nonneg _))
    have : 0 < a.x * a.x := mul_self_pos.mpr hx
    nlinarith [mul_self_nonneg a.z]
  · simp only [Vec3.dot]
    by_contra hc
    have hz : a.z * a.z = 0 := by nlinarith [mul_self_nonneg a.z, mul_self_nonneg a.y]
    have hy : a.y * a.y = 0 := by nlinarith [mul_self_nonneg a.z, mul_self_nonneg a.y]
    have hy0 : a.y = 0 := mul_self_eq_zero.mp hy
    have hx0 : a.x = 0 := by
      rw [hy0, abs_zero] at h
      exact abs_eq_zero.mp (le_antisymm (not_lt.mp h) (abs_nonneg _))
    rw [hx0, hy0, mul_self_eq_zero.mp hz] at hunit
    norm_num at hunit

theorem OrthonormalBasis_eq (m : MathFns K) (a : Vec3 K) :
    OrthonormalBasis m a
      = (m.normalize (Vec3.cross (m.normalize (tangentSeed a)) a),
          m.normalize (tangentSeed a)) := by
  unfold OrthonormalBasis tangentSeed
  split_ifs <;> rfl

theorem SqrtAt_one (m : MathFns K) (h : m.SqrtAt 1) : m.sqrt 1 = 1 := by
  obtain ⟨h0, h1⟩ := h
  have e : (m.sqrt 1 - 1) * (m.sqrt 1 + 1) = 0 := by linear_combination h1
  rcases mul_eq_zero.mp e with h2 | h2
  · linarith
  · linarith

theorem dot_normalize_left (m : MathFns K) (v w : Vec3 K) :
    Vec3.dot (m.normalize v) w = Vec3.dot v w * (1 / m.sqrt (Vec3.dot v v)) := by
  simp only [MathFns.normalize, Vec3.scale, Vec3.dot]
  ring

theorem normalize_unit (m : MathFns K) (v : Vec3 K) (h : m.SqrtAt (Vec3.dot v v))
    (hpos : 0 < Vec3.dot v v) : Vec3.dot (m.normalize v) (m.normalize v) = 1 := by
  obtain ⟨h0, h1⟩ := h
  have hr : m.sqrt (Vec3.dot v v) ≠ 0 := by
    intro hc
    rw [hc, mul_zero] at h1
    linarith
  have e : Vec3.dot (m.normalize v) (m.normalize v)
      = Vec3.dot v v * (1 / m.sqrt (Vec3.dot v v)) * (1 / m.sqrt (Vec3.dot v v)) := by
    simp only [MathFns.normalize, Vec3.scale, Vec3.dot]
    ring
  rw [e]
  nth_rewrite 1 [← h1]
  field_simp

theorem dot_cross_self (c a : Vec3 K) :
    Vec3.dot (Vec3.cross c a) (Vec3.cross c a)
      = Vec3.dot c c * Vec3.dot a a - Vec3.dot c a * Vec3.dot c a := by
  simp only [Vec3.dot, Vec3.cross]
  ring

theorem OrthonormalBasis_spec (m : MathFns K) (a : Vec3 K) (hunit : Vec3.dot a a = 1)
    (h1 : m.SqrtAt (Vec3.dot (tangentSeed a) (tangentSeed a))) (h2 : m.SqrtAt 1) :
    Vec3.dot (OrthonormalBasis m a).1 (OrthonormalBasis m a).1 = 1
    ∧ Vec3.dot (OrthonormalBasis m a).2 (OrthonormalBasis m a).2 = 1
    ∧ Vec3.dot (OrthonormalBasis m a).1 (OrthonormalBasis m a).2 = 0
    ∧ Vec3.dot (OrthonormalBasis m a).1 a = 0
    ∧ Vec3.dot (OrthonormalBasis m a).2 a = 0 := by
  rw [OrthonormalBasis_eq]
  simp only
  have hcc := normalize_unit m (tangentSeed a) h1 (tangentSeed_pos a hunit)
  have hca : Vec3.dot (m.normalize (tangentSeed a)) a = 0 := by
    rw [dot_normalize_left, tangentSeed_dot, zero_mul]
  generalize m.normalize (tangentSeed a) = c at hcc hca ⊢
  have hX : Vec3.dot (Vec3.cross c a) (Vec3.cross c a) = 1 := by
    rw [dot_cross_self, hcc, hunit, hca]
    ring
  have hb : m.normalize (Vec3.cross c a) = Vec3.cross c a := by
    unfold MathFns.normalize
    rw [hX, SqrtAt_one m h2]
    simp [Vec3.scale]
  rw [hb]
  refine ⟨hX, hcc, ?_, ?_, hca⟩
  · simp only [Vec3.dot, Vec3.cross]
    ring
  · simp only [Vec3.dot, Vec3.cross]
    ring

/-- C15.  For a unit shading normal `sn`, `ComputeTangentSpace` stores `dpdu` and `dpdv` such
that `{dpdu, dpdv, sn}` is orthonormal, so neither is the zero vector; `ToWorld` has these
three as columns, `ToLocal` is the transpose of `ToWorld`, and each of the two matrices undoes
the other.  The runtime `sqrt` is assumed to return the non-negative square root at the two
values it is called with: the squared length of the vector normalised first, and `1`. -/
theorem ComputeTangentSpace_orthonormal (m : MathFns K) (g : SurfaceGeometry K)
    (hunit : Vec3.dot g.sn g.sn = 1)
    (h1 : m.SqrtAt (Vec3.dot (tangentSeed g.sn) (tangentSeed g.sn))) (h2 : m.SqrtAt 1) :
    (g.ComputeTangentSpace m).sn = g.sn
    ∧ (g.ComputeTangentSpace m).Orthonormal
    ∧ ((g.ComputeTangentSpace m).dpdu ≠ 0 ∧ (g.ComputeTangentSpace m).dpdv ≠ 0)
    ∧ (g.ComputeTangentSpace m).ToWorld
        = ⟨(g.ComputeTangentSpace m).dpdu, (g.ComputeTangentSpace m).dpdv, g.sn⟩
    ∧ (g.ComputeTangentSpace m).ToLocal = (g.ComputeTangentSpace m).ToWorld.transpose
    ∧ (∀ v : Vec3 K, (g.ComputeTangentSpace m).ToLocal.mulVec
        ((g.ComputeTangentSpace m).ToWorld.mulVec v) = v)
    ∧ (∀ v : Vec3 K, (g.ComputeTangentSpace m).ToWorld.mulVec
        ((g.ComputeTangentSpace m).ToLocal.mulVec v) = v) := by
  obtain ⟨hbb, hcc, hbc, hba, hca⟩ := OrthonormalBasis_spec m g.sn hunit h1 h2
  simp only [SurfaceGeometry.ComputeTangentSpace, SurfaceGeometry.Orthonormal]
  generalize (OrthonormalBasis m g.sn).1 = b at hbb hbc hba ⊢
  generalize (OrthonormalBasis m g.sn).2 = c at hcc hbc hca ⊢
  have hne : ∀ w : Vec3 K, Vec3.dot w w = 1 → w ≠ 0 := by
    intro w hw h0
    subst h0
    have e0 : Vec3.dot (0 : Vec3 K) 0 = 0 := by
      show (0 : K) * 0 + 0 * 0 + 0 * 0 = 0
      ring
    rw [e0] at hw
    exact zero_ne_one hw
  refine ⟨trivial, ⟨hbb, hcc, hunit, hbc, hba, hca⟩, ⟨hne b hbb, hne c hcc⟩, trivial, trivial,
    ?_, ?_⟩
  · intro v
    simp only [Vec3.dot] at hbb hcc hunit hbc hba hca
    simp only [Mat3.mulVec, Mat3.transpose]
    ext
    · show _ = v.x
      linear_combination v.x * hbb + v.y * hbc + v.z * hba
    · show _ = v.y
      linear_combination v.x * hbc + v.y * hcc + v.z * hca
    · show _ = v.z
      linear_combination v.x * hba + v.y * hca + v.z * hunit
  · intro v
    simp only [Vec3.dot] at hbb hcc hunit hbc hba hca
    obtain ⟨⟨e1, e2, e3⟩, e4, e5, e6⟩ :=
      column_orthonormal _ _ _ _ _ _ _ _ _ hbb hcc hunit hbc hba hca
    simp only [Mat3.mulVec, Mat3.transpose]
    ext
    · show _ = v.x
      linear_combination v.x * e1 + v.y * e4 + v.z * e5
    · show _ = v.y
      linear_combination v.x * e4 + v.y * e2 + v.z * e6
    · show _ = v.z
      linear_combination v.x * e5 + v.y * e6 + v.z * e3

end TangentSpaceTheorems

/-- C15, witness: the unit normal `(3/5, 0, 4/5)` gets the tangents `(0, -1, 0)` and
`(4/5, 0, -3/5)`. -/
theorem ComputeTangentSpace_orthonormal_witness :
    (Vec3.dot (⟨3 / 5, 0, 4 / 5⟩ : Vec3 ℚ) ⟨3 / 5, 0, 4 / 5⟩ = 1
      ∧ exMath.SqrtAt (Vec3.dot (tangentSeed (⟨3 / 5, 0, 4 / 5⟩ : Vec3 ℚ))
          (tangentSeed ⟨3 / 5, 0, 4 / 5⟩))
      ∧ exMath.SqrtAt 1)
    ∧ (SurfaceGeometry.ComputeTangentSpace exMath { exGeom with sn := ⟨3 / 5, 0, 4 / 5⟩ }).dpdu
        = ⟨0, -1, 0⟩
    ∧ (SurfaceGeometry.ComputeTangentSpace exMath { exGeom with sn := ⟨3 / 5, 0, 4 / 5⟩ }).dpdv
        = ⟨4 / 5, 0, -3 / 5⟩
    ∧ (SurfaceGeometry.ComputeTangentSpace exMath
        { exGeom with sn := ⟨3 / 5, 0, 4 / 5⟩ }).Orthonormal := by
  have h0 : Vec3.dot (⟨3 / 5, 0, 4 / 5⟩ : Vec3 ℚ) ⟨3 / 5, 0, 4 / 5⟩ = 1 := by decide!
  have h1 : exMath.SqrtAt (Vec3.dot (tangentSeed (⟨3 / 5, 0, 4 / 5⟩ : Vec3 ℚ))
      (tangentSeed ⟨3 / 5, 0, 4 / 5⟩)) := by
    constructor <;> decide!
  have h2 : exMath.SqrtAt 1 := by
    constructor <;> decide!
  exact ⟨⟨h0, h1, h2⟩, by decide!, by decide!,
    (ComputeTangentSpace_orthonormal exMath { exGeom with sn := ⟨3 / 5, 0, 4 / 5⟩ }
      h0 h1 h2).2.1⟩

section RefractionTheorems

variable {K : Type} [LinearOrderedField K]

theorem SampleDirection_S (m : MathFns K) (prim : Primitive K) (u : Vec2 K) (uComp : K)
    (q : Nat) (geom : SurfaceGeometry K) (wi wo0 : Vec3 K)
    (hL : ¬ (q &&& PrimitiveType.L) > 0) (hE : ¬ (q &&& PrimitiveType.E) > 0)
    (hD : ¬ (q &&& PrimitiveType.D) > 0) (hG : ¬ (q &&& PrimitiveType.G) > 0)
    (hS : (q &&& PrimitiveType.S) > 0) :
    prim.SampleDirection m u uComp q geom wi wo0 = prim.SampleDirectionS m uComp geom wi wo0 := by
  unfold Primitive.SampleDirection
  rw [if_neg hL, if_neg hE, if_neg hD, if_neg hG, if_pos hS]

theorem SampleDirectionS_refraction (m : MathFns K) (prim : Primitive K) (uComp : K)
    (geom : SurfaceGeometry K) (wi wo0 : Vec3 K)
    (hT : prim.Params.S.Type_ = SType.Refraction) :
    prim.SampleDirectionS m uComp geom wi wo0
      = if refractionCosSq prim.Params.S.Refraction geom wi ≤ 0 then
          geom.ToWorld.mulVec (LocalReflect (geom.ToLocal.mulVec wi))
        else
          geom.ToWorld.mulVec
            ⟨-(incidentEta prim.Params.S.Refraction geom wi
                / transmittedEta prim.Params.S.Refraction geom wi) * (geom.ToLocal.mulVec wi).x,
              -(incidentEta prim.Params.S.Refraction geom wi
                / transmittedEta prim.Params.S.Refraction geom wi) * (geom.ToLocal.mulVec wi).y,
              m.sqrt (refractionCosSq prim.Params.S.Refraction geom wi)
                * (if (geom.ToLocal.mulVec wi).z > 0 then -1 else 1)⟩ := by
  unfold Primitive.SampleDirectionS
  rw [hT]
  rfl

/-- C16.  For an S query on an S-refraction primitive with positive `Eta1`, `Eta2` and a unit
local incident direction `wi`, with `η = η_i/η_t` (the indices swapped when `wi.z < 0`):
when `1 − η²(1 − wi.z²) ≤ 0`, `SampleDirection` yields the mirror direction
`(−wi.x, −wi.y, wi.z)` (taken to world space); otherwise it yields a direction `wo` that has
unit length, lies off the surface and on the other side than `wi`, and obeys Snell's law:
`η_i · (wi.x, wi.y) = −η_t · (wo.x, wo.y)`, hence `η_i² sin²θ_i = η_t² sin²θ_t`.  The runtime
`sqrt` is assumed to return the non-negative square root of `1 − η²(1 − wi.z²)` when that
value is positive. -/
theorem SampleDirection_refraction (m : MathFns K) (prim : Primitive K) (u : Vec2 K)
    (uComp : K) (q : Nat) (geom : SurfaceGeometry K) (wi wo0 : Vec3 K)
    (hL : ¬ (q &&& PrimitiveType.L) > 0) (hE : ¬ (q &&& PrimitiveType.E) > 0)
    (hD : ¬ (q &&& PrimitiveType.D) > 0) (hG : ¬ (q &&& PrimitiveType.G) > 0)
    (hS : (q &&& PrimitiveType.S) > 0)
    (hT : prim.Params.S.Type_ = SType.Refraction)
    (h1 : 0 < prim.Params.S.Refraction.Eta1) (h2 : 0 < prim.Params.S.Refraction.Eta2)
    (hunit : Vec3.dot (geom.ToLocal.mulVec wi) (geom.ToLocal.mulVec wi) = 1)
    (hsqrt : 0 < refractionCosSq prim.Params.S.Refraction geom wi →
      m.SqrtAt (refractionCosSq prim.Params.S.Refraction geom wi)) :
    (refractionCosSq prim.Params.S.Refraction geom wi ≤ 0 →
      prim.SampleDirection m u uComp q geom wi wo0
        = geom.ToWorld.mulVec ⟨-(geom.ToLocal.mulVec wi).x, -(geom.ToLocal.mulVec wi).y,
            (geom.ToLocal.mulVec wi).z⟩)
    ∧ (0 < refractionCosSq prim.Params.S.Refraction geom wi →
      ∃ wo : Vec3 K,
        prim.SampleDirection m u uComp q geom wi wo0 = geom.ToWorld.mulVec wo
        ∧ Vec3.dot wo wo = 1
        ∧ (wo.z ≠ 0 ∧ ((geom.ToLocal.mulVec wi).z > 0 → wo.z < 0)
            ∧ ((geom.ToLocal.mulVec wi).z < 0 → wo.z > 0))
        ∧ (incidentEta prim.Params.S.Refraction geom wi * (geom.ToLocal.mulVec wi).x
              = -(transmittedEta prim.Params.S.Refraction geom wi * wo.x)
            ∧ incidentEta prim.Params.S.Refraction geom wi * (geom.ToLocal.mulVec wi).y
              = -(transmittedEta prim.Params.S.Refraction geom wi * wo.y))
        ∧ incidentEta prim.Params.S.Refraction geom wi
            * incidentEta prim.Params.S.Refraction geom wi
            * (1 - (geom.ToLocal.mulVec wi).z * (geom.ToLocal.mulVec wi).z)
          = transmittedEta prim.Params.S.Refraction geom wi
            * transmittedEta prim.Params.S.Refraction geom wi * (1 - wo.z * wo.z)) := by
  rw [SampleDirection_S m prim u uComp q geom wi wo0 hL hE hD hG hS,
    SampleDirectionS_refraction m prim uComp geom wi wo0 hT]
  constructor
  · intro hc
    rw [if_pos hc]
    rfl
  · intro hc
    rw [if_neg (not_le.mpr hc)]
    obtain ⟨hs0, hs1⟩ := hsqrt hc
    have hT0 : 0 < transmittedEta prim.Params.S.Refraction geom wi := by
      unfold transmittedEta
      split_ifs <;> assumption
    have hne : transmittedEta prim.Params.S.Refraction geom wi ≠ 0 := ne_of_gt hT0
    have hspos : 0 < m.sqrt (refractionCosSq prim.Params.S.Refraction geom wi) := by
      rcases eq_or_lt_of_le hs0 with h0 | h0
      · rw [← h0, mul_zero] at hs1
        linarith
      · exact h0
    have hc2 : refractionCosSq prim.Params.S.Refraction geom wi
        = 1 - (incidentEta prim.Params.S.Refraction geom wi
            / transmittedEta prim.Params.S.Refraction geom wi)
          * (incidentEta prim.Params.S.Refraction geom wi
            / transmittedEta prim.Params.S.Refraction geom wi)
          * (1 - (geom.ToLocal.mulVec wi).z * (geom.ToLocal.mulVec wi).z) := rfl
    have hsq : (m.sqrt (refractionCosSq prim.Params.S.Refraction geom wi)
          * (if (geom.ToLocal.mulVec wi).z > 0 then -1 else 1))
        * (m.sqrt (refractionCosSq prim.Params.S.Refraction geom wi)
          * (if (geom.ToLocal.mulVec wi).z > 0 then -1 else 1))
        = refractionCosSq prim.Params.S.Refraction geom wi := by
      split_ifs <;> linear_combination hs1
    simp only [Vec3.dot] at hunit
    generalize m.sqrt (refractionCosSq prim.Params.S.Refraction geom wi) = r at hspos hsq hs0 hs1 ⊢
    generalize refractionCosSq prim.Params.S.Refraction geom wi = c at hc hc2 hsq hs1 ⊢
    generalize incidentEta prim.Params.S.Refraction geom wi = eI at hc2 ⊢
    generalize transmittedEta prim.Params.S.Refraction geom wi = eT at hc2 hT0 hne ⊢
    generalize geom.ToLocal.mulVec wi = lw at hc2 hunit hsq ⊢
    refine ⟨_, rfl, ?_, ⟨?_, ?_, ?_⟩, ⟨?_, ?_⟩, ?_⟩
    · simp only [Vec3.dot]
      rw [hsq, hc2]
      linear_combination (eI / eT * (eI / eT)) * hunit
    · show r * (if lw.z > 0 then -1 else 1) ≠ 0
      split_ifs
      · exact mul_ne_zero (ne_of_gt hspos) (by norm_num)
      · exact mul_ne_zero (ne_of_gt hspos) (by norm_num)
    · intro hz
      show r * (if lw.z > 0 then -1 else 1) < 0
      rw [if_pos hz]
      linarith
    · intro hz
      show r * (if lw.z > 0 then -1 else 1) > 0
      rw [if_neg (not_lt.mpr hz.le)]
      linarith
    · show eI * lw.x = -(eT * (-(eI / eT) * lw.x))
      field_simp
    · show eI * lw.y = -(eT * (-(eI / eT) * lw.y))
      field_simp
    · show eI * eI * (1 - lw.z * lw.z)
          = eT * eT * (1 - r * (if lw.z > 0 then -1 else 1) * (r * (if lw.z > 0 then -1 else 1)))
      rw [hsq, hc2]
      field_simp

end RefractionTheorems

/-- C16, witness: on the interface with indices `3` and `4`, the direction `(4/5, 0, 3/5)`
from above (`sin θ_i = 4/5`) is refracted to `(-3/5, 0, -4/5)` (`sin θ_t = 3/5`), and
`3 · 4/5 = 4 · 3/5`; the direction `(4/5, 0, -3/5)` from below is reflected to
`(-4/5, 0, -3/5)`, as `1 − (4/3)² (4/5)² < 0`. -/
theorem SampleDirection_refraction_witness :
    (¬ (PrimitiveType.S &&& PrimitiveType.L) > 0 ∧ ¬ (PrimitiveType.S &&& PrimitiveType.E) > 0
      ∧ ¬ (PrimitiveType.S &&& PrimitiveType.D) > 0 ∧ ¬ (PrimitiveType.S &&& PrimitiveType.G) > 0
      ∧ (PrimitiveType.S &&& PrimitiveType.S) > 0
      ∧ exWater.Params.S.Type_ = SType.Refraction
      ∧ 0 < exWater.Params.S.Refraction.Eta1 ∧ 0 < exWater.Params.S.Refraction.Eta2
      ∧ Vec3.dot (exGeom.ToLocal.mulVec ⟨4 / 5, 0, 3 / 5⟩)
          (exGeom.ToLocal.mulVec ⟨4 / 5, 0, 3 / 5⟩) = 1
      ∧ (0 < refractionCosSq exWater.Params.S.Refraction exGeom ⟨4 / 5, 0, 3 / 5⟩ →
          exMath.SqrtAt (refractionCosSq exWater.Params.S.Refraction exGeom ⟨4 / 5, 0, 3 / 5⟩)))
    ∧ refractionCosSq exWater.Params.S.Refraction exGeom ⟨4 / 5, 0, 3 / 5⟩ = 16 / 25
    ∧ exWater.SampleDirection exMath 0 0 PrimitiveType.S exGeom ⟨4 / 5, 0, 3 / 5⟩ 0
        = ⟨-3 / 5, 0, -4 / 5⟩
    ∧ (∃ wo : Vec3 ℚ,
        exWater.SampleDirection exMath 0 0 PrimitiveType.S exGeom ⟨4 / 5, 0, 3 / 5⟩ 0
          = exGeom.ToWorld.mulVec wo
        ∧ Vec3.dot wo wo = 1)
    ∧ refractionCosSq exWater.Params.S.Refraction exGeom ⟨4 / 5, 0, -3 / 5⟩ = -31 / 225
    ∧ exWater.SampleDirection exMath 0 0 PrimitiveType.S exGeom ⟨4 / 5, 0, -3 / 5⟩ 0
        = exGeom.ToWorld.mulVec ⟨-(exGeom.ToLocal.mulVec ⟨4 / 5, 0, -3 / 5⟩).x,
            -(exGeom.ToLocal.mulVec ⟨4 / 5, 0, -3 / 5⟩).y,
            (exGeom.ToLocal.mulVec ⟨4 / 5, 0, -3 / 5⟩).z⟩ := by
  have a1 : ¬ (PrimitiveType.S &&& PrimitiveType.L) > 0 := by decide
  have a2 : ¬ (PrimitiveType.S &&& PrimitiveType.E) > 0 := by decide
  have a3 : ¬ (PrimitiveType.S &&& PrimitiveType.D) > 0 := by decide
  have a4 : ¬ (PrimitiveType.S &&& PrimitiveType.G) > 0 := by decide
  have a5 : (PrimitiveType.S &&& PrimitiveType.S) > 0 := by decide
  have a6 : exWater.Params.S.Type_ = SType.Refraction := rfl
  have a7 : 0 < exWater.Params.S.Refraction.Eta1 := by decide!
  have a8 : 0 < exWater.Params.S.Refraction.Eta2 := by decide!
  have a9 : Vec3.dot (exGeom.ToLocal.mulVec ⟨4 / 5, 0, 3 / 5⟩)
      (exGeom.ToLocal.mulVec ⟨4 / 5, 0, 3 / 5⟩) = 1 := by decide!
  have a10 : 0 < refractionCosSq exWater.Params.S.Refraction exGeom ⟨4 / 5, 0, 3 / 5⟩ →
      exMath.SqrtAt (refractionCosSq exWater.Params.S.Refraction exGeom ⟨4 / 5, 0, 3 / 5⟩) := by
    intro _
    constructor <;> decide!
  have hc : refractionCosSq exWater.Params.S.Refraction exGeom ⟨4 / 5, 0, 3 / 5⟩ = 16 / 25 := by
    decide!
  have hc2 : refractionCosSq exWater.Params.S.Refraction exGeom ⟨4 / 5, 0, -3 / 5⟩
      = -31 / 225 := by
    decide!
  obtain ⟨wo, hwo, hu, _⟩ :=
    (SampleDirection_refraction exMath exWater 0 0 PrimitiveType.S exGeom ⟨4 / 5, 0, 3 / 5⟩ 0
      a1 a2 a3 a4 a5 a6 a7 a8 a9 a10).2 (by rw [hc]; decide!)
  have hmirror :=
    (SampleDirection_refraction exMath exWater 0 0 PrimitiveType.S exGeom ⟨4 / 5, 0, -3 / 5⟩ 0
      a1 a2 a3 a4 a5 a6 a7 a8 (by decide!)
      (fun h => absurd h (by rw [hc2]; decide!))).1 (by rw [hc2]; decide!)
  exact ⟨⟨a1, a2, a3, a4, a5, a6, a7, a8, a9, a10⟩, hc, by decide!, ⟨wo, hwo, hu⟩, hc2, hmirror⟩

section DirectionalLightTheorems

variable {K : Type} [LinearOrderedField K]

theorem postConfigure_directional (m : MathFns K) (SceneBound : AABB K) (prim : Primitive K)
    (hL : (prim.Type_ &&& PrimitiveType.L) > 0)
    (hT : prim.Params.L.Type_ = LType.Directional) :
    (prim.postConfigure m SceneBound).Type_ = prim.Type_
    ∧ (prim.postConfigure m SceneBound).Params.L.Type_ = LType.Directional
    ∧ (prim.postConfigure m SceneBound).Params.L.Directional.InvArea
        = 1 / (2 * m.Pi * (prim.postConfigure m SceneBound).Params.L.Directional.Radius
            * (prim.postConfigure m SceneBound).Params.L.Directional.Radius) := by
  unfold Primitive.postConfigure
  rw [if_pos hL]
  split
  · exact ⟨rfl, hT, rfl⟩
  · rename_i h
    rw [hT] at h
    exact absurd h (by decide)
  · rename_i h
    rw [hT] at h
    exact absurd h (by decide)

/-- C17, the code at a directional light.  After the post-configuration of `Scene::Load`,
`EvaluatePositionPDF` returns `1 / (2 π Radius²)`: half the reciprocal `1 / (π Radius²)` of the
area of the disk of radius `Radius`, and so not that reciprocal.  `SamplePosition` places its
point at `Center - Direction · Radius + dpdu · p.x + dpdv · p.y` with
`p = UniformConcentricDiskSample(u) · Radius`, on the disk of radius `Radius`. -/
theorem directional_EvaluatePositionPDF (m : MathFns K) (SceneBound : AABB K)
    (prim : Primitive K) (geom : SurfaceGeometry K) (fd : Bool) (u : Vec2 K)
    (hL : (prim.Type_ &&& PrimitiveType.L) > 0)
    (hT : prim.Params.L.Type_ = LType.Directional)
    (harea : 0 < m.Pi * (prim.postConfigure m SceneBound).Params.L.Directional.Radius
        * (prim.postConfigure m SceneBound).Params.L.Directional.Radius) :
    (prim.postConfigure m SceneBound).EvaluatePositionPDF geom fd
        = 1 / 2 * (1 / (m.Pi * (prim.postConfigure m SceneBound).Params.L.Directional.Radius
            * (prim.postConfigure m SceneBound).Params.L.Directional.Radius))
    ∧ (prim.postConfigure m SceneBound).EvaluatePositionPDF geom fd
        ≠ 1 / (m.Pi * (prim.postConfigure m SceneBound).Params.L.Directional.Radius
            * (prim.postConfigure m SceneBound).Params.L.Directional.Radius)
    ∧ ((prim.postConfigure m SceneBound).SamplePosition m u geom).p
        = (prim.postConfigure m SceneBound).Params.L.Directional.Center
          - (prim.postConfigure m SceneBound).Params.L.Directional.Direction.scale
              (prim.postConfigure m SceneBound).Params.L.Directional.Radius
          + (((prim.postConfigure m SceneBound).SamplePosition m u geom).dpdu.scale
                ((UniformConcentricDiskSample m u).scale
                  (prim.postConfigure m SceneBound).Params.L.Directional.Radius).x
              + ((prim.postConfigure m SceneBound).SamplePosition m u geom).dpdv.scale
                ((UniformConcentricDiskSample m u).scale
                  (prim.postConfigure m SceneBound).Params.L.Directional.Radius).y) := by
  obtain ⟨hty, hlt, hinv⟩ := postConfigure_directional m SceneBound prim hL hT
  have hL2 : ((prim.postConfigure m SceneBound).Type_ &&& PrimitiveType.L) > 0 := by
    rw [hty]
    exact hL
  have hpdf : (prim.postConfigure m SceneBound).EvaluatePositionPDF geom fd
      = (prim.postConfigure m SceneBound).Params.L.Directional.InvArea := by
    unfold Primitive.EvaluatePositionPDF
    rw [if_pos hL2, hlt]
  have hval : (prim.postConfigure m SceneBound).EvaluatePositionPDF geom fd
      = 1 / 2 * (1 / (m.Pi * (prim.postConfigure m SceneBound).Params.L.Directional.Radius
          * (prim.postConfigure m SceneBound).Params.L.Directional.Radius)) := by
    rw [hpdf, hinv, one_div_mul_one_div]
    congr 1
    ring
  refine ⟨hval, ?_, ?_⟩
  · rw [hval]
    have hpos : 0 < 1 / (m.Pi * (prim.postConfigure m SceneBound).Params.L.Directional.Radius
        * (prim.postConfigure m SceneBound).Params.L.Directional.Radius) :=
      one_div_pos.mpr harea
    intro h
    linarith
  · unfold Primitive.SamplePosition
    rw [if_pos hL2, hlt]

end DirectionalLightTheorems

/-- C17, witness: the directional light in the scene bound from the origin to `(2, 0, 0)` gets
the radius `101/100`; with `π = 22/7` the disk has the area `112211/35000`, and the position
density is `17500/112211`, not `35000/112211`. -/
theorem directional_EvaluatePositionPDF_witness :
    ((exDirectional.Type_ &&& PrimitiveType.L) > 0
      ∧ exDirectional.Params.L.Type_ = LType.Directional
      ∧ 0 < exMath.Pi * (exDirectional.postConfigure exMath exBound).Params.L.Directional.Radius
          * (exDirectional.postConfigure exMath exBound).Params.L.Directional.Radius)
    ∧ (exDirectional.postConfigure exMath exBound).Params.L.Directional.Radius = 101 / 100
    ∧ (exDirectional.postConfigure exMath exBound).EvaluatePositionPDF exGeom false
        = 17500 / 112211
    ∧ 1 / (exMath.Pi * (exDirectional.postConfigure exMath exBound).Params.L.Directional.Radius
          * (exDirectional.postConfigure exMath exBound).Params.L.Directional.Radius)
        = 35000 / 112211
    ∧ (exDirectional.postConfigure exMath exBound).EvaluatePositionPDF exGeom false
        ≠ 1 / (exMath.Pi
            * (exDirectional.postConfigure exMath exBound).Params.L.Directional.Radius
            * (exDirectional.postConfigure exMath exBound).Params.L.Directional.Radius) := by
  have h1 : (exDirectional.Type_ &&& PrimitiveType.L) > 0 := by decide
  have h2 : exDirectional.Params.L.Type_ = LType.Directional := rfl
  have h3 : 0 < exMath.Pi
      * (exDirectional.postConfigure exMath exBound).Params.L.Directional.Radius
      * (exDirectional.postConfigure exMath exBound).Params.L.Directional.Radius := by decide!
  exact ⟨⟨h1, h2, h3⟩, by decide!, by decide!, by decide!,
    (directional_EvaluatePositionPDF exMath exBound exDirectional exGeom false 0 h1 h2 h3).2.1⟩

section SeedPathTheorems

variable {K : Type}

/-- C18, the code with `MaxNumVertices = -1`.  A seed path with `k ≥ 1` specular vertices has
`k + 2` vertices; for every seed path of two or more vertices and every eye path, the
vertex-count check of `ProcessSample_PTMNEE` takes its `continue`: the seed path is discarded
and the manifold walk is not reached.  With a bound that the two paths respect the same seed
path does reach the case with MNEE. -/
theorem seedPathAction_unbounded (params : RendererParams) (path seedPath : Path K)
    (hmax : params.MaxNumVertices = -1) (hk : 2 ≤ seedPath.vertices.length) :
    seedPathAction params path seedPath = SeedPathAction.Skip
    ∧ seedPathAction params path seedPath ≠ SeedPathAction.MNEE
    ∧ ∀ bounded : RendererParams,
        (path.vertices.length : Int) + (seedPath.vertices.length : Int) - 1
            ≤ bounded.MaxNumVertices →
        seedPathAction bounded path seedPath = SeedPathAction.MNEE := by
  have hskip : seedPathAction params path seedPath = SeedPathAction.Skip := by
    unfold seedPathAction
    rw [hmax]
    have hc : seedPath.vertices.length > 1
        ∧ ((path.vertices.length : Int) + (seedPath.vertices.length : Int) - 1) > -1 := by
      constructor <;> omega
    rw [if_pos hc]
  refine ⟨hskip, by rw [hskip]; decide, ?_⟩
  intro bounded hb
  unfold seedPathAction
  have hc : ¬ (seedPath.vertices.length > 1
      ∧ ((path.vertices.length : Int) + (seedPath.vertices.length : Int) - 1)
          > bounded.MaxNumVertices) := by
    intro h
    omega
  have h1 : ¬ seedPath.vertices.length = 1 := by omega
  rw [if_neg hc, if_neg h1]

end SeedPathTheorems

/-- C18, witness: with `MaxNumVertices = -1`, the eye path of the sensor vertex alone and the
seed path light, glass, diffuse surface (one specular vertex): the seed path is skipped. -/
theorem seedPathAction_unbounded_witness :
    ((⟨-1, 4, 3⟩ : RendererParams).MaxNumVertices = -1
      ∧ 2 ≤ (⟨[⟨PrimitiveType.L, exGeom, exLight⟩, ⟨PrimitiveType.S, exGeom, exGlass⟩,
              ⟨PrimitiveType.D, exGeom, exDiffuse⟩]⟩ : Path ℚ).vertices.length)
    ∧ seedPathAction ⟨-1, 4, 3⟩ (⟨[⟨PrimitiveType.E, exGeomDown, exSensor⟩]⟩ : Path ℚ)
        ⟨[⟨PrimitiveType.L, exGeom, exLight⟩, ⟨PrimitiveType.S, exGeom, exGlass⟩,
          ⟨PrimitiveType.D, exGeom, exDiffuse⟩]⟩ = SeedPathAction.Skip :=
  ⟨⟨rfl, by decide⟩,
    (seedPathAction_unbounded ⟨-1, 4, 3⟩ (⟨[⟨PrimitiveType.E, exGeomDown, exSensor⟩]⟩ : Path ℚ)
      ⟨[⟨PrimitiveType.L, exGeom, exLight⟩, ⟨PrimitiveType.S, exGeom, exGlass⟩,
        ⟨PrimitiveType.D, exGeom, exDiffuse⟩]⟩ rfl (by decide)).1⟩

section TypeLoadingTheorems

theorem lor_bits :
    ∀ acc : Nat, acc < 32 → ∀ b ∈ [1, 2, 4, 8, 16], ∀ c ∈ [1, 2, 4, 8, 16],
      (acc ||| b) < 32 ∧ (((acc ||| b) &&& c) > 0 ↔ ((acc &&& c) > 0 ∨ b = c)) := by
  decide

theorem loadTypeStep_spec (acc : Nat) (hacc : acc < 32) (s : String) :
    loadTypeStep acc s < 32
    ∧ ((loadTypeStep acc s &&& PrimitiveType.D) > 0 ↔ ((acc &&& PrimitiveType.D) > 0 ∨ s = "D"))
    ∧ ((loadTypeStep acc s &&& PrimitiveType.G) > 0 ↔ ((acc &&& PrimitiveType.G) > 0 ∨ s = "G"))
    ∧ ((loadTypeStep acc s &&& PrimitiveType.S) > 0 ↔ ((acc &&& PrimitiveType.S) > 0 ∨ s = "S"))
    ∧ ((loadTypeStep acc s &&& PrimitiveType.L) > 0 ↔ ((acc &&& PrimitiveType.L) > 0 ∨ s = "L"))
    ∧ ((loadTypeStep acc s &&& PrimitiveType.E) > 0 ↔ ((acc &&& PrimitiveType.E) > 0 ∨ s = "E")) := by
  have hb := lor_bits acc hacc
  unfold loadTypeStep
  simp only [PrimitiveType.D, PrimitiveType.G, PrimitiveType.S, PrimitiveType.L, PrimitiveType.E]
  by_cases hD : s = "D"
  · subst hD
    simp only [if_true]
    refine ⟨(hb 1 (by decide) 1 (by decide)).1, ?_, ?_, ?_, ?_, ?_⟩
    · simpa using (hb 1 (by decide) 1 (by decide)).2
    · simpa using (hb 1 (by decide) 2 (by decide)).2
    · simpa using (hb 1 (by decide) 4 (by decide)).2
    · simpa using (hb 1 (by decide) 8 (by decide)).2
    · simpa using (hb 1 (by decide) 16 (by decide)).2
  · rw [if_neg hD]
    by_cases hG : s = "G"
    · subst hG
      simp only [if_true]
      refine ⟨(hb 2 (by decide) 1 (by decide)).1, ?_, ?_, ?_, ?_, ?_⟩
      · simpa using (hb 2 (by decide) 1 (by decide)).2
      · simpa using (hb 2 (by decide) 2 (by decide)).2
      · simpa using (hb 2 (by decide) 4 (by decide)).2
      · simpa using (hb 2 (by decide) 8 (by decide)).2
      · simpa using (hb 2 (by decide) 16 (by decide)).2
    · rw [if_neg hG]
      by_cases hS : s = "S"
      · subst hS
        simp only [if_true]
        refine ⟨(hb 4 (by decide) 1 (by decide)).1, ?_, ?_, ?_, ?_, ?_⟩
        · simpa using (hb 4 (by decide) 1 (by decide)).2
        · simpa using (hb 4 (by decide) 2 (by decide)).2
        · simpa using (hb 4 (by decide) 4 (by decide)).2
        · simpa using (hb 4 (by decide) 8 (by decide)).2
        · simpa using (hb 4 (by decide) 16 (by decide)).2
      · rw [if_neg hS]
        by_cases hL : s = "L"
        · subst hL
          simp only [if_true]
          refine ⟨(hb 8 (by decide) 1 (by decide)).1, ?_, ?_, ?_, ?_, ?_⟩
          · simpa using (hb 8 (by decide) 1 (by decide)).2
          · simpa using (hb 8 (by decide) 2 (by decide)).2
          · simpa using (hb 8 (by decide) 4 (by decide)).2
          · simpa using (hb 8 (by decide) 8 (by decide)).2
          · simpa using (hb 8 (by decide) 16 (by decide)).2
        · rw [if_neg hL]
          by_cases hE : s = "E"
          · subst hE
            simp only [if_true]
            refine ⟨(hb 16 (by decide) 1 (by decide)).1, ?_, ?_, ?_, ?_, ?_⟩
            · simpa using (hb 16 (by decide) 1 (by decide)).2
            · simpa using (hb 16 (by decide) 2 (by decide)).2
            · simpa using (hb 16 (by decide) 4 (by decide)).2
            · simpa using (hb 16 (by decide) 8 (by decide)).2
            · simpa using (hb 16 (by decide) 16 (by decide)).2
          · rw [if_neg hE]
            simp [hacc, hD, hG, hS, hL, hE]

theorem loadTypeFold_spec (names : List String) : ∀ acc : Nat, acc < 32 →
    names.foldl loadTypeStep acc < 32
    ∧ ((names.foldl loadTypeStep acc &&& PrimitiveType.D) > 0
        ↔ ((acc &&& PrimitiveType.D) > 0 ∨ "D" ∈ names))
    ∧ ((names.foldl loadTypeStep acc &&& PrimitiveType.G) > 0
        ↔ ((acc &&& PrimitiveType.G) > 0 ∨ "G" ∈ names))
    ∧ ((names.foldl loadTypeStep acc &&& PrimitiveType.S) > 0
        ↔ ((acc &&& PrimitiveType.S) > 0 ∨ "S" ∈ names))
    ∧ ((names.foldl loadTypeStep acc &&& PrimitiveType.L) > 0
        ↔ ((acc &&& PrimitiveType.L) > 0 ∨ "L" ∈ names))
    ∧ ((names.foldl loadTypeStep acc &&& PrimitiveType.E) > 0
        ↔ ((acc &&& PrimitiveType.E) > 0 ∨ "E" ∈ names)) := by
  induction names with
  | nil =>
    intro acc hacc
    simp [hacc]
  | cons s rest ih =>
    intro acc hacc
    obtain ⟨h0, hD, hG, hS, hL, hE⟩ := loadTypeStep_spec acc hacc s
    obtain ⟨g0, gD, gG, gS, gL, gE⟩ := ih (loadTypeStep acc s) h0
    simp only [List.foldl_cons, List.mem_cons]
    refine ⟨g0, ?_, ?_, ?_, ?_, ?_⟩
    · rw [gD, hD, or_assoc, eq_comm]
    · rw [gG, hG, or_assoc, eq_comm]
    · rw [gS, hS, or_assoc, eq_comm]
    · rw [gL, hL, or_assoc, eq_comm]
    · rw [gE, hE, or_assoc, eq_comm]

theorem mask_zero_iff :
    ∀ ty : Nat, ty < 32 →
      (ty = 0 ↔ (¬ (ty &&& 1) > 0 ∧ ¬ (ty &&& 2) > 0 ∧ ¬ (ty &&& 4) > 0 ∧ ¬ (ty &&& 8) > 0
        ∧ ¬ (ty &&& 16) > 0))
      ∧ (([8, 16].filter fun b => (ty &&& b) > 0).length ≤ 1
          ↔ ¬ ((ty &&& 8) > 0 ∧ (ty &&& 16) > 0)) := by
  decide

/-- C19 (amended).  A primitive whose type list passes the type check of `Scene::Load` has a
non-zero mask made of the bits `D`, `G`, `S`, `L`, `E` only, each set exactly when its name is
in the list, and at most one of `L`, `E`.  The check fails (and `Scene::Load` returns `false`)
exactly when the list names none of the five types or names both `L` and `E`; nothing limits
how many of `D`, `G`, `S` a list may name. -/
theorem loadPrimitiveType_spec (typeNode : List String) :
    (∀ ty : Nat, loadPrimitiveType typeNode = some ty →
      ty ≠ 0 ∧ ty < 32 ∧ atMostOneOf ty [PrimitiveType.L, PrimitiveType.E]
      ∧ ((ty &&& PrimitiveType.D) > 0 ↔ "D" ∈ typeNode)
      ∧ ((ty &&& PrimitiveType.G) > 0 ↔ "G" ∈ typeNode)
      ∧ ((ty &&& PrimitiveType.S) > 0 ↔ "S" ∈ typeNode)
      ∧ ((ty &&& PrimitiveType.L) > 0 ↔ "L" ∈ typeNode)
      ∧ ((ty &&& PrimitiveType.E) > 0 ↔ "E" ∈ typeNode))
    ∧ (loadPrimitiveType typeNode = none ↔
        ((¬ "D" ∈ typeNode ∧ ¬ "G" ∈ typeNode ∧ ¬ "S" ∈ typeNode ∧ ¬ "L" ∈ typeNode
            ∧ ¬ "E" ∈ typeNode)
          ∨ ("L" ∈ typeNode ∧ "E" ∈ typeNode))) := by
  obtain ⟨h0, hD, hG, hS, hL, hE⟩ := loadTypeFold_spec typeNode 0 (by decide)
  have z : ∀ b : Nat, ¬ (0 &&& b) > 0 := by
    intro b
    simp
  simp only [z, false_or] at hD hG hS hL hE
  obtain ⟨hz, hLE⟩ := mask_zero_iff _ h0
  have hmask : loadTypeMask typeNode = typeNode.foldl loadTypeStep 0 := rfl
  unfold loadPrimitiveType
  simp only [hmask, PrimitiveType.None]
  generalize typeNode.foldl loadTypeStep 0 = ty at *
  simp only [PrimitiveType.D, PrimitiveType.G, PrimitiveType.S, PrimitiveType.L,
    PrimitiveType.E] at hD hG hS hL hE ⊢
  constructor
  · intro ty2 h
    by_cases hc : ty = 0 ∨ ((ty &&& 8) > 0 ∧ (ty &&& 16) > 0)
    · rw [if_pos hc] at h
      exact absurd h (by simp)
    · rw [if_neg hc] at h
      have e : ty = ty2 := Option.some.inj h
      subst e
      push_neg at hc
      refine ⟨hc.1, h0, ?_, hD, hG, hS, hL, hE⟩
      unfold atMostOneOf
      rw [hLE]
      intro hh
      exact absurd hh.2 (not_lt.mpr (Nat.le_of_lt_succ (by
        have := hc.2 hh.1
        omega)))
  · rw [← hD, ← hG, ← hS, ← hL, ← hE, ← hz]
    by_cases hc : ty = 0 ∨ ((ty &&& 8) > 0 ∧ (ty &&& 16) > 0)
    · rw [if_pos hc]
      simpa using hc
    · rw [if_neg hc]
      simpa using hc

end TypeLoadingTheorems

/-- C19, counterexample: the type list `["D", "G"]` passes the check with the mask `3`, in
which both the `D` and the `G` bit are set. -/
theorem loadPrimitiveType_counterexample :
    loadPrimitiveType ["D", "G"] = some 3
    ∧ (3 &&& PrimitiveType.D) > 0 ∧ (3 &&& PrimitiveType.G) > 0
    ∧ ¬ atMostOneOf 3 [PrimitiveType.D, PrimitiveType.G, PrimitiveType.S]
    ∧ ¬ (∀ (typeNode : List String) (ty : Nat), loadPrimitiveType typeNode = some ty →
          atMostOneOf ty [PrimitiveType.D, PrimitiveType.G, PrimitiveType.S]
          ∧ atMostOneOf ty [PrimitiveType.L, PrimitiveType.E]) := by
  have h1 : loadPrimitiveType ["D", "G"] = some 3 := by decide
  have h2 : ¬ atMostOneOf 3 [PrimitiveType.D, PrimitiveType.G, PrimitiveType.S] := by
    unfold atMostOneOf
    decide
  exact ⟨h1, by decide, by decide, h2, fun h => h2 (h ["D", "G"] 3 h1).1⟩

section RendererSelectionTheorems

theorem TypeMap_eq :
    EnumTypeMap.TypeMap
      = [("ptmnee", RendererType.PTMNEE), ("bpt", RendererType.BPT),
          ("ltdirect", RendererType.LTDirect), ("lt", RendererType.LT),
          ("ptdirect", RendererType.PTDirect), ("pt", RendererType.PT)] := by
  decide

theorem ToEnum_eq (s : String) :
    EnumTypeMap.ToEnum s
      = if s = "ptmnee" then RendererType.PTMNEE
        else if s = "bpt" then RendererType.BPT
        else if s = "ltdirect" then RendererType.LTDirect
        else if s = "lt" then RendererType.LT
        else if s = "ptdirect" then RendererType.PTDirect
        else RendererType.PT := by
  unfold EnumTypeMap.ToEnum
  rw [TypeMap_eq]
  simp only [List.lookup_cons, List.lookup_nil]
  by_cases h1 : s = "ptmnee"
  · subst h1
    rfl
  · by_cases h2 : s = "bpt"
    · subst h2
      rfl
    · by_cases h3 : s = "ltdirect"
      · subst h3
        rfl
      · by_cases h4 : s = "lt"
        · subst h4
          rfl
        · by_cases h5 : s = "ptdirect"
          · subst h5
            rfl
          · by_cases h6 : s = "pt"
            · subst h6
              rfl
            · have e : ∀ t : String, s ≠ t → (s == t) = false := by
                intro t ht
                simpa using ht
              rw [e _ h1, e _ h2, e _ h3, e _ h4, e _ h5, e _ h6, if_neg h1, if_neg h2, if_neg h3,
                if_neg h4, if_neg h5]
              rfl

/-- C20 (amended).  `Renderer::Load` maps the names `pt`, `ptdirect`, `lt`, `ltdirect`, `bpt`,
`ptmnee` to the types `PT`, `PTDirect`, `LT`, `LTDirect`, `BPT`, `PTMNEE`, for which
`Renderer::Render` runs `ProcessSample_PT`, `ProcessSample_PTDirect`, `ProcessSample_LT`,
`ProcessSample_LTDirect`, `ProcessSample_BPT`, `ProcessSample_PTMNEE`.  Any other name is
not refused: `Load` returns `true` and the type is `PT`, the enumerator of value `0`. -/
theorem Renderer_Load_selection (vm : VariablesMap) :
    (Renderer.Load vm).1 = true
    ∧ (vm.renderer = "pt" → (Renderer.Load vm).2.Type_ = RendererType.PT
        ∧ (Renderer.Load vm).2.processSampleFunc = ProcessSampleFunc.ProcessSample_PT)
    ∧ (vm.renderer = "ptdirect" → (Renderer.Load vm).2.Type_ = RendererType.PTDirect
        ∧ (Renderer.Load vm).2.processSampleFunc = ProcessSampleFunc.ProcessSample_PTDirect)
    ∧ (vm.renderer = "lt" → (Renderer.Load vm).2.Type_ = RendererType.LT
        ∧ (Renderer.Load vm).2.processSampleFunc = ProcessSampleFunc.ProcessSample_LT)
    ∧ (vm.renderer = "ltdirect" → (Renderer.Load vm).2.Type_ = RendererType.LTDirect
        ∧ (Renderer.Load vm).2.processSampleFunc = ProcessSampleFunc.ProcessSample_LTDirect)
    ∧ (vm.renderer = "bpt" → (Renderer.Load vm).2.Type_ = RendererType.BPT
        ∧ (Renderer.Load vm).2.processSampleFunc = ProcessSampleFunc.ProcessSample_BPT)
    ∧ (vm.renderer = "ptmnee" → (Renderer.Load vm).2.Type_ = RendererType.PTMNEE
        ∧ (Renderer.Load vm).2.processSampleFunc = ProcessSampleFunc.ProcessSample_PTMNEE)
    ∧ (¬ vm.renderer ∈ RendererType_String → (Renderer.Load vm).2.Type_ = RendererType.PT
        ∧ (Renderer.Load vm).2.processSampleFunc = ProcessSampleFunc.ProcessSample_PT) := by
  have hT : (Renderer.Load vm).2.Type_ = EnumTypeMap.ToEnum vm.renderer := rfl
  have hP : (Renderer.Load vm).2.processSampleFunc
      = Renderer.processSampleFunc ⟨EnumTypeMap.ToEnum vm.renderer, (Renderer.Load vm).2.Params⟩ :=
    rfl
  rw [hT, hP, ToEnum_eq]
  refine ⟨rfl, ?_, ?_, ?_, ?_, ?_, ?_, ?_⟩
  · intro h
    rw [h]
    exact ⟨by decide, rfl⟩
  · intro h
    rw [h]
    exact ⟨by decide, rfl⟩
  · intro h
    rw [h]
    exact ⟨by decide, rfl⟩
  · intro h
    rw [h]
    exact ⟨by decide, rfl⟩
  · intro h
    rw [h]
    exact ⟨by decide, rfl⟩
  · intro h
    rw [h]
    exact ⟨by decide, rfl⟩
  · intro h
    simp only [RendererType_String, List.mem_cons, List.mem_singleton, List.not_mem_nil,
      or_false, not_or] at h
    obtain ⟨h1, h2, h3, h4, h5, h6⟩ := h
    rw [if_neg h6, if_neg h5, if_neg h4, if_neg h3, if_neg h2]
    exact ⟨rfl, rfl⟩

end RendererSelectionTheorems

/-- C20, witness: the name `bpt` selects the bidirectional integrator. -/
theorem Renderer_Load_selection_witness :
    (⟨"bpt", -1, 4, 3⟩ : VariablesMap).renderer = "bpt"
    ∧ (Renderer.Load ⟨"bpt", -1, 4, 3⟩).2.Type_ = RendererType.BPT
    ∧ (Renderer.Load ⟨"bpt", -1, 4, 3⟩).2.processSampleFunc
        = ProcessSampleFunc.ProcessSample_BPT :=
  ⟨rfl, (Renderer_Load_selection ⟨"bpt", -1, 4, 3⟩).2.2.2.2.2.1 rfl⟩

/-- C20, counterexample: the name `whitted` is none of the six, yet `Renderer::Load` returns
`true`, with the type `PT`, and `Renderer::Render` runs the path tracer. -/
theorem Renderer_Load_selection_counterexample :
    ¬ "whitted" ∈ RendererType_String
    ∧ (Renderer.Load ⟨"whitted", -1, 4, 3⟩).1 = true
    ∧ (Renderer.Load ⟨"whitted", -1, 4, 3⟩).2.Type_ = RendererType.PT
    ∧ (Renderer.Load ⟨"whitted", -1, 4, 3⟩).2.processSampleFunc
        = ProcessSampleFunc.ProcessSample_PT := by
  decide

section ExitCodeTheorems

/-- C21, the code when saving fails.  The exit code is `0` exactly when the parsing ends with
the help message, or ends with parsed options and `Scene::Load` and `Renderer::Load` return
`true`; what `SaveImage` returns has no part in it.  With the result path `render.txt`, whose
extension is unknown, `SaveImage` returns `false` and the exit code is `0`. -/
theorem main_exit_code (i : RunInputs) :
    (main i = 0 ↔ (i.parse = ParseOutcome.Help
      ∨ (i.parse = ParseOutcome.Parsed ∧ i.sceneLoad = true ∧ (Renderer.Load i.vm).1 = true)))
    ∧ (main i = 1 ↔ (i.parse = ParseOutcome.Error
      ∨ (i.parse = ParseOutcome.Parsed ∧ (i.sceneLoad = false ∨ (Renderer.Load i.vm).1 = false))))
    ∧ SaveImage true ".txt" true = false
    ∧ main ⟨ParseOutcome.Parsed, true, ⟨"pt", -1, 4, 3⟩, true, ".txt", true⟩ = 0 := by
  refine ⟨?_, ?_, by decide, by decide⟩
  · unfold main Run
    cases hp : i.parse <;> cases hs : i.sceneLoad <;> simp [Renderer.Load]
  · unfold main Run
    cases hp : i.parse <;> cases hs : i.sceneLoad <;> simp [Renderer.Load]

end ExitCodeTheorems

section VectorComponents

variable {K : Type} [LinearOrderedField K]

theorem Vec3.add_x (a b : Vec3 K) : (a + b).x = a.x + b.x := rfl
theorem Vec3.add_y (a b : Vec3 K) : (a + b).y = a.y + b.y := rfl
theorem Vec3.add_z (a b : Vec3 K) : (a + b).z = a.z + b.z := rfl
theorem Vec3.sub_x (a b : Vec3 K) : (a - b).x = a.x - b.x := rfl
theorem Vec3.sub_y (a b : Vec3 K) : (a - b).y = a.y - b.y := rfl
theorem Vec3.sub_z (a b : Vec3 K) : (a - b).z = a.z - b.z := rfl
theorem Vec3.neg_x (a : Vec3 K) : (-a).x = -a.x := rfl
theorem Vec3.neg_y (a : Vec3 K) : (-a).y = -a.y := rfl
theorem Vec3.neg_z (a : Vec3 K) : (-a).z = -a.z := rfl
theorem Vec3.zero_x : (0 : Vec3 K).x = 0 := rfl
theorem Vec3.zero_y : (0 : Vec3 K).y = 0 := rfl
theorem Vec3.zero_z : (0 : Vec3 K).z = 0 := rfl

end VectorComponents

section NormalDerivativeTheorems

variable {K : Type} [LinearOrderedField K]

theorem interpolatedNormal_dv (n1 n2 n3 : Vec3 K) (u v h : K) :
    interpolatedNormal n1 n2 n3 u (v + h) - interpolatedNormal n1 n2 n3 u v
      = (n3 - n1).scale h := by
  ext <;>
    simp only [interpolatedNormal, Vec3.scale, Vec3.add_x, Vec3.add_y, Vec3.add_z, Vec3.sub_x,
      Vec3.sub_y, Vec3.sub_z] <;> ring

theorem interpolatedNormal_du (n1 n2 n3 : Vec3 K) (u v h : K) :
    interpolatedNormal n1 n2 n3 (u + h) v - interpolatedNormal n1 n2 n3 u v
      = (n2 - n1).scale h := by
  ext <;>
    simp only [interpolatedNormal, Vec3.scale, Vec3.add_x, Vec3.add_y, Vec3.add_z, Vec3.sub_x,
      Vec3.sub_y, Vec3.sub_z] <;> ring

/-- C24, the code of `Scene::Intersect`.  With `n1`, `n2`, `n3` the vertex normals of the face
hit and `N = N(u, v)`: `dndu` is `(n2 − n1) / |N|` projected perpendicular to the shading
normal, as the specification has it, but `dndv` is that projection of `(n3 − n2) / |N|`, where
the partial derivative of `N(u, v)` with respect to `v` is `n3 − n1`.  On the triangle with
the normals `(0, 0, 1)`, `(3/5, 0, 4/5)`, `(0, 0, 1)`, hit at `u = v = 0`, the code stores
`dndv = (-3/5, 0, 0)` and the specification gives `(0, 0, 0)`. -/
theorem storeIntersection_normal_derivatives (m : MathFns K) (scene : Scene K) (ray : Ray K)
    (hit : RayHit K) (isect : Intersection K) :
    (scene.storeIntersection m ray hit isect).geom.dndu
        = specNormalDerivative m
            ((derefMesh (scene.Primitives.getD hit.primIndex Primitive.init).MeshRef).normalAt
                hit.faceIndex 1
              - (derefMesh (scene.Primitives.getD hit.primIndex Primitive.init).MeshRef).normalAt
                hit.faceIndex 0)
            (interpolatedNormal
              ((derefMesh (scene.Primitives.getD hit.primIndex Primitive.init).MeshRef).normalAt
                hit.faceIndex 0)
              ((derefMesh (scene.Primitives.getD hit.primIndex Primitive.init).MeshRef).normalAt
                hit.faceIndex 1)
              ((derefMesh (scene.Primitives.getD hit.primIndex Primitive.init).MeshRef).normalAt
                hit.faceIndex 2) hit.u hit.v)
            (scene.storeIntersection m ray hit isect).geom.sn
    ∧ (scene.storeIntersection m ray hit isect).geom.dndv
        = specNormalDerivative m
            ((derefMesh (scene.Primitives.getD hit.primIndex Primitive.init).MeshRef).normalAt
                hit.faceIndex 2
              - (derefMesh (scene.Primitives.getD hit.primIndex Primitive.init).MeshRef).normalAt
                hit.faceIndex 1)
            (interpolatedNormal
              ((derefMesh (scene.Primitives.getD hit.primIndex Primitive.init).MeshRef).normalAt
                hit.faceIndex 0)
              ((derefMesh (scene.Primitives.getD hit.primIndex Primitive.init).MeshRef).normalAt
                hit.faceIndex 1)
              ((derefMesh (scene.Primitives.getD hit.primIndex Primitive.init).MeshRef).normalAt
                hit.faceIndex 2) hit.u hit.v)
            (scene.storeIntersection m ray hit isect).geom.sn
    ∧ (∀ (n1 n2 n3 : Vec3 K) (u v h : K),
        interpolatedNormal n1 n2 n3 u (v + h) - interpolatedNormal n1 n2 n3 u v
          = (n3 - n1).scale h)
    ∧ (exTiltedScene.storeIntersection exMath ⟨⟨0, 0, 1⟩, ⟨0, 0, -1⟩⟩ ⟨0, 0, 1, 0, 0⟩
          ⟨exGeom, exDiffuse⟩).geom.dndv = ⟨-3 / 5, 0, 0⟩
    ∧ specNormalDerivative exMath
          ((derefMesh exTilted.MeshRef).normalAt 0 2 - (derefMesh exTilted.MeshRef).normalAt 0 0)
          (interpolatedNormal ((derefMesh exTilted.MeshRef).normalAt 0 0)
            ((derefMesh exTilted.MeshRef).normalAt 0 1)
            ((derefMesh exTilted.MeshRef).normalAt 0 2) 0 0)
          (exTiltedScene.storeIntersection exMath ⟨⟨0, 0, 1⟩, ⟨0, 0, -1⟩⟩ ⟨0, 0, 1, 0, 0⟩
            ⟨exGeom, exDiffuse⟩).geom.sn = ⟨0, 0, 0⟩ := by
  refine ⟨rfl, rfl, interpolatedNormal_dv, by decide!, by decide!⟩

end NormalDerivativeTheorems

section MaskingTheorems

variable {K : Type} [LinearOrderedField K]

/-- C25.  For unit local directions `wi`, `wo` in the upper hemisphere and
`H = normalize(wi + wo)`, the masking term `EvalauteShadowMaskingFunc(wi, wo, H)` of the glossy
BRDF equals `min(1, 2 (n·h) · min(n·wo / |wo·h|, n·wi / |wi·h|))`: the two directions make the
same angle with `H`, so the code's use of `|wo·H|` in both quotients changes nothing.  The
runtime `sqrt` is assumed non-negative at `|wi + wo|²`. -/
theorem EvalauteShadowMaskingFunc_spec (m : MathFns K) (wi wo : Vec3 K)
    (hwi : Vec3.dot wi wi = 1) (hwo : Vec3.dot wo wo = 1) (hiz : 0 < LocalCos wi)
    (hoz : 0 < LocalCos wo) (hs : 0 ≤ m.sqrt (Vec3.dot (wi + wo) (wi + wo))) :
    Primitive.EvalauteShadowMaskingFunc wi wo (m.normalize (wi + wo))
      = min 1 (2 * LocalCos (m.normalize (wi + wo))
          * min (LocalCos wo / |Vec3.dot wo (m.normalize (wi + wo))|)
              (LocalCos wi / |Vec3.dot wi (m.normalize (wi + wo))|)) := by
  have hdot : Vec3.dot wi (m.normalize (wi + wo)) = Vec3.dot wo (m.normalize (wi + wo)) :=
    dot_half_vector m wi wo (by rw [hwi, hwo])
  have hH : 0 ≤ LocalCos (m.normalize (wi + wo)) := by
    simp only [LocalCos, MathFns.normalize, Vec3.scale] at hiz hoz ⊢
    exact mul_nonneg (by
      show 0 ≤ wi.z + wo.z
      linarith) (one_div_nonneg.mpr hs)
  unfold Primitive.EvalauteShadowMaskingFunc
  simp only
  rw [hdot, mul_min_of_nonneg _ _ (by linarith : (0 : K) ≤ 2 * LocalCos (m.normalize (wi + wo))),
    mul_div_assoc, mul_div_assoc]

end MaskingTheorems

/-- C25, witness: `wi = wo = (0, 0, 1)`, whose half vector is `(0, 0, 1)`: the masking term
is `min(1, 2) = 1`. -/
theorem EvalauteShadowMaskingFunc_spec_witness :
    (Vec3.dot (⟨0, 0, 1⟩ : Vec3 ℚ) ⟨0, 0, 1⟩ = 1 ∧ 0 < LocalCos (⟨0, 0, 1⟩ : Vec3 ℚ)
      ∧ 0 ≤ exMath.sqrt (Vec3.dot ((⟨0, 0, 1⟩ : Vec3 ℚ) + ⟨0, 0, 1⟩) (⟨0, 0, 1⟩ + ⟨0, 0, 1⟩)))
    ∧ exMath.normalize ((⟨0, 0, 1⟩ : Vec3 ℚ) + ⟨0, 0, 1⟩) = ⟨0, 0, 1⟩
    ∧ Primitive.EvalauteShadowMaskingFunc (⟨0, 0, 1⟩ : Vec3 ℚ) ⟨0, 0, 1⟩
        (exMath.normalize (⟨0, 0, 1⟩ + ⟨0, 0, 1⟩)) = 1
    ∧ Primitive.EvalauteShadowMaskingFunc (⟨0, 0, 1⟩ : Vec3 ℚ) ⟨0, 0, 1⟩
        (exMath.normalize (⟨0, 0, 1⟩ + ⟨0, 0, 1⟩))
      = min 1 (2 * LocalCos (exMath.normalize ((⟨0, 0, 1⟩ : Vec3 ℚ) + ⟨0, 0, 1⟩))
          * min (LocalCos (⟨0, 0, 1⟩ : Vec3 ℚ)
                / |Vec3.dot (⟨0, 0, 1⟩ : Vec3 ℚ) (exMath.normalize (⟨0, 0, 1⟩ + ⟨0, 0, 1⟩))|)
              (LocalCos (⟨0, 0, 1⟩ : Vec3 ℚ)
                / |Vec3.dot (⟨0, 0, 1⟩ : Vec3 ℚ) (exMath.normalize (⟨0, 0, 1⟩ + ⟨0, 0, 1⟩))|)) := by
  have h1 : Vec3.dot (⟨0, 0, 1⟩ : Vec3 ℚ) ⟨0, 0, 1⟩ = 1 := by decide!
  have h2 : 0 < LocalCos (⟨0, 0, 1⟩ : Vec3 ℚ) := by decide!
  have h3 : 0 ≤ exMath.sqrt (Vec3.dot ((⟨0, 0, 1⟩ : Vec3 ℚ) + ⟨0, 0, 1⟩)
      (⟨0, 0, 1⟩ + ⟨0, 0, 1⟩)) := by decide!
  exact ⟨⟨h1, h2, h3⟩, by decide!, by decide!,
    EvalauteShadowMaskingFunc_spec exMath ⟨0, 0, 1⟩ ⟨0, 0, 1⟩ h1 h1 h2 h2 h3⟩

section PinholeRoundTripTheorems

variable {K : Type} [LinearOrderedField K]

theorem SampleDirection_pinhole (m : MathFns K) (prim : Primitive K) (u : Vec2 K) (uComp : K)
    (q : Nat) (geom : SurfaceGeometry K) (wi wo0 : Vec3 K)
    (hL : ¬ (q &&& PrimitiveType.L) > 0) (hE : (q &&& PrimitiveType.E) > 0)
    (hT : prim.Params.E.Type_ = EType.Pinhole) :
    prim.SampleDirection m u uComp q geom wi wo0
      = prim.Params.E.Pinhole.Vx.scale (m.normalize (prim.eyeRay m u)).x
        + prim.Params.E.Pinhole.Vy.scale (m.normalize (prim.eyeRay m u)).y
        + prim.Params.E.Pinhole.Vz.scale (m.normalize (prim.eyeRay m u)).z := by
  unfold Primitive.SampleDirection
  rw [if_neg hL, if_pos hE, hT]
  rfl

theorem eyeDirection_of_basis (prim : Primitive K) (e : Vec3 K)
    (horth : prim.Params.E.Pinhole.Orthonormal) :
    prim.eyeDirection (prim.Params.E.Pinhole.Vx.scale e.x + prim.Params.E.Pinhole.Vy.scale e.y
      + prim.Params.E.Pinhole.Vz.scale e.z) = e := by
  obtain ⟨hxx, hyy, hzz, hxy, hxz, hyz⟩ := horth
  simp only [Vec3.dot] at hxx hyy hzz hxy hxz hyz
  rw [eyeDirection_eq]
  ext
  · simp only [Vec3.dot, Vec3.scale, Vec3.add_x, Vec3.add_y, Vec3.add_z]
    linear_combination e.x * hxx + e.y * hxy + e.z * hxz
  · simp only [Vec3.dot, Vec3.scale, Vec3.add_x, Vec3.add_y, Vec3.add_z]
    linear_combination e.x * hxy + e.y * hyy + e.z * hyz
  · simp only [Vec3.dot, Vec3.scale, Vec3.add_x, Vec3.add_y, Vec3.add_z]
    linear_combination e.x * hxz + e.y * hyz + e.z * hzz

/-- C30.  For a pinhole sensor with an orthonormal basis `(Vx, Vy, Vz)`, `tan(Fov/2) > 0` (as
for `0 < Fov < π`) and `Aspect > 0`, and every `u` in `[0, 1]²`: `RasterPosition` applied to
the direction `SampleDirection(u)` has produced for an E query returns `true` and writes
exactly `u`.  The runtime `sqrt` is assumed positive at the squared length of the eye-space
vector that is normalised. -/
theorem pinhole_round_trip (m : MathFns K) (prim : Primitive K) (u : Vec2 K) (uComp : K)
    (q : Nat) (geom geom2 : SurfaceGeometry K) (wi wo0 : Vec3 K) (rasterPos0 : Vec2 K)
    (hL : ¬ (q &&& PrimitiveType.L) > 0) (hE : (q &&& PrimitiveType.E) > 0)
    (hT : prim.Params.E.Type_ = EType.Pinhole)
    (horth : prim.Params.E.Pinhole.Orthonormal)
    (htan : 0 < m.tan (prim.Params.E.Pinhole.Fov * (1 / 2)))
    (hasp : 0 < prim.Params.E.Pinhole.Aspect)
    (hx0 : 0 ≤ u.x) (hx1 : u.x ≤ 1) (hy0 : 0 ≤ u.y) (hy1 : u.y ≤ 1)
    (hs : 0 < m.sqrt (Vec3.dot (prim.eyeRay m u) (prim.eyeRay m u))) :
    prim.RasterPosition m (prim.SampleDirection m u uComp q geom wi wo0) geom2 rasterPos0
      = (true, u) := by
  rw [SampleDirection_pinhole m prim u uComp q geom wi wo0 hL hE hT,
    RasterPosition_pinhole_eq m prim _ geom2 rasterPos0 hT]
  have hspec : prim.specRasterPos m
      (prim.Params.E.Pinhole.Vx.scale (m.normalize (prim.eyeRay m u)).x
        + prim.Params.E.Pinhole.Vy.scale (m.normalize (prim.eyeRay m u)).y
        + prim.Params.E.Pinhole.Vz.scale (m.normalize (prim.eyeRay m u)).z) = u := by
    unfold Primitive.specRasterPos
    rw [eyeDirection_of_basis prim _ horth]
    simp only [MathFns.normalize]
    generalize m.sqrt (Vec3.dot (prim.eyeRay m u) (prim.eyeRay m u)) = r at hs ⊢
    simp only [Primitive.eyeRay, Vec3.scale]
    have hr : r ≠ 0 := ne_of_gt hs
    have ht : m.tan (prim.Params.E.Pinhole.Fov * (1 / 2)) ≠ 0 := ne_of_gt htan
    have ha : prim.Params.E.Pinhole.Aspect ≠ 0 := ne_of_gt hasp
    generalize m.tan (prim.Params.E.Pinhole.Fov * (1 / 2)) = t at ht ⊢
    generalize prim.Params.E.Pinhole.Aspect = A at ha ⊢
    have hk : (1 / r : K) ≠ 0 := one_div_ne_zero hr
    have ex : A * t * (2 * u.x - 1) * (1 / r) / (-1 * (1 / r) * t * A) = -(2 * u.x - 1) := by
      rw [div_eq_iff (mul_ne_zero (mul_ne_zero (mul_ne_zero (by norm_num) hk) ht) ha)]
      ring
    have ey : t * (2 * u.y - 1) * (1 / r) / (-1 * (1 / r) * t) = -(2 * u.y - 1) := by
      rw [div_eq_iff (mul_ne_zero (mul_ne_zero (by norm_num) hk) ht)]
      ring
    ext
    · show 1 / 2 * (1 - A * t * (2 * u.x - 1) * (1 / r) / (-1 * (1 / r) * t * A)) = u.x
      rw [ex]
      ring
    · show 1 / 2 * (1 - t * (2 * u.y - 1) * (1 / r) / (-1 * (1 / r) * t)) = u.y
      rw [ey]
      ring
  have hz : ¬ (prim.eyeDirection
      (prim.Params.E.Pinhole.Vx.scale (m.normalize (prim.eyeRay m u)).x
        + prim.Params.E.Pinhole.Vy.scale (m.normalize (prim.eyeRay m u)).y
        + prim.Params.E.Pinhole.Vz.scale (m.normalize (prim.eyeRay m u)).z)).z ≥ 0 := by
    rw [eyeDirection_of_basis prim _ horth]
    simp only [MathFns.normalize]
    generalize m.sqrt (Vec3.dot (prim.eyeRay m u) (prim.eyeRay m u)) = r at hs ⊢
    have hk : 0 < 1 / r := one_div_pos.mpr hs
    simp only [Primitive.eyeRay, Vec3.scale]
    linarith
  rw [if_neg hz, hspec]
  have ho : ¬ (u.x < 0 ∨ u.x > 1 ∨ u.y < 0 ∨ u.y > 1) := by
    intro h
    rcases h with h | h | h | h <;> linarith
  rw [if_neg ho]

end PinholeRoundTripTheorems

/-- C30, witness: the pinhole at the origin with `tan(Fov/2) = 1` and aspect `1` sends
`u = (5/8, 1/2)` along the eye-space vector `(1/4, 0, -1)` and projects that direction back to
`(5/8, 1/2)`. -/
theorem pinhole_round_trip_witness :
    (¬ (PrimitiveType.E &&& PrimitiveType.L) > 0 ∧ (PrimitiveType.E &&& PrimitiveType.E) > 0
      ∧ exPinhole.Params.E.Type_ = EType.Pinhole ∧ exPinhole.Params.E.Pinhole.Orthonormal
      ∧ 0 < exMath.tan (exPinhole.Params.E.Pinhole.Fov * (1 / 2))
      ∧ 0 < exPinhole.Params.E.Pinhole.Aspect
      ∧ ((0 : ℚ) ≤ 5 / 8 ∧ (5 / 8 : ℚ) ≤ 1 ∧ (0 : ℚ) ≤ 1 / 2 ∧ (1 / 2 : ℚ) ≤ 1)
      ∧ 0 < exMath.sqrt (Vec3.dot (exPinhole.eyeRay exMath ⟨5 / 8, 1 / 2⟩)
          (exPinhole.eyeRay exMath ⟨5 / 8, 1 / 2⟩)))
    ∧ exPinhole.eyeRay exMath ⟨5 / 8, 1 / 2⟩ = ⟨1 / 4, 0, -1⟩
    ∧ exPinhole.RasterPosition exMath
        (exPinhole.SampleDirection exMath ⟨5 / 8, 1 / 2⟩ 0 PrimitiveType.E exGeom 0 0) exGeom 0
      = (true, ⟨5 / 8, 1 / 2⟩) := by
  have a1 : ¬ (PrimitiveType.E &&& PrimitiveType.L) > 0 := by decide
  have a2 : (PrimitiveType.E &&& PrimitiveType.E) > 0 := by decide
  have a3 : exPinhole.Params.E.Type_ = EType.Pinhole := rfl
  have a4 : exPinhole.Params.E.Pinhole.Orthonormal := by
    unfold EPinholeParams.Orthonormal
    decide!
  have a5 : 0 < exMath.tan (exPinhole.Params.E.Pinhole.Fov * (1 / 2)) := by decide!
  have a6 : 0 < exPinhole.Params.E.Pinhole.Aspect := by decide!
  have a7 : (0 : ℚ) ≤ 5 / 8 ∧ (5 / 8 : ℚ) ≤ 1 ∧ (0 : ℚ) ≤ 1 / 2 ∧ (1 / 2 : ℚ) ≤ 1 := by decide!
  have a8 : 0 < exMath.sqrt (Vec3.dot (exPinhole.eyeRay exMath ⟨5 / 8, 1 / 2⟩)
      (exPinhole.eyeRay exMath ⟨5 / 8, 1 / 2⟩)) := by decide!
  exact ⟨⟨a1, a2, a3, a4, a5, a6, a7, a8⟩, by decide!,
    pinhole_round_trip exMath exPinhole ⟨5 / 8, 1 / 2⟩ 0 PrimitiveType.E exGeom exGeom 0 0 0
      a1 a2 a3 a4 a5 a6 a7.1 a7.2.1 a7.2.2.1 a7.2.2.2 a8⟩

section PositivityTheorems

variable {K : Type} [LinearOrderedField K] [FloorRing K]

/-- The query dispatch of `EvaluateDirection`, in the order of `EvaluateDirectionPDF`. -/
theorem EvaluateDirection_dispatch (m : MathFns K) (prim : Primitive K)
    (geom : SurfaceGeometry K) (q : Nat) (wi wo : Vec3 K) (td : TransportDirection) (fd : Bool) :
    prim.EvaluateDirection m geom q wi wo td fd =
      if (q &&& PrimitiveType.L) > 0 then prim.EvaluateDirectionL geom wo fd
      else if (q &&& PrimitiveType.E) > 0 then prim.EvaluateDirectionE m geom wo
      else if (q &&& PrimitiveType.D) > 0 then prim.EvaluateDirectionD m geom wi wo td
      else if (q &&& PrimitiveType.G) > 0 then prim.EvaluateDirectionG m geom wi wo td
      else if (q &&& PrimitiveType.S) > 0 then prim.EvaluateDirectionS m geom wi wo td fd
      else 0 := by
  unfold Primitive.EvaluateDirection
  by_cases hL : (q &&& PrimitiveType.L) > 0
  · have hEm : (q &&& PrimitiveType.Emitter) > 0 :=
      land_pos_of_land_pos q PrimitiveType.L PrimitiveType.Emitter (by decide) hL
    rw [if_pos ⟨hEm, hL⟩, if_pos hL]
  · rw [if_neg (fun h => hL h.2), if_neg hL]
    by_cases hE : (q &&& PrimitiveType.E) > 0
    · have hEm : (q &&& PrimitiveType.Emitter) > 0 :=
        land_pos_of_land_pos q PrimitiveType.E PrimitiveType.Emitter (by decide) hE
      rw [if_pos ⟨hEm, hE⟩, if_pos hE]
    · rw [if_neg (fun h => hE h.2), if_neg hE]
      by_cases hD : (q &&& PrimitiveType.D) > 0
      · have hB : (q &&& PrimitiveType.BSDF) > 0 :=
          land_pos_of_land_pos q PrimitiveType.D PrimitiveType.BSDF (by decide) hD
        rw [if_pos hB]
      · by_cases hG : (q &&& PrimitiveType.G) > 0
        · have hB : (q &&& PrimitiveType.BSDF) > 0 :=
            land_pos_of_land_pos q PrimitiveType.G PrimitiveType.BSDF (by decide) hG
          rw [if_pos hB]
        · by_cases hS : (q &&& PrimitiveType.S) > 0
          · have hB : (q &&& PrimitiveType.BSDF) > 0 :=
              land_pos_of_land_pos q PrimitiveType.S PrimitiveType.BSDF (by decide) hS
            rw [if_pos hB]
          · rw [if_neg hD, if_neg hG, if_neg hS]
            split_ifs <;> rfl

omit [FloorRing K] in
theorem InvPi_pos (m : MathFns K) (hPi : 0 < m.Pi) : 0 < m.InvPi := one_div_pos.mpr hPi

omit [FloorRing K] in
theorem Vec3.scale_ne_zero_left (v : Vec3 K) (c : K) (h : v.scale c ≠ 0) : c ≠ 0 := by
  intro hc
  exact h (by rw [hc]; exact Vec3.scale_zero_right v)

omit [FloorRing K] in
theorem emitterL_positive (m : MathFns K) (prim : Primitive K) (geom : SurfaceGeometry K)
    (wo : Vec3 K) (fd : Bool) (hPi : 0 < m.Pi)
    (h : prim.EvaluateDirectionL geom wo fd ≠ 0) :
    0 < (match prim.Params.L.Type_ with
      | LType.Area =>
        if LocalCos (geom.ToLocal.mulVec wo) ≤ 0 then 0
        else CosineSampleHemispherePDFProjSA m (geom.ToLocal.mulVec wo)
      | LType.Point => UniformSampleSpherePDFSA m wo
      | LType.Directional => if fd then 1 else 0) := by
  unfold Primitive.EvaluateDirectionL at h
  have hI := InvPi_pos m hPi
  cases hT : prim.Params.L.Type_
  · rw [hT] at h
    simp only at h ⊢
    by_cases hc : LocalCos (geom.ToLocal.mulVec wo) ≤ 0
    · rw [if_pos hc] at h
      exact absurd rfl h
    · rw [if_neg hc]
      exact hI
  · simp only [UniformSampleSpherePDFSA]
    linarith
  · rw [hT] at h
    simp only at h ⊢
    cases fd
    · exact absurd rfl h
    · simp

omit [FloorRing K] in
theorem pinholeImportance_pos (m : MathFns K) (prim : Primitive K) (wo : Vec3 K)
    (geom : SurfaceGeometry K) (rasterPos0 : Vec2 K)
    (hT : prim.Params.E.Type_ = EType.Pinhole) (hasp : 0 ≤ prim.Params.E.Pinhole.Aspect)
    (hr : (prim.RasterPosition m wo geom rasterPos0).1 = true)
    (hne : prim.pinholeImportance m wo ≠ 0) : 0 < prim.pinholeImportance m wo := by
  have hz : (prim.eyeDirection wo).z < 0 := by
    by_contra hc
    rw [RasterPosition_pinhole_eq m prim wo geom rasterPos0 hT, if_pos (not_lt.mp hc)] at hr
    exact absurd hr (by simp)
  unfold Primitive.pinholeImportance at hne ⊢
  simp only [LocalCos] at hne ⊢
  rw [show (Mat3.transpose ⟨prim.Params.E.Pinhole.Vx, prim.Params.E.Pinhole.Vy,
    prim.Params.E.Pinhole.Vz⟩).mulVec wo = prim.eyeDirection wo from rfl] at hne ⊢
  have hic : 0 < 1 / -(prim.eyeDirection wo).z := one_div_pos.mpr (by linarith)
  have hA0 : 0 ≤ m.tan (prim.Params.E.Pinhole.Fov * (1 / 2))
      * m.tan (prim.Params.E.Pinhole.Fov * (1 / 2)) * prim.Params.E.Pinhole.Aspect * 4 :=
    mul_nonneg (mul_nonneg (mul_self_nonneg _) hasp) (by norm_num)
  have hA : m.tan (prim.Params.E.Pinhole.Fov * (1 / 2))
      * m.tan (prim.Params.E.Pinhole.Fov * (1 / 2)) * prim.Params.E.Pinhole.Aspect * 4 ≠ 0 := by
    intro h0
    rw [h0, div_zero] at hne
    exact hne rfl
  exact div_pos (mul_pos (mul_pos hic hic) hic) (lt_of_le_of_ne hA0 (Ne.symm hA))

omit [FloorRing K] in
theorem emitterE_positive (m : MathFns K) (prim : Primitive K) (geom : SurfaceGeometry K)
    (wo : Vec3 K) (hPi : 0 < m.Pi) (hasp : 0 ≤ prim.Params.E.Pinhole.Aspect)
    (h : prim.EvaluateDirectionE m geom wo ≠ 0) :
    0 < (match prim.Params.E.Type_ with
      | EType.Area =>
        if LocalCos (geom.ToLocal.mulVec wo) ≤ 0 then 0
        else CosineSampleHemispherePDFProjSA m (geom.ToLocal.mulVec wo)
      | EType.Pinhole =>
        if !(prim.RasterPosition m wo geom 0).1 then 0
        else prim.pinholeImportance m wo) := by
  unfold Primitive.EvaluateDirectionE at h
  have hI := InvPi_pos m hPi
  cases hT : prim.Params.E.Type_
  · rw [hT] at h
    simp only at h ⊢
    by_cases hc : LocalCos (geom.ToLocal.mulVec wo) ≤ 0
    · rw [if_pos hc] at h
      exact absurd rfl h
    · rw [if_neg hc]
      exact hI
  · rw [hT] at h
    simp only at h ⊢
    cases hr : (prim.RasterPosition m wo geom 0).1
    · rw [hr] at h
      exact absurd rfl h
    · rw [hr] at h
      simp only [Bool.not_true, Bool.false_eq_true, if_false] at h ⊢
      have hne : prim.pinholeImportance m wo ≠ 0 := by
        intro h0
        apply h
        rw [h0]
        rfl
      exact pinholeImportance_pos m prim wo geom 0 hT hasp hr hne

end PositivityTheorems
section PositivityTheorems2

variable {K : Type} [LinearOrderedField K] [FloorRing K]

theorem diffuse_positive (m : MathFns K) (prim : Primitive K) (geom : SurfaceGeometry K)
    (wi wo : Vec3 K) (td : TransportDirection) (hPi : 0 < m.Pi)
    (h : prim.EvaluateDirectionD m geom wi wo td ≠ 0) :
    0 < (if LocalCos (geom.ToLocal.mulVec wi) ≤ 0 ∨ LocalCos (geom.ToLocal.mulVec wo) ≤ 0 then 0
      else CosineSampleHemispherePDFProjSA m (geom.ToLocal.mulVec wo)) := by
  unfold Primitive.EvaluateDirectionD at h
  by_cases hc : LocalCos (geom.ToLocal.mulVec wi) ≤ 0 ∨ LocalCos (geom.ToLocal.mulVec wo) ≤ 0
  · simp only [if_pos hc] at h
    exact absurd rfl h
  · rw [if_neg hc]
    exact InvPi_pos m hPi

omit [FloorRing K] in
theorem sq_ratio_le_one (a b : K) (ha : 0 ≤ a) (hb : 0 ≤ b) :
    (a - b) / (a + b) * ((a - b) / (a + b)) ≤ 1 := by
  by_cases h0 : a + b = 0
  · rw [h0, div_zero, mul_zero]
    exact zero_le_one
  · have hpos : 0 < a + b := lt_of_le_of_ne (add_nonneg ha hb) (Ne.symm h0)
    have h1 : (a - b) / (a + b) ≤ 1 := by
      rw [div_le_one hpos]
      linarith
    have h2 : -1 ≤ (a - b) / (a + b) := by
      rw [le_div_iff₀ hpos]
      linarith
    nlinarith

omit [FloorRing K] in
theorem EvaluateFresnelTerm_range (m : MathFns K) (lw : Vec3 K) (etaI etaT : K)
    (hI : 0 ≤ etaI) (hT : 0 ≤ etaT) (hsqrt : ∀ x : K, 0 < x → 0 < m.sqrt x) :
    0 ≤ Primitive.EvaluateFresnelTerm m lw etaI etaT
    ∧ Primitive.EvaluateFresnelTerm m lw etaI etaT ≤ 1 := by
  unfold Primitive.EvaluateFresnelTerm
  simp only
  by_cases hc : 1 - etaI / etaT * (etaI / etaT) * (1 - LocalCos lw * LocalCos lw) ≤ 0
  · rw [if_pos hc]
    exact ⟨zero_le_one, le_refl _⟩
  · rw [if_neg hc]
    have hs : 0 ≤ m.sqrt (1 - etaI / etaT * (etaI / etaT) * (1 - LocalCos lw * LocalCos lw)) :=
      (hsqrt _ (not_le.mp hc)).le
    have h1 := sq_ratio_le_one (etaI * |LocalCos lw|)
      (etaT * m.sqrt (1 - etaI / etaT * (etaI / etaT) * (1 - LocalCos lw * LocalCos lw)))
      (mul_nonneg hI (abs_nonneg _)) (mul_nonneg hT hs)
    have h2 := sq_ratio_le_one
      (etaI * m.sqrt (1 - etaI / etaT * (etaI / etaT) * (1 - LocalCos lw * LocalCos lw)))
      (etaT * |LocalCos lw|) (mul_nonneg hI hs) (mul_nonneg hT (abs_nonneg _))
    constructor
    · exact mul_nonneg (add_nonneg (mul_self_nonneg _) (mul_self_nonneg _)) (by norm_num)
    · linarith

omit [FloorRing K] in
theorem specular_positive (m : MathFns K) (prim : Primitive K) (geom : SurfaceGeometry K)
    (wi wo : Vec3 K) (td : TransportDirection) (fd : Bool)
    (h1 : 0 < prim.Params.S.Fresnel.Eta1) (h2 : 0 < prim.Params.S.Fresnel.Eta2)
    (hsqrt : ∀ x : K, 0 < x → 0 < m.sqrt x)
    (h : prim.EvaluateDirectionS m geom wi wo td fd ≠ 0) :
    0 < (if !fd then 0
      else
        match prim.Params.S.Type_ with
        | SType.Reflection =>
          if LocalCos (geom.ToLocal.mulVec wi) ≤ 0 ∨ LocalCos (geom.ToLocal.mulVec wo) ≤ 0 then 0
          else 1
        | SType.Refraction => 1
        | SType.Fresnel =>
          if LocalCos (geom.ToLocal.mulVec wi) * LocalCos (geom.ToLocal.mulVec wo) ≥ 0 then
            Primitive.EvaluateFresnelTerm m (geom.ToLocal.mulVec wi)
              (if LocalCos (geom.ToLocal.mulVec wi) < 0 then prim.Params.S.Fresnel.Eta2
                else prim.Params.S.Fresnel.Eta1)
              (if LocalCos (geom.ToLocal.mulVec wi) < 0 then prim.Params.S.Fresnel.Eta1
                else prim.Params.S.Fresnel.Eta2)
          else
            1 - Primitive.EvaluateFresnelTerm m (geom.ToLocal.mulVec wi)
              (if LocalCos (geom.ToLocal.mulVec wi) < 0 then prim.Params.S.Fresnel.Eta2
                else prim.Params.S.Fresnel.Eta1)
              (if LocalCos (geom.ToLocal.mulVec wi) < 0 then prim.Params.S.Fresnel.Eta1
                else prim.Params.S.Fresnel.Eta2)) := by
  unfold Primitive.EvaluateDirectionS at h
  cases fd
  · exact absurd rfl h
  · simp only [Bool.not_true, Bool.false_eq_true, if_false] at h ⊢
    cases hT : prim.Params.S.Type_
    · rw [hT] at h
      simp only at h ⊢
      by_cases hc : LocalCos (geom.ToLocal.mulVec wi) ≤ 0 ∨ LocalCos (geom.ToLocal.mulVec wo) ≤ 0
      · rw [if_pos hc] at h
        exact absurd rfl h
      · rw [if_neg hc]
        exact zero_lt_one
    · exact zero_lt_one
    · rw [hT] at h
      simp only at h ⊢
      have hI : 0 ≤ (if LocalCos (geom.ToLocal.mulVec wi) < 0 then prim.Params.S.Fresnel.Eta2
          else prim.Params.S.Fresnel.Eta1) := by
        split_ifs <;> linarith
      have hTt : 0 ≤ (if LocalCos (geom.ToLocal.mulVec wi) < 0 then prim.Params.S.Fresnel.Eta1
          else prim.Params.S.Fresnel.Eta2) := by
        split_ifs <;> linarith
      obtain ⟨hF0, hF1⟩ := EvaluateFresnelTerm_range m (geom.ToLocal.mulVec wi) _ _ hI hTt hsqrt
      by_cases hside : LocalCos (geom.ToLocal.mulVec wi) * LocalCos (geom.ToLocal.mulVec wo) ≥ 0
      · rw [if_pos hside] at h ⊢
        rw [Vec3.scale_scale] at h
        have hp := Vec3.scale_ne_zero_left _ _ h
        have hne := left_ne_zero_of_mul hp
        exact lt_of_le_of_ne hF0 (Ne.symm hne)
      · rw [if_neg hside] at h ⊢
        rw [Vec3.scale_scale, Vec3.scale_scale, Vec3.scale_scale] at h
        have hp := Vec3.scale_ne_zero_left _ _ h
        have hne : 1 - Primitive.EvaluateFresnelTerm m (geom.ToLocal.mulVec wi)
            (if LocalCos (geom.ToLocal.mulVec wi) < 0 then prim.Params.S.Fresnel.Eta2
              else prim.Params.S.Fresnel.Eta1)
            (if LocalCos (geom.ToLocal.mulVec wi) < 0 then prim.Params.S.Fresnel.Eta1
              else prim.Params.S.Fresnel.Eta2) ≠ 0 := by
          intro h0
          apply hp
          rw [h0]
          simp
        have : Primitive.EvaluateFresnelTerm m (geom.ToLocal.mulVec wi)
            (if LocalCos (geom.ToLocal.mulVec wi) < 0 then prim.Params.S.Fresnel.Eta2
              else prim.Params.S.Fresnel.Eta1)
            (if LocalCos (geom.ToLocal.mulVec wi) < 0 then prim.Params.S.Fresnel.Eta1
              else prim.Params.S.Fresnel.Eta2) ≠ 1 := by
          intro h1
          apply hne
          rw [h1]
          ring
        have hlt := lt_of_le_of_ne hF1 this
        linarith

end PositivityTheorems2
section PositivityTheorems3

variable {K : Type} [LinearOrderedField K] [FloorRing K]

omit [FloorRing K] in
theorem Vec3.zero_mul_vec (v : Vec3 K) : (0 : Vec3 K) * v = 0 := by
  show (⟨(0 : K) * v.x, 0 * v.y, 0 * v.z⟩ : Vec3 K) = ⟨0, 0, 0⟩
  simp

omit [FloorRing K] in
theorem Vec3.zero_divScalar (c : K) : (0 : Vec3 K).divScalar c = 0 := by
  show (⟨(0 : K) / c, 0 / c, 0 / c⟩ : Vec3 K) = ⟨0, 0, 0⟩
  simp

omit [FloorRing K] in
theorem EvaluateBechmannDist_pos (m : MathFns K) (prim : Primitive K) (H : Vec3 K)
    (hPi : 0 < m.Pi) (hexp : ∀ x : K, 0 < m.exp x)
    (h : prim.EvaluateBechmannDist m H ≠ 0) : 0 < prim.EvaluateBechmannDist m H := by
  unfold Primitive.EvaluateBechmannDist at h ⊢
  by_cases hc : LocalCos H ≤ 0
  · rw [if_pos hc] at h
    exact absurd rfl h
  · rw [if_neg hc] at h ⊢
    simp only at h ⊢
    have ht2 : 0 ≤ m.Pi * prim.Params.G.Roughness * prim.Params.G.Roughness * LocalCos H ^ 4 := by
      have e : m.Pi * prim.Params.G.Roughness * prim.Params.G.Roughness * LocalCos H ^ 4
          = m.Pi * (prim.Params.G.Roughness * prim.Params.G.Roughness)
            * (LocalCos H ^ 2 * LocalCos H ^ 2) := by ring
      rw [e]
      exact mul_nonneg (mul_nonneg hPi.le (mul_self_nonneg _)) (mul_self_nonneg _)
    have hne : m.Pi * prim.Params.G.Roughness * prim.Params.G.Roughness * LocalCos H ^ 4 ≠ 0 := by
      intro h0
      rw [h0, div_zero] at h
      exact h rfl
    exact div_pos (hexp _) (lt_of_le_of_ne ht2 (Ne.symm hne))

omit [FloorRing K] in
theorem half_vector_pos (m : MathFns K) (a b : Vec3 K) (ha : Vec3.dot a a = 1)
    (hb : Vec3.dot b b = 1) (haz : 0 < LocalCos a) (hbz : 0 < LocalCos b)
    (hsqrt : ∀ x : K, 0 < x → 0 < m.sqrt x) :
    0 < LocalCos (m.normalize (a + b)) ∧ 0 < Vec3.dot b (m.normalize (a + b)) := by
  simp only [LocalCos] at haz hbz
  have hn : 0 < Vec3.dot (a + b) (a + b) := by
    simp only [Vec3.dot, Vec3.add_x, Vec3.add_y, Vec3.add_z]
    have hz : 0 < (a.z + b.z) * (a.z + b.z) := mul_pos (by linarith) (by linarith)
    nlinarith [mul_self_nonneg (a.x + b.x), mul_self_nonneg (a.y + b.y)]
  have hs := hsqrt _ hn
  have hk : 0 < 1 / m.sqrt (Vec3.dot (a + b) (a + b)) := one_div_pos.mpr hs
  have hab : 0 < Vec3.dot b (a + b) := by
    have e : Vec3.dot (a + b) (a + b) = 2 * Vec3.dot b (a + b) := by
      simp only [Vec3.dot, Vec3.add_x, Vec3.add_y, Vec3.add_z] at ha hb ⊢
      linear_combination ha - hb
    linarith
  constructor
  · simp only [LocalCos, MathFns.normalize, Vec3.scale, Vec3.add_z]
    exact mul_pos (by linarith) hk
  · have e : Vec3.dot b (m.normalize (a + b))
        = Vec3.dot b (a + b) * (1 / m.sqrt (Vec3.dot (a + b) (a + b))) := by
      simp only [MathFns.normalize, Vec3.scale, Vec3.dot]
      ring
    rw [e]
    exact mul_pos hab hk

theorem glossy_positive (m : MathFns K) (prim : Primitive K) (geom : SurfaceGeometry K)
    (wi wo : Vec3 K) (td : TransportDirection) (hPi : 0 < m.Pi) (hexp : ∀ x : K, 0 < m.exp x)
    (hsqrt : ∀ x : K, 0 < x → 0 < m.sqrt x)
    (hwi : Vec3.dot (geom.ToLocal.mulVec wi) (geom.ToLocal.mulVec wi) = 1)
    (hwo : Vec3.dot (geom.ToLocal.mulVec wo) (geom.ToLocal.mulVec wo) = 1)
    (h : prim.EvaluateDirectionG m geom wi wo td ≠ 0) :
    0 < (if LocalCos (geom.ToLocal.mulVec wi) ≤ 0 ∨ LocalCos (geom.ToLocal.mulVec wo) ≤ 0 then 0
      else
        prim.EvaluateBechmannDist m (m.normalize (geom.ToLocal.mulVec wi + geom.ToLocal.mulVec wo))
          * LocalCos (m.normalize (geom.ToLocal.mulVec wi + geom.ToLocal.mulVec wo))
          / (4 * Vec3.dot (geom.ToLocal.mulVec wo)
              (m.normalize (geom.ToLocal.mulVec wi + geom.ToLocal.mulVec wo)))
          / LocalCos (geom.ToLocal.mulVec wo)) := by
  unfold Primitive.EvaluateDirectionG at h
  by_cases hc : LocalCos (geom.ToLocal.mulVec wi) ≤ 0 ∨ LocalCos (geom.ToLocal.mulVec wo) ≤ 0
  · simp only [if_pos hc] at h
    exact absurd rfl h
  · simp only [if_neg hc] at h
    rw [if_neg hc]
    push_neg at hc
    obtain ⟨hH, hbH⟩ := half_vector_pos m _ _ hwi hwo hc.1 hc.2 hsqrt
    have hD : prim.EvaluateBechmannDist m
        (m.normalize (geom.ToLocal.mulVec wi + geom.ToLocal.mulVec wo)) ≠ 0 := by
      intro h0
      apply h
      rw [h0, Vec3.scale_zero_right, Vec3.zero_scale, Vec3.zero_mul_vec, Vec3.zero_divScalar,
        Vec3.zero_divScalar, Vec3.zero_scale]
    have hDp := EvaluateBechmannDist_pos m prim _ hPi hexp hD
    exact div_pos (div_pos (mul_pos hDp hH) (mul_pos (by norm_num) hbH)) hc.2

end PositivityTheorems3
section PositivityTheorems4

variable {K : Type} [LinearOrderedField K] [FloorRing K]

/-- C29.  For every primitive and query type, local directions of unit length, positive
indices of refraction and either value of `forceDegenerated`: when `EvaluateDirection` is not
zero, `EvaluateDirectionPDF` with the same arguments is strictly positive; so `p ≠ 0` or
`f = 0`, as `LocalContrb` asserts before it divides.  The runtime is assumed to have `Pi > 0`,
a positive `exp` and a `sqrt` that is positive on positive numbers, and the aspect ratio of a
pinhole is assumed not negative. -/
theorem EvaluateDirection_ne_zero_PDF_pos (m : MathFns K) (prim : Primitive K)
    (geom : SurfaceGeometry K) (q : Nat) (wi wo : Vec3 K) (td : TransportDirection) (fd : Bool)
    (hPi : 0 < m.Pi) (hexp : ∀ x : K, 0 < m.exp x) (hsqrt : ∀ x : K, 0 < x → 0 < m.sqrt x)
    (hwi : Vec3.dot (geom.ToLocal.mulVec wi) (geom.ToLocal.mulVec wi) = 1)
    (hwo : Vec3.dot (geom.ToLocal.mulVec wo) (geom.ToLocal.mulVec wo) = 1)
    (hasp : 0 ≤ prim.Params.E.Pinhole.Aspect)
    (h1 : 0 < prim.Params.S.Fresnel.Eta1) (h2 : 0 < prim.Params.S.Fresnel.Eta2) :
    (prim.EvaluateDirection m geom q wi wo td fd ≠ 0 →
      0 < prim.EvaluateDirectionPDF m geom q wi wo fd)
    ∧ (prim.EvaluateDirectionPDF m geom q wi wo fd ≠ 0
        ∨ prim.EvaluateDirection m geom q wi wo td fd = 0) := by
  have key : prim.EvaluateDirection m geom q wi wo td fd ≠ 0 →
      0 < prim.EvaluateDirectionPDF m geom q wi wo fd := by
    intro h
    rw [EvaluateDirection_dispatch] at h
    unfold Primitive.EvaluateDirectionPDF
    by_cases hL : (q &&& PrimitiveType.L) > 0
    · rw [if_pos hL] at h ⊢
      exact emitterL_positive m prim geom wo fd hPi h
    · rw [if_neg hL] at h ⊢
      by_cases hE : (q &&& PrimitiveType.E) > 0
      · rw [if_pos hE] at h ⊢
        exact emitterE_positive m prim geom wo hPi hasp h
      · rw [if_neg hE] at h ⊢
        by_cases hD : (q &&& PrimitiveType.D) > 0
        · rw [if_pos hD] at h ⊢
          exact diffuse_positive m prim geom wi wo td hPi h
        · rw [if_neg hD] at h ⊢
          by_cases hG : (q &&& PrimitiveType.G) > 0
          · rw [if_pos hG] at h ⊢
            exact glossy_positive m prim geom wi wo td hPi hexp hsqrt hwi hwo h
          · rw [if_neg hG] at h ⊢
            by_cases hS : (q &&& PrimitiveType.S) > 0
            · rw [if_pos hS] at h ⊢
              exact specular_positive m prim geom wi wo td fd h1 h2 hsqrt h
            · rw [if_neg hS] at h
              exact absurd rfl h
  refine ⟨key, ?_⟩
  by_cases hf : prim.EvaluateDirection m geom q wi wo td fd = 0
  · exact Or.inr hf
  · exact Or.inl (ne_of_gt (key hf))

end PositivityTheorems4

/-- C29, witness: the Fresnel interface with indices `1` and `4/3`, lit and seen along its
normal with `forceDegenerated` set: the value is `1/49` and the density is `1/49`. -/
theorem EvaluateDirection_ne_zero_PDF_pos_witness :
    (0 < exMathPos.Pi ∧ (∀ x : ℚ, 0 < exMathPos.exp x) ∧ (∀ x : ℚ, 0 < x → 0 < exMathPos.sqrt x)
      ∧ Vec3.dot (exGeom.ToLocal.mulVec ⟨0, 0, 1⟩) (exGeom.ToLocal.mulVec ⟨0, 0, 1⟩) = 1
      ∧ 0 ≤ exFresnel.Params.E.Pinhole.Aspect
      ∧ 0 < exFresnel.Params.S.Fresnel.Eta1 ∧ 0 < exFresnel.Params.S.Fresnel.Eta2
      ∧ exFresnel.EvaluateDirection exMathPos exGeom PrimitiveType.S ⟨0, 0, 1⟩ ⟨0, 0, 1⟩
          TransportDirection.EL true ≠ 0)
    ∧ exFresnel.EvaluateDirection exMathPos exGeom PrimitiveType.S ⟨0, 0, 1⟩ ⟨0, 0, 1⟩
        TransportDirection.EL true = ⟨1 / 49, 1 / 49, 1 / 49⟩
    ∧ exFresnel.EvaluateDirectionPDF exMathPos exGeom PrimitiveType.S ⟨0, 0, 1⟩ ⟨0, 0, 1⟩ true
        = 1 / 49
    ∧ 0 < exFresnel.EvaluateDirectionPDF exMathPos exGeom PrimitiveType.S ⟨0, 0, 1⟩ ⟨0, 0, 1⟩
        true := by
  have a1 : 0 < exMathPos.Pi := by decide!
  have a2 : ∀ x : ℚ, 0 < exMathPos.exp x := fun _ => zero_lt_one
  have a3 : ∀ x : ℚ, 0 < x → 0 < exMathPos.sqrt x := by
    intro x hx
    show 0 < (if x = 16 / 25 then (4 / 5 : ℚ) else if x = 4 then 2 else x)
    split_ifs
    · norm_num
    · norm_num
    · exact hx
  have a4 : Vec3.dot (exGeom.ToLocal.mulVec ⟨0, 0, 1⟩) (exGeom.ToLocal.mulVec ⟨0, 0, 1⟩) = 1 := by
    decide!
  have a5 : 0 ≤ exFresnel.Params.E.Pinhole.Aspect := by decide!
  have a6 : 0 < exFresnel.Params.S.Fresnel.Eta1 := by decide!
  have a7 : 0 < exFresnel.Params.S.Fresnel.Eta2 := by decide!
  have a8 : exFresnel.EvaluateDirection exMathPos exGeom PrimitiveType.S ⟨0, 0, 1⟩ ⟨0, 0, 1⟩
      TransportDirection.EL true ≠ 0 := by decide!
  exact ⟨⟨a1, a2, a3, a4, a5, a6, a7, a8⟩, by decide!, by decide!,
    (EvaluateDirection_ne_zero_PDF_pos exMathPos exFresnel exGeom PrimitiveType.S ⟨0, 0, 1⟩
      ⟨0, 0, 1⟩ TransportDirection.EL true a1 a2 a3 a4 a4 a5 a6 a7).1 a8⟩

section BlockSolverTheorems

/-- Claim C26, evaluated on the constraint Jacobian of the chain `exChain` with a right-hand
side that is zero except in its last block, as `WalkManifold` builds it: the two pivots of the
LU decomposition are invertible, the blocks are those of the flat chain, and
`SolveBlockLinearEq` returns `W = [(0, 0), (-24/19, -24/19)]`, whose block row `0` evaluates
to `(-12/19, 12/19)` and not to `V_0 = (0, 0)`, and whose block row `1` evaluates to
`(27/19, 27/19)` and not to `V_1 = (1, 1)`; the system has the solution
`[(-16/19, 16/19), (-24/19, -24/19)]`. The back substitution subtracts the componentwise
product `V_i * W_{i+1}` where the elimination calls for `C_i W_{i+1}`. -/
theorem SolveBlockLinearEq_residual :
    (ComputeConstraintJacobian exMath exChain
        = [⟨⟨⟨1 / 4, 0⟩, ⟨0, -1 / 4⟩⟩, ⟨⟨-3 / 4, 0⟩, ⟨0, -3 / 4⟩⟩, ⟨⟨1 / 2, 0⟩, ⟨0, -1 / 2⟩⟩⟩,
           ⟨⟨⟨1 / 2, 0⟩, ⟨0, -1 / 2⟩⟩, ⟨⟨-9 / 8, 0⟩, ⟨0, -9 / 8⟩⟩, ⟨⟨5 / 8, 0⟩, ⟨0, -5 / 8⟩⟩⟩])
      ∧ (∀ U ∈ (SolveBlockLinearEq.LU (ComputeConstraintJacobian exMath exChain)).2,
          U.determinant ≠ 0)
      ∧ SolveBlockLinearEq (ComputeConstraintJacobian exMath exChain) [0, ⟨1, 1⟩]
          = [0, ⟨-24 / 19, -24 / 19⟩]
      ∧ blockRow (ComputeConstraintJacobian exMath exChain)
          (SolveBlockLinearEq (ComputeConstraintJacobian exMath exChain) [0, ⟨1, 1⟩]) 0
          = ⟨-12 / 19, 12 / 19⟩
      ∧ blockRow (ComputeConstraintJacobian exMath exChain)
          (SolveBlockLinearEq (ComputeConstraintJacobian exMath exChain) [0, ⟨1, 1⟩]) 1
          = ⟨27 / 19, 27 / 19⟩
      ∧ (∀ i < 2, blockRow (ComputeConstraintJacobian exMath exChain)
          [⟨-16 / 19, 16 / 19⟩, ⟨-24 / 19, -24 / 19⟩] i
          = ([0, ⟨1, 1⟩] : List (Vec2 ℚ)).getD i 0) := by
  have h : ComputeConstraintJacobian exMath exChain
        = [⟨⟨⟨1 / 4, 0⟩, ⟨0, -1 / 4⟩⟩, ⟨⟨-3 / 4, 0⟩, ⟨0, -3 / 4⟩⟩, ⟨⟨1 / 2, 0⟩, ⟨0, -1 / 2⟩⟩⟩,
           ⟨⟨⟨1 / 2, 0⟩, ⟨0, -1 / 2⟩⟩, ⟨⟨-9 / 8, 0⟩, ⟨0, -9 / 8⟩⟩, ⟨⟨5 / 8, 0⟩, ⟨0, -5 / 8⟩⟩⟩] := by
    decide!
  rw [h]
  refine ⟨rfl, ?_, ?_, ?_, ?_, ?_⟩ <;> decide!

end BlockSolverTheorems

section JacobianTheorems

variable {K : Type} [LinearOrderedField K]

theorem Vec3.dot_self_nonneg (v : Vec3 K) : 0 ≤ Vec3.dot v v := by
  have h : Vec3.dot v v = v.x * v.x + v.y * v.y + v.z * v.z := rfl
  rw [h]
  nlinarith [mul_self_nonneg v.x, mul_self_nonneg v.y, mul_self_nonneg v.z]

theorem GeometryTerm_nonneg (m : MathFns K) (geom1 geom2 : SurfaceGeometry K) :
    0 ≤ GeometryTerm m geom1 geom2 := by
  unfold GeometryTerm
  simp only []
  apply div_nonneg _ (Vec3.dot_self_nonneg _)
  split_ifs
  · exact mul_nonneg (mul_nonneg zero_le_one (abs_nonneg _)) (abs_nonneg _)
  · exact mul_nonneg zero_le_one (abs_nonneg _)
  · exact mul_nonneg zero_le_one (abs_nonneg _)
  · exact zero_le_one

/-- Claim C27, as the code has it: the Jacobian factor of an MNEE contribution is the
determinant returned by `ComputeConstraintJacobianDeterminant`, with its sign, times the
opening geometry term between the first two vertices of the optimised path; the geometry term
is non-negative, so the factor is negative exactly when the determinant is negative and the
geometry term is positive, and no absolute value is taken. -/
theorem mneeJacobian_signed (m : MathFns K) (eig : EigenFns K) (optPath : Path K) :
    mneeJacobian m eig optPath
        = ComputeConstraintJacobianDeterminant eig (ComputeConstraintJacobian m optPath)
          * GeometryTerm m (optPath.vertexAt 0).geom (optPath.vertexAt 1).geom
      ∧ 0 ≤ GeometryTerm m (optPath.vertexAt 0).geom (optPath.vertexAt 1).geom
      ∧ (mneeJacobian m eig optPath < 0 ↔
          ComputeConstraintJacobianDeterminant eig (ComputeConstraintJacobian m optPath) < 0
            ∧ 0 < GeometryTerm m (optPath.vertexAt 0).geom (optPath.vertexAt 1).geom) := by
  have hG := GeometryTerm_nonneg m (optPath.vertexAt 0).geom (optPath.vertexAt 1).geom
  have hJ : mneeJacobian m eig optPath
      = ComputeConstraintJacobianDeterminant eig (ComputeConstraintJacobian m optPath)
        * GeometryTerm m (optPath.vertexAt 0).geom (optPath.vertexAt 1).geom := by
    unfold mneeJacobian
    simp only [one_mul]
  refine ⟨hJ, hG, ?_⟩
  rw [hJ]
  constructor
  · intro h
    rcases hG.eq_or_lt with h0 | hpos
    · rw [← h0, mul_zero] at h
      exact absurd h (lt_irrefl _)
    · exact ⟨neg_of_mul_neg_left h hpos.le, hpos⟩
  · rintro ⟨hd, hg⟩
    exact mul_neg_of_neg_of_pos hd hg

/-- Claim C27 fails on the chain `exFold`: the constraint matrix is `-3/4` times the identity
and `exEigen` inverts it exactly, the determinant of the chain is `-4/9`, the geometry term is
`1/4`, and the Jacobian factor is `-1/9`, which is negative and not the absolute value
`1/9`. -/
theorem mneeJacobian_counterexample :
    (∀ r < 2, ∀ c < 2,
        assembleConstraintMatrix (ComputeConstraintJacobian exMath exFold) r c
          = if r = c then -3 / 4 else 0)
      ∧ (∀ r < 2, ∀ c < 2,
          exEigen.inverse 2 (assembleConstraintMatrix (ComputeConstraintJacobian exMath exFold))
            r c = if r = c then -4 / 3 else 0)
      ∧ ComputeConstraintJacobianDeterminant exEigen (ComputeConstraintJacobian exMath exFold)
          = -4 / 9
      ∧ GeometryTerm exMath (exFold.vertexAt 0).geom (exFold.vertexAt 1).geom = 1 / 4
      ∧ mneeJacobian exMath exEigen exFold = -1 / 9
      ∧ mneeJacobian exMath exEigen exFold < 0 := by
  refine ⟨?_, ?_, ?_, ?_, ?_, ?_⟩ <;> decide!

end JacobianTheorems

section ManifoldWalkTheorems

variable {K : Type} [LinearOrderedField K]

theorem WalkManifold.step_length (m : MathFns K) (scene : Scene K)
    (nablaC : List (VertexConstraintJacobian K)) (target : Vec3 K) (n : Int)
    (st : WalkState K) :
    (WalkManifold.step m scene nablaC target n st).currPath.vertices.length
      = st.currPath.vertices.length := by
  unfold WalkManifold.step
  simp only []
  split_ifs <;> simp_all

theorem WalkManifold.iterate_length (m : MathFns K) (scene : Scene K)
    (nablaC : List (VertexConstraintJacobian K)) (target : Vec3 K) (n : Int)
    (st : WalkState K) (k : Nat) :
    ((WalkManifold.step m scene nablaC target n)^[k] st).currPath.vertices.length
      = st.currPath.vertices.length := by
  induction k with
  | zero => rfl
  | succ k ih => rw [Function.iterate_succ_apply', WalkManifold.step_length, ih]

theorem WalkManifold.loop_spec (m : MathFns K) (scene : Scene K)
    (nablaC : List (VertexConstraintJacobian K)) (target : Vec3 K) (n : Int) (L : K) (r : Nat) :
    ∀ (fuel : Nat) (st : WalkState K), r ≤ 30 → r < fuel →
      ∃ (conv : Bool) (k : Nat), k ≤ r
        ∧ WalkManifold.loop m scene nablaC target n L fuel (30 - (r : Int)) st
            = some (conv, ((WalkManifold.step m scene nablaC target n)^[k] st).currPath)
        ∧ (conv = true →
            k < r ∧ m.length ((((WalkManifold.step m scene nablaC target n)^[k] st).currPath.vertexAt
              (n - 1)).geom.p - target) < WalkManifold.Eps * L)
        ∧ (conv = false → k = r)
        ∧ ∀ j < k, ¬ m.length ((((WalkManifold.step m scene nablaC target n)^[j] st).currPath.vertexAt
              (n - 1)).geom.p - target) < WalkManifold.Eps * L := by
  induction r with
  | zero =>
    intro fuel st _ hf
    obtain ⟨f, rfl⟩ : ∃ f, fuel = f + 1 := ⟨fuel - 1, by omega⟩
    refine ⟨false, 0, le_refl _, ?_, ?_, ?_, ?_⟩
    · simp [WalkManifold.loop, WalkManifold.MaxIter]
    · intro h
      exact absurd h (by simp)
    · intro _
      rfl
    · intro j hj
      exact absurd hj (Nat.not_lt_zero j)
  | succ r ih =>
    intro fuel st hr hf
    obtain ⟨f, rfl⟩ : ∃ f, fuel = f + 1 := ⟨fuel - 1, by omega⟩
    have hiter : ¬ ((30 : Int) - ((r + 1 : Nat) : Int) ≥ WalkManifold.MaxIter) := by
      unfold WalkManifold.MaxIter
      push_cast
      omega
    by_cases hc : m.length ((st.currPath.vertexAt (n - 1)).geom.p - target)
        < WalkManifold.Eps * L
    · refine ⟨true, 0, Nat.zero_le _, ?_, ?_, ?_, ?_⟩
      · simp only [WalkManifold.loop, if_neg hiter, if_pos hc, Function.iterate_zero, id_eq]
      · intro _
        exact ⟨Nat.succ_pos r, hc⟩
      · intro h
        exact absurd h (by simp)
      · intro j hj
        exact absurd hj (Nat.not_lt_zero j)
    · obtain ⟨conv, k, hk, hloop, htrue, hfalse, hbefore⟩ :=
        ih f (WalkManifold.step m scene nablaC target n st) (by omega) (by omega)
      have hnext : (30 : Int) - ((r + 1 : Nat) : Int) + 1 = 30 - (r : Int) := by
        push_cast
        ring
      refine ⟨conv, k + 1, by omega, ?_, ?_, ?_, ?_⟩
      · simp only [WalkManifold.loop, if_neg hiter, if_neg hc, hnext, Function.iterate_succ_apply]
        exact hloop
      · intro h
        obtain ⟨h1, h2⟩ := htrue h
        exact ⟨by omega, by simpa only [Function.iterate_succ_apply] using h2⟩
      · intro h
        rw [hfalse h]
      · intro j hj
        cases j with
        | zero => simpa only [Function.iterate_zero, id_eq] using hc
        | succ j =>
          simpa only [Function.iterate_succ_apply] using hbefore j (by omega)

theorem WalkManifold.Eps_eq : (WalkManifold.Eps : K) = 1 / 10000 := by
  unfold WalkManifold.Eps
  norm_num

/-- Claim C28, with the threshold the code has: given fuel for 31 entries of the loop,
`WalkManifold` returns; the path it returns is the current path after `k ≤ 30` executions of
the loop body and has as many vertices as the seed path; and it reports convergence exactly
when at one of its first 30 checks, the first one that succeeds, the distance between the
last vertex of the current path and the target is below `10⁻⁴ · L` (the constant `Eps` is
written `10e-5`), where `L` is the largest position norm among the vertices of the seed
path. -/
theorem WalkManifold_terminates (m : MathFns K) (scene : Scene K) (seedPath : Path K)
    (target : Vec3 K) (fuel : Nat) (hfuel : 31 ≤ fuel) :
    ∃ (converged : Bool) (outPath : Path K),
      WalkManifold m scene seedPath target fuel = some (converged, outPath)
        ∧ outPath.vertices.length = seedPath.vertices.length
        ∧ (∃ k ≤ 30, outPath = (WalkManifold.stateAt m scene seedPath target k).currPath)
        ∧ (converged = true ↔
            ∃ k < 30, (∀ j < k, ¬ WalkManifold.closeAt m scene seedPath target (1 / 10000) j)
              ∧ WalkManifold.closeAt m scene seedPath target (1 / 10000) k) := by
  obtain ⟨conv, k, hk, hloop, htrue, hfalse, hbefore⟩ :=
    WalkManifold.loop_spec m scene (ComputeConstraintJacobian m seedPath) target
      seedPath.vertices.length (WalkManifold.maxNorm m seedPath) 30 fuel
      ⟨WalkManifold.MaxBeta, seedPath⟩ (le_refl _) (by omega)
  rw [WalkManifold.Eps_eq] at htrue hbefore
  refine ⟨conv, _, ?_, ?_, ⟨k, hk, rfl⟩, ?_⟩
  · unfold WalkManifold
    simpa using hloop
  · unfold WalkManifold.stateAt
    rw [WalkManifold.iterate_length]
  · constructor
    · intro h
      exact ⟨k, (htrue h).1, hbefore, (htrue h).2⟩
    · rintro ⟨k2, hk2, _, hclose⟩
      by_contra hconv
      have hk30 : k = 30 := hfalse (by simpa using hconv)
      exact hbefore k2 (by omega) hclose

/-- Witness for `WalkManifold_terminates`: on the seed path `exFar` with target `(0, 0, 2)`
and fuel 31. -/
theorem WalkManifold_terminates_witness :
    ∃ (converged : Bool) (outPath : Path ℚ),
      WalkManifold exMathFar exScene exFar ⟨0, 0, 2⟩ 31 = some (converged, outPath)
        ∧ outPath.vertices.length = exFar.vertices.length
        ∧ (∃ k ≤ 30, outPath = (WalkManifold.stateAt exMathFar exScene exFar ⟨0, 0, 2⟩ k).currPath)
        ∧ (converged = true ↔
            ∃ k < 30,
              (∀ j < k, ¬ WalkManifold.closeAt exMathFar exScene exFar ⟨0, 0, 2⟩ (1 / 10000) j)
              ∧ WalkManifold.closeAt exMathFar exScene exFar ⟨0, 0, 2⟩ (1 / 10000) k) :=
  WalkManifold_terminates exMathFar exScene exFar ⟨0, 0, 2⟩ 31 (by decide)

/-- Claim C28 fails on the seed path `exFar` with target `(0, 0, 2)`: the largest position norm
is `L = 20000` and the distance between the last vertex and the target is `1`, which is not
below `10⁻⁵ · L = 1/5` but is below `Eps · L = 2`; `WalkManifold` reports convergence at its
first check and returns the seed path. -/
theorem WalkManifold_counterexample :
    WalkManifold.maxNorm exMathFar exFar = 20000
      ∧ exMathFar.length ((exFar.vertexAt 2).geom.p - ⟨0, 0, 2⟩) = 1
      ∧ ¬ WalkManifold.closeAt exMathFar exScene exFar ⟨0, 0, 2⟩ (1 / 100000) 0
      ∧ WalkManifold exMathFar exScene exFar ⟨0, 0, 2⟩ 31 = some (true, exFar) := by
  refine ⟨by decide!, by decide!, ?_, by decide!⟩
  unfold WalkManifold.closeAt
  decide!

end ManifoldWalkTheorems

section MISWeightChainTheorems

/-- Claim C23, evaluated on the fullpath `exCaustic` (light, glass, sensor): the strategies
`0` and `3` have the densities `7/11` and `7/22`, the strategies `1` and `2` have a zero
connection term and density `0`; for `s = 0` the direct evaluation returns
`1 / (1 + (1/2)²) = 4/5` and the ratio chain returns `1`, because its second loop restarts
after the zero strategies from `EvaluatePDF(scene, i)`, the density of the zero strategy `2`,
where the strategy it is adding is `i + 1 = 3`; for `s = 3`, where only the first loop runs
and restarts from the density of the strategy it is adding, both return `1/5`. -/
theorem EvaluateMISWeight_chain_restart :
    exCaustic.EvaluatePDF exMath exCausticScene 0 = 7 / 11
      ∧ exCaustic.EvaluatePDF exMath exCausticScene 1 = 0
      ∧ exCaustic.EvaluatePDF exMath exCausticScene 2 = 0
      ∧ exCaustic.EvaluatePDF exMath exCausticScene 3 = 7 / 22
      ∧ exCaustic.EvaluatePowerHeuristicsMISWeightOpt exMath exCausticScene 0 = 4 / 5
      ∧ exCaustic.EvaluateMISWeight exMath exCausticScene 0 = 1
      ∧ exCaustic.EvaluatePowerHeuristicsMISWeightOpt exMath exCausticScene 3 = 1 / 5
      ∧ exCaustic.EvaluateMISWeight exMath exCausticScene 3 = 1 / 5 := by
  refine ⟨?_, ?_, ?_, ?_, ?_, ?_, ?_, ?_⟩ <;> decide!

end MISWeightChainTheorems

section RenderLoopTheorems

variable {K : Type}

theorem forUp_const {σ : Type} (lo hi : Int) (body : σ → σ) (acc : σ) :
    forUp lo hi (fun _ s => body s) acc = body^[(hi - lo).toNat] acc := by
  unfold forUp
  generalize (hi - lo).toNat = n
  induction n generalizing acc with
  | zero => rfl
  | succ n ih =>
    rw [List.range_succ, List.foldl_append, ih, Function.iterate_succ_apply']
    rfl

theorem sum_map_agree (l : List Nat) (t : Nat) (ht : t ∉ l) (h h2 : Nat → Int)
    (hne : ∀ u, u ≠ t → h2 u = h u) : (l.map h2).sum = (l.map h).sum := by
  congr 1
  apply List.map_congr_left
  intro u hu
  exact hne u (fun e => ht (e ▸ hu))

theorem sum_map_update (l : List Nat) (hl : l.Nodup) (t : Nat) (ht : t ∈ l) (h h2 : Nat → Int)
    (hne : ∀ u, u ≠ t → h2 u = h u) : (l.map h2).sum = (l.map h).sum - h t + h2 t := by
  induction l with
  | nil => exact absurd ht (List.not_mem_nil t)
  | cons a l ih =>
    rw [List.nodup_cons] at hl
    rw [List.map_cons, List.map_cons, List.sum_cons, List.sum_cons]
    rcases List.mem_cons.mp ht with rfl | hmem
    · rw [sum_map_agree l t hl.1 h h2 hne]
      ring
    · have hat : a ≠ t := fun e => hl.1 (e ▸ hmem)
      rw [ih hl.2 hmem, hne a hat]
      ring

theorem Advances.refl (f : Context K → Context K) (t : Nat) (st : RenderState K) :
    Advances f t 0 st st :=
  ⟨rfl, rfl, rfl, rfl, fun _ _ => rfl, rfl, rfl, by simp⟩

theorem Advances.trans {f : Context K → Context K} {t j k : Nat} {st st2 st3 : RenderState K}
    (h1 : Advances f t j st st2) (h2 : Advances f t k st2 st3) :
    Advances f t (j + k) st st3 := by
  refine ⟨h2.created.trans h1.created, h2.currentThreadID.trans h1.currentThreadID,
    h2.drawn.trans h1.drawn, h2.done.trans h1.done,
    fun u hu => (h2.others u hu).trans (h1.others u hu), h2.id.trans h1.id, ?_, ?_⟩
  · rw [h2.ctx, h1.ctx, Nat.add_comm, Function.iterate_add_apply]
  · rw [h2.count, h1.count]
    push_cast
    ring

theorem ProcessProgress_advances (f : Context K → Context K) (t : Nat) (st : RenderState K) :
    Advances f t 0 st (ProcessProgress st t)
      ∧ ((ProcessProgress st t).contexts t).processedSamples = 0 := by
  refine ⟨⟨rfl, rfl, rfl, rfl, ?_, ?_, ?_, ?_⟩, ?_⟩
  · intro u hu
    simp [ProcessProgress, Function.update_noteq hu]
  · simp [ProcessProgress]
  · simp [ProcessProgress]
  · simp [ProcessProgress]
  · simp [ProcessProgress]

theorem sample_advances (rs : RenderSettings K) (f : Context K → Context K) (t : Nat)
    (st : RenderState K) : Advances f t 1 st (RenderProcess.sample rs f t st) := by
  unfold RenderProcess.sample
  simp only []
  split_ifs
  · refine ⟨rfl, rfl, rfl, rfl, ?_, ?_, ?_, ?_⟩
    · intro u hu
      simp [ProcessProgress, Function.update_noteq hu]
    · simp [ProcessProgress]
    · simp [ProcessProgress]
    · simp [ProcessProgress]
      ring
  · refine ⟨rfl, rfl, rfl, rfl, ?_, ?_, ?_, ?_⟩
    · intro u hu
      simp [Function.update_noteq hu]
    · simp
    · simp
    · simp
      ring

theorem samples_advance (rs : RenderSettings K) (f : Context K → Context K) (t : Nat) (n : Nat)
    (st : RenderState K) :
    Advances f t n st ((RenderProcess.sample rs f t)^[n] st) := by
  induction n with
  | zero => exact Advances.refl f t st
  | succ n ih =>
    rw [Function.iterate_succ_apply']
    exact ih.trans (sample_advances rs f t _)

theorem RenderInv.advance [LinearOrderedField K] {env : RenderEnv K} {params : RendererParams}
    {f : Context K → Context K} {cnt : Nat → Nat} {st st2 : RenderState K} {t k : Nat}
    (h : RenderInv env params f cnt st) (ht : t ∈ st.created) (ha : Advances f t k st st2) :
    RenderInv env params f (Function.update cnt t (cnt t + k)) st2 := by
  refine ⟨?_, ?_, ?_, ?_, ?_, ?_⟩
  · rw [ha.created]
    exact h.nodup
  · intro u hu
    rw [ha.created] at hu
    have hut : u ≠ t := fun e => hu (e ▸ ht)
    rw [ha.others u hut, Function.update_noteq hut]
    exact h.fresh u hu
  · intro u hu
    rw [ha.created] at hu
    by_cases hut : u = t
    · subst hut
      rw [ha.id]
      exact h.idNonneg u hu
    · rw [ha.others u hut]
      exact h.idNonneg u hu
  · intro u hu
    rw [ha.created] at hu
    by_cases hut : u = t
    · subst hut
      rw [ha.ctx, ha.id, h.ctxEq u hu, Function.update_same, Nat.add_comm,
        Function.iterate_add_apply]
    · rw [ha.others u hut, Function.update_noteq hut]
      exact h.ctxEq u hu
  · rw [ha.currentThreadID, ha.drawn]
    exact h.idEq
  · rw [ha.created]
    rw [sum_map_update st.created h.nodup t ht
        (fun u => (st.contexts u).processedSamples) (fun u => (st2.contexts u).processedSamples)
        (fun u hu => by simp only [ha.others u hu]),
      sum_map_update st.created h.nodup t ht (fun u => (cnt u : Int))
        (fun u => ((Function.update cnt t (cnt t + k) u : Nat) : Int))
        (fun u hu => by simp only [Function.update_noteq hu])]
    have h1 := ha.count
    have h2 := h.total
    simp only [Function.update_same]
    push_cast
    linarith

end RenderLoopTheorems
section RenderLoopTheorems2

variable {K : Type} [LinearOrderedField K]

theorem RenderInv.create {env : RenderEnv K} {params : RendererParams}
    {f : Context K → Context K} {cnt : Nat → Nat} {st : RenderState K} {t : Nat}
    (h : RenderInv env params f cnt st) (ht : t ∉ st.created) :
    RenderInv env params f cnt
      { st with
        created := st.created ++ [t]
        contexts := Function.update st.contexts t
          { st.contexts t with
            id := st.currentThreadID
            ctx := ⟨env.SetSeed (env.NextUInt st.drawn),
              List.replicate (params.Width * params.Height).toNat 0⟩ }
        currentThreadID := st.currentThreadID + 1
        drawn := st.drawn + 1 } := by
  have hinit := (h.fresh t ht).1
  have hcnt := (h.fresh t ht).2
  refine ⟨?_, ?_, ?_, ?_, ?_, ?_⟩
  · show (st.created ++ [t]).Nodup
    rw [List.nodup_append]
    refine ⟨h.nodup, List.nodup_singleton t, ?_⟩
    intro a ha hb
    rw [List.mem_singleton] at hb
    exact ht (hb ▸ ha)
  · intro u hu
    have hu2 : u ∉ st.created ++ [t] := hu
    rw [List.mem_append, List.mem_singleton, not_or] at hu2
    show Function.update st.contexts t _ u = _ ∧ _
    rw [Function.update_noteq hu2.2]
    exact h.fresh u hu2.1
  · intro u hu
    have hu2 : u ∈ st.created ++ [t] := hu
    show 0 ≤ (Function.update st.contexts t _ u).id
    rw [List.mem_append, List.mem_singleton] at hu2
    rcases hu2 with hmem | rfl
    · have hut : u ≠ t := fun e => ht (e ▸ hmem)
      rw [Function.update_noteq hut]
      exact h.idNonneg u hmem
    · rw [Function.update_same]
      show 0 ≤ st.currentThreadID
      rw [h.idEq]
      exact Int.natCast_nonneg _
  · intro u hu
    have hu2 : u ∈ st.created ++ [t] := hu
    show (Function.update st.contexts t _ u).ctx = f^[cnt u] ⟨env.SetSeed (env.NextUInt
      (Function.update st.contexts t _ u).id.toNat), _⟩
    rw [List.mem_append, List.mem_singleton] at hu2
    rcases hu2 with hmem | rfl
    · have hut : u ≠ t := fun e => ht (e ▸ hmem)
      rw [Function.update_noteq hut]
      exact h.ctxEq u hmem
    · rw [Function.update_same, hcnt]
      show _ = (⟨env.SetSeed (env.NextUInt (st.currentThreadID).toNat), _⟩ : Context K)
      rw [h.idEq, Int.toNat_natCast]
  · show st.currentThreadID + 1 = ((st.drawn + 1 : Nat) : Int)
    rw [h.idEq]
    push_cast
    rfl
  · show st.processedSamples
        + ((st.created ++ [t]).map (fun u => (Function.update st.contexts t _ u).processedSamples)).sum
      = ((st.created ++ [t]).map (fun u => (cnt u : Int))).sum
    rw [List.map_append, List.map_append, List.sum_append, List.sum_append,
      sum_map_agree st.created t ht (fun u => (st.contexts u).processedSamples) _
        (fun u hu => by simp only [Function.update_noteq hu])]
    simp only [List.map_cons, List.map_nil, List.sum_cons, List.sum_nil, Function.update_same,
      hcnt, hinit]
    have h2 := h.total
    simp only [ThreadContext.init] at *
    push_cast
    linarith

theorem RenderInv.grain {env : RenderEnv K} {rs : RenderSettings K} {params : RendererParams}
    {f : Context K → Context K} {cnt : Nat → Nat} {st : RenderState K}
    (h : RenderInv env params f cnt st) (hdone : st.done = false) (hmode : rs.RenderTime < 0)
    (g : Grain) :
    RenderInv env params f
        (Function.update cnt g.thread (cnt g.thread + (g.end_ - g.begin_).toNat))
        (RenderProcess.grain env rs params f g st)
      ∧ (RenderProcess.grain env rs params f g st).done = false
      ∧ g.thread ∈ (RenderProcess.grain env rs params f g st).created
      ∧ (∀ u ∈ st.created, u ∈ (RenderProcess.grain env rs params f g st).created)
      ∧ ∀ u ∈ (RenderProcess.grain env rs params f g st).created,
          u ∈ st.created ∨ u = g.thread := by
  have hnot : ¬ rs.RenderTime > 0 := not_lt.mpr hmode.le
  obtain ⟨contexts, created, ctid, drawn, ps, done, clk⟩ := st
  simp only at hdone
  subst hdone
  unfold RenderProcess.grain
  simp only [Bool.false_eq_true, if_false, if_neg hnot, forUp_const]
  by_cases hmem : g.thread ∈ created
  · have hid : ¬ (contexts g.thread).id < 0 := not_lt.mpr (h.idNonneg _ hmem)
    simp only [if_pos hmem, if_neg hid]
    have ha := samples_advance rs f g.thread (g.end_ - g.begin_).toNat
      (⟨contexts, created, ctid, drawn, ps, false, clk⟩ : RenderState K)
    refine ⟨h.advance hmem ha, ?_, ?_, ?_, ?_⟩
    · rw [ha.done]
    · rw [ha.created]
      exact hmem
    · intro u hu
      rw [ha.created]
      exact hu
    · intro u hu
      rw [ha.created] at hu
      exact Or.inl hu
  · have hinit : contexts g.thread = ThreadContext.init := (h.fresh _ hmem).1
    have hid : (contexts g.thread).id < 0 := by
      rw [hinit]
      show (-1 : Int) < 0
      decide
    simp only [if_neg hmem, if_pos hid]
    have hc := h.create hmem
    have ha := samples_advance rs f g.thread (g.end_ - g.begin_).toNat
      (⟨Function.update contexts g.thread
          { contexts g.thread with
            id := ctid
            ctx := ⟨env.SetSeed (env.NextUInt drawn),
              List.replicate (params.Width * params.Height).toNat 0⟩ },
        created ++ [g.thread], ctid + 1, drawn + 1, ps, false, clk⟩ : RenderState K)
    have hmem2 : g.thread ∈ created ++ [g.thread] := by simp
    refine ⟨hc.advance hmem2 ha, ?_, ?_, ?_, ?_⟩
    · rw [ha.done]
    · rw [ha.created]
      exact hmem2
    · intro u hu
      rw [ha.created]
      exact List.mem_append_left _ hu
    · intro u hu
      rw [ha.created] at hu
      have hu2 : u ∈ created ++ [g.thread] := hu
      rw [List.mem_append, List.mem_singleton] at hu2
      exact hu2

end RenderLoopTheorems2
section RenderLoopTheorems3

variable {K : Type} [LinearOrderedField K]

theorem samplesOf_append (t : Nat) (done : List Grain) (g : Grain) :
    Grain.samplesOf t (done ++ [g])
      = Function.update (fun u => Grain.samplesOf u done) g.thread
          (Grain.samplesOf g.thread done + (g.end_ - g.begin_).toNat) t := by
  unfold Grain.samplesOf
  by_cases h : t = g.thread
  · subst h
    simp [List.filter_append, List.filter_cons]
  · rw [Function.update_noteq h]
    have h2 : ¬ g.thread = t := fun e => h e.symm
    simp [List.filter_append, List.filter_cons, h2]

theorem RenderInv.schedule {env : RenderEnv K} {rs : RenderSettings K}
    {params : RendererParams} {f : Context K → Context K} (hmode : rs.RenderTime < 0)
    (rest : List Grain) :
    ∀ (done : List Grain) (st : RenderState K),
      RenderInv env params f (fun t => Grain.samplesOf t done) st → st.done = false →
      (∀ g ∈ done, g.thread ∈ st.created) →
      (∀ t ∈ st.created, ∃ g ∈ done, g.thread = t) →
      RenderInv env params f (fun t => Grain.samplesOf t (done ++ rest))
          (rest.foldl (fun st g => RenderProcess.grain env rs params f g st) st)
        ∧ (rest.foldl (fun st g => RenderProcess.grain env rs params f g st) st).done = false
        ∧ (∀ g ∈ done ++ rest,
            g.thread ∈ (rest.foldl (fun st g => RenderProcess.grain env rs params f g st) st).created)
        ∧ ∀ t ∈ (rest.foldl (fun st g => RenderProcess.grain env rs params f g st) st).created,
            ∃ g ∈ done ++ rest, g.thread = t := by
  induction rest with
  | nil =>
    intro done st h hdone hall hfrom
    simpa using ⟨h, hdone, hall, hfrom⟩
  | cons g rest ih =>
    intro done st h hdone hall hfrom
    obtain ⟨h1, h2, h3, h4, h5⟩ := h.grain hdone hmode g
    have hfrom2 : ∀ t ∈ (RenderProcess.grain env rs params f g st).created,
        ∃ g2 ∈ done ++ [g], g2.thread = t := by
      intro t ht
      rcases h5 t ht with hm | rfl
      · obtain ⟨g2, hg2, e⟩ := hfrom t hm
        exact ⟨g2, List.mem_append_left _ hg2, e⟩
      · exact ⟨g, by simp, rfl⟩
    have hfun : (fun t => Grain.samplesOf t (done ++ [g]))
        = Function.update (fun u => Grain.samplesOf u done) g.thread
            (Grain.samplesOf g.thread done + (g.end_ - g.begin_).toNat) := by
      funext t
      exact samplesOf_append t done g
    have h1b : RenderInv env params f (fun t => Grain.samplesOf t (done ++ [g]))
        (RenderProcess.grain env rs params f g st) := by
      rw [hfun]
      exact h1
    have hall2 : ∀ g2 ∈ done ++ [g],
        g2.thread ∈ (RenderProcess.grain env rs params f g st).created := by
      intro g2 hg2
      rw [List.mem_append, List.mem_singleton] at hg2
      rcases hg2 with hm | rfl
      · exact h4 _ (hall g2 hm)
      · exact h3
    have := ih (done ++ [g]) _ h1b h2 hall2 hfrom2
    simpa [List.append_assoc] using this

theorem RenderInv.flush {env : RenderEnv K} {params : RendererParams}
    {f : Context K → Context K} {cnt : Nat → Nat} (l : List Nat) :
    ∀ (st : RenderState K), RenderInv env params f cnt st → (∀ t ∈ l, t ∈ st.created) →
      RenderInv env params f cnt (l.foldl (fun st t => ProcessProgress st t) st)
        ∧ (l.foldl (fun st t => ProcessProgress st t) st).created = st.created
        ∧ (l.foldl (fun st t => ProcessProgress st t) st).done = st.done
        ∧ (∀ t ∈ l, ((l.foldl (fun st t => ProcessProgress st t) st).contexts t).processedSamples = 0)
        ∧ (∀ t, (st.contexts t).processedSamples = 0 →
            ((l.foldl (fun st t => ProcessProgress st t) st).contexts t).processedSamples = 0) := by
  induction l with
  | nil =>
    intro st h _
    exact ⟨h, rfl, rfl, fun t ht => absurd ht (List.not_mem_nil t), fun _ h0 => h0⟩
  | cons a l ih =>
    intro st h hall
    obtain ⟨ha, hzero⟩ := ProcessProgress_advances f a st
    have ha_mem : a ∈ st.created := hall a (List.mem_cons_self a l)
    have h1 : RenderInv env params f cnt (ProcessProgress st a) := by
      have := h.advance ha_mem ha
      simpa using this
    have hall2 : ∀ t ∈ l, t ∈ (ProcessProgress st a).created := by
      intro t ht
      rw [ha.created]
      exact hall t (List.mem_cons_of_mem a ht)
    obtain ⟨i1, i2, i3, i4, i5⟩ := ih (ProcessProgress st a) h1 hall2
    refine ⟨i1, i2.trans ha.created, i3.trans ha.done, ?_, ?_⟩
    · intro t ht
      rcases List.mem_cons.mp ht with rfl | hm
      · exact i5 t hzero
      · exact i4 t hm
    · intro t h0
      apply i5
      by_cases hta : t = a
      · subst hta
        exact hzero
      · rw [ha.others t hta]
        exact h0

theorem sum_samplesOf (l : List Nat) (hl : l.Nodup) (schedule : List Grain)
    (hall : ∀ g ∈ schedule, g.thread ∈ l) :
    (l.map (fun t => (Grain.samplesOf t schedule : Int))).sum
      = (schedule.map (fun g => ((g.end_ - g.begin_).toNat : Int))).sum := by
  induction schedule with
  | nil => simp [Grain.samplesOf]
  | cons g gs ih =>
    have hg : g.thread ∈ l := hall g (List.mem_cons_self g gs)
    have ih2 := ih (fun g2 hg2 => hall g2 (List.mem_cons_of_mem g hg2))
    have hstep : ∀ t, (Grain.samplesOf t (g :: gs) : Int)
        = (if t = g.thread then ((g.end_ - g.begin_).toNat : Int) else 0)
          + (Grain.samplesOf t gs : Int) := by
      intro t
      unfold Grain.samplesOf
      by_cases h : g.thread = t
      · simp [List.filter_cons, h]
      · have h2 : ¬ t = g.thread := fun e => h e.symm
        simp [List.filter_cons, h, h2]
    simp only [hstep, List.sum_map_add, ih2, List.map_cons, List.sum_cons]
    congr 1
    rw [sum_map_update l hl g.thread hg (fun _ => (0 : Int))
      (fun t => if t = g.thread then ((g.end_ - g.begin_).toNat : Int) else 0)
      (fun u hu => by simp [hu])]
    simp

theorem Grain.chain_sum (sorted : List Grain) :
    ∀ lo hi : Int, Grain.Chain sorted lo hi →
      (sorted.map (fun g => ((g.end_ - g.begin_).toNat : Int))).sum = hi - lo := by
  induction sorted with
  | nil =>
    intro lo hi h
    have h2 : lo = hi := h
    simp [h2]
  | cons g gs ih =>
    intro lo hi h
    obtain ⟨h1, h2, h3⟩ := h
    rw [List.map_cons, List.sum_cons, ih _ _ h3, Int.toNat_of_nonneg (by omega)]
    omega

theorem Grain.partition_sum (schedule : List Grain) (lo hi : Int)
    (h : Grain.IsPartition schedule lo hi) :
    (schedule.map (fun g => ((g.end_ - g.begin_).toNat : Int))).sum = hi - lo := by
  obtain ⟨sorted, hperm, hchain⟩ := h
  rw [← Grain.chain_sum sorted lo hi hchain]
  exact ((hperm.map _).sum_eq).symm

end RenderLoopTheorems3
section RenderLoopTheorems4

variable {K : Type} [LinearOrderedField K]

theorem addFilm_length (film ctxFilm : List (Vec3 K)) :
    (addFilm film ctxFilm).length = film.length := by
  simp [addFilm]

theorem addFilm_getD (film ctxFilm : List (Vec3 K)) (i : Nat) (hi : i < film.length) :
    (addFilm film ctxFilm).getD i 0 = film.getD i 0 + ctxFilm.getD i 0 := by
  unfold addFilm
  rw [List.getD_eq_getElem _ _ (by simpa using hi)]
  simp

theorem gather_fold (F : Nat → List (Vec3 K)) (l : List Nat) :
    ∀ film : List (Vec3 K),
      (l.foldl (fun film t => addFilm film (F t)) film).length = film.length
        ∧ ∀ i < film.length,
            (l.foldl (fun film t => addFilm film (F t)) film).getD i 0
              = l.foldl (fun acc t => acc + (F t).getD i 0) (film.getD i 0) := by
  induction l with
  | nil =>
    intro film
    exact ⟨rfl, fun _ _ => rfl⟩
  | cons a l ih =>
    intro film
    obtain ⟨h1, h2⟩ := ih (addFilm film (F a))
    rw [addFilm_length] at h1 h2
    refine ⟨h1, ?_⟩
    intro i hi
    rw [List.foldl_cons, List.foldl_cons, h2 i hi, addFilm_getD film (F a) i hi]

theorem gather_pixel (params : RendererParams) (st : RenderState K) (i : Nat)
    (hi : i < (params.Width * params.Height).toNat) :
    (RenderProcess.gather params st).getD i 0
      = (st.filmSum i).scale
          ((((params.Width * params.Height : Int) : K)) / ((st.processedSamples : Int) : K)) := by
  unfold RenderProcess.gather RenderState.filmSum
  simp only []
  obtain ⟨h1, h2⟩ := gather_fold (fun t => (st.contexts t).ctx.film) st.created
    (List.replicate (params.Width * params.Height).toNat (0 : Vec3 K))
  rw [List.length_replicate] at h1 h2
  rw [List.getD_eq_getElem _ _ (by simpa [h1] using hi), List.getElem_map,
    ← List.getD_eq_getElem _ (0 : Vec3 K) (by simpa [h1] using hi), h2 i hi,
    List.getD_eq_getElem _ _ (by simpa using hi), List.getElem_replicate]

/-- Claim C22: in sample-count mode (`RenderTime < 0`), for every schedule of the parallel loop
whose grains are a partition of the range from `0` to `NumSamples`, whatever threads they run
on, `RenderProcess` leaves its loop after the first pass; every thread that ran a grain owns
one context, which is its initial context, seeded and with an empty film, after as many calls
of the integrator as there are samples in its grains; the calls add up to `NumSamples`; the
shared counter is `NumSamples` when the film is gathered; and every pixel of the final film
is the sum of that pixel over the films of the contexts times `(Width · Height) /
NumSamples`. -/
theorem RenderProcess_sample_count (env : RenderEnv K) (rs : RenderSettings K)
    (params : RendererParams) (processSampleFunc : Context K → Context K)
    (schedule : List Grain) (later : List (List Grain)) (hmode : rs.RenderTime < 0)
    (hpart : Grain.IsPartition schedule 0 (RenderProcess.NumSamples rs)) :
    ∃ (film : List (Vec3 K)) (st : RenderState K),
      RenderProcess env rs params processSampleFunc (schedule :: later) = some (film, st)
        ∧ st.created.Nodup
        ∧ (∀ t, t ∈ st.created ↔ ∃ g ∈ schedule, g.thread = t)
        ∧ (∀ t ∈ st.created, (st.contexts t).ctx
            = processSampleFunc^[Grain.samplesOf t schedule]
                ⟨env.SetSeed (env.NextUInt (st.contexts t).id.toNat),
                  List.replicate (params.Width * params.Height).toNat 0⟩)
        ∧ (st.created.map (fun t => (Grain.samplesOf t schedule : Int))).sum = rs.NumSamples
        ∧ st.processedSamples = rs.NumSamples
        ∧ ∀ i < (params.Width * params.Height).toNat,
            film.getD i 0 = (st.filmSum i).scale
              ((((params.Width * params.Height : Int) : K)) / ((rs.NumSamples : Int) : K)) := by
  have hN : RenderProcess.NumSamples rs = rs.NumSamples := by
    unfold RenderProcess.NumSamples
    rw [if_pos hmode]
  rw [hN] at hpart
  have h0 : RenderInv env params processSampleFunc (fun t => Grain.samplesOf t [])
      (⟨fun _ => ThreadContext.init, [], 0, 0, 0, false, 0⟩ : RenderState K) := by
    refine ⟨List.nodup_nil, fun t _ => ⟨rfl, rfl⟩, ?_, ?_, rfl, rfl⟩
    · intro t ht
      exact absurd ht (List.not_mem_nil t)
    · intro t ht
      exact absurd ht (List.not_mem_nil t)
  obtain ⟨h1, hdone1, hall1, hfrom1⟩ := RenderInv.schedule hmode schedule [] _ h0 rfl
    (fun g hg => absurd hg (List.not_mem_nil g)) (fun t ht => absurd ht (List.not_mem_nil t))
  simp only [List.nil_append] at h1 hall1 hfrom1
  obtain ⟨h2, hcreated, _, hzero, _⟩ := RenderInv.flush _ _ h1 (fun t ht => ht)
  have hloop : RenderProcess.loop env rs params processSampleFunc (schedule :: later)
      (⟨fun _ => ThreadContext.init, [], 0, 0, 0, false, 0⟩ : RenderState K)
      = some (RenderProcess.pass env rs params processSampleFunc schedule
          ⟨fun _ => ThreadContext.init, [], 0, 0, 0, false, 0⟩) := by
    simp only [RenderProcess.loop, hmode, true_or, if_true]
  have hpass : RenderProcess.pass env rs params processSampleFunc schedule
      (⟨fun _ => ThreadContext.init, [], 0, 0, 0, false, 0⟩ : RenderState K)
      = (schedule.foldl (fun st g => RenderProcess.grain env rs params processSampleFunc g st)
          ⟨fun _ => ThreadContext.init, [], 0, 0, 0, false, 0⟩).created.foldl
          (fun st t => ProcessProgress st t)
          (schedule.foldl (fun st g => RenderProcess.grain env rs params processSampleFunc g st)
            ⟨fun _ => ThreadContext.init, [], 0, 0, 0, false, 0⟩) := rfl
  have hsum : (schedule.map (fun g => ((g.end_ - g.begin_).toNat : Int))).sum = rs.NumSamples := by
    rw [Grain.partition_sum schedule 0 rs.NumSamples hpart, sub_zero]
  have hcalls := sum_samplesOf _ h2.nodup schedule (fun g hg => by
    rw [hcreated]
    exact hall1 g hg)
  rw [hsum] at hcalls
  have hpending : ∀ t ∈ (((schedule.foldl
      (fun st g => RenderProcess.grain env rs params processSampleFunc g st)
        (⟨fun _ => ThreadContext.init, [], 0, 0, 0, false, 0⟩ : RenderState K)).created.foldl
      (fun st t => ProcessProgress st t)
      (schedule.foldl (fun st g => RenderProcess.grain env rs params processSampleFunc g st)
        ⟨fun _ => ThreadContext.init, [], 0, 0, 0, false, 0⟩))).created, _ :=
    fun t ht => hzero t (hcreated ▸ ht)
  have htotal := h2.total
  rw [List.map_congr_left hpending, hcalls] at htotal
  simp only [List.map_const', List.sum_replicate, smul_zero, add_zero] at htotal
  rw [← hpass] at h2 hcreated hcalls htotal
  refine ⟨RenderProcess.gather params (RenderProcess.pass env rs params processSampleFunc schedule
      ⟨fun _ => ThreadContext.init, [], 0, 0, 0, false, 0⟩),
    RenderProcess.pass env rs params processSampleFunc schedule
      ⟨fun _ => ThreadContext.init, [], 0, 0, 0, false, 0⟩,
    ?_, h2.nodup, ?_, h2.ctxEq, hcalls, htotal, ?_⟩
  · unfold RenderProcess
    simp only [hloop]
  · intro t
    rw [hcreated]
    exact ⟨hfrom1 t, fun ⟨g, hg, e⟩ => e ▸ hall1 g hg⟩
  · intro i hi
    rw [gather_pixel params _ i hi, htotal]

end RenderLoopTheorems4
section RenderLoopWitness

/-- Witness for `RenderProcess_sample_count`: four samples in two grains on two threads. -/
theorem RenderProcess_sample_count_witness :
    (exSettings.RenderTime < 0
        ∧ Grain.IsPartition exSchedule 0 (RenderProcess.NumSamples exSettings))
      ∧ ∃ (film : List (Vec3 ℚ)) (st : RenderState ℚ),
          RenderProcess exRenderEnv exSettings exFilmParams exIntegrator [exSchedule]
              = some (film, st)
            ∧ st.created.Nodup
            ∧ (∀ t, t ∈ st.created ↔ ∃ g ∈ exSchedule, g.thread = t)
            ∧ (∀ t ∈ st.created, (st.contexts t).ctx
                = exIntegrator^[Grain.samplesOf t exSchedule]
                    ⟨exRenderEnv.SetSeed (exRenderEnv.NextUInt (st.contexts t).id.toNat),
                      List.replicate (exFilmParams.Width * exFilmParams.Height).toNat 0⟩)
            ∧ (st.created.map (fun t => (Grain.samplesOf t exSchedule : Int))).sum
                = exSettings.NumSamples
            ∧ st.processedSamples = exSettings.NumSamples
            ∧ ∀ i < (exFilmParams.Width * exFilmParams.Height).toNat,
                film.getD i 0 = (st.filmSum i).scale
                  ((((exFilmParams.Width * exFilmParams.Height : Int) : ℚ))
                    / ((exSettings.NumSamples : Int) : ℚ)) :=
  have h1 : exSettings.RenderTime < 0 := by decide!
  have h2 : Grain.IsPartition exSchedule 0 (RenderProcess.NumSamples exSettings) :=
    ⟨[⟨0, 0, 2⟩, ⟨1, 2, 4⟩], List.Perm.swap _ _ _,
      ⟨rfl, by decide, rfl, by decide,
        (by decide! : (4 : Int) = RenderProcess.NumSamples exSettings)⟩⟩
  ⟨⟨h1, h2⟩,
    RenderProcess_sample_count exRenderEnv exSettings exFilmParams exIntegrator exSchedule []
      h1 h2⟩

end RenderLoopWitness

end Nanogi
